import Mathlib

/-!
JPITranslator: a shallow embedding of the header parser, the flight decoder
and the checksum rewriter of `JPITranslator.cpp`.

Conventions of the embedding.

* A `byte` is a natural number below 256, a `ushort` one below 65536; a `short`
  is an integer in `[-32768, 32767]`.  Every store into a narrower type is
  written out as an explicit reduction (`% 256`, `% 65536`, `wrap16`).
* Memory (the file image `s_pFileBytes`, a header line) is a `List Nat`; a
  pointer into it is an index.  A read takes the stored number modulo 256.
* Small fixed arrays (`valflags`, `signflags`, `naflags`, `sarray`) are total
  functions of the index; the `ushort` records `parseshorts` fills are lists.
* A loop whose number of iterations depends on the data takes a bound (fuel);
  `outOfFuel` marks that the bound was reached, and is shown not to occur.
* `errexit` is an error result.  `assert` is the release build's no-op.
-/

namespace JPITranslator

/-! ## Generic helpers -/

deriving instance DecidableEq for Except

/-- The byte stored at index `i` of a buffer. -/
def byteAt (buf : List Nat) (i : Nat) : Nat := buf.getD i 0 % 256

/-- A counted loop `for (i = 0; i < n; i++) s = body(i, s)`. -/
def forUpTo {σ : Type} : Nat → (Nat → σ → σ) → σ → σ
  | 0, _, s => s
  | n + 1, body, s => body n (forUpTo n body s)

/-- Store of an `int` into a `short`: two's-complement reduction to 16 bits. -/
def wrap16 (x : Int) : Int := (x + 32768) % 65536 - 32768

/-- The bytes of the NUL-terminated string that starts a memory region. -/
def cstr (mem : List Nat) : List Nat := (mem.map (fun x => x % 256)).takeWhile (fun x => x != 0)

/-! ## Checksums of the data records (`calc_new_checksum`, `calc_old_checksum`) -/

/-- The loop `while (nbytes-- > 0) cksum += *p++;` on a `byte` accumulator. -/
def calc_new_loop : List Nat → Nat → Nat
  | [], cksum => cksum
  | x :: p, cksum => calc_new_loop p ((cksum + x % 256) % 256)

/-- Sum of the bytes, then `cksum = -cksum` in a `byte`. -/
def calc_new_checksum (pBytes : List Nat) : Nat :=
  (256 - calc_new_loop pBytes 0) % 256

/-- The loop `while (nbytes-- > 0) cksum ^= *p++;` on a `byte` accumulator. -/
def calc_old_loop : List Nat → Nat → Nat
  | [], cksum => cksum
  | x :: p, cksum => calc_old_loop p ((cksum ^^^ (x % 256)) % 256)

/-- Exclusive or of the bytes. -/
def calc_old_checksum (pBytes : List Nat) : Nat :=
  calc_old_loop pBytes 0

/-- Both checksums are tried; the firmware version only picks which goes first. -/
def test_data_checksum (firmware_version s_NewVersion : Nat) (pBytes : List Nat)
    (bTestCheck : Nat) : Bool :=
  if firmware_version < s_NewVersion then
    (calc_old_checksum pBytes == bTestCheck || calc_new_checksum pBytes == bTestCheck)
  else
    (calc_new_checksum pBytes == bTestCheck || calc_old_checksum pBytes == bTestCheck)

/-! ## Checksum of a textual header line (`test_header_checksum`) -/

/-- The two ways `test_header_checksum` calls `errexit`. -/
inductive HeaderError where
  | format
  | checksum
  deriving DecidableEq, Repr

/-- Scan of `strrchr`: `last` is the index of the latest match seen so far,
`i` the index of the head of the remaining string. -/
def strrchr_loop (c : Nat) : List Nat → Nat → Option Nat → Option Nat
  | [], _, last => last
  | x :: s, i, last => strrchr_loop c s (i + 1) (if x = c then some i else last)

/-- Index of the last occurrence of `c` in a string, `none` for `NULL`. -/
def strrchr (s : List Nat) (c : Nat) : Option Nat := strrchr_loop c s 0 none

/-- C `isspace` in the "C" locale. -/
def isspace (c : Nat) : Bool := c == 32 || (9 ≤ c && c ≤ 13)

/-- Value of a hexadecimal digit character. -/
def hexval (c : Nat) : Option Nat :=
  if 48 ≤ c ∧ c ≤ 57 then some (c - 48)
  else if 65 ≤ c ∧ c ≤ 70 then some (c - 55)
  else if 97 ≤ c ∧ c ≤ 102 then some (c - 87)
  else none

/-- Longest run of hexadecimal digits: `(value stored in a ushort, digits read)`.
The value is reduced modulo 65536, which is what the store into a `ushort`
gives for every numeral the conversion of the library can hold.  For a longer
numeral (more than 16 digits where the library converts in 64 bits) C leaves
the result undefined and libraries differ (some saturate and store `0xFFFF`):
the model does not speak for the program there. -/
def hexdigits : List Nat → Nat → Nat → Nat × Nat
  | [], acc, n => (acc, n)
  | c :: s, acc, n =>
    match hexval c with
    | some d => hexdigits s ((acc * 16 + d) % 65536) (n + 1)
    | none => (acc, n)

/-- The C library conversion `sscanf(s, "%hx", &testval)` on the characters of
a string: white space is skipped, a sign and a `0x` prefix are allowed, then
the longest run of hexadecimal digits is converted and stored in a `ushort`.
`some testval` stands for the return value 1, `none` for 0 or `EOF`. -/
def sscanf_hx (s : List Nat) : Option Nat :=
  let s1 := s.dropWhile isspace
  let neg := s1.head? == some 45
  let s2 := if s1.head? == some 45 || s1.head? == some 43 then s1.tail else s1
  let s3 :=
    match s2 with
    | 48 :: x :: d :: r =>
      if (x == 120 || x == 88) && (hexval d).isSome then d :: r else s2
    | _ => s2
  let r := hexdigits s3 0 0
  if r.2 = 0 then none
  else some (if neg then (65536 - r.1) % 65536 else r.1)

/-- The loop `while (p < endp) cs ^= *p++;`, run for `n = endp - p` steps. -/
def header_xor (s : List Nat) : Nat → Nat → Nat → Nat
  | 0, _, cs => cs
  | n + 1, p, cs => header_xor s n (p + 1) ((cs ^^^ byteAt s p) % 256)

/-- Validation of one header line, given as the memory that starts at `line`. -/
def test_header_checksum (line : List Nat) : Except HeaderError Unit :=
  let s := cstr line
  match strrchr s 42 with
  | none => .error .format
  | some endp =>
    match sscanf_hx (s.drop (endp + 1)) with
    | none => .error .format
    | some testval =>
      let cs := header_xor s (endp - 1) 1 0
      if testval ≠ cs then .error .checksum else .ok ()

/-- Exclusive or of a list of bytes (the reference the checksums are compared with). -/
def xorAll (l : List Nat) : Nat := l.foldl (fun a x => a ^^^ x) 0

/-! ## Bit vectors (`testbit`, `setbit`, `clearbit`) -/

/-- The test `testbit(pv, bitoffset)` on a byte array. -/
def testbit (pv : Nat → Nat) (bitoffset : Nat) : Bool :=
  (pv (bitoffset / 8) &&& (1 <<< (bitoffset % 8))) != 0

/-- The call `setbit(pv, bitoffset)`: the byte array afterwards. -/
def setbit (pv : Nat → Nat) (bitoffset : Nat) : Nat → Nat :=
  fun k => if k = bitoffset / 8 then pv k ||| (1 <<< (bitoffset % 8)) else pv k

/-- The call `clearbit(pv, bitoffset)`: the byte array afterwards; `~(byte)(1 << n)`
keeps, of a byte, the bits of `255 - (1 << n)`. -/
def clearbit (pv : Nat → Nat) (bitoffset : Nat) : Nat → Nat :=
  fun k => if k = bitoffset / 8 then pv k &&& (255 - (1 <<< (bitoffset % 8))) else pv k

/-- Number of set bits among the first `n` bit offsets of a byte array. -/
def countBits (pv : Nat → Nat) (n : Nat) : Nat :=
  ((List.range n).filter (fun i => testbit pv i)).length

/-! ## Configuration (`config`, `NUMCYLS`, `NUMENGINE`, feature flags) -/

/-- The `$C` record. -/
structure Config where
  model : Nat
  flags : Nat
  unknown_value : Nat
  firmware_version : Nat
  deriving DecidableEq

/-- The module state the decoder reads, and the C library clock conversion. -/
structure Env where
  config : Config
  s_NewVersion : Nat
  /-- The library call `localtime` behind `cvttime`: hour, minute, second. -/
  cvttime : Int → Nat × Nat × Nat

def MAX_CYLS : Nat := 9

/-- The loop `while (n < MAX_CYLS && (flg & mask)) { n++; mask <<= 1; }`. -/
def NUMCYLS_loop (flg : Nat) : Nat → Nat → Nat → Nat
  | 0, n, _ => n
  | fuel + 1, n, mask =>
    if n < MAX_CYLS ∧ flg &&& mask ≠ 0 then
      NUMCYLS_loop flg fuel (n + 1) ((mask <<< 1) % 4294967296)
    else n

def NUMCYLS (flg : Nat) : Nat := NUMCYLS_loop flg (MAX_CYLS + 1) 0 4

def NUMENGINE (env : Env) : Nat := if env.config.model = 760 then 2 else 1

def F_BAT : Nat := 0x00000001
def F_C1 : Nat := 0x00000004
def F_C2 : Nat := 0x00000008
def F_C3 : Nat := 0x00000010
def F_C4 : Nat := 0x00000020
def F_C5 : Nat := 0x00000040
def F_C6 : Nat := 0x00000080
def F_C7 : Nat := 0x00000100
def F_C8 : Nat := 0x00000200
def F_C9 : Nat := 0x00000400
def F_E1 : Nat := 0x00000800
def F_E2 : Nat := 0x00001000
def F_E3 : Nat := 0x00002000
def F_E4 : Nat := 0x00004000
def F_E5 : Nat := 0x00008000
def F_E6 : Nat := 0x00010000
def F_E7 : Nat := 0x00020000
def F_E8 : Nat := 0x00040000
def F_E9 : Nat := 0x00080000
def F_OIL : Nat := 0x00100000
def F_T1 : Nat := 0x00200000
def F_T2 : Nat := 0x00400000
def F_CDT : Nat := 0x00800000
def F_IAT : Nat := 0x01000000
def F_OAT : Nat := 0x02000000
def F_RPM : Nat := 0x04000000
def F_FF : Nat := 0x08000000
def F_USD : Nat := F_FF
def F_CLD : Nat := 0x10000000
def F_MAP : Nat := 0x40000000
def F_DIF : Nat := F_E1 ||| F_E2
def F_HP : Nat := F_RPM ||| F_MAP ||| F_FF
def F_MARK : Nat := 0x00000001

def HASRPM (flg : Nat) : Bool := (flg &&& F_RPM) == F_RPM
def HASFF (flg : Nat) : Bool := (flg &&& F_FF) == F_FF
def HASHP (flg : Nat) : Bool := (flg &&& F_HP) == F_HP

/-! ## The sample snapshot (`datarec`) -/

/-- The union `datarec`: the 48 `short` slots seen through `sarray`, the two
computed spreads and the six bytes of NA flags. -/
structure datarec where
  sarray : Nat → Int
  dif : Nat → Int
  naflags : Nat → Nat

/-- Slot of the second engine's first EGT: `offsetof(datarec, regt) / sizeof(short)`. -/
def TWINJUMP : Nat := 24

/-- Slot of `rpm`. -/
def RPM_FIELD_NUM : Nat := 41

/-- Slot of `rpm_highbyte`. -/
def RPM_HIGHBYTE_FIELD_NUM : Nat := 42

/-- Slot that holds the EGT of cylinder `i` of engine `j` in `calcstuff`. -/
def cylidx (i j : Nat) : Nat := if i < 6 then i + j * TWINJUMP else i - 6 + TWINJUMP

/-- Body of the cylinder loop of `calcstuff` on `(emax, emin)`. -/
def spread_step (rec : datarec) (j i : Nat) (e : Int × Int) : Int × Int :=
  let idx := cylidx i j
  if !testbit rec.naflags idx then
    let emin := if rec.sarray idx < e.2 then rec.sarray idx else e.2
    let emax := if rec.sarray idx > e.1 then rec.sarray idx else e.1
    (emax, emin)
  else e

/-- Body of the engine loop of `calcstuff`: `dif[j] = emax - emin`. -/
def spread_engine (nCyls : Nat) (j : Nat) (rec : datarec) : datarec :=
  let e := forUpTo nCyls (spread_step rec j) (-1, 0x7fff)
  { rec with dif := fun k => if k = j then wrap16 (e.1 - e.2) else rec.dif k }

/-- The method `datarec::calcstuff(configflags)`. -/
def calcstuff (env : Env) (configflags : Nat) (rec : datarec) : datarec :=
  let nCyls := NUMCYLS configflags
  let rec1 := forUpTo (NUMENGINE env) (spread_engine nCyls) rec
  if HASRPM configflags then
    { rec1 with
      sarray := fun k =>
        if k = RPM_HIGHBYTE_FIELD_NUM then 0
        else if k = RPM_FIELD_NUM then
          wrap16 (rec1.sarray RPM_FIELD_NUM + rec1.sarray RPM_HIGHBYTE_FIELD_NUM * 256)
        else rec1.sarray k }
  else rec1

/-! ## The field table and the row formatter (`fielddesc`, `formatdata`) -/

/-- One entry of `fielddesc`. -/
structure FieldDesc where
  bPerEngine : Bool
  nOffset : Int
  nScale : Nat
  szName : String
  nFeatureFlag : Nat
  nWhichEng : Nat

/-- The table `fielddesc`, in the order of the CSV columns. -/
def fielddesc : List FieldDesc :=
  [ ⟨true, 0, 1, "E1", F_E1, 0⟩,
    ⟨true, 1, 1, "E2", F_E2, 0⟩,
    ⟨true, 2, 1, "E3", F_E3, 0⟩,
    ⟨true, 3, 1, "E4", F_E4, 0⟩,
    ⟨true, 4, 1, "E5", F_E5, 0⟩,
    ⟨true, 5, 1, "E6", F_E6, 0⟩,
    ⟨true, TWINJUMP + 0, 1, "E7", F_E7, 0⟩,
    ⟨true, TWINJUMP + 1, 1, "E8", F_E8, 0⟩,
    ⟨true, TWINJUMP + 2, 1, "E9", F_E9, 0⟩,
    ⟨true, 8, 1, "C1", F_C1, 0⟩,
    ⟨true, 9, 1, "C2", F_C2, 0⟩,
    ⟨true, 10, 1, "C3", F_C3, 0⟩,
    ⟨true, 11, 1, "C4", F_C4, 0⟩,
    ⟨true, 12, 1, "C5", F_C5, 0⟩,
    ⟨true, 13, 1, "C6", F_C6, 0⟩,
    ⟨true, TWINJUMP + 3, 1, "C7", F_C7, 0⟩,
    ⟨true, TWINJUMP + 4, 1, "C8", F_C8, 0⟩,
    ⟨true, TWINJUMP + 5, 1, "C9", F_C9, 0⟩,
    ⟨true, 6, 1, "T1", F_T1, 0⟩,
    ⟨true, 7, 1, "T2", F_T2, 0⟩,
    ⟨true, 15, 1, "OIL", F_OIL, 0⟩,
    ⟨true, -1, 1, "DIF", F_DIF, 0⟩,
    ⟨true, 14, 1, "CLD", F_CLD, 0⟩,
    ⟨false, 21, 1, "OAT", F_OAT, 0⟩,
    ⟨true, 18, 1, "CDT", F_CDT, 0⟩,
    ⟨true, 19, 1, "IAT", F_IAT, 0⟩,
    ⟨false, 20, 10, "BAT", F_BAT, 0x01⟩,
    ⟨true, 23, 10, "FF", F_FF, 0⟩,
    ⟨true, 22, 10, "USD", F_USD, 0⟩,
    ⟨false, 20, 10, "BAT", F_BAT, 0x02⟩,
    ⟨false, 41, 1, "RPM", F_RPM, 0⟩,
    ⟨false, 40, 10, "MAP", F_MAP, 0⟩,
    ⟨false, 30, 1, "HP", F_HP, 0⟩,
    ⟨false, 16, 1, "MARK", F_MARK, 0⟩ ]

/-- An `unsigned` passed to `%d`: the same 32 bits read as an `int`. -/
def toInt32 (u : Nat) : Int :=
  if u % 4294967296 < 2147483648 then (u % 4294967296 : Nat) else (u % 4294967296 : Nat) - 4294967296

/-- Conversion of a `short` to `unsigned` for the arithmetic with `nScale`. -/
def toUInt32 (s : Int) : Nat := (s % 4294967296).toNat

/-- Text of a stored slot: `,"NA"` when its NA flag is set, otherwise
`s / nScale` and, if nonzero, `.` and `s % nScale`, both in `unsigned`
arithmetic and printed with `%d`.  The model is that of the program for
`offset < 48`.  For an offset of 48 or more (a second engine pass with one of
E7 to E9, C7 to C9) the program reads past the 48 slots, where the union holds
`dif` and `naflags`, and tests a bit past the six bytes of `naflags`; the model
keeps these cells apart, and its text is not the program's there. -/
def format_slot (rec : datarec) (offset : Nat) (nScale : Nat) : String :=
  if !testbit rec.naflags offset then
    let s := rec.sarray offset
    let q := toUInt32 s / nScale
    let r := toUInt32 s % nScale
    "," ++ toString (toInt32 q) ++ (if r ≠ 0 then "." ++ toString (toInt32 r) else "")
  else ",\"NA\""

/-- Body of the field loop of `formatdata` for engine pass `j` and table entry `fd`. -/
def format_field (env : Env) (rec : datarec) (j : Nat) (fd : FieldDesc) : String :=
  if !fd.bPerEngine && decide (j < NUMENGINE env - 1) then ""
  else if fd.nWhichEng != 0 && (fd.nWhichEng &&& (1 <<< j)) == 0 then ""
  else if (fd.nFeatureFlag &&& env.config.flags) == fd.nFeatureFlag then
    if fd.nOffset < 0 then "," ++ toString (rec.dif j)
    else
      format_slot rec (fd.nOffset.toNat + (if fd.bPerEngine then j * TWINJUMP else 0)) fd.nScale
  else ""

/-- The function `formatdata(t, rec, ...)`: the CSV line of one sample. -/
def formatdata (env : Env) (t : Int) (rec : datarec) : String :=
  let hms := env.cvttime t
  let head := "\"" ++ toString hms.1 ++ ":" ++ toString hms.2.1 ++ ":" ++ toString hms.2.2 ++ "\""
  let body := forUpTo (NUMENGINE env) (fun j out =>
    forUpTo (fielddesc.length - 1) (fun i out =>
      match fielddesc.get? i with
      | some fd => out ++ format_field env rec j fd
      | none => out) out) head
  body ++ "," ++ (if rec.sarray 16 ≠ 0 then "\"S\"" else "") ++ "\n"

/-! ## Decoding of one data record (`parse_data`, the body of the record loop) -/

/-- The loops `if (decodeflags & (bit0 << i)) flags[i] = *pFlight++;` on
`(flags, pFlight)`. -/
def read_flags (buf : List Nat) (decode bit0 n : Nat) (st : (Nat → Nat) × Nat) :
    (Nat → Nat) × Nat :=
  forUpTo n (fun i st =>
    if decode &&& (bit0 <<< i) ≠ 0 then
      (fun k => if k = i then byteAt buf st.2 else st.1 k, st.2 + 1)
    else st) st

/-- Body of the loop over the 48 value bits. -/
def value_step (buf : List Nat) (valflags signflags : Nat → Nat) (i : Nat)
    (st : datarec × Nat) : datarec × Nat :=
  if testbit valflags i then
    let b := byteAt buf st.2
    let na := if b = 0 then setbit st.1.naflags i else clearbit st.1.naflags i
    let v := if testbit signflags i then wrap16 (st.1.sarray i - b) else wrap16 (st.1.sarray i + b)
    ({ st.1 with naflags := na, sarray := fun k => if k = i then v else st.1.sarray k }, st.2 + 1)
  else st

/-- The loop `for (i = 0; i < sizeof(valflags) * 8; i++)`. -/
def value_stage (buf : List Nat) (valflags signflags : Nat → Nat) (st : datarec × Nat) :
    datarec × Nat :=
  forUpTo 48 (value_step buf valflags signflags) st

/-- Body of the inner loop over the 8 bits of `scaleflags[j]`. -/
def scale_step (buf : List Nat) (scaleflags signflags : Nat → Nat) (j i : Nat)
    (st : datarec × Nat) : datarec × Nat :=
  if testbit (fun k => scaleflags (k + j)) i then
    let idx := j * TWINJUMP + i
    let x := byteAt buf st.2
    if x ≠ 0 then
      let na := clearbit st.1.naflags idx
      let x8 := (x <<< 8) % 65536
      let v := if testbit signflags idx then wrap16 (st.1.sarray idx - x8)
               else wrap16 (st.1.sarray idx + x8)
      ({ st.1 with naflags := na, sarray := fun k => if k = idx then v else st.1.sarray k },
        st.2 + 1)
    else (st.1, st.2 + 1)
  else st

/-- The loops `for (j = 0; j < sizeof(scaleflags); j++) for (i = 0; i < 8; i++)`. -/
def scale_stage (buf : List Nat) (scaleflags signflags : Nat → Nat) (st : datarec × Nat) :
    datarec × Nat :=
  forUpTo 2 (fun j st => forUpTo 8 (scale_step buf scaleflags signflags j) st) st

/-- The statement `if (testbit(signflags, RPM_FIELD_NUM)) rec.rpm_highbyte = -rec.rpm_highbyte;`. -/
def rpm_negate (signflags : Nat → Nat) (rec : datarec) : datarec :=
  if testbit signflags RPM_FIELD_NUM then
    { rec with sarray := fun k =>
        if k = RPM_HIGHBYTE_FIELD_NUM then wrap16 (- rec.sarray RPM_HIGHBYTE_FIELD_NUM)
        else rec.sarray k }
  else rec

/-- The statement `if (rec.rpm_highbyte != 0) clearbit(rec.naflags, RPM_FIELD_NUM);`. -/
def rpm_clear_na (rec : datarec) : datarec :=
  if rec.sarray RPM_HIGHBYTE_FIELD_NUM ≠ 0 then
    { rec with naflags := clearbit rec.naflags RPM_FIELD_NUM }
  else rec

/-- The special case of the RPM high byte (single engine only). -/
def rpm_fixup (env : Env) (signflags : Nat → Nat) (rec : datarec) : datarec :=
  if NUMENGINE env = 1 then rpm_clear_na (rpm_negate signflags rec) else rec

/-- The flag bytes of the record that starts at `p0`, and the cursor after them. -/
structure RecordFlags where
  valflags : Nat → Nat
  scaleflags : Nat → Nat
  signflags : Nat → Nat
  pFlight : Nat

/-- Reading of `valflags`, `scaleflags` and `signflags` after the three leading bytes. -/
def record_flags (buf : List Nat) (p0 : Nat) : RecordFlags :=
  let d0 := byteAt buf p0
  let d1 := byteAt buf (p0 + 1)
  let v := read_flags buf d0 1 6 (fun _ => 0, p0 + 3)
  let sc := read_flags buf d0 0x40 2 (fun _ => 0, v.2)
  let sg := read_flags buf d1 1 6 (fun _ => 0, sc.2)
  ⟨v.1, sc.1, sg.1, sg.2⟩

/-- The snapshot and the cursor after the loop over the 48 value bits of the
record at `p0`. -/
def after_value (buf : List Nat) (rec : datarec) (p0 : Nat) : datarec × Nat :=
  let fl := record_flags buf p0
  value_stage buf fl.valflags fl.signflags (rec, fl.pFlight)

/-- The snapshot and the cursor after the loops over the scale bits of the
record at `p0`. -/
def after_scale (buf : List Nat) (rec : datarec) (p0 : Nat) : datarec × Nat :=
  let fl := record_flags buf p0
  scale_stage buf fl.scaleflags fl.signflags (after_value buf rec p0)

/-- The snapshot and the cursor after the delta bytes of the record at `p0`
have been applied and `calcstuff` has run. -/
def decode_deltas (env : Env) (fhead_flags : Nat) (buf : List Nat) (rec : datarec) (p0 : Nat) :
    datarec × Nat :=
  let fl := record_flags buf p0
  let s2 := after_scale buf rec p0
  (calcstuff env fhead_flags (rpm_fixup env fl.signflags s2.1), s2.2)

/-- The raw delta byte of slot `i` in the record at `p0`: the value bytes
follow the flag bytes, one for each set bit of `valflags`, in slot order. -/
def value_byte (buf : List Nat) (p0 i : Nat) : Nat :=
  byteAt buf ((record_flags buf p0).pFlight + countBits (record_flags buf p0).valflags i)

/-- The scale-extension byte of scale bit `b` in the record at `p0`: the scale
bytes follow the value bytes, one for each set bit of `scaleflags`. -/
def scale_byte (buf : List Nat) (p0 b : Nat) : Nat :=
  byteAt buf ((record_flags buf p0).pFlight + countBits (record_flags buf p0).valflags 48 +
    countBits (record_flags buf p0).scaleflags b)

/-- The loop `while (repeatcount--) { formatdata; outputline; t += interval_secs; }`
on `(t, lines written)`. -/
def repeat_loop (env : Env) (rec : datarec) (interval : Nat) : Nat → Int × List String →
    Int × List String
  | 0, s => s
  | n + 1, s => repeat_loop env rec interval n (s.1 + interval, s.2 ++ [formatdata env s.1 rec])

/-- The fatal errors of `parse_data` and `recompute_checksums`, named after
their messages: "Unexpected end of data record", "Data checksum failed",
"Data ends unexpectedly", "Flight data length too short", "Flight header
checksum failed", "Flight numbers don't match".  The last one is not an error
of the program: it marks that the loop bound of the model was reached. -/
inductive DataError where
  | unexpectedEnd
  | checksumFailed
  | dataEnds
  | tooShort
  | headerChecksum
  | flightMismatch
  | outOfFuel
  deriving DecidableEq, Repr

/-- The locals of `parse_data` that live across the records of one flight,
and the lines written so far. -/
structure FlightState where
  /-- The local `rec` (the name is taken by the recursor). -/
  drec : datarec
  t : Int
  pFlight : Nat
  out : List String

/-- One iteration of `while ((pFlight + 3) < pEnd)`. -/
def decode_record (env : Env) (fhead_flags interval : Nat) (buf : List Nat) (pEnd : Nat)
    (st : FlightState) : Except DataError FlightState :=
  let pDataRec := st.pFlight
  let repeatcount := byteAt buf (st.pFlight + 2)
  let r := repeat_loop env st.drec interval repeatcount (st.t, st.out)
  let d := decode_deltas env fhead_flags buf st.drec pDataRec
  if d.2 ≥ pEnd then .error .unexpectedEnd
  else if !test_data_checksum env.config.firmware_version env.s_NewVersion
      ((buf.drop pDataRec).take (d.2 - pDataRec)) (byteAt buf d.2) then
    .error .checksumFailed
  else
    .ok ⟨d.1, r.1 + interval, d.2 + 1, r.2 ++ [formatdata env r.1 d.1]⟩

/-! ## The constructor of the snapshot -/

/-- The constructor `datarec::datarec`: every slot `0x00f0`, except `hp` (slot
30) and `rpm_highbyte` (slot 42) for a single engine; spreads and NA flags 0. -/
def datarec.init (env : Env) : datarec :=
  { sarray := fun k => if NUMENGINE env = 1 ∧ (k = 30 ∨ k = 42) then 0 else 0x00f0
    dif := fun _ => 0
    naflags := fun _ => 0 }

/-! ## Reference notions used in the statements -/

/-- The signed update `sarray[i] -= d` or `sarray[i] += d`, stored as a `short`. -/
def apply_delta (sign : Bool) (old : Int) (d : Nat) : Int :=
  if sign then wrap16 (old - d) else wrap16 (old + d)

/-- The update by a scale byte `x`: nothing for `x = 0`, otherwise the signed
addition of `x << 8`, stored as a `short`. -/
def apply_scale (sign : Bool) (old : Int) (x : Nat) : Int :=
  if x = 0 then old
  else if sign then wrap16 (old - ((x <<< 8) % 65536 : Nat))
  else wrap16 (old + ((x <<< 8) % 65536 : Nat))

/-- Bit offset in `scaleflags` of the scale bit that addresses slot `k`. -/
def scale_bit (k : Nat) : Option Nat :=
  if k < 8 then some k else if 24 ≤ k ∧ k < 32 then some (k - 16) else none

/-- The three tests of `formatdata` that decide whether table entry `fd` is
written in engine pass `j`. -/
def field_shown (env : Env) (j : Nat) (fd : FieldDesc) : Bool :=
  !(!fd.bPerEngine && decide (j < NUMENGINE env - 1)) &&
  !(fd.nWhichEng != 0 && (fd.nWhichEng &&& (1 <<< j)) == 0) &&
  ((fd.nFeatureFlag &&& env.config.flags) == fd.nFeatureFlag)

/-- The slot that `formatdata` reads for table entry `fd` in engine pass `j`. -/
def field_slot (j : Nat) (fd : FieldDesc) : Nat :=
  fd.nOffset.toNat + (if fd.bPerEngine then j * TWINJUMP else 0)

/-- The EGT values of the active, non-NA cylinders of engine `j`: the first
`NUMCYLS(flags)` cylinders, cylinder `i` stored in slot `cylidx i j`. -/
def active_egts (rec : datarec) (flags j : Nat) : List Int :=
  ((List.range (NUMCYLS flags)).filter (fun i => !testbit rec.naflags (cylidx i j))).map
    (fun i => rec.sarray (cylidx i j))

/-- The `n` lines of a repeat count `n`: the snapshot `rec` formatted at the
clock values `t`, `t + I`, ..., `t + (n - 1) I`. -/
def repeat_rows (env : Env) (rec : datarec) (interval : Nat) (t : Int) (n : Nat) : List String :=
  (List.range n).map (fun (k : Nat) => formatdata env (t + (k : Int) * (interval : Int)) rec)

/-! ## Inputs of the worked examples -/

/-- A single-engine configuration (model 700) with E1 and RPM, firmware 1.00. -/
def ex_env : Env :=
  { config := ⟨700, F_E1 ||| F_RPM, 0, 100⟩
    s_NewVersion := 300
    cvttime := fun t => ((t / 3600 % 24).toNat, (t / 60 % 60).toNat, (t % 60).toNat) }

/-- Three records for slot 0: value byte 0; nothing; value byte 7. -/
def ex_na_buf : List Nat :=
  [0x01, 0x01, 0x00, 0x01, 0x00, 0x00, 0x01,
   0x00, 0x00, 0x00, 0x00,
   0x01, 0x01, 0x00, 0x01, 0x00, 0x07, 0x06]

/-- A single-engine configuration (model 700) with E1 only, firmware 1.00. -/
def ex_env_egt : Env :=
  { config := ⟨700, F_E1, 0, 100⟩
    s_NewVersion := 300
    cvttime := fun t => ((t / 3600 % 24).toNat, (t / 60 % 60).toNat, (t % 60).toNat) }

/-- Two records for slot 42: value byte 5; then value byte 0 with the sign bit
of slot 41 set. -/
def ex_high_buf : List Nat :=
  [0x20, 0x20, 0x00, 0x04, 0x00, 0x05, 0x01,
   0x20, 0x20, 0x00, 0x04, 0x02, 0x00, 0x06]

/-- Two records: value byte 0 for slot 41; then value byte 1 for slot 42 only. -/
def ex_rpm_buf : List Nat :=
  [0x20, 0x20, 0x00, 0x02, 0x00, 0x00, 0x02,
   0x20, 0x20, 0x00, 0x04, 0x00, 0x01, 0x05]

/-- One record with repeat count 3 and no delta bytes. -/
def ex_repeat_buf : List Nat := [0x00, 0x00, 0x03, 0x03]

/-- One record with value byte 5 and scale byte 1 for slot 0. -/
def ex_scale_buf : List Nat := [0x41, 0x41, 0x00, 0x01, 0x01, 0x00, 0x05, 0x01, 0x04]

/-- One record with RPM low byte 3 and high byte 2. -/
def ex_fold_buf : List Nat := [0x20, 0x20, 0x00, 0x06, 0x00, 0x03, 0x02, 0x07]

/-- EGT 1400, 1420, (NA), 1390 on a four-cylinder engine. -/
def ex_egt_rec : datarec :=
  { sarray := fun k => [1400, 1420, 999, 1390].getD k 240
    dif := fun _ => 0
    naflags := fun k => if k = 0 then 4 else 0 }

/-- One cylinder with EGT -5. -/
def ex_neg_rec : datarec :=
  { sarray := fun k => if k = 0 then -5 else 240
    dif := fun _ => 0
    naflags := fun _ => 0 }

/-! ## The constructor of the snapshot, statement by statement -/

/-- The store `sarray[i] = v` for an index inside the union (`i < 53`): the
first 48 cells are the slots, cells 48 and 49 lie over `dif[0]` and `dif[1]`,
cells 50..52 over the six bytes of `naflags` (low byte first). -/
def store_sarray (r : datarec) (i : Nat) (v : Nat) : datarec :=
  if i < 48 then { r with sarray := fun k => if k = i then wrap16 v else r.sarray k }
  else if i < 50 then { r with dif := fun k => if k = i - 48 then wrap16 v else r.dif k }
  else { r with naflags := fun k =>
    if k = 2 * (i - 50) then v % 256
    else if k = 2 * (i - 50) + 1 then v / 256 % 256
    else r.naflags k }

/-- Number of `ushort` cells of the union: `sizeof(*this) / sizeof(ushort)`
with `#pragma pack(1)`, that is `(48 * 2 + 2 * 2 + 6) / 2`. -/
def datarec_cells : Nat := (48 * 2 + 2 * 2 + 6) / 2

/-- The constructor `datarec::datarec` run on memory `mem`: the loop
`sarray[i] = 0x00f0`, then `hp = 0; rpm_highbyte = 0;` for a single engine,
then `dif[0] = dif[1] = 0` and `memset(naflags, 0, sizeof(naflags))`. -/
def datarec.ctor (env : Env) (mem : datarec) : datarec :=
  let r1 := forUpTo datarec_cells (fun i r => store_sarray r i 0x00f0) mem
  let r2 : datarec :=
    if NUMENGINE env = 1 then
      { r1 with sarray := fun k => if k = 42 then 0 else if k = 30 then 0 else r1.sarray k }
    else r1
  { r2 with
    dif := fun k => if k = 0 ∨ k = 1 then 0 else r2.dif k
    naflags := fun k => if k < 6 then 0 else r2.naflags k }

/-! ## The title row (`outputheaders`) and the flight range check -/

/-- The test of the title loop of `outputheaders` for engine pass `j` and
table entry `fd`, on the feature flags of the flight header. -/
def title_shown (env : Env) (fhead_flags : Nat) (j : Nat) (fd : FieldDesc) : Bool :=
  ((fd.nFeatureFlag &&& fhead_flags) == fd.nFeatureFlag) &&
  (fd.bPerEngine || j == NUMENGINE env - 1) &&
  (fd.nWhichEng == 0 || (fd.nWhichEng &&& (1 <<< j)) != 0)

/-- Body of the title loop of `outputheaders`: the quoted title with the
engine prefix, or nothing. -/
def title_field (env : Env) (fhead_flags : Nat) (j : Nat) (fd : FieldDesc) : String :=
  let eng := if !fd.bPerEngine || NUMENGINE env == 1 then "" else if j > 0 then "R" else "L"
  if title_shown env fhead_flags j fd then ",\"" ++ eng ++ fd.szName ++ "\"" else ""

/-- The line of CSV field titles written by `outputheaders`. -/
def title_row (env : Env) (fhead_flags : Nat) : String :=
  let body := forUpTo (NUMENGINE env) (fun j out =>
    forUpTo fielddesc.length (fun i out =>
      match fielddesc.get? i with
      | some fd => out ++ title_field env fhead_flags j fd
      | none => out) out) "\"TIME\""
  body ++ ",\n"

/-- The size `sizeof(flightheader)` under `#pragma pack(1)` with a 4-byte
`ulong`: `flightnum`, `flags`, `unknown_value`, `interval_secs`, `dt`, `tm`. -/
def sizeof_flightheader : Nat := 2 + 4 + 2 + 2 + 2 + 2

/-- The sanity check of a flight's length at the top of the flight loop of
`parse_data` and of `recompute_checksums`: `pTop` is the running cursor,
`nFileBytes` the size of the file buffer; the result is `pEnd`. -/
def flight_range (nFileBytes pTop data_length : Nat) : Except DataError Nat :=
  let pEnd := pTop + data_length * 2
  if pEnd ≥ nFileBytes then .error .dataEnds
  else if pEnd - pTop < sizeof_flightheader then .error .tooShort
  else .ok pEnd

/-- A snapshot whose battery slot (20, scale 10) holds -5. -/
def ex_bat_rec : datarec :=
  { sarray := fun k => if k = 20 then -5 else 240
    dif := fun _ => 0
    naflags := fun _ => 0 }

/-- A single-engine configuration (model 700) with BAT only. -/
def ex_env_bat : Env :=
  { config := ⟨700, F_BAT, 0, 100⟩
    s_NewVersion := 300
    cvttime := fun t => ((t / 3600 % 24).toNat, (t / 60 % 60).toNat, (t % 60).toNat) }

/-- The record `01 01 00 01 00 05` with its legacy checksum `04`. -/
def ex_e2e_buf : List Nat := [0x01, 0x01, 0x00, 0x01, 0x00, 0x05, 0x04]

/-! ## The record loop of `parse_data` -/

/-- The loop `while ((pFlight + 3) < pEnd)` of `parse_data`, run for at most
`fuel` records.  The second component records, for the statements, the start
and the checksum position of every record decoded. -/
def decode_records (env : Env) (fhead_flags interval : Nat) (buf : List Nat) (pEnd : Nat) :
    Nat → FlightState × List (Nat × Nat) → Except DataError (FlightState × List (Nat × Nat))
  | 0, s => if s.1.pFlight + 3 < pEnd then .error .outOfFuel else .ok s
  | fuel + 1, s =>
    if s.1.pFlight + 3 < pEnd then
      match decode_record env fhead_flags interval buf pEnd s.1 with
      | .error e => .error e
      | .ok st =>
        decode_records env fhead_flags interval buf pEnd fuel
          (st, s.2 ++ [(s.1.pFlight, st.pFlight - 1)])
    else .ok s

/-! ## The checksum rewriter (`recompute_checksums`) -/

/-- One entry of `flightlist` (a `$D` record). -/
structure flight where
  flightnum : Nat
  data_length : Nat
  deriving DecidableEq

/-- A loop that only advances the cursor: `if (test(i)) pFlight++;` for `i < n`. -/
def skip_loop (test : Nat → Bool) (n : Nat) (p : Nat) : Nat :=
  forUpTo n (fun i p => if test i then p + 1 else p) p

/-- The cursor of `recompute_checksums` when it has skipped the record that
starts at `p0`: it then points at the checksum byte of the record. -/
def rewrite_cursor (buf : List Nat) (p0 : Nat) : Nat :=
  let d0 := byteAt buf p0
  let d1 := byteAt buf (p0 + 1)
  let v := read_flags buf d0 1 6 (fun _ => 0, p0 + 3)
  let sc := read_flags buf d0 0x40 2 (fun _ => 0, v.2)
  let p1 := skip_loop (fun i => decide (d1 &&& (1 <<< i) ≠ 0)) 6 sc.2
  let p2 := skip_loop (fun i => testbit v.1 i) 48 p1
  skip_loop (fun i => testbit sc.1 i) 16 p2

/-- The file buffer and the cursor of `recompute_checksums`; `written`
records, for the statements, the start of the record and the position of every
checksum byte written so far, in order. -/
structure RewriteState where
  buf : List Nat
  pFlight : Nat
  written : List (Nat × Nat)
  deriving DecidableEq

/-- The statements `if (!test_data_checksum(pRec, pFlight - pRec, *pFlight))
errexit(...); *pFlight++ = calc_old_checksum(pRec, pFlight - pRec);` with
`pFlight = p`.  The right operand of the assignment is evaluated before the
increment of `pFlight` (the order C++17 fixes). -/
def rewrite_checksum (fw nv : Nat) (err : DataError) (pRec p : Nat) (st : RewriteState) :
    Except DataError RewriteState :=
  if !test_data_checksum fw nv ((st.buf.drop pRec).take (p - pRec)) (byteAt st.buf p) then
    .error err
  else
    .ok ⟨st.buf.set p (calc_old_checksum ((st.buf.drop pRec).take (p - pRec))), p + 1,
      st.written ++ [(pRec, p)]⟩

/-- One iteration of the record loop of `recompute_checksums`. -/
def rewrite_record (fw nv pEnd : Nat) (st : RewriteState) : Except DataError RewriteState :=
  if rewrite_cursor st.buf st.pFlight ≥ pEnd then .error .unexpectedEnd
  else rewrite_checksum fw nv .checksumFailed st.pFlight (rewrite_cursor st.buf st.pFlight) st

/-- The loop `while ((pFlight + 3) < pEnd)` of `recompute_checksums`, run for
at most `fuel` records. -/
def rewrite_records (fw nv pEnd : Nat) : Nat → RewriteState → Except DataError RewriteState
  | 0, st => if st.pFlight + 3 < pEnd then .error .outOfFuel else .ok st
  | fuel + 1, st =>
    if st.pFlight + 3 < pEnd then
      match rewrite_record fw nv pEnd st with
      | .error e => .error e
      | .ok st1 => rewrite_records fw nv pEnd fuel st1
    else .ok st

/-- The body of the flight loop of `recompute_checksums`; on entry
`st.pFlight` is `pTop`, on exit it is `pEnd`. -/
def rewrite_flight (fw nv : Nat) (st : RewriteState) (f : flight) :
    Except DataError RewriteState :=
  match flight_range st.buf.length st.pFlight f.data_length with
  | .error e => .error e
  | .ok pEnd =>
    match rewrite_checksum fw nv .headerChecksum st.pFlight
        (st.pFlight + sizeof_flightheader) st with
    | .error e => .error e
    | .ok st1 =>
      match rewrite_records fw nv pEnd (pEnd - st1.pFlight) st1 with
      | .error e => .error e
      | .ok st2 => .ok { st2 with pFlight := pEnd }

/-- The flight loop of `recompute_checksums`. -/
def rewrite_flights (fw nv : Nat) : List flight → RewriteState → Except DataError RewriteState
  | [], st => .ok st
  | f :: fs, st =>
    match rewrite_flight fw nv st f with
    | .error e => .error e
    | .ok st1 => rewrite_flights fw nv fs st1

/-- What `recompute_checksums` leaves: the file buffer, the checksum positions
written, and the contents handed to `write_renamed_file` (`none` when it is not
called). -/
structure RewriteResult where
  buf : List Nat
  written : List (Nat × Nat)
  output : Option (List Nat)
  deriving DecidableEq

/-- The function `recompute_checksums` on the file buffer `s_pFileBytes`, with
the data cursor `s_pHeaderEnd` and the flight index left by `parse_headers`. -/
def recompute_checksums (env : Env) (flightlist : List flight) (s_pFileBytes : List Nat)
    (s_pHeaderEnd : Nat) : Except DataError RewriteResult :=
  if env.config.firmware_version < env.s_NewVersion then
    .ok ⟨s_pFileBytes, [], none⟩
  else
    match rewrite_flights env.config.firmware_version env.s_NewVersion flightlist
        ⟨s_pFileBytes, s_pHeaderEnd, []⟩ with
    | .error e => .error e
    | .ok st => .ok ⟨st.buf, st.written, some st.buf⟩

/-- Number of set bits among the low 8 bits of a byte. -/
def popcount (x : Nat) : Nat := ((List.range 8).filter (fun i => x.testBit i)).length

/-- Sum of the numbers of set bits of the first `n` bytes of an array. -/
def popcount_bytes (pv : Nat → Nat) (n : Nat) : Nat :=
  ((List.range n).map (fun b => popcount (pv b))).sum

/-- Number of `i < n` with `decode & (bit0 << i)` nonzero. -/
def flag_count (decode bit0 n : Nat) : Nat :=
  ((List.range n).filter (fun i => decide (decode &&& (bit0 <<< i) ≠ 0))).length

/-- The invariant of the rewriter relative to the buffer `orig` it started
from: the length is kept; a position that is not a written checksum position
holds its original byte; every written position lies below `b`, is the byte
after a flight header or the byte the record walk of `orig` ends at, and holds
the legacy checksum of the bytes of its record. -/
def RewriteInv (orig : List Nat) (st : RewriteState) (b : Nat) : Prop :=
  st.buf.length = orig.length ∧
  (∀ i, (∀ rc ∈ st.written, rc.2 ≠ i) → st.buf[i]? = orig[i]?) ∧
  (∀ rc ∈ st.written, rc.1 ≤ rc.2 ∧ rc.2 < b ∧ rc.2 < orig.length ∧
    (rc.2 = rc.1 + sizeof_flightheader ∨ rc.2 = rewrite_cursor orig rc.1) ∧
    byteAt st.buf rc.2 = calc_old_checksum ((st.buf.drop rc.1).take (rc.2 - rc.1)))

/-- A single-engine configuration (model 700) with E1, firmware 3.00, which is
the threshold of the current checksum scheme. -/
def ex_env_new : Env :=
  { config := ⟨700, F_E1, 0, 300⟩
    s_NewVersion := 300
    cvttime := fun t => ((t / 3600 % 24).toNat, (t / 60 % 60).toNat, (t % 60).toNat) }

/-- A flight of 11 words in the current scheme: 14 header bytes and their
checksum `62`, the record `01 01 00 01 00 05` and its checksum `f8`, and one
byte that follows the flight. -/
def ex_new_file : List Nat :=
  [0x00, 0x01, 0x08, 0x00, 0x04, 0x00, 0x00, 0x00, 0x00, 0x06, 0x2A, 0x21, 0x40, 0x00, 0x62,
   0x01, 0x01, 0x00, 0x01, 0x00, 0x05, 0xF8,
   0x00]

/-- The same file after the rewriter: checksums `40` and `04`. -/
def ex_old_file : List Nat :=
  [0x00, 0x01, 0x08, 0x00, 0x04, 0x00, 0x00, 0x00, 0x00, 0x06, 0x2A, 0x21, 0x40, 0x00, 0x40,
   0x01, 0x01, 0x00, 0x01, 0x00, 0x05, 0x04,
   0x00]

/-! ## The header parser (`parseshorts`, the body of the loop of `parse_headers`) -/

/-- The fatal errors of `parse_headers`: those of `test_header_checksum`,
"Expected $ at beginning of record", "Not enough values", "This program can
only handle 512 flights per file", "Unexpected end of .DAT file".  The
constructor `nullLine` is not a message of the program: `parseshorts` hands a
null pointer to `sscanf` when the line has fewer commas than values, which C
leaves undefined; the model stops there.  The constructor `outOfFuel` marks
that the loop bound of the model was reached. -/
inductive ParseError where
  | header (e : HeaderError)
  | noDollar
  | notEnough
  | nullLine
  | tooManyFlights
  | unexpectedEnd
  | outOfFuel
  deriving DecidableEq, Repr

/-- The return value of one `sscanf` call with one conversion: 1 with the
value stored, 0 (matching failure), or `EOF` (the input ends before the
conversion). -/
inductive Scan where
  | value (v : Nat)
  | mismatch
  | eof
  deriving DecidableEq, Repr

/-- Longest run of decimal digits: `(value stored in a ushort, digits read)`.
The value is reduced modulo 65536, which is what the store into a `ushort`
gives for every numeral the conversion of the library can hold.  For a longer
numeral (above `2^64 - 1` where the library converts in 64 bits) C leaves the
result undefined and libraries differ (some saturate and store 65535): the
model does not speak for the program there. -/
def decdigits : List Nat → Nat → Nat → Nat × Nat
  | [], acc, n => (acc, n)
  | c :: s, acc, n =>
    if 48 ≤ c ∧ c ≤ 57 then decdigits s ((acc * 10 + (c - 48)) % 65536) (n + 1) else (acc, n)

/-- The C library conversion `sscanf(s, ",%hu", &v)` on the characters of a
string: the comma is matched, white space is skipped, a sign is allowed, then
the longest run of decimal digits is converted and stored in a `ushort`. -/
def sscanf_comma_hu (s : List Nat) : Scan :=
  match s with
  | [] => .eof
  | c :: r =>
    if c ≠ 44 then .mismatch
    else
      let s1 := r.dropWhile isspace
      if s1 = [] then .eof
      else
        let neg := s1.head? == some 45
        let s2 := if s1.head? == some 45 || s1.head? == some 43 then s1.tail else s1
        let d := decdigits s2 0 0
        if d.2 = 0 then .mismatch
        else .value (if neg then (65536 - d.1) % 65536 else d.1)

/-- Scan of `memchr` and `strchr`: index of the first byte equal to `c`, where
`i` is the index of the head of the remaining bytes. -/
def memchr_loop (c : Nat) : List Nat → Nat → Option Nat
  | [], _ => none
  | x :: r, i => if x % 256 = c then some i else memchr_loop c r (i + 1)

/-- The call `memchr(line, c, s_nFileBytes)` of `parse_headers`, `none` for
`NULL`.  The search of the model ends with the file buffer. -/
def memchr (mem : List Nat) (line c : Nat) : Option Nat := memchr_loop c (mem.drop line) line

/-- The call `strchr(s + i, c)` on the characters of a string, for `c` other
than NUL: index of the first `c` at or after `i`, `none` for `NULL`. -/
def strchr (s : List Nat) (i c : Nat) : Option Nat := memchr_loop c (s.drop i) i

/-- The loop of `parseshorts` with `n` values left: `i` is the index of the
next value, `line` the current comma, `res` the `ushort` array written to. -/
def parseshorts_loop (s : List Nat) : Nat → Nat → Option Nat → List Nat →
    Except ParseError (List Nat)
  | 0, _, _, res => .ok res
  | n + 1, i, line, res =>
    match line with
    | none => .error .nullLine
    | some l =>
      match sscanf_comma_hu (s.drop l) with
      | .mismatch => .error .notEnough
      | .eof => parseshorts_loop s n (i + 1) (strchr s (l + 1) 44) res
      | .value v => parseshorts_loop s n (i + 1) (strchr s (l + 1) 44) (res.set i v)

/-- The function `parseshorts(results, line, count)` on the string of the
line; `results` holds the `ushort`s of the target before the call. -/
def parseshorts (results : List Nat) (s : List Nat) (count : Nat) :
    Except ParseError (List Nat) :=
  parseshorts_loop s count 0 (strchr s 0 44) results

/-- The `config` record as the five `ushort`s `parseshorts` writes to (the
32-bit `flags` holds the second and the third, low half first). -/
def Config.shorts (c : Config) : List Nat :=
  [c.model, c.flags % 65536, c.flags / 65536 % 65536, c.unknown_value, c.firmware_version]

/-- The `config` record read back from its five `ushort`s. -/
def Config.ofShorts (r : List Nat) : Config :=
  ⟨r.getD 0 0, r.getD 1 0 + 65536 * r.getD 2 0, r.getD 3 0, r.getD 4 0⟩

/-- The table `newmodeltable`: model, first firmware version with the current
checksum, legacy version label ("139", "299"). -/
def newmodeltable : List (Nat × Nat × List Nat) :=
  [(760, 140, [49, 51, 57]), (0, 300, [50, 57, 57])]

/-- The lookup that sets `s_NewVersion` and `s_szOldVer`: the last entry of
the table unless an entry has the model. -/
def model_lookup (model : Nat) : Nat × List Nat :=
  match newmodeltable.find? (fun e => e.1 == model) with
  | some e => e.2
  | none => (newmodeltable.getD (newmodeltable.length - 1) (0, 0, [])).2

/-- The loop `while (*ver == ' ') ver++;` on the characters of a string. -/
def skip_spaces (s : List Nat) (ver : Nat) : Nat :=
  ver + ((s.drop ver).takeWhile (fun x => x == 32)).length

/-- One upper-case hexadecimal digit. -/
def hexdigit (d : Nat) : Nat := if d < 10 then 48 + d else 55 + d

/-- The characters `sprintf(buf, "%02X", cs)` writes for a `byte`. -/
def sprintf_02X (cs : Nat) : List Nat := [hexdigit (cs / 16 % 16), hexdigit (cs % 16)]

/-- The version patch of `case 'C'` on the file buffer, for the line that
starts at `line` and is NUL-terminated: the three characters after the last
comma and its spaces become the label, and the two bytes after the last `*`
become the checksum of the bytes from `line + 1` up to that `*`.  Nothing is
done unless exactly three characters stand between the two. -/
def patch_version (mem : List Nat) (line : Nat) (oldver : List Nat) : List Nat :=
  let p := line + 1
  let s := cstr (mem.drop p)
  match strrchr s 44, strrchr s 42 with
  | some c, some endp =>
    let ver := skip_spaces s (c + 1)
    if endp ≠ ver + 3 then mem
    else
      let m1 := ((mem.set (p + ver) (oldver.getD 0 0)).set (p + ver + 1) (oldver.getD 1 0)).set
        (p + ver + 2) (oldver.getD 2 0)
      let cs := header_xor m1 endp p 0
      (m1.set (p + endp + 1) ((sprintf_02X cs).getD 0 0)).set (p + endp + 2)
        ((sprintf_02X cs).getD 1 0)
  | _, _ => mem

/-- The module variables `parse_headers` writes, and the file buffer. -/
structure HeaderState where
  mem : List Nat
  tailnum : List Nat
  limits : List Nat
  config : Config
  fuel : List Nat
  timestamp : List Nat
  headerend : Nat
  flightlist : List flight
  s_pHeaderEnd : Option Nat
  s_NewVersion : Nat
  s_szOldVer : List Nat
  deriving DecidableEq

/-- The module variables after `reset_vars`, with the file buffer `mem`. -/
def reset_vars (mem : List Nat) : HeaderState :=
  { mem := mem, tailnum := [], limits := List.replicate 8 0, config := ⟨0, 0, 0, 0⟩,
    fuel := List.replicate 5 0, timestamp := List.replicate 6 0, headerend := 0,
    flightlist := [], s_pHeaderEnd := none, s_NewVersion := 0, s_szOldVer := [] }

/-- The statements of `case 'C'`, for the line that starts at `line`. -/
def header_case_C (st : HeaderState) (line : Nat) : Except ParseError HeaderState :=
  match parseshorts st.config.shorts (cstr (st.mem.drop line)) 5 with
  | .error e => .error e
  | .ok r =>
    let config := Config.ofShorts r
    let nm := model_lookup config.model
    if config.firmware_version ≥ nm.1 then
      .ok { st with config := config, s_NewVersion := nm.1, s_szOldVer := nm.2,
                    mem := patch_version st.mem line nm.2 }
    else
      .ok { st with config := config, s_NewVersion := nm.1, s_szOldVer := nm.2 }

/-- The `switch (*(line + 1))` of `parse_headers`; `next` is `lf + 2`.  The
flag returned tells that the function returns (`case 'L'`). -/
def header_switch (st : HeaderState) (line next : Nat) : Except ParseError (HeaderState × Bool) :=
  let s := cstr (st.mem.drop line)
  let tag := byteAt st.mem (line + 1)
  if tag = 85 then
    .ok ({ st with tailnum := ((cstr (st.mem.drop (line + 3))).takeWhile
      (fun x => x != 42)).take 15 }, false)
  else if tag = 65 then
    match parseshorts st.limits s 8 with
    | .error e => .error e
    | .ok r => .ok ({ st with limits := r }, false)
  else if tag = 70 then
    match parseshorts st.fuel s 5 with
    | .error e => .error e
    | .ok r => .ok ({ st with fuel := r }, false)
  else if tag = 84 then
    match parseshorts st.timestamp s 6 with
    | .error e => .error e
    | .ok r => .ok ({ st with timestamp := r }, false)
  else if tag = 67 then
    match header_case_C st line with
    | .error e => .error e
    | .ok st1 => .ok (st1, false)
  else if tag = 76 then
    match parseshorts [st.headerend] s 1 with
    | .error e => .error e
    | .ok r => .ok ({ st with headerend := r.getD 0 0, s_pHeaderEnd := some next }, true)
  else if tag = 68 then
    if st.flightlist.length ≥ 512 then .error .tooManyFlights
    else
      match parseshorts [0, 0] s 2 with
      | .error e => .error e
      | .ok r => .ok ({ st with flightlist := st.flightlist ++ [⟨r.getD 0 0, r.getD 1 0⟩] }, false)
  else .ok (st, false)

/-- One iteration of the loop of `parse_headers`, for the line that starts at
`line` and whose carriage return `memchr` found at `lf`: the carriage return is
replaced by NUL while the line is processed (`pushpop`), and put back. -/
def header_record (st : HeaderState) (line lf : Nat) : Except ParseError (HeaderState × Bool) :=
  let savedval := st.mem.getD lf 0
  let st0 := { st with mem := st.mem.set lf 0 }
  match test_header_checksum (st0.mem.drop line) with
  | .error e => .error (.header e)
  | .ok _ =>
    if byteAt st0.mem line ≠ 36 then .error .noDollar
    else
      match header_switch st0 line (lf + 2) with
      | .error e => .error e
      | .ok r => .ok ({ r.1 with mem := r.1.mem.set lf savedval }, r.2)

/-- The line `$C, 700,63741, 6193, 1552, 300*52` with its CRLF, followed by
the start of the next line. -/
def ex_c_line : List Nat :=
  [36, 67, 44, 32, 55, 48, 48, 44, 54, 51, 55, 52, 49, 44, 32, 54, 49, 57, 51, 44, 32, 49, 53,
   53, 50, 44, 32, 51, 48, 48, 42, 53, 50, 13, 10, 36, 80]

/-- The line `$C, 700,63741, 6193, 1552, 292*58` with its CRLF, followed by
the start of the next line. -/
def ex_legacy_line : List Nat :=
  [36, 67, 44, 32, 55, 48, 48, 44, 54, 51, 55, 52, 49, 44, 32, 54, 49, 57, 51, 44, 32, 49, 53,
   53, 50, 44, 32, 50, 57, 50, 42, 53, 56, 13, 10, 36, 80]

/-- The memory of `ex_c_line` after the version patch: the line reads
`$C, 700,63741, 6193, 1552, 299*53`. -/
def ex_c_patched : List Nat :=
  [36, 67, 44, 32, 55, 48, 48, 44, 54, 51, 55, 52, 49, 44, 32, 54, 49, 57, 51, 44, 32, 49, 53,
   53, 50, 44, 32, 50, 57, 57, 42, 53, 51, 13, 10, 36, 80]

/-! ## Packed date and time (`decode_datebits`, `decode_timebits`) -/

/-- The function `decode_datebits(dt, &m, &d, &y)`: the triple `(m, d, y)`. -/
def decode_datebits (dt : Nat) : Nat × Nat × Nat :=
  ((dt &&& 0x01e0) >>> 5, dt &&& 0x001f, (dt &&& 0xfe00) >>> 9)

/-- The function `decode_timebits(tm, &h, &m, &s)`: the triple `(h, m, s)`. -/
def decode_timebits (tm : Nat) : Nat × Nat × Nat :=
  ((tm &&& 0xf800) >>> 11, (tm &&& 0x07e0) >>> 5, (tm &&& 0x001f) * 2)

/-! ## One flight of `parse_data` -/

/-- The helper `byteswap(ushort)`. -/
def byteswap (w : Nat) : Nat := ((w &&& 0xFF00) >>> 8) ||| ((w &&& 0x00FF) <<< 8)

/-- The read `*(ushort*)p` on the little-endian host the program is written
for. -/
def read_ushort (buf : List Nat) (p : Nat) : Nat := byteAt buf p + 256 * byteAt buf (p + 1)

/-- The loop `for (i = 0; i < sizeof(flightheader) / sizeof(ushort); i++)
{ usarray[i] = byteswap(*(ushort*)pFlight); pFlight += sizeof(ushort); }` on
`(usarray, pFlight)`. -/
def read_header_words (buf : List Nat) (st : (Nat → Nat) × Nat) : (Nat → Nat) × Nat :=
  forUpTo (sizeof_flightheader / 2)
    (fun i st => (fun k => if k = i then byteswap (read_ushort buf st.2) else st.1 k, st.2 + 2)) st

/-- The record `flightheader`. -/
structure flightheader where
  flightnum : Nat
  flags : Nat
  unknown_value : Nat
  interval_secs : Nat
  dt : Nat
  tm : Nat
  deriving DecidableEq

/-- The record `fhead` read through `usarray`: the packed layout puts the
32-bit `flags` on the second and third `ushort`, low half first. -/
def flightheader.ofWords (u : Nat → Nat) : flightheader :=
  ⟨u 0, u 1 + 65536 * u 2, u 3, u 4, u 5, u 6⟩

/-- The bytes of `fhead` in memory, which `test_data_checksum(&fhead,
sizeof(flightheader), ...)` reads: every `ushort` with its low byte first. -/
def header_struct_bytes (u : Nat → Nat) : List Nat :=
  (List.range (sizeof_flightheader / 2)).flatMap (fun i => [u i % 256, u i / 256 % 256])

/-- The fields of the C library `struct tm` that `inittime` fills. -/
structure tm where
  tm_sec : Int
  tm_min : Int
  tm_hour : Int
  tm_mday : Int
  tm_mon : Int
  tm_year : Int
  tm_isdst : Int

/-- The function `inittime(m, d, y, hh, mm, ss)`; `mktime` is the C library
call. -/
def inittime (mktime : tm → Int) (m d y hh mm ss : Nat) : Int :=
  mktime ⟨ss, mm, hh, d, (m : Int) - 1, if y < 50 then (y : Int) + 100 else y, -1⟩

/-- The overload `inittime(dtbits, tmbits)`. -/
def inittime_bits (mktime : tm → Int) (dtbits tmbits : Nat) : Int :=
  let date := decode_datebits dtbits
  let time := decode_timebits tmbits
  inittime mktime date.1 date.2.1 date.2.2 time.1 time.2.1 time.2.2

/-- What one decoded flight leaves: the header (with the interval after the
sanity clamp), the start clock, the locals after the record loop (`out` holds
the data rows written), the start and the checksum position of every record,
and the number of seconds `write_duration` divides by `SECS_PER_HOUR`, which is
its argument `t` minus `start`. -/
structure FlightOutput where
  fhead : flightheader
  start : Int
  final : FlightState
  marks : List (Nat × Nat)
  duration_secs : Int

/-- One iteration of the flight loop of `parse_data`, for the index entry `f`
and the cursor `pTop`: the new cursor `pEnd`, and the flight unless `-f` skips
it.  `mem` is the memory the snapshot is constructed in.  The files of the
operating system are left out: `opencsv` and the writes succeed. -/
def parse_flight (env : Env) (mktime : tm → Int) (s_nOnlyFlight : Nat) (mem : datarec)
    (buf : List Nat) (pTop : Nat) (f : flight) : Except DataError (Nat × Option FlightOutput) :=
  match flight_range buf.length pTop f.data_length with
  | .error e => .error e
  | .ok pEnd =>
    if s_nOnlyFlight ≠ 0 ∧ f.flightnum ≠ s_nOnlyFlight then .ok (pEnd, none)
    else
      let rec0 := datarec.ctor env mem
      let w := read_header_words buf (fun _ => 0, pTop)
      let fhead := flightheader.ofWords w.1
      if !test_data_checksum env.config.firmware_version env.s_NewVersion
          (header_struct_bytes w.1) (byteAt buf w.2) then
        .error .headerChecksum
      else if fhead.flightnum ≠ f.flightnum then .error .flightMismatch
      else
        let t := inittime_bits mktime fhead.dt fhead.tm
        let interval_secs :=
          if fhead.interval_secs < 2 ∨ 512 < fhead.interval_secs then 6 else fhead.interval_secs
        let fhead1 := { fhead with interval_secs := interval_secs }
        match decode_records env fhead1.flags fhead1.interval_secs buf pEnd (pEnd - (w.2 + 1))
            (⟨rec0, t, w.2 + 1, []⟩, []) with
        | .error e => .error e
        | .ok s =>
          .ok (pEnd, some ⟨fhead1, t, s.1, s.2,
            (s.1.t - fhead1.interval_secs) - inittime_bits mktime fhead1.dt fhead1.tm⟩)

/-- The flight loop of `parse_data`: the flights decoded, in order. -/
def parse_data (env : Env) (mktime : tm → Int) (s_nOnlyFlight : Nat) (mem : datarec)
    (buf : List Nat) : List flight → Nat → Except DataError (List FlightOutput)
  | [], _ => .ok []
  | f :: fs, pTop =>
    match parse_flight env mktime s_nOnlyFlight mem buf pTop f with
    | .error e => .error e
    | .ok (pEnd, o) =>
      match parse_data env mktime s_nOnlyFlight mem buf fs pEnd with
      | .error e => .error e
      | .ok os => .ok (o.toList ++ os)

/-- What `parse_flight` leaves for the flight of `ex_new_file`, with a
`mktime` that returns 1000: flight 1, flags E1 and RPM, interval 6, one record
at 15 with its checksum at 21, one data row. -/
def ex_flight_out : FlightOutput :=
  { fhead := ⟨1, 0x04000800, 0, 6, 0x2A21, 0x4000⟩
    start := 1000
    final :=
      ⟨(decode_deltas ex_env_new 0x04000800 ex_new_file
          (datarec.ctor ex_env_new (datarec.init ex_env_new)) 15).1,
        1006, 22,
        [formatdata ex_env_new 1000 (decode_deltas ex_env_new 0x04000800 ex_new_file
          (datarec.ctor ex_env_new (datarec.init ex_env_new)) 15).1]⟩
    marks := [(15, 21)]
    duration_secs := 0 }

/-! ## The loop of `parse_headers` -/

/-- The loop `for (line = s_pFileBytes; line < s_pFileBytes + s_nFileBytes &&
(lf = memchr(line, '\r', s_nFileBytes)); line = lf)` of `parse_headers`, run
for at most `fuel` lines; the body leaves `lf` two bytes after the carriage
return.  The result is the state at the `return` of `case 'L'`; leaving the
loop otherwise is the error "Unexpected end of .DAT file". -/
def parse_headers_loop : Nat → HeaderState → Nat → Except ParseError HeaderState
  | 0, st, line => if line < st.mem.length then .error .outOfFuel else .error .unexpectedEnd
  | fuel + 1, st, line =>
    if line < st.mem.length then
      match memchr st.mem line 13 with
      | none => .error .unexpectedEnd
      | some lf =>
        match header_record st line lf with
        | .error e => .error e
        | .ok r => if r.2 then .ok r.1 else parse_headers_loop fuel r.1 (lf + 2)
    else .error .unexpectedEnd

/-- The function `parse_headers` on the state `reset_vars` and `read_file`
leave. -/
def parse_headers (st : HeaderState) : Except ParseError HeaderState :=
  parse_headers_loop (st.mem.length + 1) st 0

/-- The lines of a buffer from `line` on, as far as `fuel` goes and up to the
first line with the tag `L`, which is left out: each line is given by its start
and the index of its carriage return; the next line starts two bytes after the
carriage return. -/
def header_lines (mem : List Nat) : Nat → Nat → List (Nat × Nat)
  | 0, _ => []
  | fuel + 1, line =>
    if line < mem.length then
      match memchr mem line 13 with
      | none => []
      | some lf =>
        if byteAt mem (line + 1) = 76 then [] else (line, lf) :: header_lines mem fuel (lf + 2)
    else []

/-- The first line with the tag `L` among the lines of a buffer from `line`
on, if there is one within `fuel` lines. -/
def header_end (mem : List Nat) : Nat → Nat → Option (Nat × Nat)
  | 0, _ => none
  | fuel + 1, line =>
    if line < mem.length then
      match memchr mem line 13 with
      | none => none
      | some lf =>
        if byteAt mem (line + 1) = 76 then some (line, lf) else header_end mem fuel (lf + 2)
    else none

/-- The string of the line that starts at `line` and has its carriage return
at `lf`. -/
def line_string (mem : List Nat) (line lf : Nat) : List Nat := cstr ((mem.set lf 0).drop line)

/-- Number of values `parse_headers` reads from a line with a given tag. -/
def values_wanted (tag : Nat) : Nat :=
  if tag = 65 then 8 else if tag = 70 then 5 else if tag = 84 then 6 else if tag = 67 then 5
  else if tag = 76 then 1 else if tag = 68 then 2 else 0

/-- A valid header line: its checksum is accepted, it starts with `$`, and
it carries the values its tag asks for. -/
def line_valid (mem : List Nat) (line lf : Nat) : Bool :=
  decide (test_header_checksum ((mem.set lf 0).drop line) = .ok ()) &&
  decide (byteAt (mem.set lf 0) line = 36) &&
  (parseshorts [] (line_string mem line lf)
    (values_wanted (byteAt (mem.set lf 0) (line + 1)))).toBool

/-- The pair a `$D` line carries: flight number and data length, as
`parseshorts` reads them into a cleared entry. -/
def d_record (mem : List Nat) (l : Nat × Nat) : flight :=
  match parseshorts [0, 0] (line_string mem l.1 l.2) 2 with
  | .ok r => ⟨r.getD 0 0, r.getD 1 0⟩
  | .error _ => ⟨0, 0⟩

/-- The pairs of the `$D` lines among some lines, in order. -/
def d_records (mem : List Nat) (lines : List (Nat × Nat)) : List flight :=
  (lines.filter (fun l => decide (byteAt mem (l.1 + 1) = 68))).map (d_record mem)

/-- A whole file in the legacy scheme: the header lines
`$C, 700,63741, 6193, 1552, 292*58`, `$D,    1,   11*55`, `$X,1*45` and
`$L, 49*4D`, each with its CRLF, then one flight of 11 words and one more
byte. -/
def ex_dat_file : List Nat :=
  [36, 67, 44, 32, 55, 48, 48, 44, 54, 51, 55, 52, 49, 44, 32, 54, 49, 57, 51, 44,
   32, 49, 53, 53, 50, 44, 32, 50, 57, 50, 42, 53, 56, 13, 10, 36, 68, 44, 32, 32,
   32, 32, 49, 44, 32, 32, 32, 49, 49, 42, 53, 53, 13, 10, 36, 88, 44, 49, 42, 52,
   53, 13, 10, 36, 76, 44, 32, 52, 57, 42, 52, 68, 13, 10, 0, 1, 8, 0, 4, 0,
   0, 0, 0, 6, 42, 33, 64, 0, 64, 1, 1, 0, 1, 0, 5, 4, 0]

/-- The state `parse_headers` leaves for `ex_dat_file`. -/
def ex_dat_state : HeaderState :=
  { reset_vars ex_dat_file with
    config := ⟨700, 405928189, 1552, 292⟩, s_NewVersion := 300, s_szOldVer := [50, 57, 57],
    flightlist := [⟨1, 11⟩], headerend := 49, s_pHeaderEnd := some 74 }

/-- The header line `$D,1,1*44` with its CRLF. -/
def ex_d_line : List Nat := [36, 68, 44, 49, 44, 49, 42, 52, 52, 13, 10]

/-- A buffer of `n` header lines `$D,1,1*44`. -/
def many_flights (n : Nat) : List Nat := (List.replicate n ex_d_line).flatten

/-- A header block of 513 lines `$D,1,1*44` and no `$L` line. -/
def ex_many_flights : List Nat := many_flights 513

/-- The header line `$X,1*45` with its CRLF, alone in a buffer. -/
def ex_x_line : List Nat := [36, 88, 44, 49, 42, 52, 53, 13, 10]

/-- The feature flags of the cylinders 7 to 9: E7, E8, E9, C7, C8, C9. -/
def high_cylinder_flags : List Nat := [F_E7, F_E8, F_E9, F_C7, F_C8, F_C9]

/-- A twin-engine configuration (model 760) with E1 and E7. -/
def ex_env_twin : Env :=
  { config := ⟨760, F_E1 ||| F_E7, 0, 100⟩
    s_NewVersion := 140
    cvttime := fun t => ((t / 3600 % 24).toNat, (t / 60 % 60).toNat, (t % 60).toNat) }

/-- Number of columns a piece of a CSV row starts: the commas in it (every
column `formatdata` writes starts with a comma; the first column, the time,
has none). -/
def csv_columns (s : String) : Nat := s.data.count ','

/-- Number of table entries written in engine pass `j` among the entries the
field loop of `formatdata` visits (all but the last, MARK). -/
def shown_count (env : Env) (j : Nat) : Nat :=
  ((fielddesc.take (fielddesc.length - 1)).filter (field_shown env j)).length

/-- A twin-engine configuration (model 760) with BAT, E1 and FF. -/
def ex_env_twin_bat : Env :=
  { config := ⟨760, F_BAT ||| F_E1 ||| F_FF, 0, 100⟩
    s_NewVersion := 140
    cvttime := fun t => ((t / 3600 % 24).toNat, (t / 60 % 60).toNat, (t % 60).toNat) }

theorem calc_new_loop_eq (b : List Nat) (acc : Nat) (hacc : acc < 256) :
    calc_new_loop b acc = (acc + b.sum) % 256 := by
  induction b generalizing acc with
  | nil => simp [calc_new_loop]; omega
  | cons x p ih =>
    rw [calc_new_loop, ih _ (Nat.mod_lt _ (by decide)), List.sum_cons]
    omega

theorem calc_old_loop_lt (b : List Nat) (acc : Nat) (hacc : acc < 256) :
    calc_old_loop b acc < 256 := by
  induction b generalizing acc with
  | nil => simpa [calc_old_loop] using hacc
  | cons x p ih => rw [calc_old_loop]; exact ih _ (Nat.mod_lt _ (by decide))

theorem xor_byte_lt {a b : Nat} (ha : a < 256) (hb : b < 256) : a ^^^ b < 256 :=
  Nat.xor_lt_two_pow (n := 8) ha hb

theorem calc_old_loop_eq (b : List Nat) (hb : ∀ x ∈ b, x < 256) (acc : Nat) (hacc : acc < 256) :
    calc_old_loop b acc = b.foldl (fun a x => a ^^^ x) acc := by
  induction b generalizing acc with
  | nil => rfl
  | cons x p ih =>
    have hx : x < 256 := hb x (List.mem_cons_self _ _)
    have h1 : (acc ^^^ (x % 256)) % 256 = acc ^^^ x := by
      rw [Nat.mod_eq_of_lt hx, Nat.mod_eq_of_lt (xor_byte_lt hacc hx)]
    rw [calc_old_loop, h1, ih (fun y hy => hb y (List.mem_cons_of_mem _ hy)) _ (xor_byte_lt hacc hx)]
    rfl

/-- C1: `test_data_checksum` answers true exactly when the legacy (XOR) or the
current (negated sum) checksum of the buffer equals the check byte, and its
answer is the same for every firmware version and every version threshold. -/
theorem test_data_checksum_iff (fw nv : Nat) (b : List Nat) (c : Nat) :
    (test_data_checksum fw nv b c = true ↔
      (calc_old_checksum b = c ∨ calc_new_checksum b = c)) ∧
    (∀ fw2 nv2 : Nat, test_data_checksum fw2 nv2 b c = test_data_checksum fw nv b c) := by
  have key : ∀ f n : Nat, test_data_checksum f n b c =
      (calc_old_checksum b == c || calc_new_checksum b == c) := by
    intro f n
    unfold test_data_checksum
    split
    · rfl
    · exact Bool.or_comm _ _
  refine ⟨?_, fun f n => by rw [key, key]⟩
  rw [key]
  simp

/-- C2: on a buffer of bytes the legacy checksum is the exclusive or of all
bytes and the current checksum is the 8-bit negation of the 8-bit sum of all
bytes; so the sum of the bytes plus the current checksum is 0 modulo 256, and
the exclusive or of the bytes with the legacy checksum is 0. -/
theorem checksum_algorithms (b : List Nat) (hb : ∀ x ∈ b, x < 256) :
    calc_old_checksum b = xorAll b ∧
    calc_new_checksum b = (256 - b.sum % 256) % 256 ∧
    (b.sum + calc_new_checksum b) % 256 = 0 ∧
    xorAll b ^^^ calc_old_checksum b = 0 := by
  have hold : calc_old_checksum b = xorAll b :=
    calc_old_loop_eq b hb 0 (by decide)
  have hnew : calc_new_checksum b = (256 - b.sum % 256) % 256 := by
    unfold calc_new_checksum
    rw [calc_new_loop_eq b 0 (by decide)]
    simp
  refine ⟨hold, hnew, ?_, ?_⟩
  · rw [hnew]; omega
  · rw [hold, Nat.xor_self]

/-- Instance of C2 on the three bytes 1, 2, 255. -/
theorem checksum_algorithms_witness :
    (∀ x ∈ [1, 2, 255], x < 256) ∧
    calc_old_checksum [1, 2, 255] = xorAll [1, 2, 255] ∧
    calc_new_checksum [1, 2, 255] = (256 - [1, 2, 255].sum % 256) % 256 ∧
    ([1, 2, 255].sum + calc_new_checksum [1, 2, 255]) % 256 = 0 ∧
    xorAll [1, 2, 255] ^^^ calc_old_checksum [1, 2, 255] = 0 :=
  ⟨by decide, checksum_algorithms [1, 2, 255] (by decide)⟩

/-! ### Header line checksum -/

theorem strrchr_loop_of_not_mem (c : Nat) (s : List Nat) (i : Nat) (last : Option Nat)
    (h : c ∉ s) : strrchr_loop c s i last = last := by
  induction s generalizing i last with
  | nil => rfl
  | cons x s ih =>
    have hx : ¬ x = c := fun e => h (by simp [e])
    rw [strrchr_loop, ih _ _ (fun hm => h (List.mem_cons_of_mem _ hm)), if_neg hx]

theorem strrchr_loop_append (c : Nat) (pre post : List Nat) (i : Nat) (last : Option Nat)
    (h : c ∉ post) : strrchr_loop c (pre ++ c :: post) i last = some (i + pre.length) := by
  induction pre generalizing i last with
  | nil => simp [strrchr_loop, strrchr_loop_of_not_mem c post _ _ h]
  | cons x pre ih =>
    rw [List.cons_append, strrchr_loop, ih]
    simp only [List.length_cons]
    congr 1
    omega

theorem strrchr_loop_split (c : Nat) (s : List Nat) (i : Nat) (last : Option Nat) :
    (c ∉ s ∧ strrchr_loop c s i last = last) ∨
    (∃ pre post, s = pre ++ c :: post ∧ c ∉ post ∧
      strrchr_loop c s i last = some (i + pre.length)) := by
  by_cases hm : c ∈ s
  · right
    induction s with
    | nil => simp at hm
    | cons x s ih =>
      by_cases hs : c ∈ s
      · obtain ⟨pre, post, e, hp, _⟩ := ih hs
        exact ⟨x :: pre, post, by rw [e, List.cons_append], hp, by
          rw [e, ← List.cons_append]; exact strrchr_loop_append c _ _ _ _ hp⟩
      · have hx : c = x := by
          rcases List.mem_cons.mp hm with h | h
          · exact h
          · exact absurd h hs
        subst hx
        exact ⟨[], s, rfl, hs, strrchr_loop_append c [] s _ _ hs⟩
  · exact Or.inl ⟨hm, strrchr_loop_of_not_mem c s i last hm⟩

theorem strrchr_eq_none_iff (s : List Nat) (c : Nat) : strrchr s c = none ↔ c ∉ s := by
  unfold strrchr
  rcases strrchr_loop_split c s 0 none with ⟨hn, h⟩ | ⟨pre, post, e, hp, h⟩
  · simp [h, hn]
  · rw [h]; simp [e]

theorem strrchr_eq_some_iff (s : List Nat) (c k : Nat) :
    strrchr s c = some k ↔ ∃ pre post, s = pre ++ c :: post ∧ c ∉ post ∧ pre.length = k := by
  unfold strrchr
  constructor
  · intro hk
    rcases strrchr_loop_split c s 0 none with ⟨_, h⟩ | ⟨pre, post, e, hp, h⟩
    · rw [h] at hk; cases hk
    · rw [h] at hk
      exact ⟨pre, post, e, hp, by simpa using hk⟩
  · rintro ⟨pre, post, e, hp, rfl⟩
    rw [e, strrchr_loop_append c pre post 0 none hp]
    simp

theorem cstr_lt (mem : List Nat) : ∀ x ∈ cstr mem, x < 256 := by
  intro x hx
  have h1 : x ∈ mem.map (fun y => y % 256) := (List.takeWhile_sublist _).subset hx
  obtain ⟨y, _, rfl⟩ := List.mem_map.mp h1
  exact Nat.mod_lt _ (by decide)

theorem byteAt_eq_getElem (s : List Nat) (hs : ∀ x ∈ s, x < 256) (p : Nat) (hp : p < s.length) :
    byteAt s p = s[p] := by
  unfold byteAt
  rw [List.getD_eq_getElem _ _ hp]
  exact Nat.mod_eq_of_lt (hs _ (List.getElem_mem _))

theorem header_xor_eq (s : List Nat) (hs : ∀ x ∈ s, x < 256) (n p cs : Nat) (hcs : cs < 256)
    (hlen : p + n ≤ s.length) :
    header_xor s n p cs = ((s.drop p).take n).foldl (fun a x => a ^^^ x) cs := by
  induction n generalizing p cs with
  | zero => rfl
  | succ n ih =>
    have hp : p < s.length := by omega
    have hx : s[p] < 256 := hs _ (List.getElem_mem _)
    rw [header_xor, byteAt_eq_getElem s hs p hp, Nat.mod_eq_of_lt (xor_byte_lt hcs hx),
      ih (p + 1) _ (xor_byte_lt hcs hx) (by omega), List.drop_eq_getElem_cons hp]
    rfl

theorem header_xor_prefix (pre post : List Nat) (hs : ∀ x ∈ pre ++ 42 :: post, x < 256) :
    header_xor (pre ++ 42 :: post) (pre.length - 1) 1 0 = xorAll (pre.drop 1) := by
  rw [header_xor_eq _ hs _ _ _ (by decide) (by simp; omega)]
  unfold xorAll
  congr 1
  cases pre with
  | nil => simp
  | cons a pre => simp

/-- What `test_header_checksum` returns on a line whose string splits at its last `*`. -/
theorem test_header_checksum_split (line pre post : List Nat)
    (e : cstr line = pre ++ 42 :: post) (hp : 42 ∉ post) :
    test_header_checksum line =
      match sscanf_hx post with
      | none => .error .format
      | some testval =>
        if testval ≠ xorAll (pre.drop 1) then .error .checksum else .ok () := by
  have hk : strrchr (cstr line) 42 = some pre.length :=
    (strrchr_eq_some_iff _ _ _).mpr ⟨pre, post, e, hp, rfl⟩
  have hx : header_xor (cstr line) (pre.length - 1) 1 0 = xorAll (pre.drop 1) := by
    rw [e]; exact header_xor_prefix pre post (e ▸ cstr_lt line)
  have hd : (cstr line).drop (pre.length + 1) = post := by
    rw [e]; simp
  unfold test_header_checksum
  simp only [hk, hd, hx]

/-- C3: `test_header_checksum` accepts a line exactly when its string contains
a `*`, the hexadecimal conversion of the text after the last `*` succeeds, and
the converted number equals the exclusive or of the bytes strictly between the
first character and that last `*`; in every other case the result is one of
the two fatal errors (format, checksum). -/
theorem test_header_checksum_accepts_iff (line : List Nat) :
    (test_header_checksum line = .ok () ↔
      ∃ pre post testval, cstr line = pre ++ 42 :: post ∧ 42 ∉ post ∧
        sscanf_hx post = some testval ∧ testval = xorAll (pre.drop 1)) ∧
    (test_header_checksum line ≠ .ok () →
      test_header_checksum line = .error .format ∨
      test_header_checksum line = .error .checksum) := by
  constructor
  · constructor
    · intro h
      cases hk : strrchr (cstr line) 42 with
      | none =>
        unfold test_header_checksum at h
        simp [hk] at h
      | some k =>
        obtain ⟨pre, post, e, hp, _⟩ := (strrchr_eq_some_iff _ _ _).mp hk
        rw [test_header_checksum_split line pre post e hp] at h
        cases hs : sscanf_hx post with
        | none => simp [hs] at h
        | some v =>
          refine ⟨pre, post, v, e, hp, hs, ?_⟩
          rw [hs] at h
          by_contra hne
          dsimp only at h
          rw [if_pos hne] at h
          cases h
    · rintro ⟨pre, post, v, e, hp, hs, hv⟩
      rw [test_header_checksum_split line pre post e hp, hs]
      simp [hv]
  · intro h
    cases hr : test_header_checksum line with
    | ok u => exact absurd hr h
    | error err => cases err <;> simp

theorem foldl_xor_init (l : List Nat) (a : Nat) :
    l.foldl (fun a x => a ^^^ x) a = a ^^^ xorAll l := by
  unfold xorAll
  induction l generalizing a with
  | nil => simp
  | cons x l ih =>
    rw [List.foldl_cons, List.foldl_cons, ih (a ^^^ x), ih (0 ^^^ x), Nat.zero_xor, Nat.xor_assoc]

theorem xorAll_cons (x : Nat) (l : List Nat) : xorAll (x :: l) = x ^^^ xorAll l := by
  show List.foldl (fun a x => a ^^^ x) (0 ^^^ x) l = _
  rw [foldl_xor_init, Nat.zero_xor]

theorem xorAll_set_ne (l : List Nat) (j v : Nat) (hj : j < l.length) (hne : v ≠ l[j]) :
    xorAll (l.set j v) ≠ xorAll l := by
  induction l generalizing j with
  | nil => simp at hj
  | cons x l ih =>
    cases j with
    | zero =>
      rw [List.set_cons_zero, xorAll_cons, xorAll_cons]
      intro h
      exact hne (Nat.xor_left_injective h)
    | succ j =>
      rw [List.set_cons_succ, xorAll_cons, xorAll_cons]
      intro h
      exact ih j (by simpa using hj) (by simpa using hne) (Nat.xor_right_inj.mp h)

theorem takeWhile_set (p : Nat → Bool) (l : List Nat) (i v : Nat)
    (hi : i < (l.takeWhile p).length) (hv : p v = true) :
    (l.set i v).takeWhile p = (l.takeWhile p).set i v := by
  induction l generalizing i with
  | nil => simp at hi
  | cons x l ih =>
    by_cases hx : p x = true
    · rw [List.takeWhile_cons_of_pos hx] at hi ⊢
      cases i with
      | zero => simp [List.takeWhile_cons, hv]
      | succ i =>
        rw [List.set_cons_succ, List.set_cons_succ, List.takeWhile_cons_of_pos hx,
          ih i (by simpa using hi)]
    · rw [List.takeWhile_cons_of_neg hx] at hi
      simp at hi

theorem cstr_set (line : List Nat) (i v : Nat) (hi : i < (cstr line).length)
    (hv : v < 256) (hv0 : v ≠ 0) : cstr (line.set i v) = (cstr line).set i v := by
  unfold cstr at hi ⊢
  rw [List.map_set, takeWhile_set _ _ _ _ hi (by simpa [Nat.mod_eq_of_lt hv] using hv0),
    Nat.mod_eq_of_lt hv]

theorem cstr_getElem (line : List Nat) (i : Nat) (hi : i < (cstr line).length) :
    (cstr line)[i] = byteAt line i := by
  have hpre : cstr line <+: line.map (fun x => x % 256) := List.takeWhile_prefix _
  have hlen : i < line.length := by
    have := hpre.length_le
    simp at this
    omega
  rw [hpre.getElem hi]
  unfold byteAt
  rw [List.getD_eq_getElem _ _ hlen]
  simp

theorem takeWhile_set_stop (p : Nat → Bool) (l : List Nat) (i v : Nat)
    (hi : i < (l.takeWhile p).length) (hv : p v = false) :
    (l.set i v).takeWhile p = (l.takeWhile p).take i := by
  induction l generalizing i with
  | nil => simp at hi
  | cons x l ih =>
    by_cases hx : p x = true
    · rw [List.takeWhile_cons_of_pos hx] at hi ⊢
      cases i with
      | zero => simp [List.takeWhile_cons, hv]
      | succ i =>
        rw [List.set_cons_succ, List.takeWhile_cons_of_pos hx, List.take_succ_cons,
          ih i (by simpa using hi)]
    · rw [List.takeWhile_cons_of_neg hx] at hi
      simp at hi

/-- Writing NUL into a string cuts it there. -/
theorem cstr_set_zero (line : List Nat) (i : Nat) (hi : i < (cstr line).length) :
    cstr (line.set i 0) = (cstr line).take i := by
  unfold cstr at hi ⊢
  rw [List.map_set, takeWhile_set_stop _ _ _ _ hi (by decide)]

theorem cstr_of_string (s : List Nat) (h : ∀ x ∈ s, x < 256 ∧ x ≠ 0) : cstr s = s := by
  unfold cstr
  induction s with
  | nil => rfl
  | cons a s ih =>
    have ha := h a (List.mem_cons_self _ _)
    rw [List.map_cons, List.takeWhile_cons_of_pos (by simpa [Nat.mod_eq_of_lt ha.1] using ha.2),
      ih (fun x hx => h x (List.mem_cons_of_mem _ hx)), Nat.mod_eq_of_lt ha.1]

theorem test_header_checksum_congr (a b : List Nat) (h : cstr a = cstr b) :
    test_header_checksum a = test_header_checksum b := by
  unfold test_header_checksum
  rw [h]
/-- C4 (amended): on a line that `test_header_checksum` accepts, replacing one
byte strictly between the first character and the last `*` by a different byte
`v` makes `test_header_checksum` fail with the checksum error when `v` is not
NUL, and with the format error when `v` is NUL and no `*` stands before the
replaced byte.  A NUL cuts the string at the replaced byte, and the result is
in every case that of the string cut there. -/
theorem header_mutation_rejected (line : List Nat) (endp i v : Nat)
    (hacc : test_header_checksum line = .ok ())
    (hend : strrchr (cstr line) 42 = some endp)
    (h0 : 0 < i) (hi : i < endp) (hv : v < 256) (hne : v ≠ byteAt line i) :
    (v ≠ 0 → test_header_checksum (line.set i v) = .error .checksum) ∧
    (v = 0 → (∀ k, k < i → byteAt line k ≠ 42) →
      test_header_checksum (line.set i v) = .error .format) ∧
    (v = 0 →
      test_header_checksum (line.set i v) = test_header_checksum ((cstr line).take i)) := by
  obtain ⟨pre, post, e, hp, hlen⟩ := (strrchr_eq_some_iff _ _ _).mp hend
  have hipre : i < pre.length := by omega
  have hic : i < (cstr line).length := by rw [e]; simp; omega
  have hcut : cstr (line.set i 0) = cstr ((cstr line).take i) := by
    rw [cstr_set_zero line i hic]
    refine (cstr_of_string _ ?_).symm
    intro x hx
    have hx1 : x ∈ cstr line := List.mem_of_mem_take hx
    exact ⟨cstr_lt line x hx1, fun h0 => by
      have : x ∈ (line.map (fun y => y % 256)).takeWhile (fun y => y != 0) := hx1
      have hh := List.mem_takeWhile_imp this
      simp [h0] at hh⟩
  refine ⟨?_, ?_, ?_⟩
  · intro hv0
    have hb : byteAt line i = pre[i] := by
      rw [← cstr_getElem line i hic]
      simp only [e]
      exact List.getElem_append_left hipre
    have e2 : cstr (line.set i v) = pre.set i v ++ 42 :: post := by
      rw [cstr_set line i v hic hv hv0, e, List.set_append_left i v hipre]
    rw [test_header_checksum_split line pre post e hp] at hacc
    rw [test_header_checksum_split _ _ post e2 hp]
    cases hs : sscanf_hx post with
    | none => simp [hs] at hacc
    | some t =>
      rw [hs] at hacc
      dsimp only at hacc ⊢
      have ht : t = xorAll (pre.drop 1) := by
        by_contra hc
        rw [if_pos hc] at hacc
        cases hacc
      have hx : xorAll ((pre.set i v).drop 1) ≠ xorAll (pre.drop 1) := by
        cases pre with
        | nil => simp at hipre
        | cons a l =>
          cases i with
          | zero => omega
          | succ j =>
            simp only [List.set_cons_succ, List.drop_succ_cons, List.drop_zero]
            exact xorAll_set_ne l j v (by simpa using hipre) (by simpa [hb] using hne)
      rw [if_pos (by rw [ht]; exact fun h => hx h.symm)]
  · intro hv0 hstar
    subst hv0
    have hno : 42 ∉ (cstr line).take i := by
      intro hm
      obtain ⟨k, hk, hk42⟩ := List.getElem_of_mem hm
      have hki : k < i := by
        have := hk
        simp only [List.length_take] at this
        omega
      rw [List.getElem_take] at hk42
      have hkc : k < (cstr line).length := by omega
      have := cstr_getElem line k hkc
      exact hstar k hki (by rw [← this]; exact hk42)
    unfold test_header_checksum
    rw [cstr_set_zero line i hic]
    simp only [(strrchr_eq_none_iff _ _).mpr hno]
  · intro hv0
    subst hv0
    exact test_header_checksum_congr _ _ hcut

/-- Instance of C4 (amended): in the accepted line `$A,1*5C` the byte `1` at
index 3 is replaced by `2`, and by NUL. -/
theorem header_mutation_rejected_witness :
    test_header_checksum [36, 65, 44, 49, 42, 53, 67] = .ok () ∧
    test_header_checksum ([36, 65, 44, 49, 42, 53, 67].set 3 50) = .error .checksum ∧
    test_header_checksum ([36, 65, 44, 49, 42, 53, 67].set 3 0) = .error .format :=
  ⟨by decide,
    (header_mutation_rejected [36, 65, 44, 49, 42, 53, 67] 4 3 50
      (by decide) (by decide) (by decide) (by decide) (by decide) (by decide)).1 (by decide),
    (header_mutation_rejected [36, 65, 44, 49, 42, 53, 67] 4 3 0
      (by decide) (by decide) (by decide) (by decide) (by decide) (by decide)).2.1 rfl
      (by decide)⟩

/-- C4 as stated fails: the line `$*00A*6B` is accepted, its last `*` is at
index 5, the byte `A` at index 4 lies strictly between the first character and
that `*`, and replacing it by the different byte 0 (NUL) gives memory whose
string is `$*00`, which is accepted as well. -/
theorem header_mutation_nul_accepted :
    test_header_checksum [36, 42, 48, 48, 65, 42, 54, 66] = .ok () ∧
    strrchr (cstr [36, 42, 48, 48, 65, 42, 54, 66]) 42 = some 5 ∧
    0 < 4 ∧ 4 < 5 ∧ 0 ≠ byteAt [36, 42, 48, 48, 65, 42, 54, 66] 4 ∧
    test_header_checksum ([36, 42, 48, 48, 65, 42, 54, 66].set 4 0) = .ok () := by
  decide

/-! ### Bit vectors -/

theorem testbit_eq (pv : Nat → Nat) (b : Nat) :
    testbit pv b = (pv (b / 8)).testBit (b % 8) := by
  unfold testbit
  rw [Nat.one_shiftLeft, Nat.and_two_pow]
  cases h : (pv (b / 8)).testBit (b % 8) <;> simp

theorem testBit_compl_bit : ∀ b < 8, ∀ c < 8, (255 - 2 ^ b).testBit c = !decide (b = c) := by
  decide

theorem testbit_setbit (pv : Nat → Nat) (i j : Nat) :
    testbit (setbit pv i) j = (decide (j = i) || testbit pv j) := by
  rw [testbit_eq, testbit_eq]
  unfold setbit
  by_cases hb : j / 8 = i / 8
  · rw [if_pos hb, Nat.one_shiftLeft, Nat.testBit_or, Nat.testBit_two_pow, Bool.or_comm]
    congr 1
    have : (i % 8 = j % 8) ↔ (j = i) := by omega
    simp [this]
  · rw [if_neg hb]
    have : ¬ j = i := fun h => hb (by rw [h])
    simp [this]

theorem testbit_clearbit (pv : Nat → Nat) (i j : Nat) :
    testbit (clearbit pv i) j = (!decide (j = i) && testbit pv j) := by
  rw [testbit_eq, testbit_eq]
  unfold clearbit
  by_cases hb : j / 8 = i / 8
  · rw [if_pos hb, Nat.one_shiftLeft, Nat.testBit_and,
      testBit_compl_bit (i % 8) (Nat.mod_lt _ (by decide)) (j % 8) (Nat.mod_lt _ (by decide)),
      Bool.and_comm]
    congr 2
    have : (i % 8 = j % 8) ↔ (j = i) := by omega
    simp [this]
  · rw [if_neg hb]
    have : ¬ j = i := fun h => hb (by rw [h])
    simp [this]

theorem countBits_succ (pv : Nat → Nat) (n : Nat) :
    countBits pv (n + 1) = countBits pv n + (if testbit pv n then 1 else 0) := by
  unfold countBits
  rw [List.range_succ, List.filter_append, List.length_append]
  by_cases h : testbit pv n = true <;> simp [h]

theorem forUpTo_succ {σ : Type} (n : Nat) (body : Nat → σ → σ) (s : σ) :
    forUpTo (n + 1) body s = body n (forUpTo n body s) := rfl

/-! ### The value stage -/

theorem value_step_snd (buf : List Nat) (vf sf : Nat → Nat) (i : Nat) (st : datarec × Nat) :
    (value_step buf vf sf i st).2 = st.2 + (if testbit vf i then 1 else 0) := by
  unfold value_step
  by_cases hv : testbit vf i = true <;> simp [hv]

theorem value_step_dif (buf : List Nat) (vf sf : Nat → Nat) (i : Nat) (st : datarec × Nat) :
    (value_step buf vf sf i st).1.dif = st.1.dif := by
  unfold value_step
  by_cases hv : testbit vf i = true <;> simp [hv]

theorem value_step_sarray (buf : List Nat) (vf sf : Nat → Nat) (i : Nat) (st : datarec × Nat)
    (k : Nat) :
    (value_step buf vf sf i st).1.sarray k =
      if k = i ∧ testbit vf i = true then
        apply_delta (testbit sf i) (st.1.sarray i) (byteAt buf st.2)
      else st.1.sarray k := by
  unfold value_step apply_delta
  by_cases hv : testbit vf i = true <;> by_cases hk : k = i <;> simp [hv, hk]

theorem value_step_na (buf : List Nat) (vf sf : Nat → Nat) (i : Nat) (st : datarec × Nat)
    (k : Nat) :
    testbit (value_step buf vf sf i st).1.naflags k =
      if k = i ∧ testbit vf i = true then decide (byteAt buf st.2 = 0)
      else testbit st.1.naflags k := by
  unfold value_step
  by_cases hv : testbit vf i = true
  · by_cases hb : byteAt buf st.2 = 0 <;> by_cases hk : k = i <;>
      simp [hv, hb, hk, testbit_setbit, testbit_clearbit]
  · simp [hv]

theorem value_loop_spec (buf : List Nat) (vf sf : Nat → Nat) (rec : datarec) (p n : Nat) :
    (forUpTo n (value_step buf vf sf) (rec, p)).2 = p + countBits vf n ∧
    (forUpTo n (value_step buf vf sf) (rec, p)).1.dif = rec.dif ∧
    (∀ k, (forUpTo n (value_step buf vf sf) (rec, p)).1.sarray k =
      if k < n ∧ testbit vf k = true then
        apply_delta (testbit sf k) (rec.sarray k) (byteAt buf (p + countBits vf k))
      else rec.sarray k) ∧
    (∀ k, testbit (forUpTo n (value_step buf vf sf) (rec, p)).1.naflags k =
      if k < n ∧ testbit vf k = true then decide (byteAt buf (p + countBits vf k) = 0)
      else testbit rec.naflags k) := by
  induction n with
  | zero => simp [forUpTo, countBits]
  | succ n ih =>
    obtain ⟨ihp, ihd, ihs, ihn⟩ := ih
    rw [forUpTo_succ, countBits_succ]
    refine ⟨?_, ?_, ?_, ?_⟩
    · rw [value_step_snd, ihp, Nat.add_assoc]
    · rw [value_step_dif, ihd]
    · intro k
      rw [value_step_sarray, ihp, ihs, ihs]
      by_cases hk : k = n
      · subst hk
        by_cases hv : testbit vf k = true <;> simp [hv]
      · have h1 : (k < n + 1) ↔ (k < n) := by omega
        simp only [hk, h1, false_and, if_false]
    · intro k
      rw [value_step_na, ihp, ihn]
      by_cases hk : k = n
      · subst hk
        by_cases hv : testbit vf k = true <;> simp [hv]
      · have h1 : (k < n + 1) ↔ (k < n) := by omega
        simp only [hk, h1, false_and, if_false]

/-- C5: in the value stage of a record, a slot `i < 48` whose bit is set in
`valflags` ends holding `old - b` when bit `i` of `signflags` is set and
`old + b` otherwise, reduced to a signed 16-bit value, where `b` (0..255) is
the raw delta byte of the slot: the byte at the start of the value bytes plus
the number of set `valflags` bits below `i`. -/
theorem value_stage_slot (buf : List Nat) (valflags signflags : Nat → Nat) (rec : datarec)
    (p i : Nat) (hi : i < 48) (hv : testbit valflags i = true) :
    byteAt buf (p + countBits valflags i) < 256 ∧
    (value_stage buf valflags signflags (rec, p)).1.sarray i =
      if testbit signflags i then
        wrap16 (rec.sarray i - byteAt buf (p + countBits valflags i))
      else
        wrap16 (rec.sarray i + byteAt buf (p + countBits valflags i)) := by
  refine ⟨Nat.mod_lt _ (by decide), ?_⟩
  unfold value_stage
  rw [(value_loop_spec buf valflags signflags rec p 48).2.2.1 i, if_pos ⟨hi, hv⟩]
  rfl

/-! ### The scale stage -/

theorem testbit_shift (sc : Nat → Nat) (j i : Nat) :
    testbit (fun m => sc (m + j)) i = testbit sc (8 * j + i) := by
  unfold testbit
  have h1 : (8 * j + i) / 8 = i / 8 + j := by omega
  have h2 : (8 * j + i) % 8 = i % 8 := by omega
  rw [h1, h2]

theorem countBits_shift (sc : Nat → Nat) (j n : Nat) :
    countBits sc (8 * j) + countBits (fun m => sc (m + j)) n = countBits sc (8 * j + n) := by
  induction n with
  | zero => simp [countBits]
  | succ n ih =>
    show countBits sc (8 * j) + countBits (fun m => sc (m + j)) (n + 1) =
      countBits sc ((8 * j + n) + 1)
    rw [countBits_succ, countBits_succ, ← ih, testbit_shift]
    omega

theorem scale_step_snd (buf : List Nat) (sc sf : Nat → Nat) (j i : Nat) (st : datarec × Nat) :
    (scale_step buf sc sf j i st).2 =
      st.2 + (if testbit (fun m => sc (m + j)) i then 1 else 0) := by
  unfold scale_step
  by_cases hv : testbit (fun m => sc (m + j)) i = true <;>
    by_cases hx : byteAt buf st.2 = 0 <;> simp [hv, hx]

theorem scale_step_dif (buf : List Nat) (sc sf : Nat → Nat) (j i : Nat) (st : datarec × Nat) :
    (scale_step buf sc sf j i st).1.dif = st.1.dif := by
  unfold scale_step
  by_cases hv : testbit (fun m => sc (m + j)) i = true <;>
    by_cases hx : byteAt buf st.2 = 0 <;> simp [hv, hx]

theorem scale_step_sarray (buf : List Nat) (sc sf : Nat → Nat) (j i : Nat) (st : datarec × Nat)
    (k : Nat) :
    (scale_step buf sc sf j i st).1.sarray k =
      if k = j * TWINJUMP + i ∧ testbit (fun m => sc (m + j)) i = true then
        apply_scale (testbit sf k) (st.1.sarray k) (byteAt buf st.2)
      else st.1.sarray k := by
  unfold scale_step apply_scale
  by_cases hv : testbit (fun m => sc (m + j)) i = true <;>
    by_cases hx : byteAt buf st.2 = 0 <;>
    by_cases hk : k = j * TWINJUMP + i <;> simp [hv, hx, hk]

theorem scale_step_na (buf : List Nat) (sc sf : Nat → Nat) (j i : Nat) (st : datarec × Nat)
    (k : Nat) :
    testbit (scale_step buf sc sf j i st).1.naflags k =
      if k = j * TWINJUMP + i ∧ testbit (fun m => sc (m + j)) i = true ∧ byteAt buf st.2 ≠ 0
      then false
      else testbit st.1.naflags k := by
  unfold scale_step
  by_cases hv : testbit (fun m => sc (m + j)) i = true <;>
    by_cases hx : byteAt buf st.2 = 0 <;>
    by_cases hk : k = j * TWINJUMP + i <;> simp [hv, hx, hk, testbit_clearbit]

theorem scale_loop_spec (buf : List Nat) (sc sf : Nat → Nat) (j : Nat) (rec : datarec)
    (p n : Nat) :
    (forUpTo n (scale_step buf sc sf j) (rec, p)).2 = p + countBits (fun m => sc (m + j)) n ∧
    (forUpTo n (scale_step buf sc sf j) (rec, p)).1.dif = rec.dif ∧
    (∀ k, (forUpTo n (scale_step buf sc sf j) (rec, p)).1.sarray k =
      if j * TWINJUMP ≤ k ∧ k < j * TWINJUMP + n ∧
          testbit (fun m => sc (m + j)) (k - j * TWINJUMP) = true then
        apply_scale (testbit sf k) (rec.sarray k)
          (byteAt buf (p + countBits (fun m => sc (m + j)) (k - j * TWINJUMP)))
      else rec.sarray k) ∧
    (∀ k, testbit (forUpTo n (scale_step buf sc sf j) (rec, p)).1.naflags k =
      if j * TWINJUMP ≤ k ∧ k < j * TWINJUMP + n ∧
          testbit (fun m => sc (m + j)) (k - j * TWINJUMP) = true ∧
          byteAt buf (p + countBits (fun m => sc (m + j)) (k - j * TWINJUMP)) ≠ 0 then false
      else testbit rec.naflags k) := by
  induction n with
  | zero =>
    refine ⟨by simp [forUpTo, countBits], rfl, fun k => ?_, fun k => ?_⟩
    · rw [if_neg (fun h => by omega)]; rfl
    · rw [if_neg (fun h => by omega)]; rfl
  | succ n ih =>
    obtain ⟨ihp, ihd, ihs, ihn⟩ := ih
    rw [forUpTo_succ, countBits_succ]
    refine ⟨?_, ?_, ?_, ?_⟩
    · rw [scale_step_snd, ihp, Nat.add_assoc]
    · rw [scale_step_dif, ihd]
    · intro k
      rw [scale_step_sarray, ihp, ihs]
      by_cases hk : k = j * TWINJUMP + n
      · subst hk
        by_cases hv : testbit (fun m => sc (m + j)) n = true <;> simp [hv]
      · have h1 : (j * TWINJUMP ≤ k ∧ k < j * TWINJUMP + (n + 1)) ↔
            (j * TWINJUMP ≤ k ∧ k < j * TWINJUMP + n) := by omega
        simp only [hk, false_and, if_false, ← and_assoc, h1]
    · intro k
      rw [scale_step_na, ihp, ihn]
      by_cases hk : k = j * TWINJUMP + n
      · subst hk
        by_cases hv : testbit (fun m => sc (m + j)) n = true <;>
          by_cases hx : byteAt buf (p + countBits (fun m => sc (m + j)) n) = 0 <;>
          simp [hv, hx]
      · have h1 : (j * TWINJUMP ≤ k ∧ k < j * TWINJUMP + (n + 1)) ↔
            (j * TWINJUMP ≤ k ∧ k < j * TWINJUMP + n) := by omega
        simp only [hk, false_and, if_false, ← and_assoc, h1]

theorem countBits_shift_zero (sc : Nat → Nat) (n : Nat) :
    countBits (fun m => sc (m + 0)) n = countBits sc n := rfl

theorem countBits_shift_one (sc : Nat → Nat) (n : Nat) :
    countBits sc 8 + countBits (fun m => sc (m + 1)) n = countBits sc (8 + n) :=
  countBits_shift sc 1 n

theorem scale_stage_eq (buf : List Nat) (sc sf : Nat → Nat) (st : datarec × Nat) :
    scale_stage buf sc sf st =
      forUpTo 8 (scale_step buf sc sf 1)
        ((forUpTo 8 (scale_step buf sc sf 0) (st.1, st.2)).1,
         (forUpTo 8 (scale_step buf sc sf 0) (st.1, st.2)).2) := rfl

theorem scale_stage_spec (buf : List Nat) (sc sf : Nat → Nat) (rec : datarec) (p : Nat) :
    (scale_stage buf sc sf (rec, p)).2 = p + countBits sc 16 ∧
    (scale_stage buf sc sf (rec, p)).1.dif = rec.dif ∧
    (∀ k, (scale_stage buf sc sf (rec, p)).1.sarray k =
      match scale_bit k with
      | some b =>
        if testbit sc b = true then
          apply_scale (testbit sf k) (rec.sarray k) (byteAt buf (p + countBits sc b))
        else rec.sarray k
      | none => rec.sarray k) ∧
    (∀ k, testbit (scale_stage buf sc sf (rec, p)).1.naflags k =
      match scale_bit k with
      | some b =>
        if testbit sc b = true ∧ byteAt buf (p + countBits sc b) ≠ 0 then false
        else testbit rec.naflags k
      | none => testbit rec.naflags k) := by
  rw [scale_stage_eq]
  obtain ⟨ap, ad, as, an⟩ := scale_loop_spec buf sc sf 0 rec p 8
  obtain ⟨bp, bd, bs, bn⟩ := scale_loop_spec buf sc sf 1
    (forUpTo 8 (scale_step buf sc sf 0) (rec, p)).1
    (forUpTo 8 (scale_step buf sc sf 0) (rec, p)).2 8
  rw [countBits_shift_zero] at ap
  rw [ap] at bp bd bs bn ⊢
  have hp1 : ∀ n, p + countBits sc 8 + countBits (fun m => sc (m + 1)) n =
      p + countBits sc (8 + n) := by
    intro n; rw [Nat.add_assoc, countBits_shift_one]
  refine ⟨?_, ?_, ?_, ?_⟩
  · rw [bp, hp1]
  · rw [bd, ad]
  · intro k
    have A := as k
    have B := bs k
    simp only [TWINJUMP, Nat.zero_mul, Nat.one_mul, Nat.zero_add, Nat.sub_zero, Nat.zero_le,
      true_and, testbit_shift, countBits_shift_zero, Nat.mul_zero, Nat.mul_one] at A B
    rw [hp1] at B
    rw [B, A]
    unfold scale_bit
    by_cases h8 : k < 8
    · have h24 : ¬ 24 ≤ k := by omega
      simp [h8, h24]
    · by_cases h24 : 24 ≤ k ∧ k < 32
      · have e : 8 + (k - 24) = k - 16 := by omega
        have h32 : k < 24 + 8 := by omega
        simp [h8, h24.1, h24.2, h32, e]
      · have h32 : ¬ (24 ≤ k ∧ k < 24 + 8 ∧ testbit sc (8 + (k - 24)) = true) :=
          fun h => h24 ⟨h.1, by omega⟩
        simp only [if_neg h32, h8, false_and, if_false, if_neg h24]
  · intro k
    have A := an k
    have B := bn k
    simp only [TWINJUMP, Nat.zero_mul, Nat.one_mul, Nat.zero_add, Nat.sub_zero, Nat.zero_le,
      true_and, testbit_shift, countBits_shift_zero, Nat.mul_zero, Nat.mul_one] at A B
    rw [hp1] at B
    rw [B, A]
    unfold scale_bit
    by_cases h8 : k < 8
    · have h24 : ¬ 24 ≤ k := by omega
      simp [h8, h24]
    · by_cases h24 : 24 ≤ k ∧ k < 32
      · have e : 8 + (k - 24) = k - 16 := by omega
        have h32 : k < 24 + 8 := by omega
        simp [h8, h24.1, h24.2, h32, e]
      · have h32 : ¬ (24 ≤ k ∧ k < 24 + 8 ∧ testbit sc (8 + (k - 24)) = true ∧
            byteAt buf (p + countBits sc (8 + (k - 24))) ≠ 0) :=
          fun h => h24 ⟨h.1, by omega⟩
        simp only [if_neg h32, h8, false_and, if_false, if_neg h24]

/-! ### The RPM special case and `calcstuff` -/

theorem wrap16_of_range (x : Int) (h1 : -32768 ≤ x) (h2 : x ≤ 32767) : wrap16 x = x := by
  unfold wrap16; omega

theorem wrap16_add_left (a b : Int) : wrap16 (wrap16 a + b) = wrap16 (a + b) := by
  unfold wrap16; omega

theorem wrap16_sub_left (a b : Int) : wrap16 (wrap16 a - b) = wrap16 (a - b) := by
  unfold wrap16; omega

theorem spread_loop_frame (c n : Nat) (rec : datarec) :
    (forUpTo n (spread_engine c) rec).sarray = rec.sarray ∧
    (forUpTo n (spread_engine c) rec).naflags = rec.naflags := by
  induction n with
  | zero => exact ⟨rfl, rfl⟩
  | succ n ih => rw [forUpTo_succ]; exact ih

theorem calcstuff_naflags (env : Env) (f : Nat) (rec : datarec) :
    (calcstuff env f rec).naflags = rec.naflags := by
  simp only [calcstuff]
  split
  · exact (spread_loop_frame _ _ rec).2
  · exact (spread_loop_frame _ _ rec).2

theorem calcstuff_sarray (env : Env) (f : Nat) (rec : datarec) (k : Nat) :
    (calcstuff env f rec).sarray k =
      if HASRPM f = true then
        if k = RPM_HIGHBYTE_FIELD_NUM then 0
        else if k = RPM_FIELD_NUM then
          wrap16 (rec.sarray RPM_FIELD_NUM + rec.sarray RPM_HIGHBYTE_FIELD_NUM * 256)
        else rec.sarray k
      else rec.sarray k := by
  simp only [calcstuff]
  split
  · simp only [(spread_loop_frame _ _ rec).1]
  · simp only [(spread_loop_frame _ _ rec).1]

theorem rpm_negate_naflags (sf : Nat → Nat) (rec : datarec) :
    (rpm_negate sf rec).naflags = rec.naflags := by
  unfold rpm_negate; split <;> rfl

theorem rpm_negate_sarray (sf : Nat → Nat) (rec : datarec) (k : Nat) :
    (rpm_negate sf rec).sarray k =
      if k = RPM_HIGHBYTE_FIELD_NUM ∧ testbit sf RPM_FIELD_NUM = true then
        wrap16 (- rec.sarray RPM_HIGHBYTE_FIELD_NUM)
      else rec.sarray k := by
  unfold rpm_negate
  by_cases h : testbit sf RPM_FIELD_NUM = true <;>
    by_cases hk : k = RPM_HIGHBYTE_FIELD_NUM <;> simp [h, hk]

theorem rpm_clear_na_sarray (rec : datarec) : (rpm_clear_na rec).sarray = rec.sarray := by
  unfold rpm_clear_na; split <;> rfl

theorem rpm_clear_na_na (rec : datarec) (k : Nat) :
    testbit (rpm_clear_na rec).naflags k =
      if k = RPM_FIELD_NUM ∧ rec.sarray RPM_HIGHBYTE_FIELD_NUM ≠ 0 then false
      else testbit rec.naflags k := by
  unfold rpm_clear_na
  by_cases h : rec.sarray RPM_HIGHBYTE_FIELD_NUM = 0 <;>
    by_cases hk : k = RPM_FIELD_NUM <;> simp [h, hk, testbit_clearbit]

theorem rpm_fixup_sarray (env : Env) (sf : Nat → Nat) (rec : datarec) (k : Nat) :
    (rpm_fixup env sf rec).sarray k =
      if k = RPM_HIGHBYTE_FIELD_NUM ∧ NUMENGINE env = 1 ∧ testbit sf RPM_FIELD_NUM = true then
        wrap16 (- rec.sarray RPM_HIGHBYTE_FIELD_NUM)
      else rec.sarray k := by
  unfold rpm_fixup
  by_cases h1 : NUMENGINE env = 1
  · rw [if_pos h1, rpm_clear_na_sarray, rpm_negate_sarray]
    simp only [h1, true_and]
  · rw [if_neg h1, if_neg (fun h => h1 h.2.1)]

theorem rpm_fixup_na (env : Env) (sf : Nat → Nat) (rec : datarec) (k : Nat) :
    testbit (rpm_fixup env sf rec).naflags k =
      if k = RPM_FIELD_NUM ∧ NUMENGINE env = 1 ∧
          (rpm_fixup env sf rec).sarray RPM_HIGHBYTE_FIELD_NUM ≠ 0 then false
      else testbit rec.naflags k := by
  unfold rpm_fixup
  by_cases h1 : NUMENGINE env = 1
  · simp only [h1, if_true, true_and, rpm_clear_na_na, rpm_clear_na_sarray, rpm_negate_naflags]
  · rw [if_neg h1, if_neg (fun h => h1 h.2.1)]

/-! ### The delta bytes of one record -/

theorem value_byte_lt (buf : List Nat) (p0 i : Nat) : value_byte buf p0 i < 256 :=
  Nat.mod_lt _ (by decide)

theorem scale_byte_lt (buf : List Nat) (p0 b : Nat) : scale_byte buf p0 b < 256 :=
  Nat.mod_lt _ (by decide)

theorem after_value_sarray (buf : List Nat) (rec : datarec) (p0 k : Nat) :
    (after_value buf rec p0).1.sarray k =
      if k < 48 ∧ testbit (record_flags buf p0).valflags k = true then
        apply_delta (testbit (record_flags buf p0).signflags k) (rec.sarray k) (value_byte buf p0 k)
      else rec.sarray k :=
  (value_loop_spec buf _ _ rec _ 48).2.2.1 k

theorem after_value_na (buf : List Nat) (rec : datarec) (p0 k : Nat) :
    testbit (after_value buf rec p0).1.naflags k =
      if k < 48 ∧ testbit (record_flags buf p0).valflags k = true then
        decide (value_byte buf p0 k = 0)
      else testbit rec.naflags k :=
  (value_loop_spec buf _ _ rec _ 48).2.2.2 k

theorem after_value_snd (buf : List Nat) (rec : datarec) (p0 : Nat) :
    (after_value buf rec p0).2 =
      (record_flags buf p0).pFlight + countBits (record_flags buf p0).valflags 48 :=
  (value_loop_spec buf _ _ rec _ 48).1

theorem after_scale_eq (buf : List Nat) (rec : datarec) (p0 : Nat) :
    after_scale buf rec p0 =
      scale_stage buf (record_flags buf p0).scaleflags (record_flags buf p0).signflags
        ((after_value buf rec p0).1, (after_value buf rec p0).2) := rfl

theorem after_scale_sarray (buf : List Nat) (rec : datarec) (p0 k : Nat) :
    (after_scale buf rec p0).1.sarray k =
      match scale_bit k with
      | some b =>
        if testbit (record_flags buf p0).scaleflags b = true then
          apply_scale (testbit (record_flags buf p0).signflags k)
            ((after_value buf rec p0).1.sarray k) (scale_byte buf p0 b)
        else (after_value buf rec p0).1.sarray k
      | none => (after_value buf rec p0).1.sarray k := by
  rw [after_scale_eq, (scale_stage_spec buf _ _ _ _).2.2.1 k, after_value_snd]
  rfl

theorem after_scale_na (buf : List Nat) (rec : datarec) (p0 k : Nat) :
    testbit (after_scale buf rec p0).1.naflags k =
      match scale_bit k with
      | some b =>
        if testbit (record_flags buf p0).scaleflags b = true ∧ scale_byte buf p0 b ≠ 0 then false
        else testbit (after_value buf rec p0).1.naflags k
      | none => testbit (after_value buf rec p0).1.naflags k := by
  rw [after_scale_eq, (scale_stage_spec buf _ _ _ _).2.2.2 k, after_value_snd]
  rfl

theorem after_scale_snd (buf : List Nat) (rec : datarec) (p0 : Nat) :
    (after_scale buf rec p0).2 =
      (record_flags buf p0).pFlight + countBits (record_flags buf p0).valflags 48 +
        countBits (record_flags buf p0).scaleflags 16 := by
  rw [after_scale_eq, (scale_stage_spec buf _ _ _ _).1, after_value_snd]

theorem decode_deltas_fst (env : Env) (flags : Nat) (buf : List Nat) (rec : datarec) (p0 : Nat) :
    (decode_deltas env flags buf rec p0).1 =
      calcstuff env flags (rpm_fixup env (record_flags buf p0).signflags (after_scale buf rec p0).1) :=
  rfl

/-- A slot other than `rpm` and `rpm_highbyte` leaves the record as the scale stage left it. -/
theorem decode_deltas_sarray_other (env : Env) (flags : Nat) (buf : List Nat) (rec : datarec)
    (p0 k : Nat) (h41 : k ≠ 41) (h42 : k ≠ 42) :
    (decode_deltas env flags buf rec p0).1.sarray k = (after_scale buf rec p0).1.sarray k := by
  simp only [decode_deltas_fst, calcstuff_sarray, rpm_fixup_sarray, RPM_FIELD_NUM,
    RPM_HIGHBYTE_FIELD_NUM, h41, h42, false_and, if_false, ite_self]

theorem decode_deltas_na (env : Env) (flags : Nat) (buf : List Nat) (rec : datarec)
    (p0 k : Nat) :
    testbit (decode_deltas env flags buf rec p0).1.naflags k =
      if k = 41 ∧ NUMENGINE env = 1 ∧
        (rpm_fixup env (record_flags buf p0).signflags (after_scale buf rec p0).1).sarray 42 ≠ 0
      then false
      else testbit (after_scale buf rec p0).1.naflags k := by
  rw [decode_deltas_fst, calcstuff_naflags, rpm_fixup_na]
  rfl

theorem scale_bit_of_engine (j i : Nat) (hj : j < 2) (hi : i < 8) :
    scale_bit (j * TWINJUMP + i) = some (8 * j + i) := by
  unfold scale_bit TWINJUMP
  have hj2 : j = 0 ∨ j = 1 := by omega
  rcases hj2 with rfl | rfl
  · simp [hi]
  · have h1 : ¬ (1 * 24 + i < 8) := by omega
    have h2 : 24 ≤ 1 * 24 + i ∧ 1 * 24 + i < 32 := by omega
    rw [if_neg h1, if_pos h2]
    congr 1
    omega

theorem shift8_byte (x : Nat) (hx : x < 256) : ((x <<< 8) % 65536 : Nat) = 256 * x := by
  rw [Nat.shiftLeft_eq]
  omega

theorem apply_scale_delta (sign : Bool) (old : Int) (lo hi : Nat) (hhi : hi < 256) :
    apply_scale sign (apply_delta sign old lo) hi =
      if sign then wrap16 (old - ((256 * hi + lo : Nat) : Int))
      else wrap16 (old + ((256 * hi + lo : Nat) : Int)) := by
  unfold apply_scale apply_delta
  rw [shift8_byte hi hhi]
  by_cases h0 : hi = 0
  · subst h0
    cases sign <;> simp
  · rw [if_neg h0]
    cases sign
    · simp only [Bool.false_eq_true, if_false]
      rw [wrap16_add_left]
      congr 1
      push_cast
      ring
    · simp only [if_true]
      rw [wrap16_sub_left]
      congr 1
      push_cast
      ring

/-- C7: the scale bits address the slots `24 j + i` (`j < 2`, `i < 8`), that is
0..7 and 24..31, and no other slot.  For such a slot whose value bit and scale
bit are both set, with low delta byte `lo` and scale byte `hi`, the record
changes the slot by `+(256 hi + lo)` when its sign bit is clear and by
`-(256 hi + lo)` when it is set, modulo 2^16; a nonzero `hi` clears the NA flag
of the slot, and `hi = 0` leaves the value and the NA flag as the value stage
left them. -/
theorem scale_extension (env : Env) (flags : Nat) (buf : List Nat) (rec : datarec)
    (p0 j i : Nat) (hj : j < 2) (hi : i < 8)
    (hv : testbit (record_flags buf p0).valflags (j * TWINJUMP + i) = true)
    (hs : testbit (fun m => (record_flags buf p0).scaleflags (m + j)) i = true) :
    (decode_deltas env flags buf rec p0).1.sarray (j * TWINJUMP + i) =
      (if testbit (record_flags buf p0).signflags (j * TWINJUMP + i) = true then
        wrap16 (rec.sarray (j * TWINJUMP + i) -
          ((256 * scale_byte buf p0 (8 * j + i) + value_byte buf p0 (j * TWINJUMP + i) : Nat) : Int))
      else
        wrap16 (rec.sarray (j * TWINJUMP + i) +
          ((256 * scale_byte buf p0 (8 * j + i) + value_byte buf p0 (j * TWINJUMP + i) : Nat) : Int))) ∧
    (scale_byte buf p0 (8 * j + i) ≠ 0 →
      testbit (decode_deltas env flags buf rec p0).1.naflags (j * TWINJUMP + i) = false) ∧
    (scale_byte buf p0 (8 * j + i) = 0 →
      (decode_deltas env flags buf rec p0).1.sarray (j * TWINJUMP + i) =
        (after_value buf rec p0).1.sarray (j * TWINJUMP + i) ∧
      testbit (decode_deltas env flags buf rec p0).1.naflags (j * TWINJUMP + i) =
        testbit (after_value buf rec p0).1.naflags (j * TWINJUMP + i)) ∧
    (∀ m, ¬ m < 8 → ¬ (24 ≤ m ∧ m < 32) →
      (after_scale buf rec p0).1.sarray m = (after_value buf rec p0).1.sarray m ∧
      testbit (after_scale buf rec p0).1.naflags m =
        testbit (after_value buf rec p0).1.naflags m) := by
  have hk48 : j * TWINJUMP + i < 48 := by unfold TWINJUMP; omega
  have h41 : j * TWINJUMP + i ≠ 41 := by unfold TWINJUMP; omega
  have h42 : j * TWINJUMP + i ≠ 42 := by unfold TWINJUMP; omega
  have hs2 : testbit (record_flags buf p0).scaleflags (8 * j + i) = true := by
    rw [← testbit_shift]; exact hs
  have hsar : (decode_deltas env flags buf rec p0).1.sarray (j * TWINJUMP + i) =
      apply_scale (testbit (record_flags buf p0).signflags (j * TWINJUMP + i))
        ((after_value buf rec p0).1.sarray (j * TWINJUMP + i)) (scale_byte buf p0 (8 * j + i)) := by
    rw [decode_deltas_sarray_other env flags buf rec p0 _ h41 h42, after_scale_sarray,
      scale_bit_of_engine j i hj hi]
    simp only [hs2, if_true]
  have hna : testbit (decode_deltas env flags buf rec p0).1.naflags (j * TWINJUMP + i) =
      if scale_byte buf p0 (8 * j + i) ≠ 0 then false
      else testbit (after_value buf rec p0).1.naflags (j * TWINJUMP + i) := by
    rw [decode_deltas_na, if_neg (fun h => h41 h.1), after_scale_na,
      scale_bit_of_engine j i hj hi]
    simp only [hs2, true_and]
  refine ⟨?_, ?_, ?_, ?_⟩
  · rw [hsar, after_value_sarray, if_pos ⟨hk48, hv⟩,
      apply_scale_delta _ _ _ _ (scale_byte_lt buf p0 _)]
  · intro h0
    rw [hna, if_pos h0]
  · intro h0
    constructor
    · rw [hsar]; simp [apply_scale, h0]
    · rw [hna]; simp [h0]
  · intro m h8 h24
    have hb : scale_bit m = none := by
      unfold scale_bit; rw [if_neg h8, if_neg h24]
    rw [after_scale_sarray, after_scale_na, hb]
    exact ⟨rfl, rfl⟩

theorem scale_bit_41 : scale_bit 41 = none := by decide

theorem scale_bit_42 : scale_bit 42 = none := by decide

/-- C8: single engine, RPM flag present, `rpm_highbyte = 0` before the record.
A record that carries the RPM low byte `lo` (slot 41) and the high byte `hi`
(slot 42, its own sign bit clear) leaves `rpm = rpm_old + (256 hi + lo)` when
the sign bit of RPM is clear and `rpm_old - (256 hi + lo)` when it is set
(modulo 2^16), `rpm_highbyte = 0`, and the NA flag of RPM clear when `hi ≠ 0`. -/
theorem rpm_fold (env : Env) (flags : Nat) (buf : List Nat) (rec : datarec) (p0 : Nat)
    (hsingle : NUMENGINE env = 1) (hrpm : HASRPM flags = true)
    (h0 : rec.sarray RPM_HIGHBYTE_FIELD_NUM = 0)
    (hv41 : testbit (record_flags buf p0).valflags RPM_FIELD_NUM = true)
    (hv42 : testbit (record_flags buf p0).valflags RPM_HIGHBYTE_FIELD_NUM = true)
    (hs42 : testbit (record_flags buf p0).signflags RPM_HIGHBYTE_FIELD_NUM = false) :
    (decode_deltas env flags buf rec p0).1.sarray RPM_FIELD_NUM =
      (if testbit (record_flags buf p0).signflags RPM_FIELD_NUM = true then
        wrap16 (rec.sarray RPM_FIELD_NUM -
          ((256 * value_byte buf p0 RPM_HIGHBYTE_FIELD_NUM + value_byte buf p0 RPM_FIELD_NUM : Nat) : Int))
      else
        wrap16 (rec.sarray RPM_FIELD_NUM +
          ((256 * value_byte buf p0 RPM_HIGHBYTE_FIELD_NUM + value_byte buf p0 RPM_FIELD_NUM : Nat) : Int))) ∧
    (decode_deltas env flags buf rec p0).1.sarray RPM_HIGHBYTE_FIELD_NUM = 0 ∧
    (value_byte buf p0 RPM_HIGHBYTE_FIELD_NUM ≠ 0 →
      testbit (decode_deltas env flags buf rec p0).1.naflags RPM_FIELD_NUM = false) := by
  have hlo := value_byte_lt buf p0 RPM_FIELD_NUM
  have hhi := value_byte_lt buf p0 RPM_HIGHBYTE_FIELD_NUM
  simp only [RPM_FIELD_NUM, RPM_HIGHBYTE_FIELD_NUM] at *
  have s41 : (after_scale buf rec p0).1.sarray 41 =
      apply_delta (testbit (record_flags buf p0).signflags 41) (rec.sarray 41)
        (value_byte buf p0 41) := by
    rw [after_scale_sarray, scale_bit_41]
    simp only [after_value_sarray, hv41, and_true, show (41 : Nat) < 48 by decide, if_true]
  have s42 : (after_scale buf rec p0).1.sarray 42 = (value_byte buf p0 42 : Int) := by
    rw [after_scale_sarray, scale_bit_42]
    simp only [after_value_sarray, hv42, and_true, show (42 : Nat) < 48 by decide, if_true,
      hs42, apply_delta, h0, Bool.false_eq_true, if_false, Int.zero_add]
    exact wrap16_of_range _ (by omega) (by omega)
  have f42 : (rpm_fixup env (record_flags buf p0).signflags (after_scale buf rec p0).1).sarray 42 =
      if testbit (record_flags buf p0).signflags 41 = true then - (value_byte buf p0 42 : Int)
      else (value_byte buf p0 42 : Int) := by
    rw [rpm_fixup_sarray]
    simp only [RPM_FIELD_NUM, RPM_HIGHBYTE_FIELD_NUM, hsingle, true_and, s42]
    split
    · unfold wrap16; omega
    · rfl
  have f41 : (rpm_fixup env (record_flags buf p0).signflags (after_scale buf rec p0).1).sarray 41 =
      apply_delta (testbit (record_flags buf p0).signflags 41) (rec.sarray 41)
        (value_byte buf p0 41) := by
    rw [rpm_fixup_sarray]
    simp only [RPM_FIELD_NUM, RPM_HIGHBYTE_FIELD_NUM, show ¬ (41 : Nat) = 42 by decide,
      false_and, if_false, s41]
  refine ⟨?_, ?_, ?_⟩
  · rw [decode_deltas_fst, calcstuff_sarray]
    simp only [RPM_FIELD_NUM, RPM_HIGHBYTE_FIELD_NUM, hrpm, if_true,
      show ¬ (41 : Nat) = 42 by decide, if_false, f41, f42, apply_delta]
    by_cases hsg : testbit (record_flags buf p0).signflags 41 = true
    · simp only [hsg, if_true]
      unfold wrap16; push_cast; omega
    · simp only [hsg, if_false]
      have hsg2 : testbit (record_flags buf p0).signflags 41 = false := by simpa using hsg
      simp only [hsg2, Bool.false_eq_true, if_false]
      unfold wrap16; push_cast; omega
  · rw [decode_deltas_fst, calcstuff_sarray]
    simp only [RPM_HIGHBYTE_FIELD_NUM, hrpm, if_true]
  · intro hne
    rw [decode_deltas_na, if_pos]
    refine ⟨rfl, hsingle, ?_⟩
    rw [f42]
    split <;> omega

theorem format_slot_na (rec : datarec) (offset nScale : Nat)
    (h : testbit rec.naflags offset = true) : format_slot rec offset nScale = ",\"NA\"" := by
  unfold format_slot
  simp [h]

theorem format_field_shown (env : Env) (rec : datarec) (j : Nat) (fd : FieldDesc)
    (hs : field_shown env j fd = true) (ho : 0 ≤ fd.nOffset) :
    format_field env rec j fd = format_slot rec (field_slot j fd) fd.nScale := by
  unfold field_shown at hs
  simp only [Bool.and_eq_true, Bool.not_eq_true'] at hs
  obtain ⟨⟨h1, h2⟩, h3⟩ := hs
  unfold format_field field_slot
  rw [h1, h2, h3]
  simp only [Bool.false_eq_true, if_false, if_true]
  rw [if_neg (by omega)]

theorem wrap16_neg_zero : wrap16 (-0) = 0 := by decide

/-- C6 (amended): NA persistence.  Record A carries for slot `i < 48` a value
byte equal to 0 and no nonzero scale byte, and, when the configuration is
single-engine and `i` is the RPM slot, the RPM high-byte slot holds 0 once the
value bytes are applied: after A the NA flag of slot `i` is set and
`formatdata` renders every stored field it shows from slot `i` as `"NA"`.  The
stored value of slot `i`, a signed 16-bit value, is after A the value before A,
but for the RPM special case: with `hb` the high byte, slot 42 once the value
bytes are applied, negated on a single engine when the sign bit of slot 41 is
set, slot 41 holds its value plus `256 * hb` (modulo 2^16) when the flight has
the RPM flag, and slot 42 holds 0 when the flight has the RPM flag and `hb`
otherwise.  So the value is unchanged in each of these cases: `i` is neither 41
nor 42; `i` is 41 and the flight has no RPM flag or slot 42 holds 0 once the
value bytes are applied; `i` is 42 and slot 42 holds 0 once the value bytes are
applied, or the flight has no RPM flag and the record does not negate the high
byte (two engines, or the sign bit of slot 41 clear).  Record B carries no
value byte and no nonzero scale byte for slot `i`
(same proviso for single-engine RPM): B leaves the NA flag as it was.  Record C
carries a nonzero value byte for slot `i`: C clears the NA flag. -/
theorem na_persistence (env : Env) (flags : Nat) (buf : List Nat) (i : Nat) (hi : i < 48)
    (recA : datarec) (pA : Nat)
    (hvA : testbit (record_flags buf pA).valflags i = true)
    (hbA : value_byte buf pA i = 0)
    (hscA : ∀ b, scale_bit i = some b → testbit (record_flags buf pA).scaleflags b = true →
      scale_byte buf pA b = 0)
    (hrpmA : NUMENGINE env = 1 → i = 41 → (after_value buf recA pA).1.sarray 42 = 0)
    (recB : datarec) (pB : Nat)
    (hvB : testbit (record_flags buf pB).valflags i = false)
    (hscB : ∀ b, scale_bit i = some b → testbit (record_flags buf pB).scaleflags b = true →
      scale_byte buf pB b = 0)
    (hrpmB : NUMENGINE env = 1 → i = 41 → (after_value buf recB pB).1.sarray 42 = 0)
    (recC : datarec) (pC : Nat)
    (hvC : testbit (record_flags buf pC).valflags i = true)
    (hbC : value_byte buf pC i ≠ 0) :
    (testbit (decode_deltas env flags buf recA pA).1.naflags i = true ∧
      (∀ j fd, field_shown env j fd = true → 0 ≤ fd.nOffset → field_slot j fd = i →
        format_field env (decode_deltas env flags buf recA pA).1 j fd = ",\"NA\"") ∧
      (-32768 ≤ recA.sarray i ∧ recA.sarray i ≤ 32767 →
        (decode_deltas env flags buf recA pA).1.sarray i =
          if i = 41 then
            if HASRPM flags = true then
              wrap16 (recA.sarray 41 +
                (rpm_fixup env (record_flags buf pA).signflags
                  (after_value buf recA pA).1).sarray 42 * 256)
            else recA.sarray 41
          else if i = 42 then
            if HASRPM flags = true then 0
            else (rpm_fixup env (record_flags buf pA).signflags
              (after_value buf recA pA).1).sarray 42
          else recA.sarray i) ∧
      (-32768 ≤ recA.sarray i ∧ recA.sarray i ≤ 32767 →
        (i = 41 → HASRPM flags = false ∨ (after_value buf recA pA).1.sarray 42 = 0) →
        (i = 42 → (after_value buf recA pA).1.sarray 42 = 0 ∨
          (HASRPM flags = false ∧
            ¬ (NUMENGINE env = 1 ∧ testbit (record_flags buf pA).signflags 41 = true))) →
        (decode_deltas env flags buf recA pA).1.sarray i = recA.sarray i)) ∧
    testbit (decode_deltas env flags buf recB pB).1.naflags i = testbit recB.naflags i ∧
    testbit (decode_deltas env flags buf recC pC).1.naflags i = false := by
  -- the scale stage leaves slot `i` alone when it has no nonzero scale byte
  have scale_na : ∀ (rec : datarec) (p : Nat),
      (∀ b, scale_bit i = some b → testbit (record_flags buf p).scaleflags b = true →
        scale_byte buf p b = 0) →
      testbit (after_scale buf rec p).1.naflags i = testbit (after_value buf rec p).1.naflags i := by
    intro rec p hsc
    rw [after_scale_na]
    cases hb : scale_bit i with
    | none => rfl
    | some b =>
      simp only
      rw [if_neg (fun h => h.2 (hsc b hb h.1))]
  have scale_val : ∀ (rec : datarec) (p : Nat),
      (∀ b, scale_bit i = some b → testbit (record_flags buf p).scaleflags b = true →
        scale_byte buf p b = 0) →
      (after_scale buf rec p).1.sarray i = (after_value buf rec p).1.sarray i := by
    intro rec p hsc
    rw [after_scale_sarray]
    cases hb : scale_bit i with
    | none => rfl
    | some b =>
      simp only
      by_cases ht : testbit (record_flags buf p).scaleflags b = true
      · rw [if_pos ht, hsc b hb ht]; rfl
      · rw [if_neg ht]
  -- the RPM special case leaves the NA flag of slot `i` alone under the proviso
  have fix_na : ∀ (rec : datarec) (p : Nat),
      (NUMENGINE env = 1 → i = 41 → (after_value buf rec p).1.sarray 42 = 0) →
      testbit (decode_deltas env flags buf rec p).1.naflags i =
        testbit (after_scale buf rec p).1.naflags i := by
    intro rec p hr
    rw [decode_deltas_na, if_neg]
    rintro ⟨h41, h1, hne⟩
    apply hne
    have hz : (after_scale buf rec p).1.sarray 42 = 0 := by
      rw [after_scale_sarray, scale_bit_42]; exact hr h1 h41
    rw [rpm_fixup_sarray]
    simp only [RPM_HIGHBYTE_FIELD_NUM, hz]
    split
    · exact wrap16_neg_zero
    · rfl
  have naA : testbit (decode_deltas env flags buf recA pA).1.naflags i = true := by
    rw [fix_na recA pA hrpmA, scale_na recA pA hscA, after_value_na, if_pos ⟨hi, hvA⟩]
    simp [hbA]
  have fix42 : ∀ (rec : datarec) (p : Nat),
      (rpm_fixup env (record_flags buf p).signflags (after_scale buf rec p).1).sarray 42 =
        (rpm_fixup env (record_flags buf p).signflags (after_value buf rec p).1).sarray 42 := by
    intro rec p
    rw [rpm_fixup_sarray, rpm_fixup_sarray]
    simp only [RPM_HIGHBYTE_FIELD_NUM]
    rw [after_scale_sarray, scale_bit_42]
  refine ⟨⟨naA, fun j fd hs ho hsl => by
    rw [format_field_shown env _ j fd hs ho, hsl]; exact format_slot_na _ _ _ naA, ?_, ?_⟩, ?_, ?_⟩
  · intro hrangeA
    have v48A : (after_value buf recA pA).1.sarray i = recA.sarray i := by
      rw [after_value_sarray, if_pos ⟨hi, hvA⟩, hbA]
      unfold apply_delta
      split <;> exact (by simpa using wrap16_of_range _ hrangeA.1 hrangeA.2)
    by_cases h41 : i = 41
    · subst h41
      have hf41 : (rpm_fixup env (record_flags buf pA).signflags
          (after_scale buf recA pA).1).sarray 41 = recA.sarray 41 := by
        rw [rpm_fixup_sarray]
        simp only [RPM_HIGHBYTE_FIELD_NUM, show ¬ (41 : Nat) = 42 by decide, false_and, if_false]
        rw [scale_val recA pA hscA, v48A]
      rw [if_pos rfl, decode_deltas_fst, calcstuff_sarray]
      simp only [RPM_FIELD_NUM, RPM_HIGHBYTE_FIELD_NUM, show ¬ (41 : Nat) = 42 by decide,
        if_false, if_true, hf41, fix42]
    · rw [if_neg h41]
      by_cases h42 : i = 42
      · subst h42
        rw [if_pos rfl, decode_deltas_fst, calcstuff_sarray]
        simp only [RPM_HIGHBYTE_FIELD_NUM, if_true, fix42]
      · rw [if_neg h42, decode_deltas_sarray_other env flags buf recA pA i h41 h42,
          scale_val recA pA hscA, v48A]
  · intro hrangeA h41c h42c
    have v48A : (after_value buf recA pA).1.sarray i = recA.sarray i := by
      rw [after_value_sarray, if_pos ⟨hi, hvA⟩, hbA]
      unfold apply_delta
      split <;> exact (by simpa using wrap16_of_range _ hrangeA.1 hrangeA.2)
    by_cases hk : i = 41 ∨ i = 42
    · rw [decode_deltas_fst, calcstuff_sarray]
      rcases hk with h41 | h42
      · subst h41
        have hf41 : (rpm_fixup env (record_flags buf pA).signflags
            (after_scale buf recA pA).1).sarray 41 = recA.sarray 41 := by
          rw [rpm_fixup_sarray]
          simp only [RPM_HIGHBYTE_FIELD_NUM, show ¬ (41 : Nat) = 42 by decide, false_and, if_false]
          rw [scale_val recA pA hscA, v48A]
        rcases h41c rfl with hno | hz0
        · rw [hno]
          simp only [Bool.false_eq_true, if_false]
          exact hf41
        · have hz : (after_scale buf recA pA).1.sarray 42 = 0 := by
            rw [after_scale_sarray, scale_bit_42]; exact hz0
          have hf : (rpm_fixup env (record_flags buf pA).signflags
              (after_scale buf recA pA).1).sarray 42 = 0 := by
            rw [rpm_fixup_sarray]
            simp only [RPM_HIGHBYTE_FIELD_NUM, hz]
            split
            · exact wrap16_neg_zero
            · rfl
          simp only [RPM_FIELD_NUM, RPM_HIGHBYTE_FIELD_NUM, show ¬ (41 : Nat) = 42 by decide,
            if_false, if_true, hf, hf41]
          split
          · simpa using wrap16_of_range _ hrangeA.1 hrangeA.2
          · rfl
      · subst h42
        have hs42 : (after_scale buf recA pA).1.sarray 42 = recA.sarray 42 := by
          rw [after_scale_sarray, scale_bit_42]; exact v48A
        rcases h42c rfl with hz0 | ⟨hno, hneg⟩
        · have hz : (after_scale buf recA pA).1.sarray 42 = 0 := by
            rw [after_scale_sarray, scale_bit_42]; exact hz0
          have hf : (rpm_fixup env (record_flags buf pA).signflags
              (after_scale buf recA pA).1).sarray 42 = 0 := by
            rw [rpm_fixup_sarray]
            simp only [RPM_HIGHBYTE_FIELD_NUM, hz]
            split
            · exact wrap16_neg_zero
            · rfl
          have hrec : recA.sarray 42 = 0 := by rw [← v48A]; exact hz0
          simp only [RPM_FIELD_NUM, RPM_HIGHBYTE_FIELD_NUM, if_true, hf, hrec, ite_self]
        · rw [hno]
          simp only [Bool.false_eq_true, if_false]
          rw [rpm_fixup_sarray, if_neg (fun h => hneg ⟨h.2.1, h.2.2⟩)]
          exact hs42
    · have h41 : i ≠ 41 := fun h => hk (Or.inl h)
      have h42 : i ≠ 42 := fun h => hk (Or.inr h)
      rw [decode_deltas_sarray_other env flags buf recA pA i h41 h42, scale_val recA pA hscA, v48A]
  · rw [fix_na recB pB hrpmB, scale_na recB pB hscB, after_value_na,
      if_neg (fun h => by rw [hvB] at h; exact Bool.false_ne_true h.2)]
  · rw [decode_deltas_na]
    split
    · rfl
    · rw [after_scale_na]
      have hv : testbit (after_value buf recC pC).1.naflags i = false := by
        rw [after_value_na, if_pos ⟨hi, hvC⟩]
        simpa using hbC
      cases hb : scale_bit i with
      | none => exact hv
      | some b =>
        simp only
        split
        · rfl
        · exact hv

/-! ### The spread (`dif`) -/

theorem spread_step_congr (r1 r2 : datarec) (hs : r1.sarray = r2.sarray)
    (hn : r1.naflags = r2.naflags) (j : Nat) : spread_step r1 j = spread_step r2 j := by
  funext i e
  unfold spread_step
  rw [hs, hn]

theorem spread_engine_dif (c j : Nat) (rec : datarec) (k : Nat) :
    (spread_engine c j rec).dif k =
      if k = j then
        wrap16 ((forUpTo c (spread_step rec j) (-1, 0x7fff)).1 -
          (forUpTo c (spread_step rec j) (-1, 0x7fff)).2)
      else rec.dif k := rfl

theorem spread_loop_dif (c n : Nat) (rec : datarec) (j : Nat) :
    (forUpTo n (spread_engine c) rec).dif j =
      if j < n then
        wrap16 ((forUpTo c (spread_step rec j) (-1, 0x7fff)).1 -
          (forUpTo c (spread_step rec j) (-1, 0x7fff)).2)
      else rec.dif j := by
  induction n with
  | zero => simp [forUpTo]
  | succ n ih =>
    rw [forUpTo_succ, spread_engine_dif]
    by_cases hj : j = n
    · subst hj
      rw [if_pos rfl, if_pos (Nat.lt_succ_self _),
        spread_step_congr _ rec (spread_loop_frame c j rec).1 (spread_loop_frame c j rec).2]
    · have h1 : (j < n + 1) ↔ (j < n) := by omega
      rw [if_neg hj, ih]
      simp only [h1]

theorem calcstuff_dif (env : Env) (f : Nat) (rec : datarec) (j : Nat) :
    (calcstuff env f rec).dif j =
      (forUpTo (NUMENGINE env) (spread_engine (NUMCYLS f)) rec).dif j := by
  simp only [calcstuff]
  split <;> rfl

theorem spread_inner_spec (rec : datarec) (j n : Nat) (a b : Int) :
    ((forUpTo n (spread_step rec j) (a, b)).1 = a ∨
      (forUpTo n (spread_step rec j) (a, b)).1 ∈
        ((List.range n).filter (fun i => !testbit rec.naflags (cylidx i j))).map
          (fun i => rec.sarray (cylidx i j))) ∧
    a ≤ (forUpTo n (spread_step rec j) (a, b)).1 ∧
    (∀ x ∈ ((List.range n).filter (fun i => !testbit rec.naflags (cylidx i j))).map
          (fun i => rec.sarray (cylidx i j)), x ≤ (forUpTo n (spread_step rec j) (a, b)).1) ∧
    ((forUpTo n (spread_step rec j) (a, b)).2 = b ∨
      (forUpTo n (spread_step rec j) (a, b)).2 ∈
        ((List.range n).filter (fun i => !testbit rec.naflags (cylidx i j))).map
          (fun i => rec.sarray (cylidx i j))) ∧
    (forUpTo n (spread_step rec j) (a, b)).2 ≤ b ∧
    (∀ x ∈ ((List.range n).filter (fun i => !testbit rec.naflags (cylidx i j))).map
          (fun i => rec.sarray (cylidx i j)), (forUpTo n (spread_step rec j) (a, b)).2 ≤ x) := by
  induction n with
  | zero => simp [forUpTo]
  | succ n ih =>
    obtain ⟨h1, h2, h3, h4, h5, h6⟩ := ih
    rw [forUpTo_succ, List.range_succ, List.filter_append, List.map_append]
    generalize forUpTo n (spread_step rec j) (a, b) = e at h1 h2 h3 h4 h5 h6 ⊢
    unfold spread_step
    by_cases hna : testbit rec.naflags (cylidx n j) = true
    · simp only [hna, Bool.not_true, Bool.false_eq_true, if_false, List.filter_cons_of_neg,
        List.filter_nil, List.map_nil, List.append_nil, not_false_eq_true]
      exact ⟨h1, h2, h3, h4, h5, h6⟩
    · have hna2 : testbit rec.naflags (cylidx n j) = false := by simpa using hna
      simp only [hna2, Bool.not_false, if_true, List.filter_cons_of_pos, List.filter_nil,
        List.map_cons, List.map_nil, List.mem_append, List.mem_singleton]
      refine ⟨?_, ?_, ?_, ?_, ?_, ?_⟩
      · by_cases hc : rec.sarray (cylidx n j) > e.1
        · simp [hc]
        · simp only [hc, if_false]
          rcases h1 with h | h
          · exact Or.inl h
          · exact Or.inr (Or.inl h)
      · split <;> omega
      · intro x hx
        rcases hx with hx | hx
        · have := h3 x hx
          split <;> omega
        · subst hx
          split <;> omega
      · by_cases hc : rec.sarray (cylidx n j) < e.2
        · simp [hc]
        · simp only [hc, if_false]
          rcases h4 with h | h
          · exact Or.inl h
          · exact Or.inr (Or.inl h)
      · split <;> omega
      · intro x hx
        rcases hx with hx | hx
        · have := h6 x hx
          split <;> omega
        · subst hx
          split <;> omega

/-- C9 (amended): for an engine `j` with at least one active cylinder that is
not NA-flagged, whose non-NA active EGT values are signed 16-bit values with
maximum `M ≥ -1` and minimum `m`, `calcstuff` leaves `dif[j] = M - m` reduced
to a signed 16-bit value; this is `M - m` itself whenever `M - m ≤ 32767`, in
particular when those values are all non-negative. -/
theorem spread_dif (env : Env) (flags : Nat) (rec : datarec) (j : Nat) (M m : Int)
    (hj : j < NUMENGINE env)
    (hM : M ∈ active_egts rec flags j) (hMmax : ∀ x ∈ active_egts rec flags j, x ≤ M)
    (hm : m ∈ active_egts rec flags j) (hmmin : ∀ x ∈ active_egts rec flags j, m ≤ x)
    (hshort : ∀ x ∈ active_egts rec flags j, -32768 ≤ x ∧ x ≤ 32767)
    (hM1 : -1 ≤ M) :
    (calcstuff env flags rec).dif j = wrap16 (M - m) ∧
    (M - m ≤ 32767 → (calcstuff env flags rec).dif j = M - m) ∧
    ((∀ x ∈ active_egts rec flags j, 0 ≤ x) → (calcstuff env flags rec).dif j = M - m) := by
  obtain ⟨h1, h2, h3, h4, h5, h6⟩ := spread_inner_spec rec j (NUMCYLS flags) (-1) 0x7fff
  have hmax : (forUpTo (NUMCYLS flags) (spread_step rec j) (-1, 0x7fff)).1 = M := by
    have hle := h3 M hM
    rcases h1 with h | h
    · omega
    · have := hMmax _ h
      omega
  have hmin : (forUpTo (NUMCYLS flags) (spread_step rec j) (-1, 0x7fff)).2 = m := by
    have hle := h6 m hm
    rcases h4 with h | h
    · have := (hshort m hm).2
      omega
    · have := hmmin _ h
      omega
  have hd : (calcstuff env flags rec).dif j = wrap16 (M - m) := by
    rw [calcstuff_dif, spread_loop_dif, if_pos hj, hmax, hmin]
  have hmM : m ≤ M := hMmax m hm
  refine ⟨hd, ?_, ?_⟩
  · intro h
    rw [hd]
    exact wrap16_of_range _ (by omega) h
  · intro h0
    rw [hd]
    have := h0 m hm
    have := (hshort M hM).2
    exact wrap16_of_range _ (by omega) (by omega)

/-! ### Repeat expansion -/

theorem repeat_rows_succ (env : Env) (rec : datarec) (interval : Nat) (t : Int) (n : Nat) :
    repeat_rows env rec interval t (n + 1) =
      formatdata env t rec :: repeat_rows env rec interval (t + interval) n := by
  unfold repeat_rows
  rw [List.range_succ_eq_map, List.map_cons, List.map_map]
  congr 1
  · simp
  · apply List.map_congr_left
    intro k _
    simp only [Function.comp, Nat.succ_eq_add_one]
    congr 1
    push_cast
    ring

theorem repeat_loop_spec (env : Env) (rec : datarec) (interval n : Nat) (t : Int)
    (out : List String) :
    repeat_loop env rec interval n (t, out) =
      (t + (n : Int) * (interval : Int), out ++ repeat_rows env rec interval t n) := by
  induction n generalizing t out with
  | zero => simp [repeat_loop, repeat_rows]
  | succ n ih =>
    rw [repeat_loop, ih, repeat_rows_succ]
    simp only [List.append_assoc, List.singleton_append]
    congr 1
    push_cast
    ring

/-- C10: a record with repeat count `n` (its third byte), met at clock `t` with
interval `I`, first writes exactly `n` lines, the prior snapshot formatted at
`t`, `t + I`, ..., `t + (n - 1) I`, and the clock is `t + n I` when the deltas
are applied; if the record is accepted (it ends inside the flight and its
checksum matches) its result is the updated snapshot, the lines so far followed
by the updated snapshot formatted at `t + n I`, and the clock `t + (n + 1) I`. -/
theorem repeat_expansion (env : Env) (flags interval : Nat) (buf : List Nat) (pEnd : Nat)
    (st : FlightState) :
    repeat_loop env st.drec interval (byteAt buf (st.pFlight + 2)) (st.t, st.out) =
      (st.t + (byteAt buf (st.pFlight + 2) : Int) * (interval : Int),
        st.out ++ repeat_rows env st.drec interval st.t (byteAt buf (st.pFlight + 2))) ∧
    (repeat_rows env st.drec interval st.t (byteAt buf (st.pFlight + 2))).length =
      byteAt buf (st.pFlight + 2) ∧
    (∀ k, k < byteAt buf (st.pFlight + 2) →
      (repeat_rows env st.drec interval st.t (byteAt buf (st.pFlight + 2))).get? k =
        some (formatdata env (st.t + (k : Int) * (interval : Int)) st.drec)) ∧
    ((decode_deltas env flags buf st.drec st.pFlight).2 < pEnd →
      test_data_checksum env.config.firmware_version env.s_NewVersion
        ((buf.drop st.pFlight).take
          ((decode_deltas env flags buf st.drec st.pFlight).2 - st.pFlight))
        (byteAt buf (decode_deltas env flags buf st.drec st.pFlight).2) = true →
      decode_record env flags interval buf pEnd st =
        .ok ⟨(decode_deltas env flags buf st.drec st.pFlight).1,
          st.t + ((byteAt buf (st.pFlight + 2) : Int) + 1) * (interval : Int),
          (decode_deltas env flags buf st.drec st.pFlight).2 + 1,
          st.out ++ repeat_rows env st.drec interval st.t (byteAt buf (st.pFlight + 2)) ++
            [formatdata env (st.t + (byteAt buf (st.pFlight + 2) : Int) * (interval : Int))
              (decode_deltas env flags buf st.drec st.pFlight).1]⟩) := by
  refine ⟨repeat_loop_spec _ _ _ _ _ _, by simp [repeat_rows], ?_, ?_⟩
  · intro k hk
    unfold repeat_rows
    rw [List.get?_eq_getElem?, List.getElem?_map, List.getElem?_range hk]
    rfl
  · intro hend hck
    unfold decode_record
    simp only [repeat_loop_spec]
    rw [if_neg (by omega), hck]
    simp only [Bool.not_true, Bool.false_eq_true, if_false]
    congr 2
    ring

/-! ### Worked examples -/

/-- Instance of C5: slot 0 holds 240, its value bit is set, delta byte 5, sign clear. -/
theorem value_stage_slot_witness :
    (value_stage [5] (fun k => if k = 0 then 1 else 0) (fun _ => 0)
      (datarec.init ex_env, 0)).1.sarray 0 = 245 := by
  have h := value_stage_slot [5] (fun k => if k = 0 then 1 else 0) (fun _ => 0)
    (datarec.init ex_env) 0 0 (by decide) (by decide)
  exact h.2.trans (by decide)

/-- Instance of C7: slot 0 with low byte 5 and scale byte 1 goes from 240 to 501. -/
theorem scale_extension_witness :
    testbit (record_flags ex_scale_buf 0).valflags 0 = true ∧
    testbit (record_flags ex_scale_buf 0).scaleflags 0 = true ∧
    (decode_deltas ex_env F_E1 ex_scale_buf (datarec.init ex_env) 0).1.sarray 0 = 501 ∧
    testbit (decode_deltas ex_env F_E1 ex_scale_buf (datarec.init ex_env) 0).1.naflags 0 = false := by
  have h := scale_extension ex_env F_E1 ex_scale_buf (datarec.init ex_env) 0 0 0
    (by decide) (by decide) (by decide) (by decide)
  exact ⟨by decide, by decide, h.1.trans (by decide), h.2.1 (by decide)⟩

/-- Instance of C8: RPM 240 with low byte 3 and high byte 2 becomes 755. -/
theorem rpm_fold_witness :
    (decode_deltas ex_env F_RPM ex_fold_buf (datarec.init ex_env) 0).1.sarray RPM_FIELD_NUM = 755 ∧
    (decode_deltas ex_env F_RPM ex_fold_buf (datarec.init ex_env) 0).1.sarray
      RPM_HIGHBYTE_FIELD_NUM = 0 ∧
    testbit (decode_deltas ex_env F_RPM ex_fold_buf (datarec.init ex_env) 0).1.naflags
      RPM_FIELD_NUM = false := by
  have h := rpm_fold ex_env F_RPM ex_fold_buf (datarec.init ex_env) 0
    (by decide) (by decide) (by decide) (by decide) (by decide) (by decide)
  exact ⟨h.1.trans (by decide), h.2.1, h.2.2 (by decide)⟩

/-- Instance of C9: EGT 1400, 1420, NA, 1390 gives the spread 30. -/
theorem spread_dif_witness :
    active_egts ex_egt_rec 0x3C 0 = [1400, 1420, 1390] ∧
    (calcstuff ex_env 0x3C ex_egt_rec).dif 0 = 30 := by
  have h := spread_dif ex_env 0x3C ex_egt_rec 0 1420 1390
    (by decide) (by decide) (by decide) (by decide) (by decide) (by decide) (by decide)
  exact ⟨by decide, h.2.1 (by decide)⟩

/-- C9 as stated fails for negative EGT values: with the single active cylinder
at -5 the maximum and the minimum are both -5, yet `dif[0]` is 4, not 0. -/
theorem spread_negative_egt :
    active_egts ex_neg_rec F_C1 0 = [-5] ∧
    testbit ex_neg_rec.naflags (cylidx 0 0) = false ∧
    (calcstuff ex_env F_C1 ex_neg_rec).dif 0 = 4 ∧
    (calcstuff ex_env F_C1 ex_neg_rec).dif 0 ≠ (-5 : Int) - (-5 : Int) := by
  decide

/-- Instance of C6 on slot 0 (E1): record A at 0 with value byte 0, record B
at 7 without bytes, record C at 11 with value byte 7.  And on slot 42, which
holds 5 when the second record of `ex_high_buf` brings the value byte 0 with
the sign bit of slot 41 set: its NA flag is set and its value becomes -5. -/
theorem na_persistence_witness :
    (testbit (decode_deltas ex_env F_E1 ex_na_buf (datarec.init ex_env) 0).1.naflags 0 = true ∧
      (∀ j fd, field_shown ex_env j fd = true → 0 ≤ fd.nOffset → field_slot j fd = 0 →
        format_field ex_env (decode_deltas ex_env F_E1 ex_na_buf (datarec.init ex_env) 0).1 j fd
          = ",\"NA\"") ∧
      (decode_deltas ex_env F_E1 ex_na_buf (datarec.init ex_env) 0).1.sarray 0 =
        (datarec.init ex_env).sarray 0) ∧
    testbit (decode_deltas ex_env F_E1 ex_na_buf
        (decode_deltas ex_env F_E1 ex_na_buf (datarec.init ex_env) 0).1 7).1.naflags 0 =
      testbit (decode_deltas ex_env F_E1 ex_na_buf (datarec.init ex_env) 0).1.naflags 0 ∧
    testbit (decode_deltas ex_env F_E1 ex_na_buf
        (decode_deltas ex_env F_E1 ex_na_buf
          (decode_deltas ex_env F_E1 ex_na_buf (datarec.init ex_env) 0).1 7).1 11).1.naflags 0 =
      false ∧
    testbit (decode_deltas ex_env_egt F_E1 ex_high_buf
      (decode_deltas ex_env_egt F_E1 ex_high_buf (datarec.init ex_env_egt) 0).1 7).1.naflags 42 =
      true ∧
    (decode_deltas ex_env_egt F_E1 ex_high_buf
      (decode_deltas ex_env_egt F_E1 ex_high_buf (datarec.init ex_env_egt) 0).1 7).1.sarray 42 =
      -5 :=
  have h := na_persistence ex_env F_E1 ex_na_buf 0 (by decide)
    (datarec.init ex_env) 0 (by decide) (by decide)
    (fun b hb ht => by
      have hb0 : some 0 = some b := hb
      cases hb0
      exact absurd ht (by decide))
    (fun _ h => absurd h (by decide))
    (decode_deltas ex_env F_E1 ex_na_buf (datarec.init ex_env) 0).1 7 (by decide)
    (fun b hb ht => by
      have hb0 : some 0 = some b := hb
      cases hb0
      exact absurd ht (by decide))
    (fun _ h => absurd h (by decide))
    (decode_deltas ex_env F_E1 ex_na_buf
      (decode_deltas ex_env F_E1 ex_na_buf (datarec.init ex_env) 0).1 7).1 11
    (by decide) (by decide)
  have g := na_persistence ex_env_egt F_E1 ex_high_buf 42 (by decide)
    (decode_deltas ex_env_egt F_E1 ex_high_buf (datarec.init ex_env_egt) 0).1 7
    (by decide) (by decide)
    (fun b hb _ => by
      have hb0 : none = some b := hb
      cases hb0)
    (fun _ h => absurd h (by decide))
    (datarec.init ex_env_egt) 2 (by decide)
    (fun b hb _ => by
      have hb0 : none = some b := hb
      cases hb0)
    (fun _ h => absurd h (by decide))
    (datarec.init ex_env_egt) 0 (by decide) (by decide)
  ⟨⟨h.1.1, h.1.2.1, h.1.2.2.2 (by decide) (fun h41 => absurd h41 (by decide))
    (fun h42 => absurd h42 (by decide))⟩, h.2.1, h.2.2, g.1.1,
    (g.1.2.2.1 (by decide)).trans (by decide)⟩

/-- C6 as stated fails in two ways (single engine, snapshot of a new flight).
Without the RPM flag: a first record gives slot 42 the value 5; the next record
carries for slot 42 the value byte 0 and no scale byte, slot 42 is not the RPM
slot, and yet its stored value changes from 5 to -5.  With the RPM flag: a
first record carries value byte 0 for slot 41 and sets its NA flag; the next
record carries no value byte for slot 41 (no scale bit addresses slot 41) and
yet clears that NA flag.  All four records are accepted. -/
theorem na_persistence_rpm_exceptions :
    ((decode_record ex_env_egt F_E1 6 ex_high_buf 14
        ⟨datarec.init ex_env_egt, 0, 0, []⟩).toOption.map
      (fun s => (s.pFlight, s.drec.sarray 42)) = some (7, 5) ∧
     testbit (record_flags ex_high_buf 7).valflags 42 = true ∧
     value_byte ex_high_buf 7 42 = 0 ∧ scale_bit 42 = none ∧
     ((decode_record ex_env_egt F_E1 6 ex_high_buf 14
        ⟨datarec.init ex_env_egt, 0, 0, []⟩).bind
        (decode_record ex_env_egt F_E1 6 ex_high_buf 14)).toOption.map
      (fun s => (s.pFlight, s.drec.sarray 42, testbit s.drec.naflags 42)) =
        some (14, -5, true)) ∧
    (testbit (record_flags ex_rpm_buf 0).valflags 41 = true ∧
     value_byte ex_rpm_buf 0 41 = 0 ∧
     (decode_record ex_env F_RPM 6 ex_rpm_buf 14
        ⟨datarec.init ex_env, 0, 0, []⟩).toOption.map
      (fun s => (s.pFlight, testbit s.drec.naflags 41)) = some (7, true) ∧
     testbit (record_flags ex_rpm_buf 7).valflags 41 = false ∧ scale_bit 41 = none ∧
     ((decode_record ex_env F_RPM 6 ex_rpm_buf 14
        ⟨datarec.init ex_env, 0, 0, []⟩).bind
        (decode_record ex_env F_RPM 6 ex_rpm_buf 14)).toOption.map
      (fun s => (s.pFlight, testbit s.drec.naflags 41)) = some (14, false)) := by
  decide

/-- Instance of C10: repeat count 3 and interval 6 at clock 1000 write the
prior snapshot at 1000, 1006 and 1012, the clock is 1018 when the deltas are
applied, the record's own line is written at 1018 and the clock left at 1024. -/
theorem repeat_expansion_witness :
    repeat_loop ex_env (datarec.init ex_env) 6 3 (1000, []) =
      (1018, [formatdata ex_env 1000 (datarec.init ex_env),
        formatdata ex_env 1006 (datarec.init ex_env),
        formatdata ex_env 1012 (datarec.init ex_env)]) ∧
    decode_record ex_env F_E1 6 ex_repeat_buf 4 ⟨datarec.init ex_env, 1000, 0, []⟩ =
      .ok ⟨(decode_deltas ex_env F_E1 ex_repeat_buf (datarec.init ex_env) 0).1, 1024, 4,
        [formatdata ex_env 1000 (datarec.init ex_env),
         formatdata ex_env 1006 (datarec.init ex_env),
         formatdata ex_env 1012 (datarec.init ex_env),
         formatdata ex_env 1018
           (decode_deltas ex_env F_E1 ex_repeat_buf (datarec.init ex_env) 0).1]⟩ := by
  have h := repeat_expansion ex_env F_E1 6 ex_repeat_buf 4 ⟨datarec.init ex_env, 1000, 0, []⟩
  exact ⟨h.1.trans rfl, (h.2.2.2 (by decide) (by decide)).trans rfl⟩

/-! ### The constructor -/

theorem store_loop_sarray (n : Nat) (mem : datarec) (k : Nat) :
    (forUpTo n (fun i r => store_sarray r i 0x00f0) mem).sarray k =
      if k < n ∧ k < 48 then 0x00f0 else mem.sarray k := by
  induction n with
  | zero => simp [forUpTo]
  | succ n ih =>
    rw [forUpTo_succ]
    unfold store_sarray
    by_cases hn : n < 48
    · simp only [hn, if_true]
      by_cases hk : k = n
      · subst hk
        simp only [if_true, Nat.lt_succ_self, hn, and_self]
        decide
      · have h1 : (k < n + 1) ↔ (k < n) := by omega
        simp only [hk, if_false, h1]
        exact ih
    · have h2 : (k < n + 1 ∧ k < 48) ↔ (k < n ∧ k < 48) := by omega
      simp only [hn, if_false, h2]
      split <;> exact ih

theorem testbit_zero_byte (pv : Nat → Nat) (k : Nat) (h : pv (k / 8) = 0) :
    testbit pv k = false := by
  unfold testbit
  simp [h]

/-- C11 (amended): whatever the memory held before, the constructed `datarec`
has every one of the 48 slots equal to `0x00f0`, except that for a
single-engine configuration the `hp` slot (30) and the `rpm_highbyte` slot (42)
are 0; the two spreads are 0 and all 48 NA flags are clear. -/
theorem datarec_ctor_spec (env : Env) (mem : datarec) :
    (∀ k, k < 48 →
      (datarec.ctor env mem).sarray k =
        if NUMENGINE env = 1 ∧ (k = 30 ∨ k = 42) then 0 else 0x00f0) ∧
    (datarec.ctor env mem).dif 0 = 0 ∧ (datarec.ctor env mem).dif 1 = 0 ∧
    (∀ k, k < 48 → testbit (datarec.ctor env mem).naflags k = false) ∧
    (∀ k, k < 48 → (datarec.ctor env mem).sarray k = (datarec.init env).sarray k) := by
  have hs : ∀ k, k < 48 →
      (datarec.ctor env mem).sarray k =
        if NUMENGINE env = 1 ∧ (k = 30 ∨ k = 42) then 0 else 0x00f0 := by
    intro k hk
    simp only [datarec.ctor]
    by_cases h1 : NUMENGINE env = 1
    · simp only [h1, if_true, true_and]
      by_cases h42 : k = 42
      · simp [h42]
      · by_cases h30 : k = 30
        · simp [h30]
        · simp only [h42, h30, if_false, or_self]
          rw [store_loop_sarray, if_pos ⟨by unfold datarec_cells; omega, hk⟩]
    · simp only [h1, if_false, false_and]
      rw [store_loop_sarray, if_pos ⟨by unfold datarec_cells; omega, hk⟩]
  refine ⟨hs, by simp [datarec.ctor], by simp [datarec.ctor], ?_, ?_⟩
  · intro k hk
    apply testbit_zero_byte
    have : k / 8 < 6 := by omega
    simp [datarec.ctor, this]
  · intro k hk
    rw [hs k hk]
    rfl

/-- Instance of C11 (amended): a single-engine constructor run on memory that
held other values. -/
theorem datarec_ctor_spec_witness :
    (datarec.ctor ex_env ex_egt_rec).sarray 0 = 0x00f0 ∧
    (datarec.ctor ex_env ex_egt_rec).sarray 30 = 0 ∧
    (datarec.ctor ex_env ex_egt_rec).sarray 42 = 0 ∧
    testbit (datarec.ctor ex_env ex_egt_rec).naflags 2 = false := by
  have h := datarec_ctor_spec ex_env ex_egt_rec
  exact ⟨(h.1 0 (by decide)).trans (by decide), (h.1 30 (by decide)).trans (by decide),
    (h.1 42 (by decide)).trans (by decide), h.2.2.2.1 2 (by decide)⟩

/-- C11 as stated fails: in a single-engine configuration the constructed
snapshot has the RPM value slot (41) at `0x00f0`, not 0, and the `hp` slot (30)
at 0, not `0x00f0`. -/
theorem datarec_ctor_rpm_not_zero :
    NUMENGINE ex_env = 1 ∧
    (datarec.ctor ex_env ex_egt_rec).sarray RPM_FIELD_NUM = 0x00f0 ∧
    (datarec.ctor ex_env ex_egt_rec).sarray RPM_FIELD_NUM ≠ 0 ∧
    (datarec.ctor ex_env ex_egt_rec).sarray 30 = 0 ∧
    (datarec.ctor ex_env ex_egt_rec).sarray 30 ≠ 0x00f0 := by
  decide

/-! ### Rendering of values -/

theorem toInt32_small (u : Nat) (h : u < 2147483648) : toInt32 u = (u : Int) := by
  unfold toInt32
  have h1 : u % 4294967296 = u := Nat.mod_eq_of_lt (by omega)
  rw [h1, if_pos h]

/-- The part of C13 that holds: a non-NA slot with a non-negative value `s` is
written as `s / nScale` and, when the remainder is not 0, `.` and `s % nScale`. -/
theorem format_slot_nonneg (rec : datarec) (offset nScale : Nat)
    (hna : testbit rec.naflags offset = false)
    (h0 : 0 ≤ rec.sarray offset) (h1 : rec.sarray offset ≤ 32767) :
    format_slot rec offset nScale =
      "," ++ toString (rec.sarray offset / (nScale : Int)) ++
        (if rec.sarray offset % (nScale : Int) ≠ 0 then
          "." ++ toString (rec.sarray offset % (nScale : Int)) else "") := by
  obtain ⟨s, hs⟩ : ∃ s : Nat, rec.sarray offset = (s : Int) := ⟨_, (Int.toNat_of_nonneg h0).symm⟩
  have hs1 : s ≤ 32767 := by omega
  have hu : toUInt32 (rec.sarray offset) = s := by
    unfold toUInt32
    rw [hs]
    omega
  have hq : s / nScale < 2147483648 := lt_of_le_of_lt (Nat.div_le_self _ _) (by omega)
  have hr : s % nScale < 2147483648 := lt_of_le_of_lt (Nat.mod_le _ _) (by omega)
  unfold format_slot
  simp only [hna, Bool.not_false, if_true, hu, toInt32_small _ hq, toInt32_small _ hr]
  rw [hs]
  have e1 : ((s / nScale : Nat) : Int) = (s : Int) / (nScale : Int) := by push_cast; rfl
  have e2 : ((s % nScale : Nat) : Int) = (s : Int) % (nScale : Int) := by push_cast; rfl
  rw [e1, e2]
  have e3 : (s % nScale ≠ 0) ↔ ((s : Int) % (nScale : Int) ≠ 0) := by
    rw [← e2]; exact_mod_cast Iff.rfl
  by_cases h : s % nScale ≠ 0
  · rw [if_pos h, if_pos (e3.mp h)]
  · rw [if_neg h, if_neg (fun h2 => h (e3.mpr h2))]

/-- C13, evaluation at the failing input: the battery slot (scale 10) holds -5
and is not NA; `formatdata` writes `,429496729.1` for it, the quotient and the
remainder of `4294967291` by 10, and not a rendering of -5 / 10. -/
theorem format_negative_scaled :
    testbit ex_bat_rec.naflags 20 = false ∧ ex_bat_rec.sarray 20 = -5 ∧
    format_slot ex_bat_rec 20 10 = ",429496729.1" ∧
    formatdata ex_env_bat 0 ex_bat_rec = "\"0:0:0\",429496729.1,\"S\"\n" := by
  decide

/-! ### Columns of the title row and of the data rows -/

/-- The part of C14 that holds: when the flight's feature flags equal the
configuration's, `formatdata` writes a value for a table entry in an engine
pass exactly when `outputheaders` writes its title. -/
theorem field_shown_eq_title_shown (env : Env) (j : Nat) (fd : FieldDesc)
    (hj : j < NUMENGINE env) :
    field_shown env j fd = title_shown env env.config.flags j fd := by
  unfold field_shown title_shown
  have hlast : decide (j < NUMENGINE env - 1) = !(j == NUMENGINE env - 1) := by
    by_cases h : j = NUMENGINE env - 1
    · simp [h]
    · have : j < NUMENGINE env - 1 := by omega
      simp [h, this]
  rw [hlast]
  simp only [bne]
  generalize fd.bPerEngine = a
  generalize (j == NUMENGINE env - 1) = b
  generalize (fd.nWhichEng == 0) = c
  generalize ((fd.nWhichEng &&& 1 <<< j) == 0) = d
  generalize ((fd.nFeatureFlag &&& env.config.flags) == fd.nFeatureFlag) = e
  cases a <;> cases b <;> cases c <;> cases d <;> cases e <;> rfl

/-- C14, evaluation at the failing input: the configuration flags enable E1
only, the flight header's flags enable E1 and E2.  The E2 entry gets a title
but no value, and the title row has the columns E1, E2, DIF while the data row
has the single value column E1. -/
theorem columns_differ_from_titles :
    title_shown ex_env_egt (F_E1 ||| F_E2) 0 ⟨true, 1, 1, "E2", F_E2, 0⟩ = true ∧
    field_shown ex_env_egt 0 ⟨true, 1, 1, "E2", F_E2, 0⟩ = false ∧
    format_field ex_env_egt (datarec.init ex_env_egt) 0 ⟨true, 1, 1, "E2", F_E2, 0⟩ = "" ∧
    title_row ex_env_egt (F_E1 ||| F_E2) = "\"TIME\",\"E1\",\"E2\",\"DIF\",\n" ∧
    formatdata ex_env_egt 0 (datarec.init ex_env_egt) = "\"0:0:0\",240,\"S\"\n" := by
  decide

/-! ### The flight range check -/

/-- What the range check does: it rejects exactly when `c + 2 w` reaches or
passes the end of the buffer, or `2 w` is below the header size. -/
theorem flight_range_ok_iff (nFileBytes pTop w : Nat) :
    (flight_range nFileBytes pTop w = .ok (pTop + w * 2) ↔
      (pTop + w * 2 < nFileBytes ∧ sizeof_flightheader ≤ w * 2)) ∧
    (flight_range nFileBytes pTop w = .error .dataEnds ↔ nFileBytes ≤ pTop + w * 2) := by
  unfold flight_range sizeof_flightheader
  simp only
  split
  · exact ⟨⟨(fun h => by cases h), (fun h => by omega)⟩, ⟨(fun _ => by omega), (fun _ => rfl)⟩⟩
  · split
    · exact ⟨⟨(fun h => by cases h), (fun h => by omega)⟩,
        ⟨(fun h => by cases h), (fun h => by omega)⟩⟩
    · exact ⟨⟨(fun _ => by omega), (fun _ => rfl)⟩, ⟨(fun h => by cases h), (fun h => by omega)⟩⟩

/-- C20, evaluation at the failing input: a buffer of 116 bytes whose last
flight starts at 100 and has 8 words, so that its range ends exactly at the
buffer end, is rejected with "Data ends unexpectedly"; one byte more in the
buffer and the same flight passes. -/
theorem flight_range_at_buffer_end :
    100 + 8 * 2 = 116 ∧ sizeof_flightheader ≤ 8 * 2 ∧
    flight_range 116 100 8 = .error .dataEnds ∧
    flight_range 117 100 8 = .ok 116 := by
  decide

/-! ### One record, end to end -/

theorem byteAt_append_right (pre l : List Nat) (i : Nat) :
    byteAt (pre ++ l) (pre.length + i) = byteAt l i := by
  unfold byteAt
  rw [List.getD_eq_getElem?_getD, List.getD_eq_getElem?_getD,
    List.getElem?_append_right (Nat.le_add_right _ _), Nat.add_sub_cancel_left]

theorem e2e_record_flags (buf : List Nat) (p : Nat)
    (h0 : byteAt buf p = 1) (h1 : byteAt buf (p + 1) = 1)
    (h3 : byteAt buf (p + 3) = 1) (h4 : byteAt buf (p + 4) = 0) :
    (record_flags buf p).valflags = (fun k => if k = 0 then 1 else 0) ∧
    (record_flags buf p).scaleflags = (fun _ => 0) ∧
    (record_flags buf p).signflags = (fun _ => 0) ∧
    (record_flags buf p).pFlight = p + 5 := by
  have a0 : (1 : Nat) &&& (1 <<< 0) ≠ 0 := by decide
  have a1 : ¬ ((1 : Nat) &&& (1 <<< 1) ≠ 0) := by decide
  have a2 : ¬ ((1 : Nat) &&& (1 <<< 2) ≠ 0) := by decide
  have a3 : ¬ ((1 : Nat) &&& (1 <<< 3) ≠ 0) := by decide
  have a4 : ¬ ((1 : Nat) &&& (1 <<< 4) ≠ 0) := by decide
  have a5 : ¬ ((1 : Nat) &&& (1 <<< 5) ≠ 0) := by decide
  have b0 : ¬ ((1 : Nat) &&& (0x40 <<< 0) ≠ 0) := by decide
  have b1 : ¬ ((1 : Nat) &&& (0x40 <<< 1) ≠ 0) := by decide
  have hv : read_flags buf 1 1 6 (fun _ => 0, p + 3) =
      (fun k => if k = 0 then 1 else 0, p + 4) := by
    simp only [read_flags, forUpTo, if_pos a0, if_neg a1, if_neg a2, if_neg a3, if_neg a4,
      if_neg a5, h3]
  have hsc : read_flags buf 1 0x40 2 (fun _ => 0, p + 4) = (fun _ => 0, p + 4) := by
    simp only [read_flags, forUpTo, if_neg b0, if_neg b1]
  have hsg : read_flags buf 1 1 6 (fun _ => 0, p + 4) = (fun _ => 0, p + 5) := by
    simp only [read_flags, forUpTo, if_pos a0, if_neg a1, if_neg a2, if_neg a3, if_neg a4,
      if_neg a5, h4, ite_self]
  simp only [record_flags, h0, h1, hv, hsc, hsg, and_self]

theorem test_data_checksum_eq_or (fw nv : Nat) (b : List Nat) (c : Nat) :
    test_data_checksum fw nv b c =
      (calc_old_checksum b == c || calc_new_checksum b == c) := by
  unfold test_data_checksum
  split
  · rfl
  · exact Bool.or_comm _ _

theorem e2e_valflags_testbit :
    ∀ k < 48, testbit (fun k => if k = 0 then 1 else 0) k = decide (k = 0) := by
  decide

theorem testbit_zero_fun (k : Nat) : testbit (fun _ => 0) k = false := by
  unfold testbit
  simp

theorem countBits_zero_fun (n : Nat) : countBits (fun _ => 0) n = 0 := by
  unfold countBits
  simp [testbit_zero_fun]

/-- C12: a single-engine configuration whose feature flags enable E1, a new
snapshot, and the record bytes `01 01 00 01 00 05 cs` anywhere in the file,
`cs` being the legacy (4) or the current (248) checksum: for every flight flag
word, interval and clock, `decode_record` succeeds, slot 0 holds
`0x00f0 + 5 = 245` with its NA flag clear, every other slot holds its initial
value, the E1 field of `formatdata` is `,245`, and exactly one line is written. -/
theorem end_to_end_record (env : Env) (flags interval : Nat) (mem : datarec)
    (pre post : List Nat) (cs pEnd : Nat) (t : Int) (out : List String)
    (hsingle : NUMENGINE env = 1) (hE1 : F_E1 &&& env.config.flags = F_E1)
    (hcs : cs = 4 ∨ cs = 248) (hEnd : pre.length + 6 < pEnd) :
    decode_record env flags interval (pre ++ [1, 1, 0, 1, 0, 5, cs] ++ post) pEnd
        ⟨datarec.ctor env mem, t, pre.length, out⟩ =
      .ok ⟨(decode_deltas env flags (pre ++ [1, 1, 0, 1, 0, 5, cs] ++ post)
              (datarec.ctor env mem) pre.length).1,
        t + interval, pre.length + 7,
        out ++ [formatdata env t
          (decode_deltas env flags (pre ++ [1, 1, 0, 1, 0, 5, cs] ++ post)
            (datarec.ctor env mem) pre.length).1]⟩ ∧
    (decode_deltas env flags (pre ++ [1, 1, 0, 1, 0, 5, cs] ++ post)
      (datarec.ctor env mem) pre.length).1.sarray 0 = 245 ∧
    testbit (decode_deltas env flags (pre ++ [1, 1, 0, 1, 0, 5, cs] ++ post)
      (datarec.ctor env mem) pre.length).1.naflags 0 = false ∧
    (∀ k, k < 48 → k ≠ 0 →
      (decode_deltas env flags (pre ++ [1, 1, 0, 1, 0, 5, cs] ++ post)
        (datarec.ctor env mem) pre.length).1.sarray k = (datarec.ctor env mem).sarray k) ∧
    format_field env (decode_deltas env flags (pre ++ [1, 1, 0, 1, 0, 5, cs] ++ post)
      (datarec.ctor env mem) pre.length).1 0 ⟨true, 0, 1, "E1", F_E1, 0⟩ = ",245" := by
  generalize hbuf : pre ++ [1, 1, 0, 1, 0, 5, cs] ++ post = buf
  have hcs256 : cs % 256 = cs := by rcases hcs with h | h <;> subst h <;> rfl
  have hb : ∀ i, byteAt buf (pre.length + i) = byteAt ([1, 1, 0, 1, 0, 5, cs] ++ post) i := by
    intro i
    rw [← hbuf, List.append_assoc, byteAt_append_right]
  have h0 : byteAt buf pre.length = 1 := hb 0
  have h1 : byteAt buf (pre.length + 1) = 1 := hb 1
  have h2 : byteAt buf (pre.length + 2) = 0 := hb 2
  have h3 : byteAt buf (pre.length + 3) = 1 := hb 3
  have h4 : byteAt buf (pre.length + 4) = 0 := hb 4
  have h5 : byteAt buf (pre.length + 5) = 5 := hb 5
  have h6 : byteAt buf (pre.length + 6) = cs := (hb 6).trans hcs256
  obtain ⟨fv, fsc, fsg, fp⟩ := e2e_record_flags buf pre.length h0 h1 h3 h4
  obtain ⟨cS, cD0, cD1, cN, _⟩ := datarec_ctor_spec env mem
  have hslice : (buf.drop pre.length).take 6 = [1, 1, 0, 1, 0, 5] := by
    rw [← hbuf, List.append_assoc, List.drop_left]
    rfl
  have hcur : (decode_deltas env flags buf (datarec.ctor env mem) pre.length).2 =
      pre.length + 6 := by
    show (after_scale buf (datarec.ctor env mem) pre.length).2 = _
    rw [after_scale_snd, fv, fsc, fp, countBits_zero_fun]
    have : countBits (fun k => if k = 0 then 1 else 0) 48 = 1 := by decide
    rw [this]
  have hvb0 : value_byte buf pre.length 0 = 5 := by
    unfold value_byte
    rw [fv, fp]
    exact h5
  -- the state after the value stage
  have hval : ∀ k, k < 48 → (after_scale buf (datarec.ctor env mem) pre.length).1.sarray k =
      if k = 0 then 245 else (datarec.ctor env mem).sarray k := by
    intro k hk
    have hsq : (after_scale buf (datarec.ctor env mem) pre.length).1.sarray k =
        (after_value buf (datarec.ctor env mem) pre.length).1.sarray k := by
      rw [after_scale_sarray, fsc]
      cases scale_bit k with
      | none => rfl
      | some b => simp only [testbit_zero_fun, Bool.false_eq_true, if_false]
    rw [hsq, after_value_sarray, fv, fsg, e2e_valflags_testbit k hk]
    by_cases hk0 : k = 0
    · subst hk0
      simp only [decide_True, and_self, if_true, Nat.zero_lt_succ, hvb0, testbit_zero_fun,
        apply_delta, Bool.false_eq_true, if_false, cS 0 (by decide)]
      have : ¬ (NUMENGINE env = 1 ∧ ((0 : Nat) = 30 ∨ (0 : Nat) = 42)) := by omega
      rw [if_neg this]
      decide
    · simp [hk0]
  have hna0 : testbit (decode_deltas env flags buf (datarec.ctor env mem) pre.length).1.naflags 0
      = false := by
    rw [decode_deltas_na, if_neg (fun h => absurd h.1 (by decide)), after_scale_na, fsc]
    have : scale_bit 0 = some 0 := by decide
    rw [this]
    simp only [testbit_zero_fun, Bool.false_eq_true, false_and, if_false]
    rw [after_value_na, fv, if_pos ⟨by decide, by decide⟩, hvb0]
    decide
  have hs0 : (decode_deltas env flags buf (datarec.ctor env mem) pre.length).1.sarray 0 = 245 := by
    rw [decode_deltas_sarray_other _ _ _ _ _ 0 (by decide) (by decide), hval 0 (by decide)]
    rfl
  have c41 : (datarec.ctor env mem).sarray 41 = 240 := by
    rw [cS 41 (by decide), if_neg (by omega)]
  have c42 : (datarec.ctor env mem).sarray 42 = 0 := by
    rw [cS 42 (by decide), if_pos ⟨hsingle, Or.inr rfl⟩]
  have hfix41 : (rpm_fixup env (record_flags buf pre.length).signflags
      (after_scale buf (datarec.ctor env mem) pre.length).1).sarray 41 = 240 := by
    rw [rpm_fixup_sarray, if_neg (fun h => absurd h.1 (by decide)), hval 41 (by decide),
      if_neg (by decide), c41]
  have hfix42 : (rpm_fixup env (record_flags buf pre.length).signflags
      (after_scale buf (datarec.ctor env mem) pre.length).1).sarray 42 = 0 := by
    rw [rpm_fixup_sarray, fsg]
    simp only [RPM_FIELD_NUM, testbit_zero_fun, Bool.false_eq_true, and_false, if_false]
    rw [hval 42 (by decide), if_neg (by decide), c42]
  refine ⟨?_, hs0, hna0, ?_, ?_⟩
  · unfold decode_record
    simp only [h2, hcur, repeat_loop]
    rw [if_neg (by omega), Nat.add_sub_cancel_left, hslice, h6, test_data_checksum_eq_or]
    have hck : (calc_old_checksum [1, 1, 0, 1, 0, 5] == cs ||
        calc_new_checksum [1, 1, 0, 1, 0, 5] == cs) = true := by
      rcases hcs with h | h <;> subst h <;> decide
    rw [hck]
    rfl
  · intro k hk hk0
    by_cases h41 : k = 41
    · subst h41
      rw [decode_deltas_fst, calcstuff_sarray]
      simp only [RPM_FIELD_NUM, RPM_HIGHBYTE_FIELD_NUM, hfix41, hfix42, c41]
      split
      · decide
      · rfl
    · by_cases h42 : k = 42
      · subst h42
        rw [decode_deltas_fst, calcstuff_sarray]
        simp only [RPM_FIELD_NUM, RPM_HIGHBYTE_FIELD_NUM, hfix42, c42, if_true, ite_self]
      · rw [decode_deltas_sarray_other _ _ _ _ _ k h41 h42, hval k hk, if_neg hk0]
  · have hshown : field_shown env 0 ⟨true, 0, 1, "E1", F_E1, 0⟩ = true := by
      simp [field_shown, hE1]
    rw [format_field_shown env _ 0 _ hshown (by decide)]
    have hslot : field_slot 0 ⟨true, 0, 1, "E1", F_E1, 0⟩ = 0 := by decide
    rw [hslot, format_slot_nonneg _ 0 1 hna0 (by rw [hs0]; decide) (by rw [hs0]; decide), hs0]
    decide

set_option maxRecDepth 100000 in
/-- Instance of C12: the record with its legacy checksum, at the start of a
buffer, decoded from a new single-engine snapshot at clock 0 with interval 6. -/
theorem end_to_end_record_witness :
    (decode_record ex_env (F_E1 ||| F_RPM) 6 ex_e2e_buf 7
        ⟨datarec.ctor ex_env ex_egt_rec, 0, 0, []⟩).toOption.map
      (fun s => (s.t, s.pFlight, s.out)) = some (6, 7, ["\"0:0:0\",245,240,\"S\"\n"]) ∧
    (decode_deltas ex_env (F_E1 ||| F_RPM) ex_e2e_buf
      (datarec.ctor ex_env ex_egt_rec) 0).1.sarray 0 = 245 ∧
    format_field ex_env (decode_deltas ex_env (F_E1 ||| F_RPM) ex_e2e_buf
      (datarec.ctor ex_env ex_egt_rec) 0).1 0 ⟨true, 0, 1, "E1", F_E1, 0⟩ = ",245" := by
  have h := end_to_end_record ex_env (F_E1 ||| F_RPM) 6 ex_egt_rec [] [] 4 7 0 []
    (by decide) (by decide) (by decide) (by decide)
  refine ⟨?_, h.2.1, h.2.2.2.2⟩
  have h1 := h.1
  simp only [List.nil_append, List.append_nil, List.length_nil, Nat.zero_add] at h1
  show (decode_record ex_env (F_E1 ||| F_RPM) 6 [1, 1, 0, 1, 0, 5, 4] 7
    ⟨datarec.ctor ex_env ex_egt_rec, 0, 0, []⟩).toOption.map _ = _
  rw [h1]
  decide

/-! ### Cursors of the decoder and of the rewriter -/

theorem flag_count_succ (d b n : Nat) :
    flag_count d b (n + 1) = flag_count d b n + (if d &&& (b <<< n) ≠ 0 then 1 else 0) := by
  unfold flag_count
  rw [List.range_succ, List.filter_append, List.length_append]
  by_cases h : d &&& (b <<< n) ≠ 0 <;> simp [h]

theorem read_flags_succ (buf : List Nat) (d b n : Nat) (st : (Nat → Nat) × Nat) :
    read_flags buf d b (n + 1) st =
      if d &&& (b <<< n) ≠ 0 then
        (fun k => if k = n then byteAt buf (read_flags buf d b n st).2
          else (read_flags buf d b n st).1 k, (read_flags buf d b n st).2 + 1)
      else read_flags buf d b n st := rfl

theorem read_flags_snd (buf : List Nat) (d b n : Nat) (st : (Nat → Nat) × Nat) :
    (read_flags buf d b n st).2 = st.2 + flag_count d b n := by
  induction n with
  | zero => rfl
  | succ n ih =>
    rw [read_flags_succ, flag_count_succ]
    split
    · simp only [ih]; omega
    · simp only [ih]; omega

theorem skip_loop_eq (test : Nat → Bool) (n p : Nat) :
    skip_loop test n p = p + ((List.range n).filter test).length := by
  unfold skip_loop
  induction n with
  | zero => rfl
  | succ n ih =>
    rw [forUpTo_succ, ih, List.range_succ, List.filter_append, List.length_append]
    by_cases h : test n = true <;> simp [h]
    omega

theorem record_flags_pFlight (buf : List Nat) (p0 : Nat) :
    (record_flags buf p0).pFlight =
      p0 + 3 + flag_count (byteAt buf p0) 1 6 + flag_count (byteAt buf p0) 0x40 2 +
        flag_count (byteAt buf (p0 + 1)) 1 6 := by
  simp only [record_flags, read_flags_snd]

theorem rewrite_cursor_eq (buf : List Nat) (p0 : Nat) :
    rewrite_cursor buf p0 =
      (record_flags buf p0).pFlight + countBits (record_flags buf p0).valflags 48 +
        countBits (record_flags buf p0).scaleflags 16 := by
  simp only [rewrite_cursor, skip_loop_eq, record_flags, read_flags_snd]
  rfl

theorem rewrite_cursor_eq_decode (env : Env) (flags : Nat) (buf : List Nat) (rec : datarec)
    (p0 : Nat) : rewrite_cursor buf p0 = (decode_deltas env flags buf rec p0).2 := by
  rw [rewrite_cursor_eq]
  exact (after_scale_snd buf rec p0).symm

theorem rewrite_cursor_ge (buf : List Nat) (p0 : Nat) : p0 + 3 ≤ rewrite_cursor buf p0 := by
  rw [rewrite_cursor_eq, record_flags_pFlight]
  omega

set_option maxRecDepth 100000 in
theorem flag_count_value_groups : ∀ d < 256, flag_count d 1 6 = popcount (d &&& 0x3F) := by
  decide

set_option maxRecDepth 100000 in
theorem flag_count_scale_groups : ∀ d < 256, flag_count d 0x40 2 = popcount (d &&& 0xC0) := by
  decide

theorem countBits_byte (pv : Nat → Nat) (n : Nat) :
    countBits (fun m => pv (m + n)) 8 = popcount (pv n) := by
  unfold countBits popcount
  congr 1
  apply List.filter_congr
  intro i hi
  have hi8 : i < 8 := List.mem_range.mp hi
  rw [testbit_eq]
  have h1 : i / 8 = 0 := by omega
  have h2 : i % 8 = i := by omega
  simp only [h1, h2, Nat.zero_add]

theorem countBits_bytes (pv : Nat → Nat) (n : Nat) :
    countBits pv (8 * n) = popcount_bytes pv n := by
  induction n with
  | zero => rfl
  | succ n ih =>
    have h := countBits_shift pv n 8
    rw [countBits_byte, ih] at h
    have e : 8 * (n + 1) = 8 * n + 8 := by ring
    rw [e, ← h]
    unfold popcount_bytes
    rw [List.range_succ, List.map_append, List.sum_append]
    simp

/-! ### The rewriter keeps its invariant -/

theorem byteAt_congr (b1 b2 : List Nat) (i : Nat) (h : b1[i]? = b2[i]?) :
    byteAt b1 i = byteAt b2 i := by
  unfold byteAt
  rw [List.getD_eq_getElem?_getD, List.getD_eq_getElem?_getD, h]

theorem byteAt_set_ne (l : List Nat) (p i v : Nat) (h : p ≠ i) :
    byteAt (l.set p v) i = byteAt l i :=
  byteAt_congr _ _ _ (List.getElem?_set_ne h)

theorem byteAt_set_self (l : List Nat) (p v : Nat) (hp : p < l.length) (hv : v < 256) :
    byteAt (l.set p v) p = v := by
  unfold byteAt
  rw [List.getD_eq_getElem?_getD, List.getElem?_set_self hp]
  exact Nat.mod_eq_of_lt hv

theorem slice_set_after (l : List Nat) (a n p v : Nat) (h : a + n ≤ p) :
    ((l.set p v).drop a).take n = (l.drop a).take n := by
  apply List.ext_getElem?
  intro i
  rw [List.getElem?_take, List.getElem?_take]
  split
  · rw [List.getElem?_drop, List.getElem?_drop, List.getElem?_set_ne (by omega)]
  · rfl

theorem calc_old_checksum_lt (b : List Nat) : calc_old_checksum b < 256 :=
  calc_old_loop_lt b 0 (by decide)

theorem read_flags_congr (b1 b2 : List Nat) (d b n : Nat) (f : Nat → Nat) (q : Nat)
    (h : ∀ i, q ≤ i → byteAt b1 i = byteAt b2 i) :
    read_flags b1 d b n (f, q) = read_flags b2 d b n (f, q) := by
  induction n with
  | zero => rfl
  | succ n ih =>
    rw [read_flags_succ, read_flags_succ, ih]
    have hq : q ≤ (read_flags b2 d b n (f, q)).2 := by
      rw [read_flags_snd]; exact Nat.le_add_right _ _
    rw [h _ hq]

theorem rewrite_cursor_congr (b1 b2 : List Nat) (p0 : Nat)
    (h : ∀ i, p0 ≤ i → byteAt b1 i = byteAt b2 i) :
    rewrite_cursor b1 p0 = rewrite_cursor b2 p0 := by
  have h3 : ∀ i, p0 + 3 ≤ i → byteAt b1 i = byteAt b2 i := fun i hi => h i (by omega)
  have hv : read_flags b1 (byteAt b2 p0) 1 6 (fun _ => 0, p0 + 3) =
      read_flags b2 (byteAt b2 p0) 1 6 (fun _ => 0, p0 + 3) :=
    read_flags_congr b1 b2 _ _ _ _ _ h3
  have hsc : read_flags b1 (byteAt b2 p0) 0x40 2
        (fun _ => 0, (read_flags b2 (byteAt b2 p0) 1 6 (fun _ => 0, p0 + 3)).2) =
      read_flags b2 (byteAt b2 p0) 0x40 2
        (fun _ => 0, (read_flags b2 (byteAt b2 p0) 1 6 (fun _ => 0, p0 + 3)).2) :=
    read_flags_congr b1 b2 _ _ _ _ _ (fun i hi => h i (by
      rw [read_flags_snd] at hi
      simp only at hi
      omega))
  simp only [rewrite_cursor, h p0 (Nat.le_refl _), h (p0 + 1) (Nat.le_succ _), hv, hsc]

theorem RewriteInv.mono {orig : List Nat} {st : RewriteState} {b B : Nat}
    (h : RewriteInv orig st b) (hb : b ≤ B) : RewriteInv orig st B :=
  ⟨h.1, h.2.1, fun rc hrc =>
    ⟨(h.2.2 rc hrc).1, Nat.lt_of_lt_of_le (h.2.2 rc hrc).2.1 hb, (h.2.2 rc hrc).2.2⟩⟩

theorem RewriteInv.agree {orig : List Nat} {st : RewriteState} {b : Nat}
    (h : RewriteInv orig st b) (i : Nat) (hi : b ≤ i) : byteAt st.buf i = byteAt orig i := by
  apply byteAt_congr
  apply h.2.1
  intro rc hrc
  have := (h.2.2 rc hrc).2.1
  omega

theorem rewrite_checksum_inv (orig : List Nat) (fw nv : Nat) (e : DataError)
    (pRec p b : Nat) (st st1 : RewriteState)
    (hinv : RewriteInv orig st b) (hb : b ≤ p) (hrec : pRec ≤ p) (hlen : p < orig.length)
    (hkind : p = pRec + sizeof_flightheader ∨ p = rewrite_cursor orig pRec)
    (h : rewrite_checksum fw nv e pRec p st = .ok st1) :
    RewriteInv orig st1 (p + 1) ∧ st1.pFlight = p + 1 := by
  unfold rewrite_checksum at h
  split at h
  · cases h
  · cases h
    obtain ⟨hl, hframe, hw⟩ := hinv
    refine ⟨⟨by simp [hl], ?_, ?_⟩, rfl⟩
    · intro i hi
      have hne : p ≠ i := fun e => hi (pRec, p) (by simp) e
      simp only
      rw [List.getElem?_set_ne hne]
      exact hframe i (fun rc hrc => hi rc (by simp [hrc]))
    · intro rc hrc
      simp only [List.mem_append, List.mem_singleton] at hrc
      rcases hrc with hrc | hrc
      · obtain ⟨h1, h2, h3, h4, h5⟩ := hw rc hrc
        refine ⟨h1, by omega, h3, h4, ?_⟩
        simp only
        rw [byteAt_set_ne _ _ _ _ (by omega), slice_set_after _ _ _ _ _ (by omega)]
        exact h5
      · subst hrc
        refine ⟨hrec, Nat.lt_succ_self _, hlen, hkind, ?_⟩
        simp only
        rw [slice_set_after _ _ _ _ _ (by omega),
          byteAt_set_self _ _ _ (by omega) (calc_old_checksum_lt _)]

theorem rewrite_records_inv (orig : List Nat) (fw nv pEnd B : Nat) (hEnd : pEnd ≤ orig.length)
    (hB : pEnd ≤ B) :
    ∀ (fuel : Nat) (st st1 : RewriteState) (b : Nat), RewriteInv orig st b → b ≤ st.pFlight →
      b ≤ B → rewrite_records fw nv pEnd fuel st = .ok st1 → RewriteInv orig st1 B := by
  intro fuel
  induction fuel with
  | zero =>
    intro st st1 b hinv _ hbB h
    unfold rewrite_records at h
    split at h
    · cases h
    · cases h; exact hinv.mono hbB
  | succ fuel ih =>
    intro st st1 b hinv hb hbB h
    rw [rewrite_records] at h
    split at h
    · cases hr : rewrite_record fw nv pEnd st with
      | error e => rw [hr] at h; cases h
      | ok st2 =>
        rw [hr] at h
        simp only at h
        unfold rewrite_record at hr
        split at hr
        · cases hr
        · next hlt =>
          have hcur : rewrite_cursor st.buf st.pFlight = rewrite_cursor orig st.pFlight :=
            rewrite_cursor_congr _ _ _ (fun i hi => hinv.agree i (by omega))
          have hge := rewrite_cursor_ge st.buf st.pFlight
          obtain ⟨hinv2, hp2⟩ := rewrite_checksum_inv orig fw nv _ _ _ b st st2 hinv
            (by omega) (by omega) (by omega) (Or.inr hcur) hr
          exact ih st2 st1 _ hinv2 (by omega) (by omega) h
    · cases h; exact hinv.mono hbB

theorem rewrite_flight_inv (orig : List Nat) (fw nv : Nat) (st st1 : RewriteState) (f : flight)
    (hinv : RewriteInv orig st (st.pFlight + 1))
    (h : rewrite_flight fw nv st f = .ok st1) :
    RewriteInv orig st1 (st1.pFlight + 1) := by
  unfold rewrite_flight at h
  cases hr : flight_range st.buf.length st.pFlight f.data_length with
  | error e => rw [hr] at h; cases h
  | ok pEnd =>
    rw [hr] at h
    simp only at h
    have hrange : pEnd < orig.length ∧ st.pFlight + sizeof_flightheader ≤ pEnd := by
      unfold flight_range at hr
      simp only at hr
      rw [hinv.1] at hr
      split at hr
      · cases hr
      · split at hr
        · cases hr
        · cases hr; omega
    cases hc : rewrite_checksum fw nv .headerChecksum st.pFlight
        (st.pFlight + sizeof_flightheader) st with
    | error e => rw [hc] at h; cases h
    | ok st2 =>
      rw [hc] at h
      simp only at h
      have hsz : sizeof_flightheader = 14 := rfl
      obtain ⟨hinv2, hp2⟩ := rewrite_checksum_inv orig fw nv _ _ _ _ st st2 hinv
        (by omega) (by omega) (by omega) (Or.inl rfl) hc
      cases hl : rewrite_records fw nv pEnd (pEnd - st2.pFlight) st2 with
      | error e => rw [hl] at h; cases h
      | ok st3 =>
        rw [hl] at h
        cases h
        have hinv3 := rewrite_records_inv orig fw nv pEnd (pEnd + 1) (by omega) (by omega)
          _ st2 st3 _ hinv2 (by omega) (by omega) hl
        exact ⟨hinv3.1, hinv3.2.1, hinv3.2.2⟩

theorem rewrite_flights_inv (orig : List Nat) (fw nv : Nat) :
    ∀ (fl : List flight) (st st1 : RewriteState), RewriteInv orig st (st.pFlight + 1) →
      rewrite_flights fw nv fl st = .ok st1 → RewriteInv orig st1 (st1.pFlight + 1) := by
  intro fl
  induction fl with
  | nil =>
    intro st st1 hinv h
    cases h
    exact hinv
  | cons f fs ih =>
    intro st st1 hinv h
    rw [rewrite_flights] at h
    cases hf : rewrite_flight fw nv st f with
    | error e => rw [hf] at h; cases h
    | ok st2 =>
      rw [hf] at h
      exact ih st2 st1 (rewrite_flight_inv orig fw nv st st2 f hinv hf) h

theorem RewriteInv.init (orig : List Nat) (p : Nat) : RewriteInv orig ⟨orig, p, []⟩ (p + 1) :=
  ⟨rfl, fun _ _ => rfl, fun rc hrc => by simp at hrc⟩

/-- The invariant holds of what `recompute_checksums` returns after a rewrite. -/
theorem recompute_checksums_inv (env : Env) (fl : List flight) (buf : List Nat) (pHE : Nat)
    (r : RewriteResult) (hfw : env.s_NewVersion ≤ env.config.firmware_version)
    (h : recompute_checksums env fl buf pHE = .ok r) :
    ∃ st b, RewriteInv buf st b ∧ r = ⟨st.buf, st.written, some st.buf⟩ := by
  unfold recompute_checksums at h
  rw [if_neg (by omega)] at h
  cases hf : rewrite_flights env.config.firmware_version env.s_NewVersion fl ⟨buf, pHE, []⟩ with
  | error e => rw [hf] at h; cases h
  | ok st =>
    rw [hf] at h
    cases h
    exact ⟨st, _, rewrite_flights_inv buf _ _ fl _ st (RewriteInv.init buf pHE) hf, rfl⟩

/-- C15: when the firmware version is at or above the threshold and
`recompute_checksums` completes, the buffer has the length it had, every
position other than a written checksum position holds the byte it held, each
written position is the byte right after a flight header or the last byte of a
data record of the original buffer, and the buffer is what is written out. -/
theorem rewriter_frame (env : Env) (fl : List flight) (buf : List Nat) (pHE : Nat)
    (r : RewriteResult) (hfw : env.s_NewVersion ≤ env.config.firmware_version)
    (h : recompute_checksums env fl buf pHE = .ok r) :
    r.buf.length = buf.length ∧
    (∀ i, (∀ rc ∈ r.written, rc.2 ≠ i) → r.buf[i]? = buf[i]?) ∧
    (∀ rc ∈ r.written,
      rc.2 = rc.1 + sizeof_flightheader ∨ rc.2 = rewrite_cursor buf rc.1) ∧
    r.output = some r.buf := by
  obtain ⟨st, b, hinv, rfl⟩ := recompute_checksums_inv env fl buf pHE r hfw h
  exact ⟨hinv.1, hinv.2.1, fun rc hrc => (hinv.2.2 rc hrc).2.2.2.1, rfl⟩

/-- Instance of C15: the example flight in the current scheme, rewritten. -/
theorem rewriter_frame_witness :
    recompute_checksums ex_env_new [⟨1, 11⟩] ex_new_file 0 =
      .ok ⟨ex_old_file, [(0, 14), (15, 21)], some ex_old_file⟩ ∧
    ex_old_file.length = ex_new_file.length ∧
    (∀ i, (∀ rc ∈ [(0, 14), (15, 21)], rc.2 ≠ i) → ex_old_file[i]? = ex_new_file[i]?) :=
  have h : recompute_checksums ex_env_new [⟨1, 11⟩] ex_new_file 0 =
      .ok ⟨ex_old_file, [(0, 14), (15, 21)], some ex_old_file⟩ := by decide
  ⟨h, (rewriter_frame ex_env_new [⟨1, 11⟩] ex_new_file 0 _ (by decide) h).1,
    (rewriter_frame ex_env_new [⟨1, 11⟩] ex_new_file 0 _ (by decide) h).2.1⟩

/-- C16: when the firmware version is at or above the threshold and
`recompute_checksums` completes, the checksum byte written for every flight
header and every data record equals `calc_old_checksum` of the bytes of that
record in the resulting buffer (from its first byte up to the checksum byte,
excluded), so `test_data_checksum` accepts it whatever the version. -/
theorem rewritten_checksums_legacy (env : Env) (fl : List flight) (buf : List Nat) (pHE : Nat)
    (r : RewriteResult) (hfw : env.s_NewVersion ≤ env.config.firmware_version)
    (h : recompute_checksums env fl buf pHE = .ok r) :
    ∀ rc ∈ r.written,
      byteAt r.buf rc.2 = calc_old_checksum ((r.buf.drop rc.1).take (rc.2 - rc.1)) ∧
      (∀ fw nv, test_data_checksum fw nv ((r.buf.drop rc.1).take (rc.2 - rc.1))
        (byteAt r.buf rc.2) = true) := by
  obtain ⟨st, b, hinv, rfl⟩ := recompute_checksums_inv env fl buf pHE r hfw h
  intro rc hrc
  have h5 := (hinv.2.2 rc hrc).2.2.2.2
  refine ⟨h5, fun fw nv => ?_⟩
  rw [test_data_checksum_eq_or]
  simp only
  rw [h5]
  simp

/-- Instance of C16: in the rewritten example flight the bytes at 14 and 21
are the legacy checksums of the header and of the record. -/
theorem rewritten_checksums_legacy_witness :
    byteAt ex_old_file 14 = calc_old_checksum ((ex_old_file.drop 0).take 14) ∧
    byteAt ex_old_file 21 = calc_old_checksum ((ex_old_file.drop 15).take 6) :=
  have h : recompute_checksums ex_env_new [⟨1, 11⟩] ex_new_file 0 =
      .ok ⟨ex_old_file, [(0, 14), (15, 21)], some ex_old_file⟩ := by decide
  ⟨(rewritten_checksums_legacy ex_env_new [⟨1, 11⟩] ex_new_file 0 _ (by decide) h
      (0, 14) (by decide)).1,
    (rewritten_checksums_legacy ex_env_new [⟨1, 11⟩] ex_new_file 0 _ (by decide) h
      (15, 21) (by decide)).1⟩

/-! ### The rewriter and the decoder walk the records alike -/

theorem byteAt_lt (buf : List Nat) (i : Nat) : byteAt buf i < 256 :=
  Nat.mod_lt _ (by decide)

theorem slice_congr_from (b1 b2 : List Nat) (a n : Nat)
    (h : ∀ i, a ≤ i → b1[i]? = b2[i]?) : (b1.drop a).take n = (b2.drop a).take n := by
  have e : b1.drop a = b2.drop a := by
    apply List.ext_getElem?
    intro i
    rw [List.getElem?_drop, List.getElem?_drop]
    exact h _ (by omega)
  rw [e]

theorem rewrite_cursor_formula (buf : List Nat) (p0 : Nat) :
    rewrite_cursor buf p0 =
      p0 + 3 + popcount (byteAt buf p0 &&& 0x3F) + popcount (byteAt buf p0 &&& 0xC0) +
        popcount (byteAt buf (p0 + 1) &&& 0x3F) +
        popcount_bytes (record_flags buf p0).valflags 6 +
        popcount_bytes (record_flags buf p0).scaleflags 2 := by
  rw [rewrite_cursor_eq, record_flags_pFlight,
    flag_count_value_groups _ (byteAt_lt buf p0), flag_count_scale_groups _ (byteAt_lt buf p0),
    flag_count_value_groups _ (byteAt_lt buf (p0 + 1)),
    ← countBits_bytes _ 6, ← countBits_bytes _ 2]

theorem rewrite_records_eq_decode (env : Env) (flags interval : Nat) (buf : List Nat)
    (pEnd : Nat) :
    ∀ (fuel : Nat) (st : FlightState) (rs : RewriteState),
      rs.pFlight = st.pFlight → (∀ i, st.pFlight ≤ i → rs.buf[i]? = buf[i]?) →
      (rewrite_records env.config.firmware_version env.s_NewVersion pEnd fuel rs).map
          (fun r => (r.pFlight, r.written)) =
        (decode_records env flags interval buf pEnd fuel (st, rs.written)).map
          (fun s => (s.1.pFlight, s.2)) := by
  intro fuel
  induction fuel with
  | zero =>
    intro st rs hp _
    simp only [rewrite_records, decode_records, hp]
    split
    · rfl
    · simp only [Except.map, hp]
  | succ n ih =>
    intro st rs hp hb
    have hc : rewrite_cursor rs.buf rs.pFlight =
        (decode_deltas env flags buf st.drec st.pFlight).2 := by
      rw [hp, ← rewrite_cursor_eq_decode]
      exact rewrite_cursor_congr _ _ _ (fun i hi => byteAt_congr _ _ _ (hb i hi))
    have hge : st.pFlight + 3 ≤ (decode_deltas env flags buf st.drec st.pFlight).2 := by
      rw [← rewrite_cursor_eq_decode]
      exact rewrite_cursor_ge _ _
    simp only [rewrite_records, decode_records]
    rw [hp]
    by_cases hlt : st.pFlight + 3 < pEnd
    · rw [if_pos hlt, if_pos hlt]
      simp only [rewrite_record, rewrite_checksum, decode_record, hc]
      rw [hp, slice_congr_from rs.buf buf _ _ hb,
        byteAt_congr rs.buf buf _ (hb _ (by omega))]
      by_cases hend : (decode_deltas env flags buf st.drec st.pFlight).2 ≥ pEnd
      · rw [if_pos hend, if_pos hend]
        rfl
      · rw [if_neg hend, if_neg hend]
        by_cases hcs : (!test_data_checksum env.config.firmware_version env.s_NewVersion
            ((buf.drop st.pFlight).take
              ((decode_deltas env flags buf st.drec st.pFlight).2 - st.pFlight))
            (byteAt buf (decode_deltas env flags buf st.drec st.pFlight).2)) = true
        · rw [if_pos hcs, if_pos hcs]
          rfl
        · rw [if_neg hcs, if_neg hcs]
          simp only
          rw [Nat.add_sub_cancel]
          apply ih
          · rfl
          · intro i hi
            simp only at hi
            simp only
            rw [List.getElem?_set_ne (by omega)]
            exact hb i (by omega)
    · rw [if_neg hlt, if_neg hlt]
      simp only [Except.map, hp]

/-- C19: from the start `p0` of a data record, the cursor of
`recompute_checksums` reaches the checksum byte where the cursor of
`parse_data` does, at `p0 + 3 + popcount(flags0 & 0x3F) + popcount(flags0 &
0xC0) + popcount(flags1 & 0x3F) + popcount(value-flag bytes) +
popcount(scale-flag bytes)`; and from a common cursor, on buffers that agree
from that cursor on, the two record loops end alike, with the same cursor and
the same record starts and checksum positions, or with the same error. -/
theorem traversal_agrees (env : Env) (flags interval : Nat) (buf : List Nat) (pEnd fuel : Nat)
    (st : FlightState) (rs : RewriteState) (hp : rs.pFlight = st.pFlight)
    (hbuf : ∀ i, st.pFlight ≤ i → rs.buf[i]? = buf[i]?) :
    (∀ (rec : datarec) (p0 : Nat),
      rewrite_cursor buf p0 = (decode_deltas env flags buf rec p0).2 ∧
      rewrite_cursor buf p0 =
        p0 + 3 + popcount (byteAt buf p0 &&& 0x3F) + popcount (byteAt buf p0 &&& 0xC0) +
          popcount (byteAt buf (p0 + 1) &&& 0x3F) +
          popcount_bytes (record_flags buf p0).valflags 6 +
          popcount_bytes (record_flags buf p0).scaleflags 2) ∧
    (rewrite_records env.config.firmware_version env.s_NewVersion pEnd fuel rs).map
        (fun r => (r.pFlight, r.written)) =
      (decode_records env flags interval buf pEnd fuel (st, rs.written)).map
        (fun s => (s.1.pFlight, s.2)) :=
  ⟨fun rec p0 => ⟨rewrite_cursor_eq_decode env flags buf rec p0, rewrite_cursor_formula buf p0⟩,
    rewrite_records_eq_decode env flags interval buf pEnd fuel st rs hp hbuf⟩

/-- Instance of C19: the record of the example flight; the decoder, started
after the flight header, visits the record at 15 with its checksum at 21 and
stops at 22, as the rewriter does. -/
theorem traversal_agrees_witness :
    (decode_records ex_env_new F_E1 6 ex_new_file 22 7
        (⟨datarec.init ex_env_new, 0, 15, []⟩, [(0, 14)])).map (fun s => (s.1.pFlight, s.2)) =
      .ok (22, [(0, 14), (15, 21)]) ∧
    (decode_deltas ex_env_new F_E1 ex_new_file (datarec.init ex_env_new) 15).2 = 21 :=
  ⟨((traversal_agrees ex_env_new F_E1 6 ex_new_file 22 7 ⟨datarec.init ex_env_new, 0, 15, []⟩
      ⟨ex_new_file, 15, [(0, 14)]⟩ rfl (fun _ _ => rfl)).2).symm.trans (by decide),
    ((traversal_agrees ex_env_new F_E1 6 ex_new_file 22 7 ⟨datarec.init ex_env_new, 0, 15, []⟩
      ⟨ex_new_file, 15, [(0, 14)]⟩ rfl (fun _ _ => rfl)).1
        (datarec.init ex_env_new) 15).1.symm.trans (by decide)⟩

/-! ### The version patch of the `$C` line -/

theorem set_append_add (A B : List Nat) (k v : Nat) :
    (A ++ B).set (A.length + k) v = A ++ B.set k v := by
  induction A with
  | nil => simp
  | cons a A ih =>
    have e : (a :: A).length + k = (A.length + k) + 1 := by simp; omega
    rw [e, List.cons_append, List.set_cons_succ, ih, List.cons_append]

theorem takeWhile_append_stop (p : Nat → Bool) (S R : List Nat) (x : Nat)
    (hS : ∀ y ∈ S, p y = true) (hx : p x = false) : (S ++ x :: R).takeWhile p = S := by
  induction S with
  | nil => simp [List.takeWhile_cons, hx]
  | cons a S ih =>
    rw [List.cons_append, List.takeWhile_cons_of_pos (hS a (by simp)),
      ih (fun y hy => hS y (List.mem_cons_of_mem _ hy))]

theorem cstr_append_nul (S post : List Nat) (hS : ∀ x ∈ S, x ≠ 0 ∧ x < 256) :
    cstr (S ++ 0 :: post) = S := by
  unfold cstr
  have hm : S.map (fun x => x % 256) = S := by
    conv => rhs; rw [← List.map_id S]
    apply List.map_congr_left
    intro x hx
    exact Nat.mod_eq_of_lt (hS x hx).2
  rw [List.map_append, List.map_cons, hm]
  exact takeWhile_append_stop _ S _ _ (fun y hy => by simpa using (hS y hy).1) (by simp)

theorem memchr_loop_append (c : Nat) (S R : List Nat) (x i : Nat)
    (hS : ∀ y ∈ S, y % 256 ≠ c) (hx : x % 256 = c) :
    memchr_loop c (S ++ x :: R) i = some (i + S.length) := by
  induction S generalizing i with
  | nil => simp [memchr_loop, hx]
  | cons a S ih =>
    rw [List.cons_append, memchr_loop, if_neg (hS a (by simp)),
      ih _ (fun y hy => hS y (List.mem_cons_of_mem _ hy))]
    simp only [List.length_cons]
    congr 1
    omega

theorem skip_spaces_append (A sp R : List Nat) (x : Nat) (hsp : ∀ y ∈ sp, y = 32)
    (hx : x ≠ 32) : skip_spaces (A ++ (sp ++ x :: R)) A.length = A.length + sp.length := by
  unfold skip_spaces
  rw [List.drop_left, takeWhile_append_stop _ sp R x (fun y hy => by simp [hsp y hy])
    (by simpa using hx)]

theorem header_xor_mid (S : List Nat) (hS : ∀ x ∈ S, x < 256) :
    ∀ (A R : List Nat) (cs : Nat), cs < 256 →
      header_xor (A ++ (S ++ R)) S.length A.length cs = S.foldl (fun a x => a ^^^ x) cs := by
  induction S with
  | nil => intro A R cs _; rfl
  | cons x S ih =>
    intro A R cs hcs
    have hx : x < 256 := hS x (by simp)
    have hb : byteAt (A ++ (x :: S ++ R)) A.length = x := by
      unfold byteAt
      rw [List.getD_eq_getElem?_getD, List.getElem?_append_right (Nat.le_refl _)]
      simp [Nat.mod_eq_of_lt hx]
    have e : A ++ (x :: S ++ R) = (A ++ [x]) ++ (S ++ R) := by simp
    rw [List.length_cons, header_xor, hb, Nat.mod_eq_of_lt (xor_byte_lt hcs hx), e]
    have hl : A.length + 1 = (A ++ [x]).length := by simp
    rw [hl, ih (fun y hy => hS y (List.mem_cons_of_mem _ hy)) _ _ _ (xor_byte_lt hcs hx)]
    rfl

theorem xorAll_lt (l : List Nat) (h : ∀ x ∈ l, x < 256) : xorAll l < 256 := by
  induction l with
  | nil => decide
  | cons x l ih =>
    rw [xorAll_cons]
    exact xor_byte_lt (h x (by simp)) (ih (fun y hy => h y (List.mem_cons_of_mem _ hy)))

set_option maxRecDepth 100000 in
theorem sscanf_hx_sprintf : ∀ cs < 256, sscanf_hx (sprintf_02X cs) = some cs := by
  decide

set_option maxRecDepth 100000 in
theorem sprintf_02X_chars : ∀ cs < 256, ∀ x ∈ sprintf_02X cs,
    x ≠ 0 ∧ x < 256 ∧ x ≠ 42 ∧ x ≠ 44 ∧ x ≠ 13 := by
  decide

theorem model_lookup_eq (m : Nat) :
    model_lookup m = if m = 760 then (140, [49, 51, 57]) else (300, [50, 57, 57]) := by
  unfold model_lookup newmodeltable
  by_cases h : m = 760
  · subst h; rfl
  · by_cases h0 : m = 0
    · subst h0; rfl
    · have h1 : (760 == m) = false := by simpa using fun e => h e.symm
      have h2 : (0 == m) = false := by simpa using fun e => h0 e.symm
      simp only [List.find?, h1, h2, if_neg h]
      rfl

/-- The version patch on a line of the form `$` `C` `,` spaces `v0 v1 v2` `*`
`h0 h1` NUL. -/
theorem patch_version_shape (pre C sp post : List Nat) (v0 v1 v2 h0 h1 l0 l1 l2 : Nat)
    (hC : ∀ x ∈ C, x ≠ 0 ∧ x < 256) (hsp : ∀ x ∈ sp, x = 32)
    (hv : ∀ x ∈ [v0, v1, v2], x ≠ 0 ∧ x < 256 ∧ x ≠ 44) (hv0 : v0 ≠ 32)
    (hh : ∀ x ∈ [h0, h1], x ≠ 0 ∧ x < 256 ∧ x ≠ 44 ∧ x ≠ 42)
    (hl : ∀ x ∈ [l0, l1, l2], x < 256) :
    patch_version
        (pre ++ 36 :: (C ++ 44 :: (sp ++ v0 :: v1 :: v2 :: 42 :: h0 :: h1 :: 0 :: post)))
        pre.length [l0, l1, l2] =
      pre ++ 36 :: (C ++ 44 :: (sp ++ l0 :: l1 :: l2 :: 42 ::
        (sprintf_02X (xorAll (C ++ 44 :: (sp ++ [l0, l1, l2]))) ++ 0 :: post))) := by
  have hsp1 : ∀ x ∈ sp, x ≠ 0 ∧ x < 256 ∧ x ≠ 44 ∧ x ≠ 42 := by
    intro x hx
    rw [hsp x hx]
    decide
  have hv0' := hv v0 (by simp)
  have hv1' := hv v1 (by simp)
  have hv2' := hv v2 (by simp)
  have hh0' := hh h0 (by simp)
  have hh1' := hh h1 (by simp)
  -- the string that starts at `line + 1`
  have hdrop : (pre ++ 36 :: (C ++ 44 :: (sp ++ v0 :: v1 :: v2 :: 42 :: h0 :: h1 :: 0 :: post))).drop
      (pre.length + 1) = (C ++ 44 :: (sp ++ [v0, v1, v2, 42, h0, h1])) ++ 0 :: post := by
    have e : pre ++ 36 :: (C ++ 44 :: (sp ++ v0 :: v1 :: v2 :: 42 :: h0 :: h1 :: 0 :: post)) =
        (pre ++ [36]) ++ ((C ++ 44 :: (sp ++ [v0, v1, v2, 42, h0, h1])) ++ 0 :: post) := by simp
    rw [e, List.drop_left' (by simp)]
  have hs : cstr ((pre ++ 36 :: (C ++ 44 :: (sp ++ v0 :: v1 :: v2 :: 42 :: h0 :: h1 :: 0 ::
      post))).drop (pre.length + 1)) = C ++ 44 :: (sp ++ [v0, v1, v2, 42, h0, h1]) := by
    rw [hdrop]
    apply cstr_append_nul
    intro x hx
    simp only [List.mem_append, List.mem_cons, List.mem_singleton, List.not_mem_nil,
      or_false] at hx
    rcases hx with hx | hx | hx | hx | hx | hx | hx | hx | hx
    · exact hC x hx
    · subst hx; decide
    · exact ⟨(hsp1 x hx).1, (hsp1 x hx).2.1⟩
    · subst hx; exact ⟨hv0'.1, hv0'.2.1⟩
    · subst hx; exact ⟨hv1'.1, hv1'.2.1⟩
    · subst hx; exact ⟨hv2'.1, hv2'.2.1⟩
    · subst hx; decide
    · subst hx; exact ⟨hh0'.1, hh0'.2.1⟩
    · subst hx; exact ⟨hh1'.1, hh1'.2.1⟩
  have hc : strrchr (C ++ 44 :: (sp ++ [v0, v1, v2, 42, h0, h1])) 44 = some C.length := by
    refine (strrchr_eq_some_iff _ _ _).mpr ⟨C, sp ++ [v0, v1, v2, 42, h0, h1], rfl, ?_, rfl⟩
    intro hx
    simp only [List.mem_append, List.mem_cons, List.mem_singleton, List.not_mem_nil,
      or_false] at hx
    rcases hx with hx | hx | hx | hx | hx | hx | hx
    · exact (hsp1 44 hx).2.2.1 rfl
    · exact hv0'.2.2 hx.symm
    · exact hv1'.2.2 hx.symm
    · exact hv2'.2.2 hx.symm
    · cases hx
    · exact hh0'.2.2.1 hx.symm
    · exact hh1'.2.2.1 hx.symm
  have he : strrchr (C ++ 44 :: (sp ++ [v0, v1, v2, 42, h0, h1])) 42 =
      some (C.length + 1 + sp.length + 3) := by
    refine (strrchr_eq_some_iff _ _ _).mpr ⟨C ++ 44 :: (sp ++ [v0, v1, v2]), [h0, h1], by simp,
      ?_, by simp; omega⟩
    intro hx
    simp only [List.mem_cons, List.mem_singleton, List.not_mem_nil, or_false] at hx
    rcases hx with hx | hx
    · exact hh0'.2.2.2 hx.symm
    · exact hh1'.2.2.2 hx.symm
  have hsk : skip_spaces (C ++ 44 :: (sp ++ [v0, v1, v2, 42, h0, h1])) (C.length + 1) =
      C.length + 1 + sp.length := by
    have e : C ++ 44 :: (sp ++ [v0, v1, v2, 42, h0, h1]) =
        (C ++ [44]) ++ (sp ++ v0 :: [v1, v2, 42, h0, h1]) := by simp
    have hlen : C.length + 1 = (C ++ [44]).length := by simp
    rw [e, hlen, skip_spaces_append _ _ _ _ hsp hv0]
  unfold patch_version
  simp only [hs, hc, he, hsk]
  rw [if_neg (by omega)]
  have hP : ∀ T : List Nat, pre ++ 36 :: (C ++ 44 :: (sp ++ T)) =
      (pre ++ 36 :: (C ++ 44 :: sp)) ++ T := by
    intro T; simp
  have lP : pre.length + 1 + (C.length + 1 + sp.length) =
      (pre ++ 36 :: (C ++ 44 :: sp)).length := by
    simp; omega
  have lE : pre.length + 1 + (C.length + 1 + sp.length + 3) =
      (pre ++ 36 :: (C ++ 44 :: sp)).length + 3 := by
    simp; omega
  have hm1 : (((pre ++ 36 :: (C ++ 44 :: (sp ++ v0 :: v1 :: v2 :: 42 :: h0 :: h1 :: 0 :: post))).set
      (pre.length + 1 + (C.length + 1 + sp.length)) ([l0, l1, l2].getD 0 0)).set
      (pre.length + 1 + (C.length + 1 + sp.length) + 1) ([l0, l1, l2].getD 1 0)).set
      (pre.length + 1 + (C.length + 1 + sp.length) + 2) ([l0, l1, l2].getD 2 0) =
      pre ++ 36 :: (C ++ 44 :: (sp ++ l0 :: l1 :: l2 :: 42 :: h0 :: h1 :: 0 :: post)) := by
    rw [hP, hP, lP]
    generalize pre ++ 36 :: (C ++ 44 :: sp) = P
    have a0 := set_append_add P (v0 :: v1 :: v2 :: 42 :: h0 :: h1 :: 0 :: post) 0 l0
    rw [Nat.add_zero] at a0
    show (((P ++ _).set P.length l0).set (P.length + 1) l1).set (P.length + 2) l2 = _
    rw [a0, set_append_add, set_append_add]
    rfl
  have hx : header_xor
      (pre ++ 36 :: (C ++ 44 :: (sp ++ l0 :: l1 :: l2 :: 42 :: h0 :: h1 :: 0 :: post)))
      (C.length + 1 + sp.length + 3) (pre.length + 1) 0 =
      xorAll (C ++ 44 :: (sp ++ [l0, l1, l2])) := by
    have e : pre ++ 36 :: (C ++ 44 :: (sp ++ l0 :: l1 :: l2 :: 42 :: h0 :: h1 :: 0 :: post)) =
        (pre ++ [36]) ++ ((C ++ 44 :: (sp ++ [l0, l1, l2])) ++ 42 :: h0 :: h1 :: 0 :: post) := by
      simp
    have hn1 : C.length + 1 + sp.length + 3 = (C ++ 44 :: (sp ++ [l0, l1, l2])).length := by
      simp; omega
    have hn2 : pre.length + 1 = (pre ++ [36]).length := by simp
    rw [e, hn1, hn2, header_xor_mid _ _ _ _ 0 (by decide)]
    · rfl
    · intro x hx
      simp only [List.mem_append, List.mem_cons, List.mem_singleton, List.not_mem_nil,
        or_false] at hx
      rcases hx with hx | hx | hx | hx | hx | hx
      · exact (hC x hx).2
      · subst hx; decide
      · exact (hsp1 x hx).2.1
      · subst hx; exact hl _ (by simp)
      · subst hx; exact hl _ (by simp)
      · subst hx; exact hl _ (by simp)
  rw [hm1, hx, lE, hP, hP]
  generalize pre ++ 36 :: (C ++ 44 :: sp) = P
  generalize xorAll (C ++ 44 :: (sp ++ [l0, l1, l2])) = X
  rw [Nat.add_assoc, Nat.add_assoc, set_append_add, set_append_add]
  rfl

theorem set_restore (l : List Nat) (i v : Nat) : (l.set i v).set i (l.getD i 0) = l := by
  apply List.ext_getElem?
  intro j
  by_cases h : i = j
  · subst h
    by_cases hi : i < l.length
    · rw [List.getElem?_set_self (by simpa using hi), List.getD_eq_getElem _ _ hi,
        List.getElem?_eq_getElem hi]
    · rw [List.getElem?_eq_none (by simpa using hi), List.getElem?_eq_none (by simpa using hi)]
  · rw [List.getElem?_set_ne h, List.getElem?_set_ne h]

/-- What `case 'C'` leaves, in terms of the values `parseshorts` read. -/
theorem header_case_C_ok (st st1 : HeaderState) (line : Nat)
    (h : header_case_C st line = .ok st1) :
    st1.s_NewVersion = (model_lookup st1.config.model).1 ∧
    st1.s_szOldVer = (model_lookup st1.config.model).2 ∧
    st1.mem = if st1.config.firmware_version ≥ st1.s_NewVersion then
      patch_version st.mem line st1.s_szOldVer else st.mem := by
  unfold header_case_C at h
  cases hp : parseshorts st.config.shorts (cstr (st.mem.drop line)) 5 with
  | error e => rw [hp] at h; cases h
  | ok rr =>
    rw [hp] at h
    simp only at h
    split at h
    · rename_i hge
      cases h
      exact ⟨rfl, rfl, by simp only; rw [if_pos hge]⟩
    · rename_i hge
      cases h
      exact ⟨rfl, rfl, by simp only; rw [if_neg hge]⟩

/-- The `switch` changes the file buffer in `case 'C'` only. -/
theorem header_switch_mem (st : HeaderState) (line next : Nat) (r : HeaderState × Bool)
    (h : header_switch st line next = .ok r) :
    (byteAt st.mem (line + 1) = 67 ∧ header_case_C st line = .ok r.1) ∨
    (byteAt st.mem (line + 1) ≠ 67 ∧ r.1.mem = st.mem) := by
  by_cases h67 : byteAt st.mem (line + 1) = 67
  · left
    refine ⟨h67, ?_⟩
    unfold header_switch at h
    simp only [h67] at h
    rw [if_pos trivial] at h
    cases hc : header_case_C st line with
    | error e => rw [hc] at h; cases h
    | ok st1 => rw [hc] at h; cases h; rfl
  · right
    refine ⟨h67, ?_⟩
    unfold header_switch at h
    simp only at h
    rw [if_neg h67] at h
    split at h
    · cases h; rfl
    · split at h
      · split at h
        · cases h
        · cases h; rfl
      · split at h
        · split at h
          · cases h
          · cases h; rfl
        · split at h
          · split at h
            · cases h
            · cases h; rfl
          · split at h
            · split at h
              · cases h
              · cases h; rfl
            · split at h
              · split at h
                · cases h
                · split at h
                  · cases h
                  · cases h; rfl
              · cases h; rfl

/-- What a completed iteration of the loop of `parse_headers` went through. -/
theorem header_record_ok (st : HeaderState) (line lf : Nat) (r : HeaderState × Bool)
    (h : header_record st line lf = .ok r) :
    test_header_checksum ((st.mem.set lf 0).drop line) = .ok () ∧
    byteAt (st.mem.set lf 0) line = 36 ∧
    ∃ r0, header_switch { st with mem := st.mem.set lf 0 } line (lf + 2) = .ok r0 ∧
      r = ({ r0.1 with mem := r0.1.mem.set lf (st.mem.getD lf 0) }, r0.2) := by
  unfold header_record at h
  simp only at h
  cases ht : test_header_checksum ((st.mem.set lf 0).drop line) with
  | error e => rw [ht] at h; cases h
  | ok u =>
    rw [ht] at h
    simp only at h
    by_cases h36 : byteAt (st.mem.set lf 0) line = 36
    · rw [if_neg (by simpa using h36)] at h
      cases hs : header_switch { st with mem := st.mem.set lf 0 } line (lf + 2) with
      | error e => rw [hs] at h; cases h
      | ok r0 =>
        rw [hs] at h
        cases h
        exact ⟨rfl, h36, r0, rfl, rfl⟩
    · rw [if_pos (by simpa using h36)] at h
      cases h

theorem dropWhile_append_stop (p : Nat → Bool) (S R : List Nat) (x : Nat)
    (hS : ∀ y ∈ S, p y = true) (hx : p x = false) : (S ++ x :: R).dropWhile p = x :: R := by
  induction S with
  | nil => simp [List.dropWhile_cons, hx]
  | cons a S ih =>
    rw [List.cons_append, List.dropWhile_cons_of_pos (hS a (by simp)),
      ih (fun y hy => hS y (List.mem_cons_of_mem _ hy))]

theorem sscanf_comma_hu_spaces (sp R : List Nat) (x : Nat) (hsp : ∀ y ∈ sp, y = 32)
    (hx : isspace x = false) :
    sscanf_comma_hu (44 :: (sp ++ x :: R)) = sscanf_comma_hu (44 :: x :: R) := by
  have h1 : (sp ++ x :: R).dropWhile isspace = x :: R :=
    dropWhile_append_stop _ _ _ _ (fun y hy => by rw [hsp y hy]; rfl) hx
  have h2 : (x :: R).dropWhile isspace = x :: R := by
    rw [List.dropWhile_cons, hx]
    rfl
  unfold sscanf_comma_hu
  simp only [h1, h2]

/-- The byte at the end of a line of the form `$C` ... `,` spaces `w0 w1 w2`
`*` `c0 c1`. -/
theorem set_line_end (pre body sp post : List Nat) (w0 w1 w2 c0 c1 x y : Nat) :
    (pre ++ 36 :: 67 :: (body ++ 44 :: (sp ++ w0 :: w1 :: w2 :: 42 :: c0 :: c1 :: x :: post))).set
        (pre.length + (body.length + sp.length + 9)) y =
      pre ++ 36 :: 67 :: (body ++ 44 :: (sp ++ w0 :: w1 :: w2 :: 42 :: c0 :: c1 :: y :: post)) := by
  have e : ∀ z, pre ++ 36 :: 67 :: (body ++ 44 :: (sp ++ w0 :: w1 :: w2 :: 42 :: c0 :: c1 :: z ::
      post)) = (pre ++ 36 :: 67 :: (body ++ 44 :: (sp ++ [w0, w1, w2, 42, c0, c1]))) ++ z :: post := by
    intro z; simp
  have hl : pre.length + (body.length + sp.length + 9) =
      (pre ++ 36 :: 67 :: (body ++ 44 :: (sp ++ [w0, w1, w2, 42, c0, c1]))).length + 0 := by
    simp; omega
  rw [e x, e y, hl, set_append_add]
  rfl

theorem getD_line_end (pre body sp post : List Nat) (w0 w1 w2 c0 c1 x : Nat) :
    (pre ++ 36 :: 67 :: (body ++ 44 :: (sp ++ w0 :: w1 :: w2 :: 42 :: c0 :: c1 :: x :: post))).getD
        (pre.length + (body.length + sp.length + 9)) 0 = x := by
  have e : pre ++ 36 :: 67 :: (body ++ 44 :: (sp ++ w0 :: w1 :: w2 :: 42 :: c0 :: c1 :: x ::
      post)) = (pre ++ 36 :: 67 :: (body ++ 44 :: (sp ++ [w0, w1, w2, 42, c0, c1]))) ++ x :: post := by
    simp
  have hl : pre.length + (body.length + sp.length + 9) =
      (pre ++ 36 :: 67 :: (body ++ 44 :: (sp ++ [w0, w1, w2, 42, c0, c1]))).length := by
    simp; omega
  rw [e, hl, List.getD_eq_getElem?_getD, List.getElem?_append_right (Nat.le_refl _)]
  simp

theorem memchr_line_end (pre body sp post : List Nat) (w0 w1 w2 c0 c1 : Nat)
    (hbody : ∀ x ∈ body, x < 256 ∧ x ≠ 13) (hsp : ∀ x ∈ sp, x = 32)
    (hw : ∀ x ∈ [w0, w1, w2, c0, c1], x < 256 ∧ x ≠ 13) :
    memchr (pre ++ 36 :: 67 :: (body ++ 44 :: (sp ++ w0 :: w1 :: w2 :: 42 :: c0 :: c1 :: 13 ::
      post))) pre.length 13 = some (pre.length + (body.length + sp.length + 9)) := by
  have e : 36 :: 67 :: (body ++ 44 :: (sp ++ w0 :: w1 :: w2 :: 42 :: c0 :: c1 :: 13 :: post)) =
      (36 :: 67 :: (body ++ 44 :: (sp ++ [w0, w1, w2, 42, c0, c1]))) ++ 13 :: post := by
    simp
  unfold memchr
  rw [List.drop_left, e, memchr_loop_append 13 _ post 13 _ ?_ rfl]
  · congr 1
    simp
    omega
  · intro x hx
    have hne : ∀ y, y < 256 ∧ y ≠ 13 → y % 256 ≠ 13 := fun y hy => by
      rw [Nat.mod_eq_of_lt hy.1]; exact hy.2
    simp only [List.mem_append, List.mem_cons, List.mem_singleton, List.not_mem_nil,
      or_false] at hx
    rcases hx with hx | hx | hx | hx | hx | hx | hx | hx | hx | hx | hx
    · subst hx; decide
    · subst hx; decide
    · exact hne x (hbody x hx)
    · subst hx; decide
    · rw [hsp x hx]; decide
    · subst hx; exact hne _ (hw _ (by simp))
    · subst hx; exact hne _ (hw _ (by simp))
    · subst hx; exact hne _ (hw _ (by simp))
    · subst hx; decide
    · subst hx; exact hne _ (hw _ (by simp))
    · subst hx; exact hne _ (hw _ (by simp))

/-- The string of a NUL-terminated line of the form `$C` ... `,` spaces
`l0 l1 l2` `*` and two characters of `sprintf`. -/
theorem patched_line_cstr (pre body sp post : List Nat) (l0 l1 l2 X : Nat)
    (hbody : ∀ x ∈ body, x ≠ 0 ∧ x < 256) (hsp : ∀ x ∈ sp, x = 32)
    (hl : ∀ x ∈ [l0, l1, l2], x ≠ 0 ∧ x < 256) (hX : X < 256) :
    cstr ((pre ++ 36 :: 67 :: (body ++ 44 :: (sp ++ l0 :: l1 :: l2 :: 42 ::
      (sprintf_02X X ++ 0 :: post)))).drop pre.length) =
      (36 :: 67 :: body) ++ 44 :: (sp ++ l0 :: l1 :: l2 :: 42 :: sprintf_02X X) := by
  have hch := sprintf_02X_chars _ hX
  have e1 : 36 :: 67 :: (body ++ 44 :: (sp ++ l0 :: l1 :: l2 :: 42 :: (sprintf_02X X ++ 0 ::
      post))) = ((36 :: 67 :: body) ++ 44 :: (sp ++ l0 :: l1 :: l2 :: 42 :: sprintf_02X X)) ++
        0 :: post := by simp
  rw [List.drop_left, e1]
  apply cstr_append_nul
  intro x hx
  simp only [List.mem_append, List.mem_cons] at hx
  rcases hx with (hx | hx | hx) | hx | hx | hx | hx | hx | hx | hx
  · subst hx; decide
  · subst hx; decide
  · exact hbody x hx
  · subst hx; decide
  · rw [hsp x hx]; decide
  · subst hx; exact hl _ (by simp)
  · subst hx; exact hl _ (by simp)
  · subst hx; exact hl _ (by simp)
  · subst hx; decide
  · exact ⟨(hch x hx).1, (hch x hx).2.1⟩

/-- A line that ends in `*` and the two characters `sprintf` gives for the
exclusive or of its bytes after `$` is accepted. -/
theorem patched_line_accepted (pre body sp post : List Nat) (l0 l1 l2 : Nat)
    (hbody : ∀ x ∈ body, x ≠ 0 ∧ x < 256) (hsp : ∀ x ∈ sp, x = 32)
    (hl : ∀ x ∈ [l0, l1, l2], x ≠ 0 ∧ x < 256) :
    test_header_checksum ((pre ++ 36 :: 67 :: (body ++ 44 :: (sp ++ l0 :: l1 :: l2 :: 42 ::
      (sprintf_02X (xorAll (67 :: (body ++ 44 :: (sp ++ [l0, l1, l2])))) ++ 0 :: post)))).drop
        pre.length) = .ok () := by
  have hX : xorAll (67 :: (body ++ 44 :: (sp ++ [l0, l1, l2]))) < 256 := by
    apply xorAll_lt
    intro x hx
    simp only [List.mem_append, List.mem_cons, List.mem_singleton, List.not_mem_nil,
      or_false] at hx
    rcases hx with hx | hx | hx | hx | hx | hx | hx
    · subst hx; decide
    · exact (hbody x hx).2
    · subst hx; decide
    · rw [hsp x hx]; decide
    · subst hx; exact (hl _ (by simp)).2
    · subst hx; exact (hl _ (by simp)).2
    · subst hx; exact (hl _ (by simp)).2
  have hch := sprintf_02X_chars _ hX
  have e := patched_line_cstr pre body sp post l0 l1 l2 _ hbody hsp hl hX
  have e2 : (36 :: 67 :: body) ++ 44 :: (sp ++ l0 :: l1 :: l2 :: 42 ::
      sprintf_02X (xorAll (67 :: (body ++ 44 :: (sp ++ [l0, l1, l2]))))) =
      (36 :: 67 :: (body ++ 44 :: (sp ++ [l0, l1, l2]))) ++ 42 ::
        sprintf_02X (xorAll (67 :: (body ++ 44 :: (sp ++ [l0, l1, l2])))) := by simp
  rw [test_header_checksum_split _ _ _ (e.trans e2) (fun hm => (hch 42 hm).2.2.1 rfl),
    sscanf_hx_sprintf _ hX]
  simp

/-- The conversion `,%hu` at the last comma of a patched line reads the label. -/
theorem patched_version_read (body sp : List Nat) (l0 l1 l2 X : Nat) (hsp : ∀ x ∈ sp, x = 32)
    (hl0 : isspace l0 = false) :
    sscanf_comma_hu
        (((36 :: 67 :: body) ++ 44 :: (sp ++ l0 :: l1 :: l2 :: 42 :: sprintf_02X X)).drop
          (2 + body.length)) =
      sscanf_comma_hu (44 :: l0 :: l1 :: l2 :: 42 :: sprintf_02X X) := by
  rw [List.drop_left' (by simp; omega)]
  exact sscanf_comma_hu_spaces sp _ l0 hsp hl0

theorem sscanf_label_139 (R : List Nat) :
    sscanf_comma_hu (44 :: 49 :: 51 :: 57 :: 42 :: R) = .value 139 := rfl

theorem sscanf_label_299 (R : List Nat) :
    sscanf_comma_hu (44 :: 50 :: 57 :: 57 :: 42 :: R) = .value 299 := rfl

/-- The file buffer after the iteration for a `$C` line that is patched with
the label `l0 l1 l2`. -/
theorem c_line_patched_mem (pre body sp post : List Nat) (v0 v1 v2 h0 h1 l0 l1 l2 : Nat)
    (hbody : ∀ x ∈ body, x ≠ 0 ∧ x < 256 ∧ x ≠ 13) (hsp : ∀ x ∈ sp, x = 32)
    (hv : ∀ x ∈ [v0, v1, v2], x ≠ 0 ∧ x < 256 ∧ x ≠ 13 ∧ x ≠ 44) (hv0 : v0 ≠ 32)
    (hh : ∀ x ∈ [h0, h1], x ≠ 0 ∧ x < 256 ∧ x ≠ 13 ∧ x ≠ 44 ∧ x ≠ 42)
    (hl : ∀ x ∈ [l0, l1, l2], x < 256) :
    (patch_version
        ((pre ++ 36 :: 67 :: (body ++ 44 :: (sp ++ v0 :: v1 :: v2 :: 42 :: h0 :: h1 :: 13 ::
          post))).set (pre.length + (body.length + sp.length + 9)) 0)
        pre.length [l0, l1, l2]).set (pre.length + (body.length + sp.length + 9))
        ((pre ++ 36 :: 67 :: (body ++ 44 :: (sp ++ v0 :: v1 :: v2 :: 42 :: h0 :: h1 :: 13 ::
          post))).getD (pre.length + (body.length + sp.length + 9)) 0) =
      pre ++ 36 :: 67 :: (body ++ 44 :: (sp ++ l0 :: l1 :: l2 :: 42 ::
        (sprintf_02X (xorAll (67 :: (body ++ 44 :: (sp ++ [l0, l1, l2])))) ++ 13 :: post))) := by
  have hp := patch_version_shape pre (67 :: body) sp post v0 v1 v2 h0 h1 l0 l1 l2
    (by
      intro x hx
      rcases List.mem_cons.mp hx with hx | hx
      · subst hx; decide
      · exact ⟨(hbody x hx).1, (hbody x hx).2.1⟩)
    hsp (fun x hx => ⟨(hv x hx).1, (hv x hx).2.1, (hv x hx).2.2.2⟩) hv0
    (fun x hx => ⟨(hh x hx).1, (hh x hx).2.1, (hh x hx).2.2.2.1, (hh x hx).2.2.2.2⟩) hl
  rw [set_line_end, getD_line_end]
  rw [List.cons_append, List.cons_append] at hp
  rw [hp]
  exact set_line_end pre body sp post l0 l1 l2 _ _ 0 13

theorem xorAll_line_lt (body sp : List Nat) (l0 l1 l2 : Nat)
    (hbody : ∀ x ∈ body, x ≠ 0 ∧ x < 256) (hsp : ∀ x ∈ sp, x = 32)
    (hl : ∀ x ∈ [l0, l1, l2], x ≠ 0 ∧ x < 256) :
    xorAll (67 :: (body ++ 44 :: (sp ++ [l0, l1, l2]))) < 256 := by
  apply xorAll_lt
  intro x hx
  simp only [List.mem_append, List.mem_cons, List.mem_singleton, List.not_mem_nil,
    or_false] at hx
  rcases hx with hx | hx | hx | hx | hx | hx | hx
  · subst hx; decide
  · exact (hbody x hx).2
  · subst hx; decide
  · rw [hsp x hx]; decide
  · subst hx; exact (hl _ (by simp)).2
  · subst hx; exact (hl _ (by simp)).2
  · subst hx; exact (hl _ (by simp)).2

/-- The patched line, NUL-terminated again, is accepted, and the conversion at
its last comma reads its label. -/
theorem c_line_patched_read (pre body sp post : List Nat) (l0 l1 l2 : Nat)
    (hbody : ∀ x ∈ body, x ≠ 0 ∧ x < 256) (hsp : ∀ x ∈ sp, x = 32)
    (hl : ∀ x ∈ [l0, l1, l2], x ≠ 0 ∧ x < 256) (hl0 : isspace l0 = false) :
    test_header_checksum (((pre ++ 36 :: 67 :: (body ++ 44 :: (sp ++ l0 :: l1 :: l2 :: 42 ::
      (sprintf_02X (xorAll (67 :: (body ++ 44 :: (sp ++ [l0, l1, l2])))) ++ 13 :: post)))).set
        (pre.length + (body.length + sp.length + 9)) 0).drop pre.length) = .ok () ∧
    sscanf_comma_hu ((cstr (((pre ++ 36 :: 67 :: (body ++ 44 :: (sp ++ l0 :: l1 :: l2 :: 42 ::
      (sprintf_02X (xorAll (67 :: (body ++ 44 :: (sp ++ [l0, l1, l2])))) ++ 13 :: post)))).set
        (pre.length + (body.length + sp.length + 9)) 0).drop pre.length)).drop
          (2 + body.length)) =
      sscanf_comma_hu (44 :: l0 :: l1 :: l2 :: 42 ::
        sprintf_02X (xorAll (67 :: (body ++ 44 :: (sp ++ [l0, l1, l2]))))) := by
  have hset : (pre ++ 36 :: 67 :: (body ++ 44 :: (sp ++ l0 :: l1 :: l2 :: 42 ::
      (sprintf_02X (xorAll (67 :: (body ++ 44 :: (sp ++ [l0, l1, l2])))) ++ 13 :: post)))).set
        (pre.length + (body.length + sp.length + 9)) 0 =
      pre ++ 36 :: 67 :: (body ++ 44 :: (sp ++ l0 :: l1 :: l2 :: 42 ::
        (sprintf_02X (xorAll (67 :: (body ++ 44 :: (sp ++ [l0, l1, l2])))) ++ 0 :: post))) :=
    set_line_end pre body sp post l0 l1 l2 _ _ 13 0
  rw [hset]
  refine ⟨patched_line_accepted pre body sp post l0 l1 l2 hbody hsp hl, ?_⟩
  rw [patched_line_cstr pre body sp post l0 l1 l2 _ hbody hsp hl
    (xorAll_line_lt body sp l0 l1 l2 hbody hsp hl)]
  exact patched_version_read body sp l0 l1 l2 _ hsp hl0

/-- C18: the table gives (140, "139") for model 760 and (300, "299") for every
other model.  For a `$C` line of the file buffer that has exactly three
characters between the spaces after its last comma and its `*`, and two
characters after the `*`, and whose firmware version is at or above the
threshold: after the iteration of `parse_headers` for that line, these three
characters are the label, the two characters after the `*` are the two
upper-case hexadecimal digits of the exclusive or of the patched bytes between
`$` and `*`, every other byte of the buffer is as before, the patched line is
accepted by `test_header_checksum`, and the conversion `,%hu` at the last comma
of the patched line reads a number below the threshold. -/
theorem c_line_downgrade (st : HeaderState) (pre body sp post : List Nat)
    (v0 v1 v2 h0 h1 : Nat) (r : HeaderState × Bool)
    (hmem : st.mem =
      pre ++ 36 :: 67 :: (body ++ 44 :: (sp ++ v0 :: v1 :: v2 :: 42 :: h0 :: h1 :: 13 :: post)))
    (hbody : ∀ x ∈ body, x ≠ 0 ∧ x < 256 ∧ x ≠ 13) (hsp : ∀ x ∈ sp, x = 32)
    (hv : ∀ x ∈ [v0, v1, v2], x ≠ 0 ∧ x < 256 ∧ x ≠ 13 ∧ x ≠ 44) (hv0 : v0 ≠ 32)
    (hh : ∀ x ∈ [h0, h1], x ≠ 0 ∧ x < 256 ∧ x ≠ 13 ∧ x ≠ 44 ∧ x ≠ 42)
    (hrun : header_record st pre.length (pre.length + (body.length + sp.length + 9)) = .ok r)
    (hver : r.1.s_NewVersion ≤ r.1.config.firmware_version) :
    memchr st.mem pre.length 13 = some (pre.length + (body.length + sp.length + 9)) ∧
    (r.1.s_NewVersion, r.1.s_szOldVer) =
      (if r.1.config.model = 760 then (140, [49, 51, 57]) else (300, [50, 57, 57])) ∧
    r.1.mem = pre ++ 36 :: 67 :: (body ++ 44 :: (sp ++ (r.1.s_szOldVer ++ 42 ::
      (sprintf_02X (xorAll (67 :: (body ++ 44 :: (sp ++ r.1.s_szOldVer)))) ++ 13 :: post)))) ∧
    test_header_checksum
      ((r.1.mem.set (pre.length + (body.length + sp.length + 9)) 0).drop pre.length) = .ok () ∧
    ∃ n, sscanf_comma_hu ((cstr ((r.1.mem.set (pre.length + (body.length + sp.length + 9)) 0).drop
        pre.length)).drop (2 + body.length)) = .value n ∧ n < r.1.s_NewVersion := by
  have hmc : memchr st.mem pre.length 13 = some (pre.length + (body.length + sp.length + 9)) := by
    rw [hmem]
    apply memchr_line_end pre body sp post v0 v1 v2 h0 h1
      (fun x hx => ⟨(hbody x hx).2.1, (hbody x hx).2.2⟩) hsp
    intro x hx
    simp only [List.mem_cons, List.mem_singleton, List.not_mem_nil, or_false] at hx
    rcases hx with hx | hx | hx | hx | hx
    · subst hx; exact ⟨(hv _ (by simp)).2.1, (hv _ (by simp)).2.2.1⟩
    · subst hx; exact ⟨(hv _ (by simp)).2.1, (hv _ (by simp)).2.2.1⟩
    · subst hx; exact ⟨(hv _ (by simp)).2.1, (hv _ (by simp)).2.2.1⟩
    · subst hx; exact ⟨(hh _ (by simp)).2.1, (hh _ (by simp)).2.2.1⟩
    · subst hx; exact ⟨(hh _ (by simp)).2.1, (hh _ (by simp)).2.2.1⟩
  obtain ⟨_, _, r0, hs, rfl⟩ := header_record_ok _ _ _ _ hrun
  simp only at hver ⊢
  have hbody0 : ∀ x ∈ body, x ≠ 0 ∧ x < 256 := fun x hx => ⟨(hbody x hx).1, (hbody x hx).2.1⟩
  rcases header_switch_mem _ _ _ _ hs with ⟨_, hc⟩ | ⟨hne, _⟩
  · obtain ⟨hnv, hold, hm⟩ := header_case_C_ok _ _ _ hc
    rw [if_pos hver] at hm
    simp only at hm
    have hlk := model_lookup_eq r0.1.config.model
    refine ⟨hmc, ?_⟩
    by_cases h760 : r0.1.config.model = 760
    · rw [if_pos h760] at hlk ⊢
      rw [hlk] at hnv hold
      simp only at hnv hold
      have hM := c_line_patched_mem pre body sp post v0 v1 v2 h0 h1 49 51 57 hbody hsp hv hv0 hh
        (by decide)
      rw [hold] at hm
      rw [← hmem, ← hm] at hM
      have hR := c_line_patched_read pre body sp post 49 51 57 hbody0 hsp (by decide) (by decide)
      rw [hM, hnv, hold]
      exact ⟨rfl, rfl, hR.1, 139, hR.2.trans (sscanf_label_139 _), by decide⟩
    · rw [if_neg h760] at hlk ⊢
      rw [hlk] at hnv hold
      simp only at hnv hold
      have hM := c_line_patched_mem pre body sp post v0 v1 v2 h0 h1 50 57 57 hbody hsp hv hv0 hh
        (by decide)
      rw [hold] at hm
      rw [← hmem, ← hm] at hM
      have hR := c_line_patched_read pre body sp post 50 57 57 hbody0 hsp (by decide) (by decide)
      rw [hM, hnv, hold]
      exact ⟨rfl, rfl, hR.1, 299, hR.2.trans (sscanf_label_299 _), by decide⟩
  · exfalso
    apply hne
    simp only
    rw [hmem, set_line_end]
    unfold byteAt
    rw [List.getD_eq_getElem?_getD, List.getElem?_append_right (Nat.le_succ _)]
    simp

/-- Instance of C18: the line `$C, 700,63741, 6193, 1552, 300*52` (model 700,
firmware version 300, threshold 300) becomes `$C, 700,63741, 6193, 1552,
299*53`, which is accepted. -/
theorem c_line_downgrade_witness :
    header_record (reset_vars ex_c_line) 0 33 =
      .ok ({ reset_vars ex_c_patched with
              config := ⟨700, 405928189, 1552, 300⟩, s_NewVersion := 300,
              s_szOldVer := [50, 57, 57] }, false) ∧
    test_header_checksum ((ex_c_patched.set 33 0).drop 0) = .ok () :=
  have h : header_record (reset_vars ex_c_line) 0 33 =
      .ok ({ reset_vars ex_c_patched with
              config := ⟨700, 405928189, 1552, 300⟩, s_NewVersion := 300,
              s_szOldVer := [50, 57, 57] }, false) := by decide
  ⟨h, (c_line_downgrade (reset_vars ex_c_line) []
    [44, 32, 55, 48, 48, 44, 54, 51, 55, 52, 49, 44, 32, 54, 49, 57, 51, 44, 32, 49, 53, 53, 50]
    [32] [10, 36, 80] 51 48 48 53 50 _ rfl (by decide) (by decide) (by decide) (by decide)
    (by decide) h (by decide)).2.2.2.1⟩

/-! ### The loop bound of the model is never reached -/

theorem rewrite_checksum_error (fw nv : Nat) (err e : DataError) (pRec p : Nat)
    (st : RewriteState) (h : rewrite_checksum fw nv err pRec p st = .error e) : e = err := by
  unfold rewrite_checksum at h
  split at h
  · cases h; rfl
  · cases h

theorem rewrite_checksum_pFlight (fw nv : Nat) (err : DataError) (pRec p : Nat)
    (st st1 : RewriteState) (h : rewrite_checksum fw nv err pRec p st = .ok st1) :
    st1.pFlight = p + 1 := by
  unfold rewrite_checksum at h
  split at h
  · cases h
  · cases h; rfl

theorem rewrite_records_fuel (fw nv pEnd : Nat) :
    ∀ (fuel : Nat) (st : RewriteState), pEnd ≤ st.pFlight + fuel →
      rewrite_records fw nv pEnd fuel st ≠ .error .outOfFuel := by
  intro fuel
  induction fuel with
  | zero =>
    intro st hle
    rw [rewrite_records, if_neg (by omega)]
    exact fun h => by cases h
  | succ n ih =>
    intro st hle
    rw [rewrite_records]
    split
    · cases hr : rewrite_record fw nv pEnd st with
      | error e =>
        simp only
        unfold rewrite_record at hr
        split at hr
        · cases hr
          exact fun h => by cases h
        · have := rewrite_checksum_error _ _ _ _ _ _ _ hr
          subst this
          exact fun h => by cases h
      | ok st1 =>
        simp only
        apply ih
        unfold rewrite_record at hr
        split at hr
        · cases hr
        · have h1 := rewrite_checksum_pFlight _ _ _ _ _ _ _ hr
          have h2 := rewrite_cursor_ge st.buf st.pFlight
          omega
    · exact fun h => by cases h

theorem rewrite_flight_fuel (fw nv : Nat) (st : RewriteState) (f : flight) :
    rewrite_flight fw nv st f ≠ .error .outOfFuel := by
  unfold rewrite_flight
  cases hr : flight_range st.buf.length st.pFlight f.data_length with
  | error e =>
    simp only
    simp only [flight_range] at hr
    split at hr
    · cases hr
      exact fun h => by cases h
    · split at hr
      · cases hr
        exact fun h => by cases h
      · cases hr
  | ok pEnd =>
    simp only
    cases hc : rewrite_checksum fw nv .headerChecksum st.pFlight
        (st.pFlight + sizeof_flightheader) st with
    | error e =>
      simp only
      have := rewrite_checksum_error _ _ _ _ _ _ _ hc
      subst this
      exact fun h => by cases h
    | ok st1 =>
      simp only
      cases hrec : rewrite_records fw nv pEnd (pEnd - st1.pFlight) st1 with
      | error e =>
        simp only
        intro h
        cases h
        exact rewrite_records_fuel fw nv pEnd _ st1 (by omega) hrec
      | ok st2 => exact fun h => by cases h

/-- The rewriter never stops at the loop bound of the model: the fuel given to
the record loop, the length of the flight, is enough, since every record takes
at least four bytes. -/
theorem recompute_checksums_fuel (env : Env) (fl : List flight) (buf : List Nat) (pHE : Nat) :
    recompute_checksums env fl buf pHE ≠ .error .outOfFuel := by
  have hfl : ∀ (l : List flight) (st : RewriteState),
      rewrite_flights env.config.firmware_version env.s_NewVersion l st ≠
        .error .outOfFuel := by
    intro l
    induction l with
    | nil => intro st h; cases h
    | cons f fs ih =>
      intro st
      rw [rewrite_flights]
      cases hr : rewrite_flight env.config.firmware_version env.s_NewVersion st f with
      | error e =>
        simp only
        intro h
        cases h
        exact rewrite_flight_fuel _ _ _ _ hr
      | ok st1 => exact ih st1
  unfold recompute_checksums
  split
  · exact fun h => by cases h
  · cases hr : rewrite_flights env.config.firmware_version env.s_NewVersion fl ⟨buf, pHE, []⟩ with
    | error e =>
      simp only
      intro h
      cases h
      exact hfl _ _ hr
    | ok st => exact fun h => by cases h

/-- The record loop of the decoder never stops at the loop bound of the model
when the fuel covers the bytes left of the flight. -/
theorem decode_records_fuel (env : Env) (flags interval : Nat) (buf : List Nat) (pEnd : Nat) :
    ∀ (fuel : Nat) (s : FlightState × List (Nat × Nat)), pEnd ≤ s.1.pFlight + fuel →
      decode_records env flags interval buf pEnd fuel s ≠ .error .outOfFuel := by
  intro fuel
  induction fuel with
  | zero =>
    intro s hle
    rw [decode_records, if_neg (by omega)]
    exact fun h => by cases h
  | succ n ih =>
    intro s hle
    rw [decode_records]
    split
    · have hge : s.1.pFlight + 3 ≤ (decode_deltas env flags buf s.1.drec s.1.pFlight).2 := by
        rw [← rewrite_cursor_eq_decode]
        exact rewrite_cursor_ge _ _
      cases hr : decode_record env flags interval buf pEnd s.1 with
      | error e =>
        simp only
        unfold decode_record at hr
        simp only at hr
        split at hr
        · cases hr
          exact fun h => by cases h
        · split at hr
          · cases hr
            exact fun h => by cases h
          · cases hr
      | ok st1 =>
        simp only
        apply ih
        unfold decode_record at hr
        simp only at hr
        split at hr
        · cases hr
        · split at hr
          · cases hr
          · cases hr
            simp only
            omega
    · exact fun h => by cases h

/-! ### Packed date and time -/

theorem and_mask_shift (x lo w : Nat) :
    (x &&& ((2 ^ w - 1) <<< lo)) >>> lo = x / 2 ^ lo % 2 ^ w := by
  apply Nat.eq_of_testBit_eq
  intro j
  rw [Nat.testBit_shiftRight, Nat.testBit_and, Nat.testBit_shiftLeft, Nat.testBit_two_pow_sub_one,
    Nat.testBit_mod_two_pow, ← Nat.shiftRight_eq_div_pow, Nat.testBit_shiftRight]
  have e : lo + j - lo = j := by omega
  have h : decide (lo + j ≥ lo) = true := by simp
  rw [e, h, Bool.true_and, Bool.and_comm]

theorem and_low_mask (x : Nat) : x &&& 0x001f = x % 32 :=
  Nat.and_pow_two_sub_one_eq_mod x 5

theorem decode_datebits_eq (dt : Nat) :
    decode_datebits dt = (dt / 32 % 16, dt % 32, dt / 512 % 128) := by
  unfold decode_datebits
  rw [and_low_mask, show (0x01e0 : Nat) = (2 ^ 4 - 1) <<< 5 from by decide,
    show (0xfe00 : Nat) = (2 ^ 7 - 1) <<< 9 from by decide, and_mask_shift, and_mask_shift]
  rfl

theorem decode_timebits_eq (tm : Nat) :
    decode_timebits tm = (tm / 2048 % 32, tm / 32 % 64, tm % 32 * 2) := by
  unfold decode_timebits
  rw [and_low_mask, show (0xf800 : Nat) = (2 ^ 5 - 1) <<< 11 from by decide,
    show (0x07e0 : Nat) = (2 ^ 6 - 1) <<< 5 from by decide, and_mask_shift, and_mask_shift]
  rfl

/-- C24: for day < 32, month < 16, year < 128, `decode_datebits` of
`day + 32 * month + 512 * year` is `(month, day, year)`; for s < 32,
minute < 64, hour < 32, `decode_timebits` of `s + 32 * minute + 2048 * hour` is
`(hour, minute, 2 * s)`; and for every input `tm` the seconds `decode_timebits`
gives are even and at most 62. -/
theorem packed_date_time (day month year s minute hour tm : Nat)
    (hd : day < 32) (hm : month < 16) (hy : year < 128)
    (hs : s < 32) (hmin : minute < 64) (hh : hour < 32) :
    decode_datebits (day + 32 * month + 512 * year) = (month, day, year) ∧
    decode_timebits (s + 32 * minute + 2048 * hour) = (hour, minute, 2 * s) ∧
    (decode_timebits tm).2.2 % 2 = 0 ∧ (decode_timebits tm).2.2 ≤ 62 := by
  rw [decode_datebits_eq, decode_timebits_eq, decode_timebits_eq]
  refine ⟨?_, ?_, ?_, ?_⟩
  · have h1 : (day + 32 * month + 512 * year) / 32 % 16 = month := by omega
    have h2 : (day + 32 * month + 512 * year) % 32 = day := by omega
    have h3 : (day + 32 * month + 512 * year) / 512 % 128 = year := by omega
    rw [h1, h2, h3]
  · have h1 : (s + 32 * minute + 2048 * hour) / 2048 % 32 = hour := by omega
    have h2 : (s + 32 * minute + 2048 * hour) / 32 % 64 = minute := by omega
    have h3 : (s + 32 * minute + 2048 * hour) % 32 * 2 = 2 * s := by omega
    rw [h1, h2, h3]
  · show tm % 32 * 2 % 2 = 0
    omega
  · show tm % 32 * 2 ≤ 62
    omega

/-- Instance of C24: 17 March of year 105 packs to `0xD271`, and 13:45:58 to
`0x6DBD`. -/
theorem packed_date_time_witness :
    decode_datebits 0xD271 = (3, 17, 105) ∧ decode_timebits 0x6DBD = (13, 45, 58) :=
  ⟨(packed_date_time 17 3 105 29 45 13 0 (by decide) (by decide) (by decide) (by decide)
      (by decide) (by decide)).1,
    (packed_date_time 17 3 105 29 45 13 0 (by decide) (by decide) (by decide) (by decide)
      (by decide) (by decide)).2.1⟩

/-! ### Cylinder count -/

theorem and_two_pow_ne_zero (f i : Nat) : f &&& 2 ^ i ≠ 0 ↔ f.testBit i = true := by
  rw [Nat.and_two_pow]
  cases f.testBit i
  · simp
  · simp

theorem NUMCYLS_loop_spec (f : Nat) :
    ∀ (fuel n : Nat), n + fuel = 10 → n ≤ 9 →
      n ≤ NUMCYLS_loop f fuel n (2 ^ (n + 2)) ∧ NUMCYLS_loop f fuel n (2 ^ (n + 2)) ≤ 9 ∧
      (∀ k, n ≤ k → k < NUMCYLS_loop f fuel n (2 ^ (n + 2)) → f.testBit (k + 2) = true) ∧
      (NUMCYLS_loop f fuel n (2 ^ (n + 2)) < 9 →
        f.testBit (NUMCYLS_loop f fuel n (2 ^ (n + 2)) + 2) = false) := by
  intro fuel
  induction fuel with
  | zero => intro n h1 h2; omega
  | succ fuel ih =>
    intro n h1 h2
    rw [NUMCYLS_loop]
    by_cases hc : n < MAX_CYLS ∧ f &&& 2 ^ (n + 2) ≠ 0
    · rw [if_pos hc]
      have hn : n < 9 := hc.1
      have hm : (2 ^ (n + 2) <<< 1) % 4294967296 = 2 ^ (n + 1 + 2) := by
        rw [Nat.shiftLeft_eq, ← Nat.pow_succ]
        apply Nat.mod_eq_of_lt
        calc 2 ^ (n + 2 + 1) ≤ 2 ^ 12 := Nat.pow_le_pow_right (by decide) (by omega)
          _ < 4294967296 := by decide
      rw [hm]
      obtain ⟨a, b, c, d⟩ := ih (n + 1) (by omega) (by omega)
      refine ⟨by omega, b, ?_, d⟩
      intro k hk1 hk2
      by_cases hk : k = n
      · subst hk
        exact (and_two_pow_ne_zero f _).mp hc.2
      · exact c k (by omega) hk2
    · rw [if_neg hc]
      refine ⟨Nat.le_refl _, h2, fun k hk1 hk2 => by omega, ?_⟩
      intro hn
      have h0 : ¬ f &&& 2 ^ (n + 2) ≠ 0 := fun h => hc ⟨hn, h⟩
      rw [and_two_pow_ne_zero] at h0
      simpa using h0

/-- C25: `NUMCYLS(f)` is at most 9; bits 2, ..., `NUMCYLS(f) + 1` of `f` are
set; when `NUMCYLS(f)` is below 9 the next bit is clear; so `NUMCYLS(f)` is
the largest `n` in 0..9 with bits 2, ..., `n + 1` all set, and it is 0 when bit
2 is clear. -/
theorem NUMCYLS_spec (f : Nat) :
    NUMCYLS f ≤ 9 ∧
    (∀ k, k < NUMCYLS f → f.testBit (k + 2) = true) ∧
    (NUMCYLS f < 9 → f.testBit (NUMCYLS f + 2) = false) ∧
    (∀ n, n ≤ 9 → (∀ k, k < n → f.testBit (k + 2) = true) → n ≤ NUMCYLS f) ∧
    (f.testBit 2 = false → NUMCYLS f = 0) := by
  obtain ⟨_, b, c, d⟩ := NUMCYLS_loop_spec f 10 0 rfl (by decide)
  have e : NUMCYLS_loop f 10 0 (2 ^ (0 + 2)) = NUMCYLS f := rfl
  rw [e] at b c d
  refine ⟨b, fun k hk => c k (Nat.zero_le _) hk, d, ?_, ?_⟩
  · intro n hn hbits
    by_contra hlt
    have h1 : NUMCYLS f < 9 := by omega
    have h2 := hbits (NUMCYLS f) (by omega)
    rw [d h1] at h2
    cases h2
  · intro h2
    by_contra hne
    have := c 0 (Nat.zero_le _) (by omega)
    rw [h2] at this
    cases this

/-! ### Frame of the decoder -/

theorem decode_record_drec (env : Env) (flags interval : Nat) (buf : List Nat) (pEnd : Nat)
    (st st1 : FlightState) (h : decode_record env flags interval buf pEnd st = .ok st1) :
    st1.drec = (decode_deltas env flags buf st.drec st.pFlight).1 ∧
    st1.pFlight = (decode_deltas env flags buf st.drec st.pFlight).2 + 1 := by
  unfold decode_record at h
  simp only at h
  split at h
  · cases h
  · split at h
    · cases h
    · cases h
      exact ⟨rfl, rfl⟩

/-- C27: a data record leaves the stored value and the NA flag of every slot
`i < 48` other than 41 and 42 whose value bit and whose scale bit (if it has
one) are clear in the record as they were in the prior snapshot; the snapshot
an accepted record leaves is the prior snapshot with the deltas applied, and it
is the one the record loop goes on with. -/
theorem decoder_frame (env : Env) (flags : Nat) (buf : List Nat) (rec : datarec) (p0 i : Nat)
    (_hi : i < 48) (h41 : i ≠ 41) (h42 : i ≠ 42)
    (hv : testbit (record_flags buf p0).valflags i = false)
    (hsc : ∀ b, scale_bit i = some b → testbit (record_flags buf p0).scaleflags b = false) :
    (decode_deltas env flags buf rec p0).1.sarray i = rec.sarray i ∧
    testbit (decode_deltas env flags buf rec p0).1.naflags i = testbit rec.naflags i ∧
    (∀ (interval pEnd : Nat) (st st1 : FlightState),
      decode_record env flags interval buf pEnd st = .ok st1 →
        st1.drec = (decode_deltas env flags buf st.drec st.pFlight).1) ∧
    (∀ (interval pEnd fuel : Nat) (st st1 : FlightState) (m : List (Nat × Nat)),
      st.pFlight + 3 < pEnd → decode_record env flags interval buf pEnd st = .ok st1 →
        decode_records env flags interval buf pEnd (fuel + 1) (st, m) =
          decode_records env flags interval buf pEnd fuel
            (st1, m ++ [(st.pFlight, st1.pFlight - 1)])) := by
  refine ⟨?_, ?_, fun interval pEnd st st1 h => (decode_record_drec _ _ _ _ _ _ _ h).1, ?_⟩
  · rw [decode_deltas_sarray_other _ _ _ _ _ _ h41 h42, after_scale_sarray]
    have hav : (after_value buf rec p0).1.sarray i = rec.sarray i := by
      rw [after_value_sarray, hv]
      simp
    cases hb : scale_bit i with
    | none => exact hav
    | some b =>
      simp only
      rw [hsc b hb]
      simpa using hav
  · rw [decode_deltas_na, if_neg (fun h => h41 h.1), after_scale_na]
    have hav : testbit (after_value buf rec p0).1.naflags i = testbit rec.naflags i := by
      rw [after_value_na, hv]
      simp
    cases hb : scale_bit i with
    | none => exact hav
    | some b =>
      simp only
      rw [hsc b hb]
      simpa using hav
  · intro interval pEnd fuel st st1 m hlt h
    rw [decode_records]
    simp only
    rw [if_pos hlt, h]

/-- Instance of C27: the first record of `ex_na_buf` carries a value byte for
slot 0 only; slot 1 keeps the value 240 and its clear NA flag. -/
theorem decoder_frame_witness :
    (decode_deltas ex_env F_E1 ex_na_buf (datarec.init ex_env) 0).1.sarray 1 = 240 ∧
    testbit (decode_deltas ex_env F_E1 ex_na_buf (datarec.init ex_env) 0).1.naflags 1 = false :=
  have h := decoder_frame ex_env F_E1 ex_na_buf (datarec.init ex_env) 0 1 (by decide)
    (by decide) (by decide) (by decide)
    (fun b hb => by
      have e : b = 1 := by
        have : some 1 = some b := hb
        exact (Option.some.inj this).symm
      subst e
      decide)
  ⟨h.1.trans (by decide), h.2.1.trans (by decide)⟩

/-! ### The flight header -/

theorem byteswap_read_ushort (buf : List Nat) (p : Nat) :
    byteswap (read_ushort buf p) = 256 * byteAt buf p + byteAt buf (p + 1) := by
  have h0 : byteAt buf p < 256 := byteAt_lt buf p
  have h1 : byteAt buf (p + 1) < 256 := byteAt_lt buf (p + 1)
  unfold byteswap read_ushort
  generalize byteAt buf p = a at h0 ⊢
  generalize byteAt buf (p + 1) = b at h1 ⊢
  have e1 : ((a + 256 * b) &&& 0xFF00) >>> 8 = b := by
    rw [show (0xFF00 : Nat) = (2 ^ 8 - 1) <<< 8 from by decide, and_mask_shift]
    show (a + 256 * b) / 256 % 256 = b
    omega
  have e2 : (a + 256 * b) &&& 0x00FF = a := by
    rw [show (0x00FF : Nat) = 2 ^ 8 - 1 from by decide, Nat.and_pow_two_sub_one_eq_mod]
    show (a + 256 * b) % 256 = a
    omega
  rw [e1, e2, Nat.shiftLeft_eq, Nat.lor_comm, Nat.mul_comm a]
  exact (Nat.mul_add_lt_is_or h1 a).symm

theorem header_words_loop (buf : List Nat) (u : Nat → Nat) (p : Nat) :
    ∀ n, (forUpTo n (fun i (st : (Nat → Nat) × Nat) =>
        ((fun k => if k = i then byteswap (read_ushort buf st.2) else st.1 k), st.2 + 2))
        (u, p)).2 = p + 2 * n ∧
      ∀ k, (forUpTo n (fun i (st : (Nat → Nat) × Nat) =>
        ((fun k => if k = i then byteswap (read_ushort buf st.2) else st.1 k), st.2 + 2))
        (u, p)).1 k = if k < n then byteswap (read_ushort buf (p + 2 * k)) else u k := by
  intro n
  induction n with
  | zero => exact ⟨rfl, fun k => by simp [forUpTo]⟩
  | succ n ih =>
    rw [forUpTo_succ]
    refine ⟨by simp only [ih.1]; omega, fun k => ?_⟩
    simp only [ih.1, ih.2]
    by_cases hk : k = n
    · subst hk
      simp
    · rw [if_neg hk]
      by_cases hlt : k < n
      · rw [if_pos hlt, if_pos (by omega)]
      · rw [if_neg hlt, if_neg (by omega)]

/-- The header loop reads seven big-endian words and leaves the cursor 14
bytes on. -/
theorem read_header_words_spec (buf : List Nat) (u : Nat → Nat) (p : Nat) :
    (read_header_words buf (u, p)).2 = p + 14 ∧
    ∀ k, k < 7 → (read_header_words buf (u, p)).1 k =
      256 * byteAt buf (p + 2 * k) + byteAt buf (p + 2 * k + 1) := by
  have h := header_words_loop buf u p 7
  refine ⟨h.1, fun k hk => ?_⟩
  have h2 := h.2 k
  rw [if_pos hk, byteswap_read_ushort] at h2
  exact h2

/-- What a decoded flight went through. -/
theorem parse_flight_ok (env : Env) (mktime : tm → Int) (only : Nat) (mem : datarec)
    (buf : List Nat) (pTop : Nat) (f : flight) (pEnd : Nat) (o : FlightOutput)
    (h : parse_flight env mktime only mem buf pTop f = .ok (pEnd, some o)) :
    flight_range buf.length pTop f.data_length = .ok pEnd ∧
    test_data_checksum env.config.firmware_version env.s_NewVersion
      (header_struct_bytes (read_header_words buf (fun _ => 0, pTop)).1)
      (byteAt buf (pTop + 14)) = true ∧
    (flightheader.ofWords (read_header_words buf (fun _ => 0, pTop)).1).flightnum =
      f.flightnum ∧
    o.fhead = { flightheader.ofWords (read_header_words buf (fun _ => 0, pTop)).1 with
      interval_secs :=
        if (flightheader.ofWords (read_header_words buf (fun _ => 0, pTop)).1).interval_secs < 2 ∨
            512 < (flightheader.ofWords (read_header_words buf (fun _ => 0, pTop)).1).interval_secs
        then 6
        else (flightheader.ofWords (read_header_words buf (fun _ => 0, pTop)).1).interval_secs } ∧
    o.start = inittime_bits mktime o.fhead.dt o.fhead.tm ∧
    decode_records env o.fhead.flags o.fhead.interval_secs buf pEnd (pEnd - (pTop + 15))
      (⟨datarec.ctor env mem, o.start, pTop + 15, []⟩, []) = .ok (o.final, o.marks) ∧
    o.duration_secs = (o.final.t - o.fhead.interval_secs) - o.start := by
  unfold parse_flight at h
  cases hr : flight_range buf.length pTop f.data_length with
  | error e => rw [hr] at h; cases h
  | ok pE =>
    rw [hr] at h
    simp only at h
    rw [(read_header_words_spec buf (fun _ => 0) pTop).1] at h
    split at h
    · cases h
    · split at h
      · cases h
      · rename_i hcs
        split at h
        · cases h
        · rename_i hfn
          split at h
          · cases h
          · rename_i s hs
            cases h
            refine ⟨rfl, by simpa using hcs, by simpa using hfn, rfl, rfl, ?_, rfl⟩
            simp only
            rw [← hs]

theorem ex_flight_run :
    parse_flight ex_env_new (fun _ => 1000) 0 (datarec.init ex_env_new) ex_new_file 0 ⟨1, 11⟩ =
      .ok (22, some ex_flight_out) := by
  rfl

/-- C28: for a flight that `parse_data` decodes, every header field is the
big-endian word `256 * b[2k] + b[2k+1]` of the raw bytes at the flight's
cursor: the flight number is word 0, the flags are word 1 (low half) and word 2
(high half), the unknown value, the sample interval (before the sanity clamp
to 6), the packed date and the packed time are words 3 to 6; and the flight
number equals that of the index entry. -/
theorem flight_header_fields (env : Env) (mktime : tm → Int) (only : Nat) (mem : datarec)
    (buf : List Nat) (pTop : Nat) (f : flight) (pEnd : Nat) (o : FlightOutput)
    (h : parse_flight env mktime only mem buf pTop f = .ok (pEnd, some o)) :
    o.fhead.flightnum = 256 * byteAt buf pTop + byteAt buf (pTop + 1) ∧
    o.fhead.flags = (256 * byteAt buf (pTop + 2) + byteAt buf (pTop + 3)) +
      65536 * (256 * byteAt buf (pTop + 4) + byteAt buf (pTop + 5)) ∧
    o.fhead.unknown_value = 256 * byteAt buf (pTop + 6) + byteAt buf (pTop + 7) ∧
    o.fhead.interval_secs =
      (if 256 * byteAt buf (pTop + 8) + byteAt buf (pTop + 9) < 2 ∨
          512 < 256 * byteAt buf (pTop + 8) + byteAt buf (pTop + 9) then 6
        else 256 * byteAt buf (pTop + 8) + byteAt buf (pTop + 9)) ∧
    o.fhead.dt = 256 * byteAt buf (pTop + 10) + byteAt buf (pTop + 11) ∧
    o.fhead.tm = 256 * byteAt buf (pTop + 12) + byteAt buf (pTop + 13) ∧
    o.fhead.flightnum = f.flightnum := by
  obtain ⟨_, _, hfn, hfh, _, _, _⟩ := parse_flight_ok env mktime only mem buf pTop f pEnd o h
  have hw := (read_header_words_spec buf (fun _ => 0) pTop).2
  have w0 := hw 0 (by decide)
  have w1 := hw 1 (by decide)
  have w2 := hw 2 (by decide)
  have w3 := hw 3 (by decide)
  have w4 := hw 4 (by decide)
  have w5 := hw 5 (by decide)
  have w6 := hw 6 (by decide)
  simp only [Nat.mul_zero, Nat.add_zero, Nat.mul_one] at w0 w1 w2 w3 w4 w5 w6
  rw [hfh]
  simp only [flightheader.ofWords] at hfn ⊢
  rw [w0] at hfn
  rw [w0, w1, w2, w3, w4, w5, w6]
  exact ⟨rfl, rfl, rfl, rfl, rfl, rfl, hfn⟩

/-- Instance of C28: the header `00 01 08 00 04 00 00 00 00 06 2A 21 40 00` of
`ex_new_file` gives flight 1, flags `0x04000800`, interval 6, date `0x2A21`,
time `0x4000`. -/
theorem flight_header_fields_witness :
    parse_flight ex_env_new (fun _ => 1000) 0 (datarec.init ex_env_new) ex_new_file 0 ⟨1, 11⟩ =
      .ok (22, some ex_flight_out) ∧
    ex_flight_out.fhead.flightnum = 256 * byteAt ex_new_file 0 + byteAt ex_new_file (0 + 1) ∧
    ex_flight_out.fhead.flags = (256 * byteAt ex_new_file (0 + 2) + byteAt ex_new_file (0 + 3)) +
      65536 * (256 * byteAt ex_new_file (0 + 4) + byteAt ex_new_file (0 + 5)) :=
  ⟨ex_flight_run, (flight_header_fields _ _ _ _ _ _ _ _ _ ex_flight_run).1,
    (flight_header_fields _ _ _ _ _ _ _ _ _ ex_flight_run).2.1⟩

/-! ### The two validations of the flight header -/

theorem calc_old_loop_perm {l1 l2 : List Nat} (h : l1.Perm l2) :
    ∀ acc, acc < 256 → calc_old_loop l1 acc = calc_old_loop l2 acc := by
  induction h with
  | nil => intro acc _; rfl
  | cons x _ ih =>
    intro acc hacc
    rw [calc_old_loop, calc_old_loop]
    exact ih _ (Nat.mod_lt _ (by decide))
  | swap x y l =>
    intro acc hacc
    simp only [calc_old_loop]
    have hx : x % 256 < 256 := Nat.mod_lt _ (by decide)
    have hy : y % 256 < 256 := Nat.mod_lt _ (by decide)
    rw [Nat.mod_eq_of_lt (xor_byte_lt hacc hy), Nat.mod_eq_of_lt (xor_byte_lt hacc hx),
      Nat.xor_assoc, Nat.xor_assoc, Nat.xor_comm (y % 256)]
  | trans _ _ ih1 ih2 =>
    intro acc hacc
    rw [ih1 acc hacc, ih2 acc hacc]

theorem calc_new_loop_perm {l1 l2 : List Nat} (h : l1.Perm l2) :
    ∀ acc, calc_new_loop l1 acc = calc_new_loop l2 acc := by
  induction h with
  | nil => intro acc; rfl
  | cons x _ ih =>
    intro acc
    rw [calc_new_loop, calc_new_loop]
    exact ih _
  | swap x y l =>
    intro acc
    simp only [calc_new_loop]
    congr 1
    omega
  | trans _ _ ih1 ih2 =>
    intro acc
    rw [ih1 acc, ih2 acc]

theorem calc_loops_zeros (n : Nat) (g : Nat → Nat) (hg : ∀ i, g i = 0) (acc : Nat)
    (hacc : acc < 256) :
    calc_old_loop ((List.range n).map g) acc = acc ∧
    calc_new_loop ((List.range n).map g) acc = acc := by
  induction n with
  | zero => exact ⟨rfl, rfl⟩
  | succ n ih =>
    rw [List.range_succ, List.map_append]
    have ho : ∀ (l : List Nat) (a : Nat), calc_old_loop (l ++ [0]) a =
        (calc_old_loop l a ^^^ 0 % 256) % 256 := by
      intro l
      induction l with
      | nil => intro a; rfl
      | cons x l ihl => intro a; exact ihl _
    have hn : ∀ (l : List Nat) (a : Nat), calc_new_loop (l ++ [0]) a =
        (calc_new_loop l a + 0 % 256) % 256 := by
      intro l
      induction l with
      | nil => intro a; rfl
      | cons x l ihl => intro a; exact ihl _
    simp only [List.map_cons, List.map_nil, hg n]
    rw [ho, hn, ih.1, ih.2]
    exact ⟨by simpa using Nat.mod_eq_of_lt hacc, by simpa using Nat.mod_eq_of_lt hacc⟩

/-- The checksum loops on a slice of the buffer are the loops on the bytes
read one by one (a read past the end of the buffer gives 0). -/
theorem calc_loops_slice (buf : List Nat) :
    ∀ (n p acc : Nat), acc < 256 →
      calc_old_loop ((buf.drop p).take n) acc =
        calc_old_loop ((List.range n).map (fun i => byteAt buf (p + i))) acc ∧
      calc_new_loop ((buf.drop p).take n) acc =
        calc_new_loop ((List.range n).map (fun i => byteAt buf (p + i))) acc := by
  intro n
  induction n with
  | zero => intro p acc _; exact ⟨rfl, rfl⟩
  | succ n ih =>
    intro p acc hacc
    by_cases hp : p < buf.length
    · have hd : buf.drop p = buf[p] :: buf.drop (p + 1) := List.drop_eq_getElem_cons hp
      have hb : byteAt buf p = buf[p] % 256 := by
        unfold byteAt
        rw [List.getD_eq_getElem _ _ hp]
      have hr : (List.range (n + 1)).map (fun i => byteAt buf (p + i)) =
          byteAt buf p :: (List.range n).map (fun i => byteAt buf (p + 1 + i)) := by
        rw [List.range_succ_eq_map, List.map_cons, List.map_map]
        congr 1
        apply List.map_congr_left
        intro i _
        show byteAt buf (p + (i + 1)) = byteAt buf (p + 1 + i)
        congr 1
        omega
      rw [hd, List.take_succ_cons, hr]
      simp only [calc_old_loop, calc_new_loop]
      rw [hb, Nat.mod_mod]
      exact ⟨(ih (p + 1) _ (Nat.mod_lt _ (by decide))).1,
        (ih (p + 1) _ (Nat.mod_lt _ (by decide))).2⟩
    · have hd : buf.drop p = [] := List.drop_eq_nil_of_le (by omega)
      have hz := calc_loops_zeros (n + 1) (fun i => byteAt buf (p + i)) (fun i => by
        show byteAt buf (p + i) = 0
        unfold byteAt
        rw [List.getD_eq_default _ _ (by omega)]) acc hacc
      rw [hd, List.take_nil, hz.1, hz.2]
      exact ⟨rfl, rfl⟩

theorem flatMap_pair_perm (l : List Nat) (f g : Nat → Nat) :
    (l.flatMap (fun i => [f i, g i])).Perm (l.flatMap (fun i => [g i, f i])) := by
  induction l with
  | nil => exact List.Perm.refl _
  | cons a l ih =>
    rw [List.flatMap_cons, List.flatMap_cons]
    exact List.Perm.append (List.Perm.swap _ _ []) ih

theorem header_struct_bytes_eq (buf : List Nat) (u : Nat → Nat) (p : Nat) :
    header_struct_bytes (read_header_words buf (u, p)).1 =
      (List.range 7).flatMap
        (fun i => [byteAt buf (p + 2 * i + 1), byteAt buf (p + 2 * i)]) := by
  have hw := (read_header_words_spec buf u p).2
  unfold header_struct_bytes
  show (List.range 7).flatMap _ = _
  apply List.flatMap_congr
  intro i hi
  have hi7 : i < 7 := List.mem_range.mp hi
  have h0 := byteAt_lt buf (p + 2 * i)
  have h1 := byteAt_lt buf (p + 2 * i + 1)
  rw [hw i hi7]
  have e1 : (256 * byteAt buf (p + 2 * i) + byteAt buf (p + 2 * i + 1)) % 256 =
      byteAt buf (p + 2 * i + 1) := by omega
  have e2 : (256 * byteAt buf (p + 2 * i) + byteAt buf (p + 2 * i + 1)) / 256 % 256 =
      byteAt buf (p + 2 * i) := by omega
  rw [e1, e2]

theorem range14_pairs (g : Nat → Nat) (p : Nat) :
    (List.range 14).map (fun i => g (p + i)) =
      (List.range 7).flatMap (fun i => [g (p + 2 * i), g (p + 2 * i + 1)]) := rfl

theorem checksum_perm (l1 l2 : List Nat) (h : l1.Perm l2) :
    calc_old_checksum l1 = calc_old_checksum l2 ∧
    calc_new_checksum l1 = calc_new_checksum l2 := by
  refine ⟨calc_old_loop_perm h 0 (by decide), ?_⟩
  unfold calc_new_checksum
  rw [calc_new_loop_perm h 0]

/-- The validation of the byte-swapped header in memory is the validation of
the 14 raw header bytes. -/
theorem header_checksum_raw (fw nv : Nat) (buf : List Nat) (u : Nat → Nat) (p c : Nat) :
    test_data_checksum fw nv (header_struct_bytes (read_header_words buf (u, p)).1) c =
      test_data_checksum fw nv ((buf.drop p).take 14) c := by
  have hs := calc_loops_slice buf 14 p 0 (by decide)
  have hp := checksum_perm _ _ (flatMap_pair_perm (List.range 7)
    (fun i => byteAt buf (p + 2 * i + 1)) (fun i => byteAt buf (p + 2 * i)))
  have ho : calc_old_checksum (header_struct_bytes (read_header_words buf (u, p)).1) =
      calc_old_checksum ((buf.drop p).take 14) := by
    rw [header_struct_bytes_eq, hp.1]
    unfold calc_old_checksum
    rw [hs.1, range14_pairs (byteAt buf) p]
  have hn : calc_new_checksum (header_struct_bytes (read_header_words buf (u, p)).1) =
      calc_new_checksum ((buf.drop p).take 14) := by
    rw [header_struct_bytes_eq, hp.2]
    unfold calc_new_checksum
    rw [hs.2, range14_pairs (byteAt buf) p]
  unfold test_data_checksum
  rw [ho, hn]

/-- C29: `calc_old_checksum` and `calc_new_checksum` give the same value on
two buffers that are permutations of each other; so the validation of
`parse_data`, on the bytes of the byte-swapped header in memory, and the
validation of `recompute_checksums`, on the raw header bytes of the file, give
the same verdict for every buffer, cursor, check byte and pair of versions. -/
theorem header_validation_agrees :
    (∀ l1 l2 : List Nat, l1.Perm l2 →
      calc_old_checksum l1 = calc_old_checksum l2 ∧
      calc_new_checksum l1 = calc_new_checksum l2) ∧
    (∀ (fw nv : Nat) (buf : List Nat) (u : Nat → Nat) (p c : Nat),
      test_data_checksum fw nv (header_struct_bytes (read_header_words buf (u, p)).1) c =
        test_data_checksum fw nv ((buf.drop p).take (p + sizeof_flightheader - p)) c) := by
  refine ⟨checksum_perm, ?_⟩
  intro fw nv buf u p c
  have hlen : p + sizeof_flightheader - p = 14 := by
    unfold sizeof_flightheader
    omega
  rw [hlen]
  exact header_checksum_raw fw nv buf u p c

/-! ### Layout of a flight block -/

/-- The record loop of the decoder only appends to the list of records, and
the first record it appends starts at the cursor the loop starts from. -/
theorem decode_records_marks (env : Env) (flags interval : Nat) (buf : List Nat) (pEnd : Nat) :
    ∀ (fuel : Nat) (st st1 : FlightState) (m m1 : List (Nat × Nat)),
      decode_records env flags interval buf pEnd fuel (st, m) = .ok (st1, m1) →
      ∃ rest, m1 = m ++ rest ∧ ∀ x, rest.head? = some x → x.1 = st.pFlight := by
  intro fuel
  induction fuel with
  | zero =>
    intro st st1 m m1 h
    rw [decode_records] at h
    split at h
    · cases h
    · cases h
      exact ⟨[], by simp, fun x hx => by cases hx⟩
  | succ n ih =>
    intro st st1 m m1 h
    rw [decode_records] at h
    simp only at h
    split at h
    · cases hr : decode_record env flags interval buf pEnd st with
      | error e => rw [hr] at h; cases h
      | ok st2 =>
        rw [hr] at h
        obtain ⟨rest, e, _⟩ := ih _ _ _ _ h
        refine ⟨(st.pFlight, st2.pFlight - 1) :: rest, by rw [e]; simp, ?_⟩
        intro x hx
        cases hx
        rfl
    · cases h
      exact ⟨[], by simp, fun x hx => by cases hx⟩

/-- The record loop of the rewriter only appends to the list of checksums
written, and the first record it appends starts at the cursor the loop starts
from. -/
theorem rewrite_records_written (fw nv pEnd : Nat) :
    ∀ (fuel : Nat) (st st1 : RewriteState),
      rewrite_records fw nv pEnd fuel st = .ok st1 →
      ∃ rest, st1.written = st.written ++ rest ∧ ∀ x, rest.head? = some x → x.1 = st.pFlight := by
  intro fuel
  induction fuel with
  | zero =>
    intro st st1 h
    rw [rewrite_records] at h
    split at h
    · cases h
    · cases h
      exact ⟨[], by simp, fun x hx => by cases hx⟩
  | succ n ih =>
    intro st st1 h
    rw [rewrite_records] at h
    split at h
    · cases hr : rewrite_record fw nv pEnd st with
      | error e => rw [hr] at h; cases h
      | ok st2 =>
        rw [hr] at h
        simp only at h
        obtain ⟨rest, e, _⟩ := ih _ _ h
        have hw : st2.written = st.written ++ [(st.pFlight, rewrite_cursor st.buf st.pFlight)] := by
          unfold rewrite_record at hr
          split at hr
          · cases hr
          · unfold rewrite_checksum at hr
            split at hr
            · cases hr
            · cases hr
              rfl
        refine ⟨(st.pFlight, rewrite_cursor st.buf st.pFlight) :: rest, by rw [e, hw]; simp, ?_⟩
        intro x hx
        cases hx
        rfl
    · cases h
      exact ⟨[], by simp, fun x hx => by cases hx⟩

/-- What a completed iteration of the flight loop of the rewriter went
through. -/
theorem rewrite_flight_ok (fw nv : Nat) (st st1 : RewriteState) (f : flight)
    (h : rewrite_flight fw nv st f = .ok st1) :
    test_data_checksum fw nv ((st.buf.drop st.pFlight).take 14)
      (byteAt st.buf (st.pFlight + 14)) = true ∧
    ∃ rest, st1.written = st.written ++ (st.pFlight, st.pFlight + 14) :: rest ∧
      ∀ x, rest.head? = some x → x.1 = st.pFlight + 15 := by
  unfold rewrite_flight at h
  cases hr : flight_range st.buf.length st.pFlight f.data_length with
  | error e => rw [hr] at h; cases h
  | ok pEnd =>
    rw [hr] at h
    simp only at h
    cases hc : rewrite_checksum fw nv .headerChecksum st.pFlight
        (st.pFlight + sizeof_flightheader) st with
    | error e => rw [hc] at h; cases h
    | ok st2 =>
      rw [hc] at h
      simp only at h
      cases hrec : rewrite_records fw nv pEnd (pEnd - st2.pFlight) st2 with
      | error e => rw [hrec] at h; cases h
      | ok st3 =>
        rw [hrec] at h
        cases h
        obtain ⟨rest, e, hhead⟩ := rewrite_records_written _ _ _ _ _ _ hrec
        have h14 : st.pFlight + sizeof_flightheader = st.pFlight + 14 := rfl
        rw [h14] at hc
        unfold rewrite_checksum at hc
        split at hc
        · cases hc
        · rename_i hcs
          cases hc
          have e14 : st.pFlight + 14 - st.pFlight = 14 := by omega
          rw [e14] at hcs
          refine ⟨by simpa using hcs, rest, ?_, ?_⟩
          · simp only at e ⊢
            rw [e]
            simp
          · exact hhead

/-- C21 (amended): the flight header takes 14 bytes.  `parse_data` reads seven
words and leaves its cursor at offset 14 of the flight's range, validates the
header against the byte at offset 14 (the 15th byte) and starts the record
loop, and so the first data record, at offset 15; `recompute_checksums`
validates the 14 raw bytes against the byte at offset 14, writes the header
checksum there and starts its first data record at offset 15. -/
theorem flight_block_layout (env : Env) (mktime : tm → Int) (only : Nat) (mem : datarec)
    (buf : List Nat) (pTop : Nat) (f : flight) (pEnd : Nat) (o : FlightOutput)
    (fw nv : Nat) (st st1 : RewriteState) (g : flight)
    (hd : parse_flight env mktime only mem buf pTop f = .ok (pEnd, some o))
    (hr : rewrite_flight fw nv st g = .ok st1) :
    sizeof_flightheader = 14 ∧
    (read_header_words buf (fun _ => 0, pTop)).2 = pTop + 14 ∧
    test_data_checksum env.config.firmware_version env.s_NewVersion
      ((buf.drop pTop).take 14) (byteAt buf (pTop + 14)) = true ∧
    decode_records env o.fhead.flags o.fhead.interval_secs buf pEnd (pEnd - (pTop + 15))
      (⟨datarec.ctor env mem, o.start, pTop + 15, []⟩, []) = .ok (o.final, o.marks) ∧
    (∀ x, o.marks.head? = some x → x.1 = pTop + 15) ∧
    test_data_checksum fw nv ((st.buf.drop st.pFlight).take 14)
      (byteAt st.buf (st.pFlight + 14)) = true ∧
    ∃ rest, st1.written = st.written ++ (st.pFlight, st.pFlight + 14) :: rest ∧
      ∀ x, rest.head? = some x → x.1 = st.pFlight + 15 := by
  obtain ⟨_, hcs, _, _, _, hrec, _⟩ := parse_flight_ok env mktime only mem buf pTop f pEnd o hd
  obtain ⟨rest, e, hhead⟩ := decode_records_marks _ _ _ _ _ _ _ _ _ _ hrec
  rw [header_checksum_raw] at hcs
  refine ⟨rfl, (read_header_words_spec buf _ pTop).1, hcs, hrec, ?_, rewrite_flight_ok fw nv st st1 g hr⟩
  intro x hx
  rw [e, List.nil_append] at hx
  exact hhead x hx

/-- Instance of C21 (amended): the flight of `ex_new_file`, decoded and
rewritten. -/
theorem flight_block_layout_witness :
    test_data_checksum 300 300 ((ex_new_file.drop 0).take 14) (byteAt ex_new_file (0 + 14)) =
      true ∧
    (∀ x, ex_flight_out.marks.head? = some x → x.1 = 0 + 15) :=
  have hr : rewrite_flight 300 300 ⟨ex_new_file, 0, []⟩ ⟨1, 11⟩ =
      .ok ⟨ex_old_file, 22, [(0, 14), (15, 21)]⟩ := by decide
  ⟨(flight_block_layout ex_env_new (fun _ => 1000) 0 (datarec.init ex_env_new) ex_new_file 0
      ⟨1, 11⟩ 22 ex_flight_out 300 300 _ _ ⟨1, 11⟩ ex_flight_run hr).2.2.1,
    (flight_block_layout ex_env_new (fun _ => 1000) 0 (datarec.init ex_env_new) ex_new_file 0
      ⟨1, 11⟩ 22 ex_flight_out 300 300 _ _ ⟨1, 11⟩ ex_flight_run hr).2.2.2.2.1⟩

/-- C21 as stated fails: the flight of `ex_new_file` is accepted by the
decoder and by the rewriter; its header checksum is the byte at offset 14 of
the flight's range and its first data record starts at offset 15, where the
claim has offsets 12 and 13; the byte at offset 12 is not a checksum of the 12
bytes before it. -/
theorem flight_header_not_12_bytes :
    sizeof_flightheader = 14 ∧
    (recompute_checksums ex_env_new [⟨1, 11⟩] ex_new_file 0).toOption.map (fun r => r.written) =
      some [(0, 14), (15, 21)] ∧
    (parse_flight ex_env_new (fun _ => 1000) 0 (datarec.init ex_env_new) ex_new_file 0
      ⟨1, 11⟩).toOption.map (fun r => r.2.map (fun o => o.marks)) = some (some [(15, 21)]) ∧
    test_data_checksum 300 300 ((ex_new_file.drop 0).take 12) (byteAt ex_new_file 12) = false := by
  refine ⟨rfl, by decide, ?_, by decide⟩
  rw [ex_flight_run]
  rfl

/-! ### The running clock and the duration -/

theorem decode_record_clock (env : Env) (flags interval : Nat) (buf : List Nat) (pEnd : Nat)
    (st st1 : FlightState) (h : decode_record env flags interval buf pEnd st = .ok st1) :
    st1.out.length = st.out.length + byteAt buf (st.pFlight + 2) + 1 ∧
    st1.t = st.t + ((byteAt buf (st.pFlight + 2) : Int) + 1) * (interval : Int) := by
  unfold decode_record at h
  simp only [repeat_loop_spec] at h
  split at h
  · cases h
  · split at h
    · cases h
    · cases h
      refine ⟨by simp [repeat_rows]; omega, ?_⟩
      simp only
      ring

/-- The clock after the record loop is the clock before it plus one interval
for every row written. -/
theorem decode_records_clock (env : Env) (flags interval : Nat) (buf : List Nat) (pEnd : Nat) :
    ∀ (fuel : Nat) (s s1 : FlightState × List (Nat × Nat)),
      decode_records env flags interval buf pEnd fuel s = .ok s1 →
      s.1.out.length ≤ s1.1.out.length ∧
      s1.1.t = s.1.t + ((s1.1.out.length : Int) - (s.1.out.length : Int)) * (interval : Int) := by
  intro fuel
  induction fuel with
  | zero =>
    intro s s1 h
    rw [decode_records] at h
    split at h
    · cases h
    · cases h
      exact ⟨Nat.le_refl _, by simp⟩
  | succ n ih =>
    intro s s1 h
    rw [decode_records] at h
    split at h
    · cases hr : decode_record env flags interval buf pEnd s.1 with
      | error e => rw [hr] at h; cases h
      | ok st2 =>
        rw [hr] at h
        obtain ⟨a, b⟩ := ih _ _ h
        obtain ⟨c, d⟩ := decode_record_clock _ _ _ _ _ _ _ hr
        simp only at a b
        refine ⟨by omega, ?_⟩
        rw [b, d]
        have e : (st2.out.length : Int) =
            (s.1.out.length : Int) + (byteAt buf (s.1.pFlight + 2) : Int) + 1 := by
          rw [c]
          push_cast
          ring
        rw [e]
        ring
    · cases h
      exact ⟨Nat.le_refl _, by simp⟩

/-- C26 (amended): for a flight that writes `N` rows with sample interval `I`,
the running clock after the last row is `start + N * I`, and the number of
seconds the duration back-patch converts to hours is that clock minus one
interval minus the start clock, `(N - 1) * I`. -/
theorem duration_back_patch (env : Env) (mktime : tm → Int) (only : Nat) (mem : datarec)
    (buf : List Nat) (pTop : Nat) (f : flight) (pEnd : Nat) (o : FlightOutput)
    (h : parse_flight env mktime only mem buf pTop f = .ok (pEnd, some o)) :
    o.final.t = o.start + (o.final.out.length : Int) * (o.fhead.interval_secs : Int) ∧
    o.duration_secs = (o.final.t - (o.fhead.interval_secs : Int)) - o.start ∧
    o.duration_secs = ((o.final.out.length : Int) - 1) * (o.fhead.interval_secs : Int) := by
  obtain ⟨_, _, _, _, _, hrec, hdur⟩ := parse_flight_ok env mktime only mem buf pTop f pEnd o h
  obtain ⟨_, ht⟩ := decode_records_clock _ _ _ _ _ _ _ _ hrec
  simp only [List.length_nil, Nat.cast_zero, sub_zero] at ht
  refine ⟨ht, hdur, ?_⟩
  rw [hdur, ht]
  ring

/-- Instance of C26 (amended): the flight of `ex_new_file` writes one row with
interval 6; the clock ends at start + 6 and the duration is 0 seconds. -/
theorem duration_back_patch_witness :
    ex_flight_out.final.t = ex_flight_out.start + (1 : Int) * 6 ∧
    ex_flight_out.duration_secs = ((1 : Int) - 1) * 6 :=
  ⟨(duration_back_patch _ _ _ _ _ _ _ _ _ ex_flight_run).1,
    (duration_back_patch _ _ _ _ _ _ _ _ _ ex_flight_run).2.2⟩

/-- C26 as stated fails: the flight of `ex_new_file` writes N = 1 row with
interval I = 6, its final clock minus its start clock is 6 = N * I, and the
number of seconds handed to the duration back-patch is 0. -/
theorem duration_not_final_minus_start :
    (parse_flight ex_env_new (fun _ => 1000) 0 (datarec.init ex_env_new) ex_new_file 0
      ⟨1, 11⟩).toOption.map (fun r => r.2.map (fun o =>
        (o.final.out.length, o.fhead.interval_secs, o.final.t - o.start, o.duration_secs))) =
      some (some (1, 6, 6, 0)) := by
  rw [ex_flight_run]
  rfl

/-! ### The RPM high byte -/

theorem ctor_rpm_highbyte (env : Env) (mem : datarec) (h1 : NUMENGINE env = 1) :
    (datarec.ctor env mem).sarray RPM_HIGHBYTE_FIELD_NUM = 0 := by
  simp [datarec.ctor, h1, RPM_HIGHBYTE_FIELD_NUM]

theorem decode_deltas_rpm_highbyte (env : Env) (flags : Nat) (buf : List Nat) (rec : datarec)
    (p0 : Nat) (hrpm : HASRPM flags = true) :
    (decode_deltas env flags buf rec p0).1.sarray RPM_HIGHBYTE_FIELD_NUM = 0 := by
  rw [decode_deltas_fst, calcstuff_sarray, if_pos hrpm, if_pos rfl]

/-- With the RPM flag, the record loop keeps the RPM high byte at 0 and writes
every row from a snapshot whose RPM high byte is 0. -/
theorem decode_records_rpm_highbyte (env : Env) (flags interval : Nat) (buf : List Nat)
    (pEnd : Nat) (hrpm : HASRPM flags = true) :
    ∀ (fuel : Nat) (s s1 : FlightState × List (Nat × Nat)),
      s.1.drec.sarray RPM_HIGHBYTE_FIELD_NUM = 0 →
      (∀ row ∈ s.1.out, ∃ t rec, row = formatdata env t rec ∧
        rec.sarray RPM_HIGHBYTE_FIELD_NUM = 0) →
      decode_records env flags interval buf pEnd fuel s = .ok s1 →
      s1.1.drec.sarray RPM_HIGHBYTE_FIELD_NUM = 0 ∧
      ∀ row ∈ s1.1.out, ∃ t rec, row = formatdata env t rec ∧
        rec.sarray RPM_HIGHBYTE_FIELD_NUM = 0 := by
  intro fuel
  induction fuel with
  | zero =>
    intro s s1 h0 hrows h
    rw [decode_records] at h
    split at h
    · cases h
    · cases h
      exact ⟨h0, hrows⟩
  | succ n ih =>
    intro s s1 h0 hrows h
    rw [decode_records] at h
    split at h
    · cases hr : decode_record env flags interval buf pEnd s.1 with
      | error e => rw [hr] at h; cases h
      | ok st2 =>
        rw [hr] at h
        have hd := (decode_record_drec _ _ _ _ _ _ _ hr).1
        have h2 : st2.drec.sarray RPM_HIGHBYTE_FIELD_NUM = 0 := by
          rw [hd]
          exact decode_deltas_rpm_highbyte env flags buf _ _ hrpm
        refine ih _ _ h2 ?_ h
        intro row hrow
        simp only at hrow
        unfold decode_record at hr
        simp only [repeat_loop_spec] at hr
        split at hr
        · cases hr
        · split at hr
          · cases hr
          · cases hr
            simp only [List.mem_append, List.mem_singleton] at hrow
            rcases hrow with (hrow | hrow) | hrow
            · exact hrows row hrow
            · unfold repeat_rows at hrow
              obtain ⟨k, _, rfl⟩ := List.mem_map.mp hrow
              exact ⟨_, _, rfl, h0⟩
            · exact ⟨_, _, hrow, decode_deltas_rpm_highbyte env flags buf _ _ hrpm⟩
    · cases h
      exact ⟨h0, hrows⟩

/-- C30: for a single-engine configuration and a flight whose flags contain
the RPM flag, the `rpm_highbyte` slot (42) is 0 in the constructed snapshot,
after every data record, and in the snapshot the record loop ends with; every
data row written is `formatdata` of a snapshot whose `rpm_highbyte` is 0. -/
theorem rpm_highbyte_invariant (env : Env) (mktime : tm → Int) (only : Nat) (mem : datarec)
    (buf : List Nat) (pTop : Nat) (f : flight) (pEnd : Nat) (o : FlightOutput)
    (h1 : NUMENGINE env = 1) (hrpm : HASRPM o.fhead.flags = true)
    (h : parse_flight env mktime only mem buf pTop f = .ok (pEnd, some o)) :
    (datarec.ctor env mem).sarray RPM_HIGHBYTE_FIELD_NUM = 0 ∧
    (∀ (rec : datarec) (p0 : Nat),
      (decode_deltas env o.fhead.flags buf rec p0).1.sarray RPM_HIGHBYTE_FIELD_NUM = 0) ∧
    o.final.drec.sarray RPM_HIGHBYTE_FIELD_NUM = 0 ∧
    ∀ row ∈ o.final.out, ∃ t rec, row = formatdata env t rec ∧
      rec.sarray RPM_HIGHBYTE_FIELD_NUM = 0 := by
  obtain ⟨_, _, _, _, _, hrec, _⟩ := parse_flight_ok env mktime only mem buf pTop f pEnd o h
  have h0 := ctor_rpm_highbyte env mem h1
  obtain ⟨a, b⟩ := decode_records_rpm_highbyte env _ _ buf pEnd hrpm _ _ _ h0
    (fun row hrow => by cases hrow) hrec
  exact ⟨h0, fun rec p0 => decode_deltas_rpm_highbyte env _ buf rec p0 hrpm, a, b⟩

/-- Instance of C30: the flight of `ex_new_file` (model 700, flags E1 and
RPM). -/
theorem rpm_highbyte_invariant_witness :
    (datarec.ctor ex_env_new (datarec.init ex_env_new)).sarray RPM_HIGHBYTE_FIELD_NUM = 0 ∧
    ex_flight_out.final.drec.sarray RPM_HIGHBYTE_FIELD_NUM = 0 :=
  ⟨(rpm_highbyte_invariant ex_env_new (fun _ => 1000) 0 (datarec.init ex_env_new) ex_new_file 0
      ⟨1, 11⟩ 22 ex_flight_out (by decide) (by decide) ex_flight_run).1,
    (rpm_highbyte_invariant ex_env_new (fun _ => 1000) 0 (datarec.init ex_env_new) ex_new_file 0
      ⟨1, 11⟩ 22 ex_flight_out (by decide) (by decide) ex_flight_run).2.2.1⟩

/-! ### The loop of `parse_headers` -/

theorem memchr_loop_some (c : Nat) :
    ∀ (l : List Nat) (i k : Nat), memchr_loop c l i = some k →
      i ≤ k ∧ k < i + l.length ∧ l.getD (k - i) 0 % 256 = c := by
  intro l
  induction l with
  | nil => intro i k h; cases h
  | cons x l ih =>
    intro i k h
    rw [memchr_loop] at h
    split at h
    · rename_i hx
      cases h
      simp [hx]
    · obtain ⟨a, b, d⟩ := ih _ _ h
      have e : k - i = (k - (i + 1)) + 1 := by omega
      refine ⟨by omega, by simp; omega, ?_⟩
      rw [e, List.getD_cons_succ]
      exact d

theorem memchr_some (mem : List Nat) (line c lf : Nat) (h : memchr mem line c = some lf) :
    line ≤ lf ∧ lf < mem.length ∧ byteAt mem lf = c := by
  unfold memchr at h
  obtain ⟨a, b, d⟩ := memchr_loop_some c _ _ _ h
  rw [List.length_drop] at b
  refine ⟨a, by omega, ?_⟩
  unfold byteAt
  rw [List.getD_eq_getElem?_getD] at d ⊢
  rw [List.getElem?_drop] at d
  have e : line + (lf - line) = lf := by omega
  rw [e] at d
  exact d

theorem memchr_congr (m1 m2 : List Nat) (line c : Nat) (h : m1.drop line = m2.drop line) :
    memchr m1 line c = memchr m2 line c := by
  unfold memchr
  rw [h]

theorem drop_congr_of_le (m1 m2 : List Nat) (a b : Nat) (hab : a ≤ b)
    (h : m1.drop a = m2.drop a) : m1.drop b = m2.drop b := by
  have e : b = a + (b - a) := by omega
  rw [e, ← List.drop_drop, ← List.drop_drop, h]

theorem byteAt_drop (m : List Nat) (a i : Nat) : byteAt (m.drop a) i = byteAt m (a + i) := by
  unfold byteAt
  rw [List.getD_eq_getElem?_getD, List.getD_eq_getElem?_getD, List.getElem?_drop]

theorem set_drop_congr (m1 m2 : List Nat) (a j v : Nat) (hl : m1.length = m2.length)
    (h : m1.drop a = m2.drop a) : (m1.set j v).drop a = (m2.set j v).drop a := by
  apply List.ext_getElem?
  intro i
  rw [List.getElem?_drop, List.getElem?_drop]
  by_cases hj : j = a + i
  · subst hj
    by_cases hlt : a + i < m1.length
    · rw [List.getElem?_set_self hlt, List.getElem?_set_self (by omega)]
    · rw [List.getElem?_eq_none (by simp; omega), List.getElem?_eq_none (by simp; omega)]
  · rw [List.getElem?_set_ne hj, List.getElem?_set_ne hj, ← List.getElem?_drop,
      ← List.getElem?_drop, h]

/-- Whether `parseshorts` fails, and how, does not depend on what the target
holds. -/
theorem parseshorts_loop_status (s : List Nat) :
    ∀ (n i : Nat) (line : Option Nat) (res res1 : List Nat),
      (parseshorts_loop s n i line res).map (fun _ => ()) =
        (parseshorts_loop s n i line res1).map (fun _ => ()) := by
  intro n
  induction n with
  | zero => intro i line res res1; rfl
  | succ n ih =>
    intro i line res res1
    cases line with
    | none => rfl
    | some l =>
      rw [parseshorts_loop, parseshorts_loop]
      cases sscanf_comma_hu (s.drop l) with
      | value v => exact ih _ _ _ _
      | mismatch => rfl
      | eof => exact ih _ _ _ _

theorem parseshorts_status (s : List Nat) (n : Nat) (res res1 : List Nat) :
    (parseshorts res s n).map (fun _ => ()) = (parseshorts res1 s n).map (fun _ => ()) :=
  parseshorts_loop_status s n 0 _ res res1

theorem parseshorts_ok_of_valid (s : List Nat) (n : Nat) (res : List Nat)
    (h : (parseshorts [] s n).toBool = true) : ∃ r, parseshorts res s n = .ok r := by
  have e := parseshorts_status s n res []
  cases h1 : parseshorts [] s n with
  | error e1 => rw [h1] at h; cases h
  | ok r1 =>
    rw [h1] at e
    cases h2 : parseshorts res s n with
    | error e2 => rw [h2] at e; cases e
    | ok r2 => exact ⟨r2, rfl⟩

theorem parseshorts_valid_of_ok (s : List Nat) (n : Nat) (res r : List Nat)
    (h : parseshorts res s n = .ok r) : (parseshorts [] s n).toBool = true := by
  have e := parseshorts_status s n res []
  rw [h] at e
  cases h1 : parseshorts [] s n with
  | error e1 => rw [h1] at e; cases e
  | ok r1 => rfl

theorem cstr_cons (x : Nat) (r : List Nat) (hx : x % 256 ≠ 0) :
    cstr (x :: r) = x % 256 :: cstr r := by
  unfold cstr
  rw [List.map_cons, List.takeWhile_cons_of_pos (by simpa using hx)]

theorem cstr_drop_cons (m : List Nat) (a : Nat) (h : byteAt m a ≠ 0) :
    cstr (m.drop a) = byteAt m a :: cstr (m.drop (a + 1)) := by
  have ha : a < m.length := by
    by_contra hlt
    apply h
    unfold byteAt
    rw [List.getD_eq_default _ _ (by omega)]
  have hb : byteAt m a = m[a] % 256 := by
    unfold byteAt
    rw [List.getD_eq_getElem _ _ ha]
  rw [List.drop_eq_getElem_cons ha, cstr_cons _ _ (by rw [← hb]; exact h), hb]

theorem cstr_ne_zero (l : List Nat) : ∀ x ∈ cstr l, x ≠ 0 := by
  intro x hx
  unfold cstr at hx
  have := List.mem_takeWhile_imp hx
  simpa using this

theorem cstr_length_le (m : List Nat) (p k : Nat) (h : byteAt m (p + k) = 0) :
    (cstr (m.drop p)).length ≤ k := by
  by_contra hlt
  have hk : k < (cstr (m.drop p)).length := by omega
  have e := cstr_getElem (m.drop p) k hk
  rw [byteAt_drop, h] at e
  exact cstr_ne_zero _ _ (List.getElem_mem hk) e

theorem patch_version_length (mem : List Nat) (line : Nat) (label : List Nat) :
    (patch_version mem line label).length = mem.length := by
  unfold patch_version
  simp only
  split
  · split
    · rfl
    · simp
  · rfl

/-- The version patch writes no byte more than two places after the last `*`
of the line. -/
theorem patch_version_frame (mem : List Nat) (line : Nat) (label : List Nat) (i : Nat)
    (h : ∀ e, strrchr (cstr (mem.drop (line + 1))) 42 = some e → line + 1 + e + 2 < i) :
    (patch_version mem line label)[i]? = mem[i]? := by
  unfold patch_version
  simp only
  split
  · rename_i c endp hc he
    have hi := h endp he
    split
    · rfl
    · rename_i hv
      have hv2 : endp = skip_spaces (cstr (mem.drop (line + 1))) (c + 1) + 3 := by
        by_contra hne
        exact hv hne
      rw [List.getElem?_set_ne (by omega), List.getElem?_set_ne (by omega),
        List.getElem?_set_ne (by omega), List.getElem?_set_ne (by omega),
        List.getElem?_set_ne (by omega)]
  · rfl

theorem sscanf_hx_nil : sscanf_hx [] = none := rfl

/-- On a line that `test_header_checksum` accepts, at least one character
follows the last `*`. -/
theorem accepted_star_not_last (m : List Nat) (line e : Nat)
    (ht : test_header_checksum (m.drop line) = .ok ()) (h36 : byteAt m line = 36)
    (he : strrchr (cstr (m.drop (line + 1))) 42 = some e) :
    e + 1 < (cstr (m.drop (line + 1))).length := by
  obtain ⟨pre, post, hs, hp, hlen⟩ := (strrchr_eq_some_iff _ _ _).mp he
  have hc : cstr (m.drop line) = (36 :: pre) ++ 42 :: post := by
    rw [cstr_drop_cons m line (by rw [h36]; decide), h36, hs]
    rfl
  rw [test_header_checksum_split _ _ _ hc hp] at ht
  have hne : post ≠ [] := by
    intro hnil
    rw [hnil, sscanf_hx_nil] at ht
    cases ht
  have hpl : 0 < post.length := List.length_pos.mpr hne
  rw [hs]
  simp
  omega

/-- An iteration of the loop of `parse_headers` keeps the length of the file
buffer and every byte from the carriage return of its line on. -/
theorem header_record_frame (st : HeaderState) (line lf : Nat) (r : HeaderState × Bool)
    (hle : line ≤ lf) (hlf : lf < st.mem.length) (h : header_record st line lf = .ok r) :
    r.1.mem.length = st.mem.length ∧ ∀ i, lf ≤ i → r.1.mem[i]? = st.mem[i]? := by
  obtain ⟨ht, h36, r0, hs, rfl⟩ := header_record_ok st line lf r h
  have hrest : (st.mem.set lf 0).set lf (st.mem.getD lf 0) = st.mem := set_restore _ _ _
  simp only
  rcases header_switch_mem _ _ _ _ hs with ⟨_, hc⟩ | ⟨_, hm⟩
  · have hm := (header_case_C_ok _ _ _ hc).2.2
    simp only at hm
    by_cases hge : r0.1.config.firmware_version ≥ r0.1.s_NewVersion
    · rw [if_pos hge] at hm
      rw [hm]
      refine ⟨by simp [patch_version_length], ?_⟩
      intro i hi
      by_cases hil : i = lf
      · subst hil
        rw [List.getElem?_set_self (by simp [patch_version_length]; exact hlf),
          List.getD_eq_getElem _ _ hlf, List.getElem?_eq_getElem hlf]
      · have hne : line ≠ lf := by
          intro e
          rw [← e, byteAt_set_self _ _ _ (by omega) (by decide)] at h36
          cases h36
        have h0 : byteAt (st.mem.set lf 0) (line + 1 + (lf - line - 1)) = 0 := by
          have e : line + 1 + (lf - line - 1) = lf := by omega
          rw [e, byteAt_set_self _ _ _ hlf (by decide)]
        have hlen := cstr_length_le _ _ _ h0
        rw [List.getElem?_set_ne (fun e => hil e.symm), patch_version_frame,
          List.getElem?_set_ne (fun e => hil e.symm)]
        intro e he
        have := accepted_star_not_last _ _ _ ht h36 he
        omega
    · rw [if_neg hge] at hm
      rw [hm, hrest]
      exact ⟨rfl, fun _ _ => rfl⟩
  · rw [hm]
    simp only
    rw [hrest]
    exact ⟨rfl, fun _ _ => rfl⟩

/-- What a completed `switch` did, by the tag of the line. -/
theorem header_switch_ok (st : HeaderState) (line next : Nat) (r : HeaderState × Bool)
    (h : header_switch st line next = .ok r) :
    (parseshorts [] (cstr (st.mem.drop line))
      (values_wanted (byteAt st.mem (line + 1)))).toBool = true ∧
    (r.2 = true ↔ byteAt st.mem (line + 1) = 76) ∧
    (r.2 = true → r.1.s_pHeaderEnd = some next) ∧
    (byteAt st.mem (line + 1) = 68 →
      st.flightlist.length < 512 ∧
      ∃ v, parseshorts [0, 0] (cstr (st.mem.drop line)) 2 = .ok v ∧
        r.1.flightlist = st.flightlist ++ [⟨v.getD 0 0, v.getD 1 0⟩]) ∧
    (byteAt st.mem (line + 1) ≠ 68 → r.1.flightlist = st.flightlist) := by
  unfold header_switch at h
  simp only at h
  split_ifs at h with h85 h65 h70 h84 h67 h76 h68 hfull
  · cases h
    simp [h85, values_wanted, parseshorts, parseshorts_loop, Except.toBool]
  · cases hp : parseshorts st.limits (cstr (st.mem.drop line)) 8 with
    | error e => rw [hp] at h; cases h
    | ok v =>
      rw [hp] at h
      cases h
      have hv := parseshorts_valid_of_ok _ _ _ _ hp
      simp [h65, values_wanted, hv]
  · cases hp : parseshorts st.fuel (cstr (st.mem.drop line)) 5 with
    | error e => rw [hp] at h; cases h
    | ok v =>
      rw [hp] at h
      cases h
      have hv := parseshorts_valid_of_ok _ _ _ _ hp
      simp [h70, values_wanted, hv]
  · cases hp : parseshorts st.timestamp (cstr (st.mem.drop line)) 6 with
    | error e => rw [hp] at h; cases h
    | ok v =>
      rw [hp] at h
      cases h
      have hv := parseshorts_valid_of_ok _ _ _ _ hp
      simp [h84, values_wanted, hv]
  · cases hc : header_case_C st line with
    | error e => rw [hc] at h; cases h
    | ok st1 =>
      rw [hc] at h
      cases h
      unfold header_case_C at hc
      cases hp : parseshorts st.config.shorts (cstr (st.mem.drop line)) 5 with
      | error e => rw [hp] at hc; cases hc
      | ok v =>
        rw [hp] at hc
        have hv := parseshorts_valid_of_ok _ _ _ _ hp
        simp only at hc
        split at hc
        · cases hc
          simp [h67, values_wanted, hv]
        · cases hc
          simp [h67, values_wanted, hv]
  · cases hp : parseshorts [st.headerend] (cstr (st.mem.drop line)) 1 with
    | error e => rw [hp] at h; cases h
    | ok v =>
      rw [hp] at h
      cases h
      have hv := parseshorts_valid_of_ok _ _ _ _ hp
      simp [h76, values_wanted, hv]
  · cases hp : parseshorts [0, 0] (cstr (st.mem.drop line)) 2 with
    | error e => rw [hp] at h; cases h
    | ok v =>
      rw [hp] at h
      cases h
      have hv := parseshorts_valid_of_ok _ _ _ _ hp
      refine ⟨by simp [h68, values_wanted, hv], by simp [h68], by simp, ?_, fun hne => absurd h68 hne⟩
      intro _
      exact ⟨by omega, v, rfl, rfl⟩
  · cases h
    simp [values_wanted, h85, h65, h70, h84, h67, h76, h68, parseshorts, parseshorts_loop,
      Except.toBool]

theorem parseshorts_invalid_of_error (s : List Nat) (n : Nat) (res : List Nat) (e : ParseError)
    (h : parseshorts res s n = .error e) : (parseshorts [] s n).toBool = false := by
  have e1 := parseshorts_status s n res []
  rw [h] at e1
  cases h1 : parseshorts [] s n with
  | error e2 => rfl
  | ok r1 => rw [h1] at e1; cases e1

/-- A `switch` that fails: the line lacks values its tag asks for, or it is a
`$D` line met with 512 flights stored. -/
theorem header_switch_error (st : HeaderState) (line next : Nat) (e : ParseError)
    (h : header_switch st line next = .error e) :
    (parseshorts [] (cstr (st.mem.drop line))
      (values_wanted (byteAt st.mem (line + 1)))).toBool = false ∨
    (e = .tooManyFlights ∧ byteAt st.mem (line + 1) = 68 ∧ 512 ≤ st.flightlist.length) := by
  unfold header_switch at h
  simp only at h
  split_ifs at h with h85 h65 h70 h84 h67 h76 h68 hfull
  · cases hp : parseshorts st.limits (cstr (st.mem.drop line)) 8 with
    | error e1 =>
      left
      have hv := parseshorts_invalid_of_error _ _ _ _ hp
      simpa [h65, values_wanted] using hv
    | ok v => rw [hp] at h; cases h
  · cases hp : parseshorts st.fuel (cstr (st.mem.drop line)) 5 with
    | error e1 =>
      left
      have hv := parseshorts_invalid_of_error _ _ _ _ hp
      simpa [h70, values_wanted] using hv
    | ok v => rw [hp] at h; cases h
  · cases hp : parseshorts st.timestamp (cstr (st.mem.drop line)) 6 with
    | error e1 =>
      left
      have hv := parseshorts_invalid_of_error _ _ _ _ hp
      simpa [h84, values_wanted] using hv
    | ok v => rw [hp] at h; cases h
  · cases hc : header_case_C st line with
    | error e1 =>
      left
      unfold header_case_C at hc
      cases hp : parseshorts st.config.shorts (cstr (st.mem.drop line)) 5 with
      | error e2 =>
        have hv := parseshorts_invalid_of_error _ _ _ _ hp
        simpa [h67, values_wanted] using hv
      | ok v =>
        rw [hp] at hc
        simp only at hc
        split at hc
        · cases hc
        · cases hc
    | ok st1 => rw [hc] at h; cases h
  · cases hp : parseshorts [st.headerend] (cstr (st.mem.drop line)) 1 with
    | error e1 =>
      left
      have hv := parseshorts_invalid_of_error _ _ _ _ hp
      simpa [h76, values_wanted] using hv
    | ok v => rw [hp] at h; cases h
  · right
    cases h
    exact ⟨rfl, h68, hfull⟩
  · cases hp : parseshorts [0, 0] (cstr (st.mem.drop line)) 2 with
    | error e1 =>
      left
      have hv := parseshorts_invalid_of_error _ _ _ _ hp
      simpa [h68, values_wanted] using hv
    | ok v => rw [hp] at h; cases h

theorem header_record_error (st : HeaderState) (line lf : Nat) (e : ParseError)
    (h : header_record st line lf = .error e) :
    test_header_checksum ((st.mem.set lf 0).drop line) ≠ .ok () ∨
    byteAt (st.mem.set lf 0) line ≠ 36 ∨
    header_switch { st with mem := st.mem.set lf 0 } line (lf + 2) = .error e := by
  unfold header_record at h
  simp only at h
  cases ht : test_header_checksum ((st.mem.set lf 0).drop line) with
  | error e1 => exact Or.inl (fun hc => by cases hc)
  | ok u =>
    rw [ht] at h
    simp only at h
    by_cases h36 : byteAt (st.mem.set lf 0) line = 36
    · rw [if_neg (by simpa using h36)] at h
      cases hs : header_switch { st with mem := st.mem.set lf 0 } line (lf + 2) with
      | error e1 =>
        rw [hs] at h
        cases h
        exact Or.inr (Or.inr rfl)
      | ok r0 => rw [hs] at h; cases h
    · exact Or.inr (Or.inl h36)

/-- The tag read from the NUL-terminated line is the byte of the buffer, for a
tag other than NUL and the carriage return. -/
theorem tag_of_line (m : List Nat) (line lf c : Nat) (hlf : lf < m.length)
    (h13 : byteAt m lf = 13) (hc0 : c ≠ 0) (hc13 : c ≠ 13) :
    byteAt (m.set lf 0) (line + 1) = c ↔ byteAt m (line + 1) = c := by
  by_cases he : lf = line + 1
  · rw [← he, byteAt_set_self _ _ _ hlf (by decide), h13]
    constructor
    · intro h; exact absurd h.symm hc0
    · intro h; exact absurd h.symm hc13
  · rw [byteAt_set_ne _ _ _ _ he]

theorem d_records_single (mem : List Nat) (l : Nat × Nat) :
    d_records mem [l] = if byteAt mem (l.1 + 1) = 68 then [d_record mem l] else [] := by
  unfold d_records
  by_cases h : byteAt mem (l.1 + 1) = 68
  · simp [h]
  · simp [h]

/-- One completed iteration of the loop of `parse_headers`, in terms of the
buffer `orig` the loop started from, with which the current buffer agrees from
the line on. -/
theorem header_record_step_ok (orig : List Nat) (st : HeaderState) (line lf : Nat)
    (r : HeaderState × Bool) (hl : st.mem.length = orig.length)
    (hd : st.mem.drop line = orig.drop line) (hm : memchr orig line 13 = some lf)
    (h : header_record st line lf = .ok r) :
    r.1.mem.length = orig.length ∧ r.1.mem.drop (lf + 2) = orig.drop (lf + 2) ∧
    line_valid orig line lf = true ∧
    (r.2 = true ↔ byteAt orig (line + 1) = 76) ∧
    (r.2 = true → r.1.s_pHeaderEnd = some (lf + 2)) ∧
    r.1.flightlist = st.flightlist ++ d_records orig [(line, lf)] ∧
    (byteAt orig (line + 1) = 68 → st.flightlist.length < 512) := by
  obtain ⟨hle, hlf, h13⟩ := memchr_some orig line 13 lf hm
  obtain ⟨hlen, hfr⟩ := header_record_frame st line lf r hle (by omega) h
  have hdrop : r.1.mem.drop (lf + 2) = orig.drop (lf + 2) := by
    rw [← drop_congr_of_le _ _ line (lf + 2) (by omega) hd]
    apply List.ext_getElem?
    intro i
    rw [List.getElem?_drop, List.getElem?_drop]
    exact hfr _ (by omega)
  obtain ⟨ht, h36, r0, hs, rfl⟩ := header_record_ok st line lf r h
  have hE : (st.mem.set lf 0).drop line = (orig.set lf 0).drop line :=
    set_drop_congr _ _ _ _ _ hl hd
  have hb : ∀ k, byteAt (st.mem.set lf 0) (line + k) = byteAt (orig.set lf 0) (line + k) :=
    fun k => by rw [← byteAt_drop, ← byteAt_drop, hE]
  obtain ⟨hv, hL, hend, hD, hnD⟩ := header_switch_ok _ _ _ _ hs
  simp only at hv hL hend hD hnD
  rw [hE] at ht hv hD
  rw [hb 1] at hv hL hD hnD
  have h36o : byteAt (orig.set lf 0) line = 36 := by
    have := hb 0
    rw [Nat.add_zero] at this
    rw [← this]
    exact h36
  have t76 := tag_of_line orig line lf 76 hlf h13 (by decide) (by decide)
  have t68 := tag_of_line orig line lf 68 hlf h13 (by decide) (by decide)
  refine ⟨by rw [hlen, hl], hdrop, ?_, hL.trans t76, hend, ?_, ?_⟩
  · unfold line_valid line_string
    rw [ht, h36o, hv]
    rfl
  · simp only
    rw [d_records_single]
    by_cases h68 : byteAt orig (line + 1) = 68
    · obtain ⟨_, v, hp, hfl⟩ := hD (t68.mpr h68)
      rw [if_pos h68, hfl]
      unfold d_record line_string
      simp only
      rw [hp]
    · rw [if_neg h68, List.append_nil]
      exact hnD (fun hc => h68 (t68.mp hc))
  · intro h68
    exact (hD (t68.mpr h68)).1

/-- One failed iteration of the loop of `parse_headers`: the line is not
valid, or it is a `$D` line met with 512 flights stored. -/
theorem header_record_step_error (orig : List Nat) (st : HeaderState) (line lf : Nat)
    (e : ParseError) (hl : st.mem.length = orig.length)
    (hd : st.mem.drop line = orig.drop line) (hm : memchr orig line 13 = some lf)
    (h : header_record st line lf = .error e) :
    line_valid orig line lf = false ∨
    (e = .tooManyFlights ∧ byteAt orig (line + 1) = 68 ∧ 512 ≤ st.flightlist.length) := by
  obtain ⟨hle, hlf, h13⟩ := memchr_some orig line 13 lf hm
  have hE : (st.mem.set lf 0).drop line = (orig.set lf 0).drop line :=
    set_drop_congr _ _ _ _ _ hl hd
  have hb : ∀ k, byteAt (st.mem.set lf 0) (line + k) = byteAt (orig.set lf 0) (line + k) :=
    fun k => by rw [← byteAt_drop, ← byteAt_drop, hE]
  have t68 := tag_of_line orig line lf 68 hlf h13 (by decide) (by decide)
  rcases header_record_error st line lf e h with ht | h36 | hs
  · left
    rw [hE] at ht
    unfold line_valid
    simp [ht]
  · left
    have := hb 0
    rw [Nat.add_zero] at this
    rw [this] at h36
    unfold line_valid
    simp [h36]
  · rcases header_switch_error _ _ _ _ hs with hv | ⟨he, h68, hfull⟩
    · left
      simp only at hv
      rw [hE, hb 1] at hv
      unfold line_valid line_string
      rw [hv]
      simp
    · right
      simp only at h68 hfull
      rw [hb 1] at h68
      exact ⟨he, t68.mp h68, hfull⟩

theorem d_records_cons (mem : List Nat) (x : Nat × Nat) (rest : List (Nat × Nat)) :
    d_records mem (x :: rest) = d_records mem [x] ++ d_records mem rest := by
  unfold d_records
  rw [← List.map_append, ← List.filter_append]
  rfl

theorem header_lines_succ (mem : List Nat) (fuel line lf : Nat) (hlt : line < mem.length)
    (hm : memchr mem line 13 = some lf) :
    header_lines mem (fuel + 1) line =
      if byteAt mem (line + 1) = 76 then []
      else (line, lf) :: header_lines mem fuel (lf + 2) := by
  rw [header_lines, if_pos hlt, hm]

theorem header_end_succ (mem : List Nat) (fuel line lf : Nat) (hlt : line < mem.length)
    (hm : memchr mem line 13 = some lf) :
    header_end mem (fuel + 1) line =
      if byteAt mem (line + 1) = 76 then some (line, lf)
      else header_end mem fuel (lf + 2) := by
  rw [header_end, if_pos hlt, hm]

/-- The loop of `parse_headers` when it returns: it stopped at the first line
with the tag `L`, every line up to it is valid, and the flight index is the
one at the start followed by the pairs of the `$D` lines before that line, in
order. -/
theorem parse_headers_loop_ok (orig : List Nat) :
    ∀ (fuel : Nat) (st : HeaderState) (line : Nat) (st1 : HeaderState),
      st.mem.length = orig.length → st.mem.drop line = orig.drop line →
      parse_headers_loop fuel st line = .ok st1 →
      (∃ l lf, header_end orig fuel line = some (l, lf) ∧ line_valid orig l lf = true ∧
        st1.s_pHeaderEnd = some (lf + 2)) ∧
      st1.flightlist = st.flightlist ++ d_records orig (header_lines orig fuel line) ∧
      (∀ l ∈ header_lines orig fuel line, line_valid orig l.1 l.2 = true) ∧
      (st.flightlist.length ≤ 512 → st1.flightlist.length ≤ 512) := by
  intro fuel
  induction fuel with
  | zero =>
    intro st line st1 _ _ h
    rw [parse_headers_loop] at h
    split at h <;> cases h
  | succ fuel ih =>
    intro st line st1 hl hd h
    rw [parse_headers_loop] at h
    by_cases hlt : line < st.mem.length
    · rw [if_pos hlt, memchr_congr _ _ _ _ hd] at h
      cases hm : memchr orig line 13 with
      | none => rw [hm] at h; cases h
      | some lf =>
        rw [hm] at h
        simp only at h
        cases hr : header_record st line lf with
        | error e => rw [hr] at h; cases h
        | ok r =>
          rw [hr] at h
          simp only at h
          obtain ⟨hlen, hdrop, hval, hL, hend, hfl, hD⟩ :=
            header_record_step_ok orig st line lf r hl hd hm hr
          have hlo : line < orig.length := by omega
          rw [header_lines_succ orig fuel line lf hlo hm, header_end_succ orig fuel line lf hlo hm]
          by_cases h2 : r.2 = true
          · rw [if_pos h2] at h
            cases h
            have h76 := hL.mp h2
            rw [if_pos h76, if_pos h76]
            have hnd : d_records orig [(line, lf)] = [] := by
              rw [d_records_single, if_neg (by rw [h76]; decide)]
            rw [hnd, List.append_nil] at hfl
            refine ⟨⟨line, lf, rfl, hval, hend h2⟩, ?_,
              (fun l hmem => absurd hmem (List.not_mem_nil l)), ?_⟩
            · rw [hfl]
              simp [d_records]
            · intro hle
              rw [hfl]
              exact hle
          · rw [if_neg h2] at h
            have h76 : ¬ byteAt orig (line + 1) = 76 := fun hc => h2 (hL.mpr hc)
            rw [if_neg h76, if_neg h76]
            obtain ⟨a, b, c, d⟩ := ih r.1 (lf + 2) st1 hlen hdrop h
            refine ⟨a, ?_, ?_, ?_⟩
            · rw [b, hfl, List.append_assoc, ← d_records_cons]
            · intro l hmem
              rcases List.mem_cons.mp hmem with hmem | hmem
              · subst hmem
                exact hval
              · exact c l hmem
            · intro hle
              apply d
              rw [hfl, d_records_single]
              by_cases h68 : byteAt orig (line + 1) = 68
              · have := hD h68
                rw [if_pos h68]
                simp
                omega
              · rw [if_neg h68]
                simpa using hle
    · rw [if_neg hlt] at h
      cases h

/-- The loop of `parse_headers` when it fails, with fuel for every line: a
line up to the first `$L` line is not valid, or a `$D` line is met with 512
flights stored, or the lines end without a `$L` line. -/
theorem parse_headers_loop_error (orig : List Nat) :
    ∀ (fuel : Nat) (st : HeaderState) (line : Nat) (e : ParseError),
      st.mem.length = orig.length → st.mem.drop line = orig.drop line →
      orig.length ≤ line + 2 * fuel → st.flightlist.length ≤ 512 →
      parse_headers_loop fuel st line = .error e →
      (∃ l ∈ header_lines orig fuel line, line_valid orig l.1 l.2 = false) ∨
      (∃ l lf, header_end orig fuel line = some (l, lf) ∧ line_valid orig l lf = false) ∨
      (e = .tooManyFlights ∧
        512 < st.flightlist.length + (d_records orig (header_lines orig fuel line)).length) ∨
      (e = .unexpectedEnd ∧ header_end orig fuel line = none ∧
        st.flightlist.length + (d_records orig (header_lines orig fuel line)).length ≤ 512) := by
  intro fuel
  induction fuel with
  | zero =>
    intro st line e hl _ hfuel hfl h
    rw [parse_headers_loop, if_neg (by omega)] at h
    cases h
    exact Or.inr (Or.inr (Or.inr ⟨rfl, rfl, by simpa [header_lines, d_records] using hfl⟩))
  | succ fuel ih =>
    intro st line e hl hd hfuel hfl h
    rw [parse_headers_loop] at h
    by_cases hlt : line < st.mem.length
    · rw [if_pos hlt, memchr_congr _ _ _ _ hd] at h
      have hlo : line < orig.length := by omega
      cases hm : memchr orig line 13 with
      | none =>
        rw [hm] at h
        cases h
        refine Or.inr (Or.inr (Or.inr ⟨rfl, ?_, ?_⟩))
        · rw [header_end, if_pos hlo, hm]
        · rw [header_lines, if_pos hlo, hm]
          simpa [d_records] using hfl
      | some lf =>
        rw [hm] at h
        simp only at h
        obtain ⟨hle, _, _⟩ := memchr_some orig line 13 lf hm
        rw [header_lines_succ orig fuel line lf hlo hm, header_end_succ orig fuel line lf hlo hm]
        cases hr : header_record st line lf with
        | error e1 =>
          rw [hr] at h
          cases h
          rcases header_record_step_error orig st line lf e hl hd hm hr with
            hv | ⟨he, h68, hfull⟩
          · by_cases h76 : byteAt orig (line + 1) = 76
            · rw [if_pos h76, if_pos h76]
              exact Or.inr (Or.inl ⟨line, lf, rfl, hv⟩)
            · rw [if_neg h76, if_neg h76]
              exact Or.inl ⟨(line, lf), List.mem_cons_self _ _, hv⟩
          · have h76 : ¬ byteAt orig (line + 1) = 76 := by rw [h68]; decide
            rw [if_neg h76, if_neg h76]
            refine Or.inr (Or.inr (Or.inl ⟨he, ?_⟩))
            rw [d_records_cons, d_records_single, if_pos h68]
            simp
            omega
        | ok r =>
          rw [hr] at h
          simp only at h
          obtain ⟨hlen, hdrop, hval, hL, hend, hflr, hD⟩ :=
            header_record_step_ok orig st line lf r hl hd hm hr
          by_cases h2 : r.2 = true
          · rw [if_pos h2] at h
            cases h
          · rw [if_neg h2] at h
            have h76 : ¬ byteAt orig (line + 1) = 76 := fun hc => h2 (hL.mpr hc)
            rw [if_neg h76, if_neg h76]
            have hlenr : r.1.flightlist.length =
                st.flightlist.length + (d_records orig [(line, lf)]).length := by
              rw [hflr, List.length_append]
            have hr512 : r.1.flightlist.length ≤ 512 := by
              rw [hlenr, d_records_single]
              by_cases h68 : byteAt orig (line + 1) = 68
              · have := hD h68
                rw [if_pos h68]
                simp
                omega
              · rw [if_neg h68]
                simpa using hfl
            have hcount : (d_records orig ((line, lf) :: header_lines orig fuel (lf + 2))).length =
                (d_records orig [(line, lf)]).length +
                  (d_records orig (header_lines orig fuel (lf + 2))).length := by
              rw [d_records_cons, List.length_append]
            rcases ih r.1 (lf + 2) e hlen hdrop (by omega) hr512 h with
              ⟨l, hmem, hv⟩ | ⟨l, lf1, he, hv⟩ | ⟨he, hc⟩ | ⟨he, hn, hc⟩
            · exact Or.inl ⟨l, List.mem_cons_of_mem _ hmem, hv⟩
            · exact Or.inr (Or.inl ⟨l, lf1, he, hv⟩)
            · exact Or.inr (Or.inr (Or.inl ⟨he, by rw [hcount]; omega⟩))
            · exact Or.inr (Or.inr (Or.inr ⟨he, hn, by rw [hcount]; omega⟩))
    · rw [if_neg hlt] at h
      cases h
      have hlo : ¬ line < orig.length := by omega
      refine Or.inr (Or.inr (Or.inr ⟨rfl, ?_, ?_⟩))
      · rw [header_end, if_neg hlo]
      · rw [header_lines, if_neg hlo]
        simpa [d_records] using hfl

theorem header_end_some (mem : List Nat) :
    ∀ (fuel line l lf : Nat), header_end mem fuel line = some (l, lf) →
      l < mem.length ∧ memchr mem l 13 = some lf ∧ byteAt mem (l + 1) = 76 := by
  intro fuel
  induction fuel with
  | zero => intro line l lf h; cases h
  | succ fuel ih =>
    intro line l lf h
    rw [header_end] at h
    split at h
    · rename_i hlt
      cases hm : memchr mem line 13 with
      | none => rw [hm] at h; cases h
      | some lf1 =>
        rw [hm] at h
        simp only at h
        split at h
        · rename_i h76
          cases h
          exact ⟨hlt, hm, h76⟩
        · exact ih _ _ _ h
    · cases h

/-- The results of `parse_headers` on a buffer, in terms of its lines. -/
theorem parse_headers_spec (mem : List Nat) :
    (∀ st1, parse_headers (reset_vars mem) = .ok st1 →
      (∃ l lf, header_end mem (mem.length + 1) 0 = some (l, lf) ∧
        line_valid mem l lf = true ∧ st1.s_pHeaderEnd = some (lf + 2)) ∧
      st1.flightlist = d_records mem (header_lines mem (mem.length + 1) 0) ∧
      (∀ l ∈ header_lines mem (mem.length + 1) 0, line_valid mem l.1 l.2 = true) ∧
      st1.flightlist.length ≤ 512) ∧
    (∀ e, parse_headers (reset_vars mem) = .error e →
      (∃ l ∈ header_lines mem (mem.length + 1) 0, line_valid mem l.1 l.2 = false) ∨
      (∃ l lf, header_end mem (mem.length + 1) 0 = some (l, lf) ∧
        line_valid mem l lf = false) ∨
      (e = .tooManyFlights ∧
        512 < (d_records mem (header_lines mem (mem.length + 1) 0)).length) ∨
      (e = .unexpectedEnd ∧ header_end mem (mem.length + 1) 0 = none ∧
        (d_records mem (header_lines mem (mem.length + 1) 0)).length ≤ 512)) := by
  constructor
  · intro st1 h
    obtain ⟨a, b, c, d⟩ := parse_headers_loop_ok mem (mem.length + 1) (reset_vars mem) 0 st1
      rfl rfl h
    refine ⟨a, ?_, c, d (Nat.zero_le 512)⟩
    rw [b]
    rfl
  · intro e h
    have := parse_headers_loop_error mem (mem.length + 1) (reset_vars mem) 0 e rfl rfl
      (by omega) (Nat.zero_le 512) h
    simpa [reset_vars] using this

theorem parseshorts_loop_error_kind (s : List Nat) :
    ∀ (n i : Nat) (line : Option Nat) (res : List Nat) (e : ParseError),
      parseshorts_loop s n i line res = .error e → e = .nullLine ∨ e = .notEnough := by
  intro n
  induction n with
  | zero => intro i line res e h; cases h
  | succ n ih =>
    intro i line res e h
    cases line with
    | none => cases h; exact Or.inl rfl
    | some l =>
      rw [parseshorts_loop] at h
      cases hs : sscanf_comma_hu (s.drop l) with
      | value v => rw [hs] at h; exact ih _ _ _ _ h
      | mismatch => rw [hs] at h; cases h; exact Or.inr rfl
      | eof => rw [hs] at h; exact ih _ _ _ _ h

theorem parseshorts_error_kind (res s : List Nat) (n : Nat) (e : ParseError)
    (h : parseshorts res s n = .error e) : e = .nullLine ∨ e = .notEnough :=
  parseshorts_loop_error_kind s n 0 _ res e h

/-- The errors of the `switch`: a line without the values asked for, or the
full flight index. -/
theorem header_switch_error_kind (st : HeaderState) (line next : Nat) (e : ParseError)
    (h : header_switch st line next = .error e) :
    e = .nullLine ∨ e = .notEnough ∨ e = .tooManyFlights := by
  unfold header_switch at h
  simp only at h
  split_ifs at h with h85 h65 h70 h84 h67 h76 h68 hfull
  · cases hp : parseshorts st.limits (cstr (st.mem.drop line)) 8 with
    | error e1 =>
      rw [hp] at h; cases h
      rcases parseshorts_error_kind _ _ _ _ hp with a | a
      · exact Or.inl a
      · exact Or.inr (Or.inl a)
    | ok v => rw [hp] at h; cases h
  · cases hp : parseshorts st.fuel (cstr (st.mem.drop line)) 5 with
    | error e1 =>
      rw [hp] at h; cases h
      rcases parseshorts_error_kind _ _ _ _ hp with a | a
      · exact Or.inl a
      · exact Or.inr (Or.inl a)
    | ok v => rw [hp] at h; cases h
  · cases hp : parseshorts st.timestamp (cstr (st.mem.drop line)) 6 with
    | error e1 =>
      rw [hp] at h; cases h
      rcases parseshorts_error_kind _ _ _ _ hp with a | a
      · exact Or.inl a
      · exact Or.inr (Or.inl a)
    | ok v => rw [hp] at h; cases h
  · unfold header_case_C at h
    cases hp : parseshorts st.config.shorts (cstr (st.mem.drop line)) 5 with
    | error e1 =>
      rw [hp] at h; cases h
      rcases parseshorts_error_kind _ _ _ _ hp with a | a
      · exact Or.inl a
      · exact Or.inr (Or.inl a)
    | ok v =>
      rw [hp] at h
      simp only at h
      split_ifs at h
  · cases hp : parseshorts [st.headerend] (cstr (st.mem.drop line)) 1 with
    | error e1 =>
      rw [hp] at h; cases h
      rcases parseshorts_error_kind _ _ _ _ hp with a | a
      · exact Or.inl a
      · exact Or.inr (Or.inl a)
    | ok v => rw [hp] at h; cases h
  · cases h; exact Or.inr (Or.inr rfl)
  · cases hp : parseshorts [0, 0] (cstr (st.mem.drop line)) 2 with
    | error e1 =>
      rw [hp] at h; cases h
      rcases parseshorts_error_kind _ _ _ _ hp with a | a
      · exact Or.inl a
      · exact Or.inr (Or.inl a)
    | ok v => rw [hp] at h; cases h

/-- An iteration of the loop of `parse_headers` never fails with one of the
two errors of the loop itself. -/
theorem header_record_error_kind (st : HeaderState) (line lf : Nat) (e : ParseError)
    (h : header_record st line lf = .error e) : e ≠ .outOfFuel ∧ e ≠ .unexpectedEnd := by
  unfold header_record at h
  simp only at h
  cases ht : test_header_checksum ((st.mem.set lf 0).drop line) with
  | error e1 =>
    rw [ht] at h
    cases h
    constructor <;> intro hc <;> cases hc
  | ok u =>
    rw [ht] at h
    simp only at h
    by_cases h36 : byteAt (st.mem.set lf 0) line = 36
    · rw [if_neg (by simpa using h36)] at h
      cases hs : header_switch { st with mem := st.mem.set lf 0 } line (lf + 2) with
      | error e1 =>
        rw [hs] at h
        cases h
        rcases header_switch_error_kind _ _ _ _ hs with a | a | a <;> rw [a] <;>
          constructor <;> intro hc <;> cases hc
      | ok r0 => rw [hs] at h; cases h
    · rw [if_pos (by simpa using h36)] at h
      cases h
      constructor <;> intro hc <;> cases hc

/-- The loop of `parse_headers` does not run out of fuel when it is given one
unit for every two bytes left: every line takes at least two bytes. -/
theorem parse_headers_loop_fuel :
    ∀ (fuel : Nat) (st : HeaderState) (line : Nat), st.mem.length ≤ line + 2 * fuel →
      parse_headers_loop fuel st line ≠ .error .outOfFuel := by
  intro fuel
  induction fuel with
  | zero =>
    intro st line hf
    rw [parse_headers_loop, if_neg (by omega)]
    intro hc; cases hc
  | succ fuel ih =>
    intro st line hf
    rw [parse_headers_loop]
    split
    · rename_i hlt
      cases hm : memchr st.mem line 13 with
      | none => intro hc; cases hc
      | some lf =>
        simp only
        obtain ⟨hle, hlf, _⟩ := memchr_some st.mem line 13 lf hm
        cases hr : header_record st line lf with
        | error e =>
          simp only
          intro hc
          cases hc
          exact (header_record_error_kind _ _ _ _ hr).1 rfl
        | ok r =>
          simp only
          split
          · intro hc; cases hc
          · have hlen := (header_record_frame st line lf r hle hlf hr).1
            exact ih _ _ (by omega)
    · intro hc; cases hc

/-- A line with an accepted checksum, a `$` and a tag the `switch` has no
case for leaves every variable and the buffer as they were. -/
theorem header_record_other (st : HeaderState) (line lf : Nat)
    (hv : line_valid st.mem line lf = true)
    (htag : byteAt (st.mem.set lf 0) (line + 1) ∉ [85, 65, 70, 84, 67, 76, 68]) :
    header_record st line lf = .ok (st, false) := by
  unfold line_valid at hv
  simp only [Bool.and_eq_true, decide_eq_true_eq] at hv
  obtain ⟨⟨ht, h36⟩, _⟩ := hv
  simp only [List.mem_cons, List.mem_singleton, List.not_mem_nil, not_or, or_false] at htag
  obtain ⟨h85, h65, h70, h84, h67, h76, h68⟩ := htag
  unfold header_record
  simp only
  rw [ht]
  simp only
  rw [if_neg (by simpa using h36)]
  unfold header_switch
  simp only
  rw [if_neg h85, if_neg h65, if_neg h70, if_neg h84, if_neg h67, if_neg h76, if_neg h68]
  simp only [set_restore]

theorem memchr_loop_shift (c p : Nat) :
    ∀ (l : List Nat) (i : Nat),
      memchr_loop c l (p + i) = (memchr_loop c l i).map (fun k => p + k) := by
  intro l
  induction l with
  | nil => intro i; rfl
  | cons x r ih =>
    intro i
    rw [memchr_loop, memchr_loop]
    by_cases h : x % 256 = c
    · rw [if_pos h, if_pos h]; rfl
    · rw [if_neg h, if_neg h]
      exact ih (i + 1)

theorem memchr_shift (pre m : List Nat) (i c : Nat) :
    memchr (pre ++ m) (pre.length + i) c = (memchr m i c).map (fun k => pre.length + k) := by
  unfold memchr
  rw [List.drop_append, memchr_loop_shift]

theorem byteAt_shift (pre m : List Nat) (i : Nat) :
    byteAt (pre ++ m) (pre.length + i) = byteAt m i := by
  rw [← byteAt_drop, List.drop_left]

theorem line_valid_shift (pre m : List Nat) (l lf : Nat) :
    line_valid (pre ++ m) (pre.length + l) (pre.length + lf) = line_valid m l lf := by
  unfold line_valid line_string
  rw [set_append_add, List.drop_append, byteAt_shift,
    show pre.length + l + 1 = pre.length + (l + 1) by omega, byteAt_shift]

theorem header_lines_shift (pre m : List Nat) :
    ∀ (fuel line : Nat), header_lines (pre ++ m) fuel (pre.length + line) =
      (header_lines m fuel line).map (fun l => (pre.length + l.1, pre.length + l.2)) := by
  intro fuel
  induction fuel with
  | zero => intro line; rfl
  | succ fuel ih =>
    intro line
    rw [header_lines, header_lines, memchr_shift,
      show pre.length + line + 1 = pre.length + (line + 1) by omega, byteAt_shift]
    by_cases hlt : line < m.length
    · rw [if_pos hlt, if_pos (by rw [List.length_append]; omega)]
      cases hm : memchr m line 13 with
      | none => rfl
      | some lf =>
        simp only [Option.map_some']
        by_cases h76 : byteAt m (line + 1) = 76
        · rw [if_pos h76, if_pos h76]; rfl
        · rw [if_neg h76, if_neg h76, List.map_cons,
            show pre.length + lf + 2 = pre.length + (lf + 2) by omega, ih]
    · rw [if_neg hlt, if_neg (by rw [List.length_append]; omega)]
      rfl

theorem header_end_shift (pre m : List Nat) :
    ∀ (fuel line : Nat), header_end (pre ++ m) fuel (pre.length + line) =
      (header_end m fuel line).map (fun l => (pre.length + l.1, pre.length + l.2)) := by
  intro fuel
  induction fuel with
  | zero => intro line; rfl
  | succ fuel ih =>
    intro line
    rw [header_end, header_end, memchr_shift,
      show pre.length + line + 1 = pre.length + (line + 1) by omega, byteAt_shift]
    by_cases hlt : line < m.length
    · rw [if_pos hlt, if_pos (by rw [List.length_append]; omega)]
      cases hm : memchr m line 13 with
      | none => rfl
      | some lf =>
        simp only [Option.map_some']
        by_cases h76 : byteAt m (line + 1) = 76
        · rw [if_pos h76, if_pos h76]; rfl
        · rw [if_neg h76, if_neg h76,
            show pre.length + lf + 2 = pre.length + (lf + 2) by omega, ih]
    · rw [if_neg hlt, if_neg (by rw [List.length_append]; omega)]
      rfl

theorem d_line_cstr (r : List Nat) :
    cstr (((ex_d_line ++ r).set 9 0).drop 0) = [36, 68, 44, 49, 44, 49, 42, 52, 52] := rfl

theorem d_line_valid (r : List Nat) : line_valid (ex_d_line ++ r) 0 9 = true := by
  have h0 : byteAt ((ex_d_line ++ r).set 9 0) 0 = 36 := rfl
  have h1 : byteAt ((ex_d_line ++ r).set 9 0) (0 + 1) = 68 := rfl
  have ht : test_header_checksum [36, 68, 44, 49, 44, 49, 42, 52, 52, 0] = .ok () := by decide
  have hc : cstr [36, 68, 44, 49, 44, 49, 42, 52, 52, 0] = [36, 68, 44, 49, 44, 49, 42, 52, 52] := rfl
  unfold line_valid line_string
  unfold test_header_checksum at ht ⊢
  rw [d_line_cstr, h0, h1]
  rw [hc] at ht
  rw [ht]
  decide

theorem many_flights_succ (n : Nat) : many_flights (n + 1) = ex_d_line ++ many_flights n := rfl

theorem many_flights_length (n : Nat) : (many_flights n).length = 11 * n := by
  induction n with
  | zero => rfl
  | succ n ih =>
    rw [many_flights_succ, List.length_append, ih]
    simp only [ex_d_line, List.length_cons, List.length_nil]
    omega

/-- The lines of a buffer of `n` lines `$D,1,1*44`: no line with the tag `L`,
every line valid, and `n` lines with the tag `D` when the fuel reaches them
all. -/
theorem many_flights_lines :
    ∀ (n fuel : Nat),
      header_end (many_flights n) fuel 0 = none ∧
      (∀ l ∈ header_lines (many_flights n) fuel 0,
        line_valid (many_flights n) l.1 l.2 = true) ∧
      (n ≤ fuel →
        (d_records (many_flights n) (header_lines (many_flights n) fuel 0)).length = n) := by
  intro n
  induction n with
  | zero =>
    intro fuel
    cases fuel with
    | zero => exact ⟨rfl, fun l hl => absurd hl (List.not_mem_nil l), fun _ => rfl⟩
    | succ fuel => exact ⟨rfl, fun l hl => absurd hl (List.not_mem_nil l), fun _ => rfl⟩
  | succ n ih =>
    intro fuel
    cases fuel with
    | zero =>
      exact ⟨rfl, fun l hl => absurd hl (List.not_mem_nil l), fun hc => absurd hc (by omega)⟩
    | succ fuel =>
      obtain ⟨i1, i2, i3⟩ := ih fuel
      rw [many_flights_succ]
      have hlt : 0 < (ex_d_line ++ many_flights n).length := by
        rw [List.length_append]; simp [ex_d_line]
      have hm : memchr (ex_d_line ++ many_flights n) 0 13 = some 9 := rfl
      have htag : byteAt (ex_d_line ++ many_flights n) (0 + 1) = 68 := rfl
      have hval : line_valid (ex_d_line ++ many_flights n) 0 9 = true := d_line_valid _
      have hL := header_lines_shift ex_d_line (many_flights n) fuel 0
      have hE := header_end_shift ex_d_line (many_flights n) fuel 0
      have e11 : ex_d_line.length + 0 = 9 + 2 := rfl
      rw [e11] at hL hE
      rw [header_lines_succ _ _ _ _ hlt hm, header_end_succ _ _ _ _ hlt hm, htag,
        if_neg (by decide), if_neg (by decide), hL, hE, i1]
      refine ⟨rfl, ?_, ?_⟩
      · intro l hl
        rcases List.mem_cons.mp hl with rfl | hl
        · exact hval
        · obtain ⟨a, ha, rfl⟩ := List.mem_map.mp hl
          simp only
          rw [line_valid_shift]
          exact i2 a ha
      · intro hf
        have i3 := i3 (by omega)
        rw [d_records_cons, d_records_single, if_pos htag, List.length_append,
          List.length_singleton]
        have e : (d_records (ex_d_line ++ many_flights n)
            ((header_lines (many_flights n) fuel 0).map
              (fun l => (ex_d_line.length + l.1, ex_d_line.length + l.2)))).length =
            (d_records (many_flights n) (header_lines (many_flights n) fuel 0)).length := by
          unfold d_records
          rw [List.length_map, List.length_map, List.filter_map, List.length_map]
          congr 1
          apply List.filter_congr
          intro x _
          simp only [Function.comp]
          rw [show ex_d_line.length + x.1 + 1 = ex_d_line.length + (x.1 + 1) by omega,
            byteAt_shift]
        rw [e, i3]
        omega

/-- A block of valid lines with more than 512 `$D` lines before the `$L`
line, if any: `parse_headers` fails with the error of the full flight index. -/
theorem parse_headers_full (mem : List Nat)
    (hval : ∀ l ∈ header_lines mem (mem.length + 1) 0, line_valid mem l.1 l.2 = true)
    (hL : ∀ l lf, header_end mem (mem.length + 1) 0 = some (l, lf) →
      line_valid mem l lf = true)
    (hn : 512 < (d_records mem (header_lines mem (mem.length + 1) 0)).length) :
    parse_headers (reset_vars mem) = .error .tooManyFlights := by
  cases hp : parse_headers (reset_vars mem) with
  | ok st1 =>
    obtain ⟨_, b, _, d⟩ := (parse_headers_spec mem).1 st1 hp
    rw [b] at d
    omega
  | error e =>
    rcases (parse_headers_spec mem).2 e hp with ⟨l, hl, hv⟩ | ⟨l, lf, he, hv⟩ | ⟨he, _⟩ | ⟨_, _, hle⟩
    · rw [hval l hl] at hv; cases hv
    · rw [hL l lf he] at hv; cases hv
    · rw [he]
    · omega

/-- A block of valid lines with a `$L` line and at most 512 `$D` lines before
it: `parse_headers` returns. -/
theorem parse_headers_returns (mem : List Nat)
    (hval : ∀ l ∈ header_lines mem (mem.length + 1) 0, line_valid mem l.1 l.2 = true)
    (hL : ∀ l lf, header_end mem (mem.length + 1) 0 = some (l, lf) →
      line_valid mem l lf = true)
    (hn : (d_records mem (header_lines mem (mem.length + 1) 0)).length ≤ 512)
    (he : header_end mem (mem.length + 1) 0 ≠ none) :
    ∃ st1, parse_headers (reset_vars mem) = .ok st1 := by
  cases hp : parse_headers (reset_vars mem) with
  | ok st1 => exact ⟨st1, rfl⟩
  | error e =>
    rcases (parse_headers_spec mem).2 e hp with ⟨l, hl, hv⟩ | ⟨l, lf, he1, hv⟩ | ⟨_, hlt⟩ | ⟨_, hnone, _⟩
    · rw [hval l hl] at hv; cases hv
    · rw [hL l lf he1] at hv; cases hv
    · omega
    · exact absurd hnone he

/-- A block of valid lines without a `$L` line and with at most 512 `$D`
lines: `parse_headers` fails with the error of the end of the file. -/
theorem parse_headers_no_end (mem : List Nat)
    (hval : ∀ l ∈ header_lines mem (mem.length + 1) 0, line_valid mem l.1 l.2 = true)
    (he : header_end mem (mem.length + 1) 0 = none)
    (hn : (d_records mem (header_lines mem (mem.length + 1) 0)).length ≤ 512) :
    parse_headers (reset_vars mem) = .error .unexpectedEnd := by
  cases hp : parse_headers (reset_vars mem) with
  | ok st1 =>
    obtain ⟨⟨l, lf, a, _⟩, _⟩ := (parse_headers_spec mem).1 st1 hp
    rw [he] at a
    cases a
  | error e =>
    rcases (parse_headers_spec mem).2 e hp with ⟨l, hl, hv⟩ | ⟨l, lf, he1, hv⟩ | ⟨_, hlt⟩ | ⟨h1, _, _⟩
    · rw [hval l hl] at hv; cases hv
    · rw [he] at he1; cases he1
    · omega
    · rw [h1]

/-- A buffer of more than 512 lines `$D,1,1*44`: `parse_headers` fails with
the error of the full flight index. -/
theorem many_flights_error (n : Nat) (hn : 512 < n) :
    parse_headers (reset_vars (many_flights n)) = .error .tooManyFlights :=
  parse_headers_full (many_flights n) (many_flights_lines n _).2.1
    (fun l lf h => by rw [(many_flights_lines n _).1] at h; cases h)
    (by
      rw [(many_flights_lines n ((many_flights n).length + 1)).2.2
        (by rw [many_flights_length]; omega)]
      exact hn)

set_option maxRecDepth 100000 in
/-- The file `ex_dat_file`: `parse_headers` returns with `ex_dat_state`. -/
theorem ex_dat_run : parse_headers (reset_vars ex_dat_file) = .ok ex_dat_state := by
  decide

/-- Claim C22 (flight-index capacity).  For a buffer whose header lines, the
`$L` line included, are valid: when `parse_headers` returns, the flight index
holds the pairs (flight number, data length) of the `$D` lines before the `$L`
line, in file order, so that `s_nFlights`, its length, is their count, and it
has at most 512 entries; with at most 512 `$D` lines before a `$L` line
`parse_headers` does return; with more than 512 it fails with the error of the
full flight index.  An iteration of the loop appends the pair of its line when
the tag is `D`, to an index of fewer than 512 entries, and nothing otherwise. -/
theorem flight_index_capacity (mem : List Nat)
    (hval : ∀ l ∈ header_lines mem (mem.length + 1) 0, line_valid mem l.1 l.2 = true)
    (hL : ∀ l lf, header_end mem (mem.length + 1) 0 = some (l, lf) →
      line_valid mem l lf = true) :
    (∀ st1, parse_headers (reset_vars mem) = .ok st1 →
      st1.flightlist = d_records mem (header_lines mem (mem.length + 1) 0) ∧
      st1.flightlist.length ≤ 512) ∧
    ((d_records mem (header_lines mem (mem.length + 1) 0)).length ≤ 512 →
      header_end mem (mem.length + 1) 0 ≠ none →
      ∃ st1, parse_headers (reset_vars mem) = .ok st1 ∧
        st1.flightlist = d_records mem (header_lines mem (mem.length + 1) 0)) ∧
    (512 < (d_records mem (header_lines mem (mem.length + 1) 0)).length →
      parse_headers (reset_vars mem) = .error .tooManyFlights) ∧
    (∀ st line lf r, memchr st.mem line 13 = some lf → header_record st line lf = .ok r →
      r.1.flightlist = st.flightlist ++
        (if byteAt st.mem (line + 1) = 68 then [d_record st.mem (line, lf)] else []) ∧
      (byteAt st.mem (line + 1) = 68 → st.flightlist.length < 512)) := by
  refine ⟨?_, ?_, ?_, ?_⟩
  · intro st1 h
    obtain ⟨_, b, _, d⟩ := (parse_headers_spec mem).1 st1 h
    exact ⟨b, d⟩
  · intro hn he
    obtain ⟨st1, h⟩ := parse_headers_returns mem hval hL hn he
    exact ⟨st1, h, ((parse_headers_spec mem).1 st1 h).2.1⟩
  · intro hn
    exact parse_headers_full mem hval hL hn
  · intro st line lf r hm h
    obtain ⟨_, _, _, _, _, hfl, hD⟩ := header_record_step_ok st.mem st line lf r rfl rfl hm h
    rw [d_records_single] at hfl
    exact ⟨hfl, hD⟩

set_option maxRecDepth 100000 in
/-- Witness for C22: the file `ex_dat_file`, whose one `$D` line gives the
index `[(1, 11)]`, and the buffer of 513 `$D` lines, on which `parse_headers`
fails. -/
theorem flight_index_capacity_witness :
    (∃ st1, parse_headers (reset_vars ex_dat_file) = .ok st1 ∧ st1.flightlist = [⟨1, 11⟩]) ∧
    parse_headers (reset_vars ex_many_flights) = .error .tooManyFlights :=
  ⟨(flight_index_capacity ex_dat_file (by decide)
      (fun l lf h => by
        have e : header_end ex_dat_file (ex_dat_file.length + 1) 0 = some (63, 72) := by decide
        rw [e] at h
        cases h
        decide)).2.1 (by decide) (by decide),
   (flight_index_capacity ex_many_flights (many_flights_lines 513 _).2.1
      (fun l lf h => by
        have e := (many_flights_lines 513 (ex_many_flights.length + 1)).1
        have h1 : header_end (many_flights 513) (ex_many_flights.length + 1) 0 = some (l, lf) := h
        rw [e] at h1
        cases h1)).2.2.1
      (by
        have e := (many_flights_lines 513 ((many_flights 513).length + 1)).2.2
          (by rw [many_flights_length]; omega)
        have e1 : (d_records ex_many_flights
          (header_lines ex_many_flights (ex_many_flights.length + 1) 0)).length = 513 := e
        rw [e1]
        decide)⟩

/-- Claim C23 (header termination), amended.  When `parse_headers` returns, the
buffer has a first line with the tag `L`, whose carriage return `memchr` found
at `lf`, and `s_pHeaderEnd` is `lf + 2`, the byte after the CRLF of that line;
the loop returns at the iteration of that line, whatever follows it.  For a
buffer of valid lines without a `$L` line and with at most 512 `$D` lines,
`parse_headers` fails with the error of the end of the file.  A line with an
accepted checksum, a `$` and a tag other than U, A, F, T, C, L, D changes
nothing and the loop goes on.  The lines never outnumber the fuel of the
model. -/
theorem header_termination (mem : List Nat) :
    (∀ st1, parse_headers (reset_vars mem) = .ok st1 →
      ∃ l lf, header_end mem (mem.length + 1) 0 = some (l, lf) ∧
        memchr mem l 13 = some lf ∧ byteAt mem (l + 1) = 76 ∧
        st1.s_pHeaderEnd = some (lf + 2)) ∧
    (∀ fuel st line lf r, line < st.mem.length → memchr st.mem line 13 = some lf →
      header_record st line lf = .ok r → r.2 = true →
      parse_headers_loop (fuel + 1) st line = .ok r.1) ∧
    ((∀ l ∈ header_lines mem (mem.length + 1) 0, line_valid mem l.1 l.2 = true) →
      header_end mem (mem.length + 1) 0 = none →
      (d_records mem (header_lines mem (mem.length + 1) 0)).length ≤ 512 →
      parse_headers (reset_vars mem) = .error .unexpectedEnd) ∧
    (∀ st line lf, line_valid st.mem line lf = true →
      byteAt (st.mem.set lf 0) (line + 1) ∉ [85, 65, 70, 84, 67, 76, 68] →
      header_record st line lf = .ok (st, false)) ∧
    parse_headers (reset_vars mem) ≠ .error .outOfFuel := by
  refine ⟨?_, ?_, ?_, ?_, ?_⟩
  · intro st1 h
    obtain ⟨⟨l, lf, a, _, c⟩, _⟩ := (parse_headers_spec mem).1 st1 h
    obtain ⟨_, hm, h76⟩ := header_end_some mem _ _ _ _ a
    exact ⟨l, lf, a, hm, h76, c⟩
  · intro fuel st line lf r hlt hm hr h2
    rw [parse_headers_loop, if_pos hlt, hm]
    simp only
    rw [hr]
    simp only
    rw [if_pos h2]
  · intro hval he hn
    exact parse_headers_no_end mem hval he hn
  · intro st line lf hv htag
    exact header_record_other st line lf hv htag
  · exact parse_headers_loop_fuel (mem.length + 1) (reset_vars mem) 0
      (by show mem.length ≤ 0 + 2 * (mem.length + 1); omega)

set_option maxRecDepth 100000 in
/-- Witness for C23: on `ex_dat_file` the `$L` line starts at 63 with its
carriage return at 72, and `s_pHeaderEnd` is 74; on the buffer of the single
line `$X,1*45` the line is skipped and `parse_headers` fails with the error of
the end of the file. -/
theorem header_termination_witness :
    (∃ l lf, header_end ex_dat_file (ex_dat_file.length + 1) 0 = some (l, lf) ∧
      memchr ex_dat_file l 13 = some lf ∧ byteAt ex_dat_file (l + 1) = 76 ∧
      ex_dat_state.s_pHeaderEnd = some (lf + 2)) ∧
    parse_headers (reset_vars ex_x_line) = .error .unexpectedEnd ∧
    header_record (reset_vars ex_x_line) 0 7 = .ok (reset_vars ex_x_line, false) :=
  ⟨(header_termination ex_dat_file).1 ex_dat_state ex_dat_run,
   (header_termination ex_x_line).2.2.1 (by decide) (by decide) (by decide),
   (header_termination ex_x_line).2.2.2.1 (reset_vars ex_x_line) 0 7 (by decide) (by decide)⟩

/-- Counterexample to C23 as worded: the buffer of 513 lines `$D,1,1*44` is
made of valid header lines and has no `$L` line, and `parse_headers` ends with
the error of the full flight index, not with the error of the end of the
file. -/
theorem many_flights_not_unexpected_end :
    (∀ l ∈ header_lines ex_many_flights (ex_many_flights.length + 1) 0,
      line_valid ex_many_flights l.1 l.2 = true) ∧
    header_end ex_many_flights (ex_many_flights.length + 1) 0 = none ∧
    parse_headers (reset_vars ex_many_flights) = .error .tooManyFlights ∧
    parse_headers (reset_vars ex_many_flights) ≠ .error .unexpectedEnd := by
  have h := many_flights_error 513 (by decide)
  refine ⟨(many_flights_lines 513 _).2.1, (many_flights_lines 513 _).1, h, ?_⟩
  have h1 : parse_headers (reset_vars ex_many_flights) = .error .tooManyFlights := h
  rw [h1]
  intro hc
  cases hc

/-! ### The progress of the record loops -/

theorem popcount_le (x : Nat) : popcount x ≤ 8 := by
  unfold popcount
  exact (List.length_filter_le _ _).trans (by simp)

theorem popcount_bytes_le (pv : Nat → Nat) (n : Nat) : popcount_bytes pv n ≤ 8 * n := by
  unfold popcount_bytes
  induction n with
  | zero => simp
  | succ n ih =>
    rw [List.range_succ, List.map_append, List.sum_append]
    have := popcount_le (pv n)
    simp only [List.map_cons, List.map_nil, List.sum_cons, List.sum_nil]
    omega

set_option maxRecDepth 100000 in
theorem popcount_groups_le :
    ∀ d < 256, popcount (d &&& 0x3F) ≤ 6 ∧ popcount (d &&& 0xC0) ≤ 2 := by
  decide

/-- The checksum byte of a record is at most 81 bytes after its start: three
bytes, at most 6 + 2 + 6 flag bytes, at most 48 value bytes and 16 scale
bytes. -/
theorem rewrite_cursor_le (buf : List Nat) (p0 : Nat) : rewrite_cursor buf p0 ≤ p0 + 81 := by
  rw [rewrite_cursor_formula]
  have h0 := popcount_groups_le _ (byteAt_lt buf p0)
  have h1 := popcount_groups_le _ (byteAt_lt buf (p0 + 1))
  have h2 := popcount_bytes_le (record_flags buf p0).valflags 6
  have h3 := popcount_bytes_le (record_flags buf p0).scaleflags 2
  omega

/-- An accepted record of the decoder: the cursor after it. -/
theorem decode_record_pFlight (env : Env) (flags interval : Nat) (buf : List Nat) (pEnd : Nat)
    (st st1 : FlightState) (h : decode_record env flags interval buf pEnd st = .ok st1) :
    st1.pFlight = rewrite_cursor buf st.pFlight + 1 ∧ rewrite_cursor buf st.pFlight < pEnd := by
  rw [rewrite_cursor_eq_decode env flags buf st.drec st.pFlight]
  refine ⟨(decode_record_drec _ _ _ _ _ _ _ h).2, ?_⟩
  unfold decode_record at h
  simp only at h
  split at h
  · cases h
  · omega

/-- An accepted record of the rewriter: the cursor after it and the position
written. -/
theorem rewrite_record_pFlight (fw nv pEnd : Nat) (rs rs1 : RewriteState)
    (h : rewrite_record fw nv pEnd rs = .ok rs1) :
    rs1.pFlight = rewrite_cursor rs.buf rs.pFlight + 1 ∧
    rewrite_cursor rs.buf rs.pFlight < pEnd ∧
    rs1.written = rs.written ++ [(rs.pFlight, rewrite_cursor rs.buf rs.pFlight)] := by
  unfold rewrite_record at h
  split at h
  · cases h
  · rename_i hlt
    refine ⟨rewrite_checksum_pFlight _ _ _ _ _ _ _ h, by omega, ?_⟩
    unfold rewrite_checksum at h
    split at h
    · cases h
    · cases h; rfl

/-- The flight loop body of `parse_data` never stops at the loop bound of the
model. -/
theorem parse_flight_fuel (env : Env) (mktime : tm → Int) (only : Nat) (mem : datarec)
    (buf : List Nat) (pTop : Nat) (f : flight) :
    parse_flight env mktime only mem buf pTop f ≠ .error .outOfFuel := by
  unfold parse_flight
  cases hr : flight_range buf.length pTop f.data_length with
  | error e =>
    simp only
    simp only [flight_range] at hr
    split at hr
    · cases hr
      exact fun h => by cases h
    · split at hr
      · cases hr
        exact fun h => by cases h
      · cases hr
  | ok pEnd =>
    simp only
    split
    · exact fun h => by cases h
    · split
      · exact fun h => by cases h
      · split
        · exact fun h => by cases h
        · split
          · rename_i e hrec
            intro hc
            cases hc
            exact decode_records_fuel _ _ _ _ _ _ _ (by simp only; omega) hrec
          · exact fun h => by cases h

/-- C32: a data record that `parse_data` or `recompute_checksums` accepts takes
at least 4 and at most 82 bytes with its checksum byte, and its checksum byte,
the byte before the new cursor, lies before `pEnd`, the end of the flight's
range; so the bytes left of the range decrease at every iteration, and the
record loops, run with the bytes left as bound, never stop at the bound: the
loops end for every input. -/
theorem record_loop_progress (env : Env) (flags interval : Nat) (buf : List Nat) (pEnd : Nat) :
    (∀ st st1, decode_record env flags interval buf pEnd st = .ok st1 →
      st.pFlight + 4 ≤ st1.pFlight ∧ st1.pFlight ≤ st.pFlight + 82 ∧
      st1.pFlight - 1 < pEnd ∧ pEnd - st1.pFlight < pEnd - st.pFlight) ∧
    (∀ fw nv rs rs1, rewrite_record fw nv pEnd rs = .ok rs1 →
      rs.pFlight + 4 ≤ rs1.pFlight ∧ rs1.pFlight ≤ rs.pFlight + 82 ∧
      rs1.pFlight - 1 < pEnd ∧ pEnd - rs1.pFlight < pEnd - rs.pFlight ∧
      rs1.written = rs.written ++ [(rs.pFlight, rs1.pFlight - 1)]) ∧
    (∀ fuel s, pEnd ≤ s.1.pFlight + fuel →
      decode_records env flags interval buf pEnd fuel s ≠ .error .outOfFuel) ∧
    (∀ fw nv fuel rs, pEnd ≤ rs.pFlight + fuel →
      rewrite_records fw nv pEnd fuel rs ≠ .error .outOfFuel) ∧
    (∀ mktime only mem pTop f,
      parse_flight env mktime only mem buf pTop f ≠ .error .outOfFuel) ∧
    (∀ fw nv rs f, rewrite_flight fw nv rs f ≠ .error .outOfFuel) := by
  refine ⟨?_, ?_, decode_records_fuel env flags interval buf pEnd,
    fun fw nv => rewrite_records_fuel fw nv pEnd,
    fun mktime only mem pTop f => parse_flight_fuel env mktime only mem buf pTop f,
    rewrite_flight_fuel⟩
  · intro st st1 h
    obtain ⟨e, hlt⟩ := decode_record_pFlight env flags interval buf pEnd st st1 h
    have h1 := rewrite_cursor_ge buf st.pFlight
    have h2 := rewrite_cursor_le buf st.pFlight
    omega
  · intro fw nv rs rs1 h
    obtain ⟨e, hlt, hw⟩ := rewrite_record_pFlight fw nv pEnd rs rs1 h
    have h1 := rewrite_cursor_ge rs.buf rs.pFlight
    have h2 := rewrite_cursor_le rs.buf rs.pFlight
    refine ⟨by omega, by omega, by omega, by omega, ?_⟩
    rw [hw, e]
    rfl

/-- Instance of C32: the record at offset 15 of `ex_new_file`, seven bytes
with its checksum at offset 21, in a flight that ends at 22. -/
theorem record_loop_progress_witness :
    rewrite_record 300 300 22 ⟨ex_new_file, 15, []⟩ =
      .ok ⟨ex_new_file.set 21 4, 22, [(15, 21)]⟩ ∧
    15 + 4 ≤ 22 ∧ 22 ≤ 15 + 82 ∧ 22 - 1 < 22 ∧ 22 - 22 < 22 - 15 :=
  have hr : rewrite_record 300 300 22 ⟨ex_new_file, 15, []⟩ =
      .ok ⟨ex_new_file.set 21 4, 22, [(15, 21)]⟩ := by decide
  have h := (record_loop_progress ex_env_new 0 6 ex_new_file 22).2.1 300 300 _ _ hr
  ⟨hr, h.1, h.2.1, h.2.2.1, h.2.2.2.1⟩

/-! ### The slots the formatter reads -/

/-- The offsets of the table: every offset is below 48; a per-engine offset
plus `TWINJUMP` is below 48 unless the entry is one of E7 to E9 and C7 to C9,
for which it is 48 or more. -/
theorem fielddesc_offsets :
    ∀ fd ∈ fielddesc, fd.nOffset.toNat < 48 ∧
      (fd.bPerEngine = true → fd.nOffset.toNat + TWINJUMP < 48 ∨
        (fd.nFeatureFlag ∈ high_cylinder_flags ∧ 48 ≤ fd.nOffset.toNat + TWINJUMP)) := by
  decide

theorem high_cylinder_entries :
    ∀ b ∈ high_cylinder_flags, ∃ fd ∈ fielddesc.take (fielddesc.length - 1),
      fd.nFeatureFlag = b ∧ fd.bPerEngine = true ∧ fd.nWhichEng = 0 ∧ 0 ≤ fd.nOffset ∧
      48 ≤ fd.nOffset.toNat + TWINJUMP := by
  decide

theorem NUMENGINE_cases (env : Env) : NUMENGINE env = 1 ∨ NUMENGINE env = 2 := by
  unfold NUMENGINE
  split
  · exact Or.inr rfl
  · exact Or.inl rfl

theorem field_shown_flag (env : Env) (j : Nat) (fd : FieldDesc)
    (h : field_shown env j fd = true) : env.config.flags &&& fd.nFeatureFlag = fd.nFeatureFlag := by
  unfold field_shown at h
  simp only [Bool.and_eq_true, beq_iff_eq] at h
  rw [Nat.and_comm]
  exact h.2

/-- C33: for a single-engine configuration, or a twin-engine one with none of
the flags E7 to E9 and C7 to C9 set, every table entry that `formatdata` writes
from a slot in an engine pass reads the value and tests the NA flag of a slot
below 48, whose NA bit lies in the six bytes of `naflags`; for a twin-engine
configuration with one of those flags set, the entry of that flag is written in
the second engine pass from a slot of 48 or more. -/
theorem formatter_slot_bounds (env : Env) :
    (∀ j fd, fd ∈ fielddesc → j < NUMENGINE env → field_shown env j fd = true →
      0 ≤ fd.nOffset →
      (NUMENGINE env = 1 ∨ ∀ b ∈ high_cylinder_flags, env.config.flags &&& b ≠ b) →
      (∀ rec, format_field env rec j fd = format_slot rec (field_slot j fd) fd.nScale) ∧
      field_slot j fd < 48 ∧ field_slot j fd / 8 < 6) ∧
    (NUMENGINE env = 2 → ∀ b ∈ high_cylinder_flags, env.config.flags &&& b = b →
      ∃ fd ∈ fielddesc.take (fielddesc.length - 1), fd.nFeatureFlag = b ∧
        field_shown env 1 fd = true ∧ 48 ≤ field_slot 1 fd ∧
        ∀ rec, format_field env rec 1 fd = format_slot rec (field_slot 1 fd) fd.nScale) := by
  constructor
  · intro j fd hmem hj hs ho hcfg
    have hslot : field_slot j fd < 48 := by
      obtain ⟨h48, hper⟩ := fielddesc_offsets fd hmem
      unfold field_slot
      by_cases hp : fd.bPerEngine = true
      · rw [if_pos hp]
        by_cases hj0 : j = 0
        · rw [hj0]; omega
        · have hN : NUMENGINE env = 2 := by
            rcases NUMENGINE_cases env with h1 | h2
            · omega
            · exact h2
          have hj1 : j = 1 := by omega
          rw [hj1]
          rcases hper hp with hlt | ⟨hhigh, _⟩
          · omega
          · rcases hcfg with h1 | hnone
            · omega
            · exact absurd (field_shown_flag env j fd hs) (hnone _ hhigh)
      · rw [if_neg hp]
        omega
    exact ⟨fun rec => format_field_shown env rec j fd hs ho, hslot, by omega⟩
  · intro hN b hb hset
    obtain ⟨fd, hmem, hflag, hper, hwhich, ho, h48⟩ := high_cylinder_entries b hb
    have hs : field_shown env 1 fd = true := by
      unfold field_shown
      rw [hper, hwhich, hflag, Nat.and_comm b env.config.flags, hset]
      simp
    refine ⟨fd, hmem, hflag, hs, ?_, fun rec => format_field_shown env rec 1 fd hs ho⟩
    unfold field_slot
    rw [if_pos hper]
    omega

/-- Instance of C33: with the single-engine `ex_env` the E1 entry is read from
slot 0; with the twin-engine `ex_env_twin`, whose flags hold E7, an entry of
the second engine pass is read from a slot of 48 or more. -/
theorem formatter_slot_bounds_witness :
    field_slot 0 ⟨true, 0, 1, "E1", F_E1, 0⟩ < 48 ∧
    ∃ fd ∈ fielddesc.take (fielddesc.length - 1), fd.nFeatureFlag = F_E7 ∧
      field_shown ex_env_twin 1 fd = true ∧ 48 ≤ field_slot 1 fd ∧
      ∀ rec, format_field ex_env_twin rec 1 fd = format_slot rec (field_slot 1 fd) fd.nScale :=
  ⟨((formatter_slot_bounds ex_env).1 0 ⟨true, 0, 1, "E1", F_E1, 0⟩ (by simp [fielddesc])
      (by decide) (by decide) (by decide) (Or.inl (by decide))).2.1,
    (formatter_slot_bounds ex_env_twin).2 (by decide) F_E7 (by decide) (by decide)⟩

/-! ### The columns of a row -/

theorem csv_columns_append (a b : String) :
    csv_columns (a ++ b) = csv_columns a + csv_columns b := by
  unfold csv_columns
  rw [String.data_append, List.count_append]

theorem digitChar_ne_comma : ∀ k < 10, Nat.digitChar k ≠ ',' := by decide

theorem toDigitsCore_no_comma :
    ∀ (fuel n : Nat) (ds : List Char), ',' ∉ ds → ',' ∉ Nat.toDigitsCore 10 fuel n ds := by
  intro fuel
  induction fuel with
  | zero => intro n ds h; exact h
  | succ fuel ih =>
    intro n ds h
    have hd : ',' ∉ Nat.digitChar (n % 10) :: ds := by
      intro hc
      rcases List.mem_cons.mp hc with hc | hc
      · exact digitChar_ne_comma (n % 10) (Nat.mod_lt _ (by decide)) hc.symm
      · exact h hc
    rw [Nat.toDigitsCore]
    split
    · exact hd
    · exact ih _ _ hd

theorem csv_columns_nat (n : Nat) : csv_columns (toString n) = 0 := by
  unfold csv_columns
  rw [List.count_eq_zero]
  exact toDigitsCore_no_comma _ _ _ (List.not_mem_nil _)

theorem csv_columns_int (i : Int) : csv_columns (toString i) = 0 := by
  cases i with
  | ofNat m => exact csv_columns_nat m
  | negSucc m =>
    show csv_columns ("-" ++ toString (m + 1)) = 0
    rw [csv_columns_append, csv_columns_nat]
    rfl

theorem csv_columns_format_slot (rec : datarec) (offset nScale : Nat) :
    csv_columns (format_slot rec offset nScale) = 1 := by
  unfold format_slot
  split
  · simp only
    rw [csv_columns_append, csv_columns_append, csv_columns_int]
    split
    · rw [csv_columns_append, csv_columns_int]
      rfl
    · rfl
  · rfl

/-- A table entry gives one column in an engine pass when it passes the three
tests of `formatdata`, and nothing otherwise. -/
theorem csv_columns_format_field (env : Env) (rec : datarec) (j : Nat) (fd : FieldDesc) :
    csv_columns (format_field env rec j fd) = if field_shown env j fd = true then 1 else 0 := by
  unfold format_field field_shown
  by_cases h1 : (!fd.bPerEngine && decide (j < NUMENGINE env - 1)) = true
  · rw [if_pos h1, h1]
    rfl
  · rw [if_neg h1]
    by_cases h2 : (fd.nWhichEng != 0 && (fd.nWhichEng &&& (1 <<< j)) == 0) = true
    · rw [if_pos h2, h2]
      simp
      rfl
    · rw [if_neg h2]
      by_cases h3 : ((fd.nFeatureFlag &&& env.config.flags) == fd.nFeatureFlag) = true
      · rw [if_pos h3, h3]
        simp only [Bool.not_eq_true] at h1 h2
        rw [h1, h2]
        simp only [Bool.not_false, Bool.and_self, if_true]
        split
        · rw [csv_columns_append, csv_columns_int]
          rfl
        · exact csv_columns_format_slot _ _ _
      · rw [if_neg h3]
        simp only [Bool.not_eq_true] at h3
        rw [h3]
        simp
        rfl

/-- The field loop of `formatdata` over the first `n` table entries adds one
column for every entry that passes the tests. -/
theorem csv_columns_field_loop (env : Env) (rec : datarec) (j : Nat) :
    ∀ (n : Nat), n ≤ fielddesc.length → ∀ (out : String),
      csv_columns (forUpTo n (fun i out =>
        match fielddesc.get? i with
        | some fd => out ++ format_field env rec j fd
        | none => out) out) =
      csv_columns out + ((fielddesc.take n).filter (field_shown env j)).length := by
  intro n
  induction n with
  | zero => intro _ out; rfl
  | succ n ih =>
    intro hn out
    have hlt : n < fielddesc.length := by omega
    rw [forUpTo_succ, List.get?_eq_get hlt]
    simp only
    rw [csv_columns_append, ih (by omega), csv_columns_format_field, List.take_succ,
      List.filter_append, List.length_append, List.getElem?_eq_getElem hlt]
    simp only [Option.toList, List.get_eq_getElem]
    by_cases hs : field_shown env j fielddesc[n] = true
    · rw [if_pos hs, List.filter_cons_of_pos hs]
      rfl
    · rw [if_neg hs, List.filter_cons_of_neg hs]
      rfl

/-- The engine loop of `formatdata` adds the columns of every engine pass. -/
theorem csv_columns_engine_loop (env : Env) (rec : datarec) (head : String) :
    ∀ (n : Nat),
      csv_columns (forUpTo n (fun j out =>
        forUpTo (fielddesc.length - 1) (fun i out =>
          match fielddesc.get? i with
          | some fd => out ++ format_field env rec j fd
          | none => out) out) head) =
      csv_columns head + ((List.range n).map (shown_count env)).sum := by
  intro n
  induction n with
  | zero => rfl
  | succ n ih =>
    rw [forUpTo_succ, csv_columns_field_loop env rec n _ (Nat.sub_le _ _), ih, List.range_succ,
      List.map_append, List.sum_append]
    simp only [List.map_cons, List.map_nil, List.sum_cons, List.sum_nil, shown_count]
    omega

/-- The row of `formatdata`: after the time, one column for every table entry
that passes the tests in an engine pass, and the column of MARK. -/
theorem csv_columns_formatdata (env : Env) (t : Int) (rec : datarec) :
    csv_columns (formatdata env t rec) =
      ((List.range (NUMENGINE env)).map (shown_count env)).sum + 1 := by
  unfold formatdata
  simp only
  rw [csv_columns_append, csv_columns_append, csv_columns_append, csv_columns_engine_loop]
  have hhead : csv_columns ("\"" ++ toString (env.cvttime t).1 ++ ":" ++
      toString (env.cvttime t).2.1 ++ ":" ++ toString (env.cvttime t).2.2 ++ "\"") = 0 := by
    simp only [csv_columns_append, csv_columns_nat]
    rfl
  have hmark : csv_columns (if rec.sarray 16 ≠ 0 then "\"S\"" else "") = 0 := by
    split <;> rfl
  rw [hhead, hmark]
  have h1 : csv_columns "," = 1 := rfl
  have h2 : csv_columns "\n" = 0 := rfl
  rw [h1, h2]
  omega

theorem fielddesc_per_engine_mask :
    ∀ fd ∈ fielddesc, fd.bPerEngine = true → fd.nWhichEng = 0 := by
  decide

theorem field_shown_per_engine (env : Env) (j : Nat) (fd : FieldDesc)
    (hp : fd.bPerEngine = true) (hw : fd.nWhichEng = 0)
    (hf : env.config.flags &&& fd.nFeatureFlag = fd.nFeatureFlag) :
    field_shown env j fd = true := by
  unfold field_shown
  rw [hp, hw, Nat.and_comm fd.nFeatureFlag env.config.flags, hf]
  simp

theorem field_shown_whole_row (env : Env) (j : Nat) (fd : FieldDesc)
    (hp : fd.bPerEngine = false) (hw : fd.nWhichEng = 0)
    (hf : env.config.flags &&& fd.nFeatureFlag = fd.nFeatureFlag) (hj : j < NUMENGINE env) :
    field_shown env j fd = decide (j = NUMENGINE env - 1) := by
  unfold field_shown
  rw [hp, hw, Nat.and_comm fd.nFeatureFlag env.config.flags, hf]
  by_cases h : j = NUMENGINE env - 1
  · have h1 : ¬ j < NUMENGINE env - 1 := by omega
    simp [h1, h]
  · have h1 : j < NUMENGINE env - 1 := by omega
    simp [h1, h]

theorem field_shown_bat (env : Env) (j w : Nat)
    (hf : env.config.flags &&& F_BAT = F_BAT) :
    field_shown env j ⟨false, 20, 10, "BAT", F_BAT, w⟩ =
      (!decide (j < NUMENGINE env - 1) && !(w != 0 && (w &&& (1 <<< j)) == 0)) := by
  unfold field_shown
  simp only
  rw [Nat.and_comm F_BAT env.config.flags, hf]
  simp

/-- C31: the row of `formatdata` holds, after the time, one column for every
table entry that passes the three tests in an engine pass, and the column of
MARK.  For a configuration whose flags enable the field, a per-engine entry
the field loop visits gives one column in every engine pass; an entry that is
not per-engine and has no engine mask gives one column in the last engine pass
and none in another, one in the whole row; of the two BAT entries, at positions
26 and 29 of the
table with FF and USD between them, the first alone gives a column with one
engine, and the second alone, in the second pass, with two engines, so that BAT
is one column of the row. -/
theorem column_multiplicity (env : Env) (rec : datarec) (t : Int) :
    csv_columns (formatdata env t rec) =
      ((List.range (NUMENGINE env)).map (shown_count env)).sum + 1 ∧
    (∀ j fd, csv_columns (format_field env rec j fd) =
      if field_shown env j fd = true then 1 else 0) ∧
    (∀ fd ∈ fielddesc.take (fielddesc.length - 1), fd.bPerEngine = true →
      env.config.flags &&& fd.nFeatureFlag = fd.nFeatureFlag →
      ∀ j, j < NUMENGINE env → csv_columns (format_field env rec j fd) = 1) ∧
    (∀ fd ∈ fielddesc.take (fielddesc.length - 1), fd.bPerEngine = false → fd.nWhichEng = 0 →
      env.config.flags &&& fd.nFeatureFlag = fd.nFeatureFlag →
      (∀ j, j < NUMENGINE env →
        csv_columns (format_field env rec j fd) = if j = NUMENGINE env - 1 then 1 else 0) ∧
      ((List.range (NUMENGINE env)).map
        (fun j => csv_columns (format_field env rec j fd))).sum = 1) ∧
    ((fielddesc.drop 26).take 4 =
      [⟨false, 20, 10, "BAT", F_BAT, 0x01⟩, ⟨true, 23, 10, "FF", F_FF, 0⟩,
       ⟨true, 22, 10, "USD", F_USD, 0⟩, ⟨false, 20, 10, "BAT", F_BAT, 0x02⟩] ∧
     (fielddesc.filter (fun fd => fd.szName == "BAT")).length = 2) ∧
    (env.config.flags &&& F_BAT = F_BAT →
      (NUMENGINE env = 1 →
        csv_columns (format_field env rec 0 ⟨false, 20, 10, "BAT", F_BAT, 0x01⟩) = 1 ∧
        csv_columns (format_field env rec 0 ⟨false, 20, 10, "BAT", F_BAT, 0x02⟩) = 0) ∧
      (NUMENGINE env = 2 →
        csv_columns (format_field env rec 0 ⟨false, 20, 10, "BAT", F_BAT, 0x01⟩) = 0 ∧
        csv_columns (format_field env rec 0 ⟨false, 20, 10, "BAT", F_BAT, 0x02⟩) = 0 ∧
        csv_columns (format_field env rec 1 ⟨false, 20, 10, "BAT", F_BAT, 0x01⟩) = 0 ∧
        csv_columns (format_field env rec 1 ⟨false, 20, 10, "BAT", F_BAT, 0x02⟩) = 1) ∧
      ((List.range (NUMENGINE env)).map (fun j =>
        csv_columns (format_field env rec j ⟨false, 20, 10, "BAT", F_BAT, 0x01⟩) +
        csv_columns (format_field env rec j ⟨false, 20, 10, "BAT", F_BAT, 0x02⟩))).sum = 1) := by
  refine ⟨csv_columns_formatdata env t rec, csv_columns_format_field env rec, ?_, ?_,
    ⟨rfl, by decide⟩, ?_⟩
  · intro fd hmem hp hf j _
    rw [csv_columns_format_field,
      field_shown_per_engine env j fd hp
        (fielddesc_per_engine_mask fd (List.mem_of_mem_take hmem) hp) hf]
    rfl
  · intro fd _ hp hw hf
    have hrow : ∀ j, j < NUMENGINE env →
        csv_columns (format_field env rec j fd) = if j = NUMENGINE env - 1 then 1 else 0 := by
      intro j hj
      rw [csv_columns_format_field, field_shown_whole_row env j fd hp hw hf hj]
      simp
    refine ⟨hrow, ?_⟩
    rcases NUMENGINE_cases env with h1 | h2
    · have a := hrow 0 (by omega)
      rw [h1] at a ⊢
      simp only [List.range_succ, List.range_zero, List.nil_append, List.map_cons, List.map_nil,
        List.sum_cons, List.sum_nil]
      rw [a]
      rfl
    · have a := hrow 0 (by omega)
      have b := hrow 1 (by omega)
      rw [h2] at a b ⊢
      simp only [List.range_succ, List.range_zero, List.nil_append, List.cons_append,
        List.map_cons, List.map_nil, List.sum_cons, List.sum_nil]
      rw [a, b]
      rfl
  · intro hf
    have hb : ∀ j w, csv_columns (format_field env rec j ⟨false, 20, 10, "BAT", F_BAT, w⟩) =
        if (!decide (j < NUMENGINE env - 1) && !(w != 0 && (w &&& (1 <<< j)) == 0)) = true
        then 1 else 0 := by
      intro j w
      rw [csv_columns_format_field, field_shown_bat env j w hf]
    refine ⟨?_, ?_, ?_⟩
    · intro h1
      rw [hb, hb, h1]
      exact ⟨by decide, by decide⟩
    · intro h2
      rw [hb, hb, hb, hb, h2]
      exact ⟨by decide, by decide, by decide, by decide⟩
    · rcases NUMENGINE_cases env with h1 | h2
      · simp only [hb, h1]
        decide
      · simp only [hb, h2]
        decide

/-- Instance of C31: with one engine and BAT alone the row has the time, BAT
and MARK; with two engines and BAT, E1 and FF it has three columns in the
first pass (E1, FF, USD), four in the second (E1, FF, USD, BAT), and MARK; BAT
is written by the second entry in the second pass. -/
theorem column_multiplicity_witness :
    csv_columns (formatdata ex_env_bat 0 ex_bat_rec) = 1 + 1 ∧
    csv_columns (formatdata ex_env_twin_bat 0 ex_bat_rec) = 3 + 4 + 1 ∧
    csv_columns (format_field ex_env_twin_bat ex_bat_rec 1
      ⟨false, 20, 10, "BAT", F_BAT, 0x02⟩) = 1 :=
  ⟨(column_multiplicity ex_env_bat ex_bat_rec 0).1.trans (by decide),
    (column_multiplicity ex_env_twin_bat ex_bat_rec 0).1.trans (by decide),
    (((column_multiplicity ex_env_twin_bat ex_bat_rec 0).2.2.2.2.2 (by decide)).2.1
      (by decide)).2.2.2⟩

/-! ### The header lines of a legacy file -/

end JPITranslator
